import Mathlib

/-!
# Active Media List (bridge/engine/ActiveMediaList.cpp)

A shallow embedding of `bridge::ActiveMediaList`: the dominant-speaker arbiter, the
active-audio and active-video recency lists, the SSRC rewrite pools and the two
data-channel message builders.

Conventions of the embedding

* Endpoint id hashes, SSRCs and timestamps are natural numbers; 64-bit unsigned
  arithmetic on timestamps is written with an explicit `% 2 ^ 64`.
* `float` values (`maxRecentLevel`, `noiseLevel`, scores) are exact rationals; the
  rounding of `float` arithmetic is not modelled.
* The nodes of the active-video list are named by numbers, so that the node pointers in
  `activeVideoListLookupMap` can be compared with the nodes linked in the list.
* Debug-only code (`#if DEBUG`, `assert`) is not executed: the functions follow the
  release control flow, where `assert(false); return ...;` is a plain return.
* Containers whose headers are not part of the sources at hand are modelled by lists,
  see the section on containers.
-/

namespace bridge

/-! ## Containers -/

/-- Modelled from the spec: `concurrency::MpmcHashmap32<size_t, V>` (header not among the
sources). A finite map keyed by the endpoint id hash (or an SSRC), kept as an association
list in insertion order; iteration visits the entries in that order. Capacity limits of
the real container are not modelled. -/
abbrev MpmcHashmap32 (V : Type) := List (Nat × V)

namespace MpmcHashmap32

/-- Lookup of `find(key)`: the value stored under `key`, `none` for `end()`. -/
def find {V : Type} : MpmcHashmap32 V → Nat → Option V
  | [], _ => none
  | (k, v) :: rest, key => if k = key then some v else find rest key

/-- Membership test `contains(key)`. -/
def contains {V : Type} (m : MpmcHashmap32 V) (key : Nat) : Bool :=
  (find m key).isSome

/-- Insertion `emplace(key, value)`: inserts unless the key is already present. -/
def emplace {V : Type} (m : MpmcHashmap32 V) (key : Nat) (value : V) : MpmcHashmap32 V :=
  if contains m key then m else m ++ [(key, value)]

/-- Removal `erase(key)`. -/
def erase {V : Type} (m : MpmcHashmap32 V) (key : Nat) : MpmcHashmap32 V :=
  m.filter (fun p => !decide (p.1 = key))

/-- Number of entries, `size()`. -/
def size {V : Type} (m : MpmcHashmap32 V) : Nat := m.length

/-- The keys in iteration order. -/
def keys {V : Type} (m : MpmcHashmap32 V) : List Nat := m.map Prod.fst

/-- In-place mutation of the value found under `key` (writes through the reference
`itr->second`). -/
def modify {V : Type} (m : MpmcHashmap32 V) (key : Nat) (f : V → V) : MpmcHashmap32 V :=
  m.map (fun p => if p.1 = key then (p.1, f p.2) else p)

end MpmcHashmap32

/-- Modelled from the spec: `concurrency::MpmcQueue<T>` (header not among the sources), the
FIFO used for the SSRC pools and for the level ingest queue. `push` appends at the back. -/
def MpmcQueue.push {T : Type} (q : List T) (x : T) : List T := q ++ [x]

/-- Modelled from the spec: `MpmcQueue::pop`, which takes the oldest element and fails on
an empty queue. -/
def MpmcQueue.pop {T : Type} : List T → Option (T × List T)
  | [] => none
  | x :: rest => some (x, rest)

/-- Modelled from the spec: `memory::List<size_t, N>` (header not among the sources), the
doubly linked recency list. The Lean list is written head first, so the tail of the linked
list is the last element. `pushToHead` links a new node in front. -/
def ListOps.pushToHead (l : List Nat) (x : Nat) : List Nat := x :: l

/-- Modelled from the spec: `memory::List::pushToTail`. -/
def ListOps.pushToTail (l : List Nat) (x : Nat) : List Nat := l ++ [x]

/-- Modelled from the spec: `memory::List::popFromHead`, failing on an empty list. -/
def ListOps.popFromHead : List Nat → Option (Nat × List Nat)
  | [] => none
  | x :: rest => some (x, rest)

/-- Modelled from the spec: `memory::List::remove(data)`, which unlinks the first node
carrying `data` and reports whether there was one. -/
def ListOps.remove (l : List Nat) (x : Nat) : List Nat × Bool :=
  if x ∈ l then (l.erase x, true) else (l, false)

/-- Modelled from the spec: the node that `memory::List::pushToHead` and `pushToTail` take
from the pool of the list (header not among the sources). Nodes are named by numbers; a push
links a node that is not linked at the time, in the model the number after the largest
linked one. The node that carried an entry before is taken again or not, depending on the
other nodes: the properties proved use only that the node is not linked. -/
def ListOps.freshNode (nodes : List Nat) : Nat := nodes.foldr max 0 + 1

/-- Modelled from the spec: the nodes that `memory::List::remove(data)` leaves linked, given
the entries and their nodes from head to tail: the node of the first entry carrying `data`
is unlinked. -/
def ListOps.removeNode : List Nat → List Nat → Nat → List Nat
  | x :: l, n :: nodes, data => if x = data then nodes else n :: ListOps.removeNode l nodes data
  | _, nodes, _ => nodes

/-- Traversal from `tail()` along `_previous`: the entries from tail to head. -/
def ListOps.tailToHead (l : List Nat) : List Nat := l.reverse

/-! ## Constants of `ActiveMediaList.h` -/

/-- Modelled from the spec: `utils::Time::ms`, one millisecond in the nanosecond clock. -/
def Time.ms : Nat := 1000000

/-- Modelled from the spec: `utils::Time::sec`. -/
def Time.sec : Nat := 1000 * Time.ms

/-- Modelled from the spec: `utils::Time::diffLT(a, b, value)`, true when the time from `a`
to `b` is shorter than `value` (the arbiter runs only when
`now - lastRunTimestamp ≥ INTERVAL_MS`). -/
def Time.diffLT (a b value : Nat) : Bool := decide ((b : Int) - (a : Int) < (value : Int))

/-- Modelled from the spec: `INTERVAL_MS = 10`. -/
def INTERVAL_MS : Nat := 10

/-- Modelled from the spec: `requiredConsecutiveWins = 3`. -/
def requiredConsecutiveWins : Nat := 3

/-- Modelled from the spec: `maxSwitchDominantSpeakerEvery`, 2000 ms. -/
def maxSwitchDominantSpeakerEvery : Nat := 2 * Time.sec

/-- Modelled from the spec: `lengthShortWindow`, `W_short = 25`. -/
def lengthShortWindow : Nat := 25

/-- Modelled from the spec: `lengthLongWindow`, `W_long = 256`, the size of `levels`. -/
def lengthLongWindow : Nat := 256

/-- Modelled from the spec: `AudioParticipant::MAX_LEVEL_DECAY = 0.01`. -/
def MAX_LEVEL_DECAY : ℚ := 1 / 100

/-- Modelled from the spec: `AudioParticipant::NOISE_RAMPUP`, about 0.005. -/
def NOISE_RAMPUP : ℚ := 1 / 200

/-- Modelled from the spec: `AudioParticipant::MIN_NOISE = 6`. -/
def MIN_NOISE : Nat := 6

/-- Unsigned 64-bit subtraction `a - b`. -/
def sub64 (a b : Nat) : Nat := (a + 2 ^ 64 - b % 2 ^ 64) % 2 ^ 64

/-- Unsigned 64-bit addition `a + b`. -/
def add64 (a b : Nat) : Nat := (a + b) % 2 ^ 64

/-! ## Data model -/

/-- The per endpoint energy history `ActiveMediaList::AudioParticipant`. -/
structure AudioParticipant where
  levels : List Nat
  index : Nat
  indexEndShortWindow : Nat
  totalLevelLongWindow : Int
  totalLevelShortWindow : Int
  nonZeroLevelsShortWindow : Int
  maxRecentLevel : ℚ
  noiseLevel : ℚ
  ptt : Bool
deriving DecidableEq

/-- The constructor `AudioParticipant::AudioParticipant()`. -/
def AudioParticipant.new : AudioParticipant :=
  { levels := List.replicate lengthLongWindow 0
    index := lengthShortWindow - 1
    indexEndShortWindow := 0
    totalLevelLongWindow := 0
    totalLevelShortWindow := 0
    nonZeroLevelsShortWindow := 0
    maxRecentLevel := 0
    noiseLevel := 50
    ptt := false }

/-- An entry of the ingest queue, `AudioLevelEntry`. -/
structure AudioLevelEntry where
  participant : Nat
  level : Nat
  ptt : Bool
deriving DecidableEq

/-- An element of `_highestScoringSpeakers`, `AudioParticipantScore`. -/
structure AudioParticipantScore where
  participant : Nat
  score : ℚ
  noiseLevel : ℚ
deriving DecidableEq

/-- An entry of the published snapshot, `ActiveTalker`. -/
structure ActiveTalker where
  endpointHashId : Nat
  ptt : Bool
  score : Nat
  noiseLevel : Nat
deriving DecidableEq

/-- The triple `SimulcastLevel{_ssrc, _feedbackSsrc, _mediaActive}`. -/
structure SimulcastLevel where
  ssrc : Nat
  feedbackSsrc : Nat
  mediaActive : Bool
deriving DecidableEq

/-- Modelled from the spec: `SimulcastStream` (header not among the sources): its levels
and what `isSendingVideo()` and `isSendingSlides()` answer. -/
structure SimulcastStream where
  levels : List SimulcastLevel
  sendingVideo : Bool
  sendingSlides : Bool
deriving DecidableEq

/-- The SSRC `_levels[0]._ssrc` of a stream (0 when the model carries no level). -/
def SimulcastStream.ssrc0 (s : SimulcastStream) : Nat :=
  match s.levels with
  | [] => 0
  | l :: _ => l.ssrc

/-- The pair stored per video endpoint, `VideoParticipant`. -/
structure VideoParticipant where
  simulcastStream : SimulcastStream
  secondarySimulcastStream : Option SimulcastStream
deriving DecidableEq

/-- The pair `VideoScreenShareSsrcMapping{_ssrc, _rewriteSsrc}`. -/
structure VideoScreenShareSsrcMapping where
  ssrc : Nat
  rewriteSsrc : Nat
deriving DecidableEq

/-- Whether the primary or the set secondary stream of a participant sends video. -/
def sendsVideo (primary : SimulcastStream) (secondary : Option SimulcastStream) : Bool :=
  primary.sendingVideo ||
    (match secondary with
     | some s => s.sendingVideo
     | none => false)

/-- The member variables of `ActiveMediaList`. The nodes of `_activeVideoList` are named by
numbers: `activeVideoListNodes` holds the node of every entry of `activeVideoList`, from head
to tail, and a node pointer stored in `activeVideoListLookupMap` is the number of the node
(`none` for a null pointer). -/
@[ext]
structure ActiveMediaList where
  defaultLastN : Nat
  maxActiveListSize : Nat
  audioLastN : Nat
  activeTalkerSilenceThresholdDb : Nat
  maxSpeakers : Nat
  maxParticipants : Nat
  audioParticipants : MpmcHashmap32 AudioParticipant
  incomingAudioLevels : List AudioLevelEntry
  audioSsrcs : List Nat
  audioSsrcRewriteMap : MpmcHashmap32 Nat
  activeAudioList : List Nat
  dominantSpeakerId : Nat
  prevWinningDominantSpeaker : Nat
  consecutiveDominantSpeakerWins : Nat
  videoParticipants : MpmcHashmap32 VideoParticipant
  videoSsrcs : List SimulcastLevel
  videoFeedbackSsrcLookupMap : MpmcHashmap32 Nat
  videoSsrcRewriteMap : MpmcHashmap32 SimulcastLevel
  reverseVideoSsrcRewriteMap : MpmcHashmap32 Nat
  activeVideoList : List Nat
  activeVideoListNodes : List Nat
  activeVideoListLookupMap : MpmcHashmap32 (Option Nat)
  videoScreenShareSsrc : SimulcastLevel
  videoScreenShareSsrcMapping : Option (Nat × VideoScreenShareSsrcMapping)
  activeTalkerSnapshot : List ActiveTalker
  lastRunTimestamp : Nat
  lastChangeTimestamp : Nat
deriving DecidableEq

/-- The clamp `math::clamp<uint32_t>(value, lo, hi)`. -/
def clamp (value lo hi : Nat) : Nat := max lo (min value hi)

/-- The constructor `ActiveMediaList::ActiveMediaList`. The capacity constant
`maxParticipants` of the header is a parameter. -/
def ActiveMediaList.new (maxParticipants : Nat) (audioSsrcs : List Nat)
    (videoSsrcs : List SimulcastLevel) (defaultLastN audioLastN : Nat)
    (activeTalkerSilenceThresholdDb : Nat) : ActiveMediaList :=
  let audioPool := audioSsrcs.foldl MpmcQueue.push []
  let videoPool := videoSsrcs.foldl MpmcQueue.push []
  let feedback := videoSsrcs.foldl
    (fun m l => MpmcHashmap32.emplace m l.ssrc l.feedbackSsrc) []
  let popped := MpmcQueue.pop videoPool
  { defaultLastN := defaultLastN
    maxActiveListSize := defaultLastN + 1
    audioLastN := audioLastN
    activeTalkerSilenceThresholdDb := clamp activeTalkerSilenceThresholdDb 6 60
    maxSpeakers := audioSsrcs.length
    maxParticipants := maxParticipants
    audioParticipants := []
    incomingAudioLevels := []
    audioSsrcs := audioPool
    audioSsrcRewriteMap := []
    activeAudioList := []
    dominantSpeakerId := 0
    prevWinningDominantSpeaker := 0
    consecutiveDominantSpeakerWins := 0
    videoParticipants := []
    videoSsrcs := (match popped with
      | some (_, rest) => rest
      | none => videoPool)
    videoFeedbackSsrcLookupMap := feedback
    videoSsrcRewriteMap := []
    reverseVideoSsrcRewriteMap := []
    activeVideoList := []
    activeVideoListNodes := []
    activeVideoListLookupMap := []
    videoScreenShareSsrc := (match popped with
      | some (l, _) => l
      | none => { ssrc := 0, feedbackSsrc := 0, mediaActive := false })
    videoScreenShareSsrcMapping := none
    activeTalkerSnapshot := []
    lastRunTimestamp := 0
    lastChangeTimestamp := 0 }

/-! ## Audio participants and the active-audio list -/

/-- The first statements of `addAudioParticipant`: create the energy history of the
endpoint and make it the dominant speaker when there is none. -/
def trackAudioParticipant (s : ActiveMediaList) (endpointIdHash : Nat) : ActiveMediaList :=
  { s with
    audioParticipants :=
      MpmcHashmap32.emplace s.audioParticipants endpointIdHash AudioParticipant.new
    dominantSpeakerId :=
      if s.dominantSpeakerId = 0 then endpointIdHash else s.dominantSpeakerId }

/-- The method `ActiveMediaList::addAudioParticipant`. -/
def addAudioParticipant (s : ActiveMediaList) (endpointIdHash : Nat) :
    ActiveMediaList × Bool :=
  if MpmcHashmap32.contains s.audioParticipants endpointIdHash then (s, false)
  else
    match MpmcQueue.pop s.audioSsrcs with
    | none => (trackAudioParticipant s endpointIdHash, false)
    | some (ssrc, pool) =>
      ({ trackAudioParticipant s endpointIdHash with
          audioSsrcs := pool
          audioSsrcRewriteMap := MpmcHashmap32.emplace s.audioSsrcRewriteMap endpointIdHash ssrc
          activeAudioList := ListOps.pushToHead s.activeAudioList endpointIdHash }, true)

/-- The method `ActiveMediaList::removeAudioParticipant`. -/
def removeAudioParticipant (s : ActiveMediaList) (endpointIdHash : Nat) :
    ActiveMediaList × Bool :=
  match MpmcHashmap32.find s.audioSsrcRewriteMap endpointIdHash with
  | some ssrc =>
    ({ s with
        audioParticipants := MpmcHashmap32.erase s.audioParticipants endpointIdHash
        audioSsrcRewriteMap := MpmcHashmap32.erase s.audioSsrcRewriteMap endpointIdHash
        audioSsrcs := MpmcQueue.push s.audioSsrcs ssrc
        activeAudioList := (ListOps.remove s.activeAudioList endpointIdHash).1 }, true)
  | none =>
    ({ s with
        audioParticipants := MpmcHashmap32.erase s.audioParticipants endpointIdHash }, false)

/-- The last statements of `updateActiveAudioList`: take an SSRC from the pool, map the
endpoint to it and push the endpoint to the tail. -/
def claimAudioSsrc (s : ActiveMediaList) (endpointIdHash : Nat) : ActiveMediaList :=
  match MpmcQueue.pop s.audioSsrcs with
  | none => s
  | some (ssrc, pool) =>
    { s with
      audioSsrcs := pool
      audioSsrcRewriteMap := MpmcHashmap32.emplace s.audioSsrcRewriteMap endpointIdHash ssrc
      activeAudioList := ListOps.pushToTail s.activeAudioList endpointIdHash }

/-- The method `ActiveMediaList::updateActiveAudioList`. -/
def updateActiveAudioList (s : ActiveMediaList) (endpointIdHash : Nat) : ActiveMediaList :=
  if MpmcHashmap32.contains s.audioSsrcRewriteMap endpointIdHash then
    match ListOps.remove s.activeAudioList endpointIdHash with
    | (_, false) => s
    | (l, true) => { s with activeAudioList := ListOps.pushToTail l endpointIdHash }
  else if MpmcHashmap32.size s.audioSsrcRewriteMap = s.maxSpeakers then
    match ListOps.popFromHead s.activeAudioList with
    | none => s
    | some (removedEndpointIdHash, l) =>
      match MpmcHashmap32.find s.audioSsrcRewriteMap removedEndpointIdHash with
      | none => { s with activeAudioList := l }
      | some ssrc =>
        claimAudioSsrc
          { s with
            activeAudioList := l
            audioSsrcRewriteMap := MpmcHashmap32.erase s.audioSsrcRewriteMap removedEndpointIdHash
            audioSsrcs := MpmcQueue.push s.audioSsrcs ssrc }
          endpointIdHash
  else claimAudioSsrc s endpointIdHash

/-! ## Video participants and the active-video list -/

/-- Return the SimulcastLevel owned by an endpoint to the pool and erase both rewrite
directions (the same statements in `removeVideoParticipant` and in the eviction of
`updateActiveVideoList`). -/
def releaseVideoSsrc (s : ActiveMediaList) (endpointIdHash : Nat) : ActiveMediaList :=
  match MpmcHashmap32.find s.videoSsrcRewriteMap endpointIdHash with
  | some simulcastLevel =>
    { s with
      videoSsrcRewriteMap := MpmcHashmap32.erase s.videoSsrcRewriteMap endpointIdHash
      reverseVideoSsrcRewriteMap :=
        MpmcHashmap32.erase s.reverseVideoSsrcRewriteMap simulcastLevel.ssrc
      videoSsrcs := MpmcQueue.push s.videoSsrcs simulcastLevel }
  | none => s

/-- Pop a SimulcastLevel from the pool and install it in both rewrite maps (the same
statements in `addVideoParticipant` and `updateActiveVideoList`); `none` when the pool is
empty. -/
def claimVideoSsrc (s : ActiveMediaList) (endpointIdHash : Nat) : Option ActiveMediaList :=
  match MpmcQueue.pop s.videoSsrcs with
  | none => none
  | some (simulcastLevel, pool) =>
    some { s with
      videoSsrcs := pool
      videoSsrcRewriteMap :=
        MpmcHashmap32.emplace s.videoSsrcRewriteMap endpointIdHash simulcastLevel
      reverseVideoSsrcRewriteMap :=
        MpmcHashmap32.emplace s.reverseVideoSsrcRewriteMap simulcastLevel.ssrc endpointIdHash }

/-- The branch of `updateActiveVideoList` for an endpoint found in the list: unlink, push
to the tail, renew the lookup entry. -/
def moveVideoToTail (s : ActiveMediaList) (endpointIdHash : Nat) : ActiveMediaList :=
  { s with
    activeVideoList :=
      ListOps.pushToTail (ListOps.remove s.activeVideoList endpointIdHash).1 endpointIdHash
    activeVideoListNodes :=
      ListOps.removeNode s.activeVideoList s.activeVideoListNodes endpointIdHash ++
        [ListOps.freshNode
          (ListOps.removeNode s.activeVideoList s.activeVideoListNodes endpointIdHash)]
    activeVideoListLookupMap :=
      MpmcHashmap32.emplace (MpmcHashmap32.erase s.activeVideoListLookupMap endpointIdHash)
        endpointIdHash
        (ListOps.removeNode s.activeVideoList s.activeVideoListNodes endpointIdHash ++
          [ListOps.freshNode
            (ListOps.removeNode s.activeVideoList s.activeVideoListNodes
              endpointIdHash)]).getLast? }

/-- The eviction step of `updateActiveVideoList`: when the lookup map is at
`_maxActiveListSize`, pop the head and erase its lookup entry. The result is the new state
and `removedEndpointIdHash` (0 when nothing was popped); `none` when the pop fails. -/
def evictVideoHead (s : ActiveMediaList) : Option (ActiveMediaList × Nat) :=
  if MpmcHashmap32.size s.activeVideoListLookupMap = s.maxActiveListSize then
    match ListOps.popFromHead s.activeVideoList with
    | none => none
    | some (removedEndpointIdHash, l) =>
      some ({ s with
              activeVideoList := l
              activeVideoListNodes := s.activeVideoListNodes.tail
              activeVideoListLookupMap :=
                MpmcHashmap32.erase s.activeVideoListLookupMap removedEndpointIdHash },
            removedEndpointIdHash)
  else some (s, 0)

/-- The last statements of `updateActiveVideoList`: push to the tail and record the
lookup entry. -/
def linkVideoTail (s : ActiveMediaList) (endpointIdHash : Nat) : ActiveMediaList :=
  { s with
    activeVideoList := ListOps.pushToTail s.activeVideoList endpointIdHash
    activeVideoListNodes :=
      s.activeVideoListNodes ++ [ListOps.freshNode s.activeVideoListNodes]
    activeVideoListLookupMap :=
      MpmcHashmap32.emplace s.activeVideoListLookupMap endpointIdHash
        (s.activeVideoListNodes ++ [ListOps.freshNode s.activeVideoListNodes]).getLast? }

/-- The method `ActiveMediaList::updateActiveVideoList`. -/
def updateActiveVideoList (s : ActiveMediaList) (endpointIdHash : Nat) :
    ActiveMediaList × Bool :=
  match MpmcHashmap32.find s.videoParticipants endpointIdHash with
  | none => (s, false)
  | some videoParticipant =>
    if endpointIdHash ∈ ListOps.tailToHead s.activeVideoList then
      (moveVideoToTail s endpointIdHash, true)
    else
      match evictVideoHead s with
      | none => (s, false)
      | some (s1, removedEndpointIdHash) =>
        let s2 := if removedEndpointIdHash ≠ 0 then releaseVideoSsrc s1 removedEndpointIdHash
          else s1
        if sendsVideo videoParticipant.simulcastStream
            videoParticipant.secondarySimulcastStream then
          match claimVideoSsrc s2 endpointIdHash with
          | none => (s2, false)
          | some s3 => (linkVideoTail s3 endpointIdHash, true)
        else (linkVideoTail s2 endpointIdHash, true)

/-- The tail of `addVideoParticipant`:
`endpointIdHash != _dominantSpeakerId || updateActiveVideoList(_dominantSpeakerId)`. -/
def hoistIfDominant (s : ActiveMediaList) (endpointIdHash : Nat) : ActiveMediaList × Bool :=
  if endpointIdHash ≠ s.dominantSpeakerId then (s, true)
  else updateActiveVideoList s s.dominantSpeakerId

/-- The first statements of `addVideoParticipant`: register the participant and record the
screen-share mapping when the primary, else the secondary, stream sends slides. -/
def registerVideoParticipant (s : ActiveMediaList) (endpointIdHash : Nat)
    (simulcastStream : SimulcastStream) (secondarySimulcastStream : Option SimulcastStream) :
    ActiveMediaList :=
  { s with
    videoParticipants := MpmcHashmap32.emplace s.videoParticipants endpointIdHash
      { simulcastStream := simulcastStream
        secondarySimulcastStream := secondarySimulcastStream }
    videoScreenShareSsrcMapping :=
      if simulcastStream.sendingSlides then
        some (endpointIdHash,
          { ssrc := simulcastStream.ssrc0, rewriteSsrc := s.videoScreenShareSsrc.ssrc })
      else
        match secondarySimulcastStream with
        | some secondary =>
          if secondary.sendingSlides then
            some (endpointIdHash,
              { ssrc := secondary.ssrc0, rewriteSsrc := s.videoScreenShareSsrc.ssrc })
          else s.videoScreenShareSsrcMapping
        | none => s.videoScreenShareSsrcMapping }

/-- The statements of `addVideoParticipant` that push to the head and record the lookup
entry. -/
def linkVideoHead (s : ActiveMediaList) (endpointIdHash : Nat) : ActiveMediaList :=
  { s with
    activeVideoList := ListOps.pushToHead s.activeVideoList endpointIdHash
    activeVideoListNodes := ListOps.freshNode s.activeVideoListNodes :: s.activeVideoListNodes
    activeVideoListLookupMap :=
      MpmcHashmap32.emplace s.activeVideoListLookupMap endpointIdHash
        (ListOps.freshNode s.activeVideoListNodes :: s.activeVideoListNodes).head? }

/-- The method `ActiveMediaList::addVideoParticipant`. -/
def addVideoParticipant (s : ActiveMediaList) (endpointIdHash : Nat)
    (simulcastStream : SimulcastStream) (secondarySimulcastStream : Option SimulcastStream) :
    ActiveMediaList × Bool :=
  if MpmcHashmap32.contains s.videoParticipants endpointIdHash then (s, false)
  else
    let s2 := registerVideoParticipant s endpointIdHash simulcastStream secondarySimulcastStream
    if MpmcHashmap32.size s2.activeVideoListLookupMap = s2.maxActiveListSize then
      hoistIfDominant s2 endpointIdHash
    else if sendsVideo simulcastStream secondarySimulcastStream then
      match claimVideoSsrc s2 endpointIdHash with
      | none => (s2, false)
      | some s3 => hoistIfDominant (linkVideoHead s3 endpointIdHash) endpointIdHash
    else hoistIfDominant (linkVideoHead s2 endpointIdHash) endpointIdHash

/-- The statements of `removeVideoParticipant` that erase the participant and clear the
screen-share mapping when the endpoint holds it. -/
def unregisterVideoParticipant (s : ActiveMediaList) (endpointIdHash : Nat) :
    ActiveMediaList :=
  { s with
    videoParticipants := MpmcHashmap32.erase s.videoParticipants endpointIdHash
    videoScreenShareSsrcMapping :=
      match s.videoScreenShareSsrcMapping with
      | some (holder, mapping) =>
        if holder = endpointIdHash then none else some (holder, mapping)
      | none => none }

/-- The last statements of `removeVideoParticipant`: unlink from the list and erase the
lookup entry. -/
def unlinkVideo (s : ActiveMediaList) (endpointIdHash : Nat) : ActiveMediaList :=
  { s with
    activeVideoList := (ListOps.remove s.activeVideoList endpointIdHash).1
    activeVideoListNodes :=
      ListOps.removeNode s.activeVideoList s.activeVideoListNodes endpointIdHash
    activeVideoListLookupMap :=
      MpmcHashmap32.erase s.activeVideoListLookupMap endpointIdHash }

/-- The method `ActiveMediaList::removeVideoParticipant`. -/
def removeVideoParticipant (s : ActiveMediaList) (endpointIdHash : Nat) :
    ActiveMediaList × Bool :=
  if !MpmcHashmap32.contains s.videoParticipants endpointIdHash then (s, false)
  else
    (unlinkVideo (releaseVideoSsrc (unregisterVideoParticipant s endpointIdHash) endpointIdHash)
      endpointIdHash, true)

/-! ## Level ingest, ranking and the dominant-speaker arbiter -/

/-- Modelled from the spec: `ActiveMediaList::onNewAudioLevel` (inline in the header), which
pushes one sample into the ingest queue. -/
def onNewAudioLevel (s : ActiveMediaList) (participant level : Nat) (ptt : Bool) :
    ActiveMediaList :=
  { s with
    incomingAudioLevels :=
      MpmcQueue.push s.incomingAudioLevels
        { participant := participant, level := level, ptt := ptt } }

/-- The body of the first loop of `updateLevels`: decay of the peak towards the long window
average and ramp-up of the noise level. The `float` operations of the code are exact
operations on rationals here; what is proved about the results is either independent of the
rounding (bounds that `std::max` and `std::min` enforce, quotients of whole numbers) or
stated with a margin that the rounding cannot use up. -/
def decayLevels (p : AudioParticipant) : AudioParticipant :=
  let averageLevelLongWindow : ℚ := (p.totalLevelLongWindow : ℚ) / (p.levels.length : ℚ)
  { p with
    maxRecentLevel :=
      p.maxRecentLevel - (p.maxRecentLevel - averageLevelLongWindow) * MAX_LEVEL_DECAY
    noiseLevel := max (p.noiseLevel + NOISE_RAMPUP) (MIN_NOISE : ℚ) }

/-- The body of the second loop of `updateLevels` for one sample of a tracked endpoint. -/
def ingestLevel (p : AudioParticipant) (level : Nat) (ptt : Bool) : AudioParticipant :=
  let index := (p.index + 1) % p.levels.length
  let levelLeavingLongWindow := p.levels.getD index 0
  let levelLeavingShortWindow := p.levels.getD p.indexEndShortWindow 0
  let indexEndShortWindow := (p.indexEndShortWindow + 1) % p.levels.length
  let levels := p.levels.set index level
  let totalLevelLongWindow :=
    p.totalLevelLongWindow + ((level : Int) - (levelLeavingLongWindow : Int))
  let totalLevelShortWindow :=
    p.totalLevelShortWindow + ((level : Int) - (levelLeavingShortWindow : Int))
  let maxRecentLevel := max p.maxRecentLevel (level : ℚ)
  let noiseLevel : ℚ :=
    if ptt then 37
    else if level ≠ 0 ∧ p.nonZeroLevelsShortWindow = (lengthShortWindow : Int) then
      min p.noiseLevel ((totalLevelShortWindow : ℚ) / (lengthShortWindow : ℚ))
    else p.noiseLevel
  let nonZero1 :=
    if levelLeavingShortWindow ≠ 0 then p.nonZeroLevelsShortWindow - 1
    else p.nonZeroLevelsShortWindow
  let nonZero2 := if level ≠ 0 then nonZero1 + 1 else nonZero1
  { levels := levels
    index := index
    indexEndShortWindow := indexEndShortWindow
    totalLevelLongWindow := totalLevelLongWindow
    totalLevelShortWindow := totalLevelShortWindow
    nonZeroLevelsShortWindow := nonZero2
    maxRecentLevel := maxRecentLevel
    noiseLevel := noiseLevel
    ptt := ptt }

/-- One iteration of the drain loop of `updateLevels`: samples of unknown endpoints are
discarded. -/
def ingestEntry (participants : MpmcHashmap32 AudioParticipant) (levelEntry : AudioLevelEntry) :
    MpmcHashmap32 AudioParticipant :=
  if MpmcHashmap32.contains participants levelEntry.participant then
    MpmcHashmap32.modify participants levelEntry.participant
      (fun p => ingestLevel p levelEntry.level levelEntry.ptt)
  else participants

/-- The method `ActiveMediaList::updateLevels`: decay every participant, then drain the
ingest queue. -/
def updateLevels (s : ActiveMediaList) : ActiveMediaList :=
  let decayed : MpmcHashmap32 AudioParticipant :=
    s.audioParticipants.map (fun entry => (entry.1, decayLevels entry.2))
  { s with
    audioParticipants := s.incomingAudioLevels.foldl ingestEntry decayed
    incomingAudioLevels := [] }

/-- The loop of `rankSpeakers` over the participants: the score of the dominant speaker seen
so far and the entries written to `_highestScoringSpeakers`. -/
def rankLoop (dominantSpeakerId : Nat) :
    MpmcHashmap32 AudioParticipant → ℚ → List AudioParticipantScore →
      ℚ × List AudioParticipantScore
  | [], currentDominantSpeakerScore, acc => (currentDominantSpeakerScore, acc)
  | (endpoint, participantLevels) :: rest, currentDominantSpeakerScore, acc =>
    if participantLevels.maxRecentLevel = 0 then
      rankLoop dominantSpeakerId rest currentDominantSpeakerScore acc
    else
      let participantScore : ℚ :=
        max 0 (participantLevels.maxRecentLevel - participantLevels.noiseLevel)
      rankLoop dominantSpeakerId rest
        (if endpoint = dominantSpeakerId then participantScore else currentDominantSpeakerScore)
        (acc ++ [{ participant := endpoint
                   score := participantScore
                   noiseLevel := max 0 participantLevels.noiseLevel }])

/-- The method `ActiveMediaList::rankSpeakers`; the length of the second component is the
returned `speakerCount`. -/
def rankSpeakers (s : ActiveMediaList) : ℚ × List AudioParticipantScore :=
  rankLoop s.dominantSpeakerId s.audioParticipants 0 []

/-- Modelled from the spec: `memory::PartialSortExtractor::top` (header not among the
sources), the entry with the highest score; among equal scores the model takes the one
written first. -/
def heapTop : List AudioParticipantScore → Option AudioParticipantScore
  | [] => none
  | x :: rest =>
    match heapTop rest with
    | none => some x
    | some y => if x.score < y.score then some y else some x

/-- Modelled from the spec: `memory::PartialSortExtractor::pop`, which removes the top
entry. -/
def heapPop (heap : List AudioParticipantScore) : List AudioParticipantScore :=
  match heapTop heap with
  | none => heap
  | some t => heap.erase t

/-- The cast `(uint8_t)x` of a non-negative float. -/
def toUint8 (x : ℚ) : Nat := (Int.toNat (Int.floor x)) % 256

/-- The value of `curParticipant->second.ptt` read through the `end()` iterator. The
model fixes it to `true`, so nothing can be concluded from it. -/
def pttThroughEnd : Bool := true

/-- The loop of `process` over the top `_audioLastN` speakers: promote each in the
active-audio list and collect the active talkers. The first argument counts the remaining
iterations. -/
def processTopSpeakers : Nat → ActiveMediaList → List AudioParticipantScore →
    List ActiveTalker → ActiveMediaList × List ActiveTalker
  | 0, s, _, snapshot => (s, snapshot)
  | n + 1, s, heap, snapshot =>
    match heapTop heap with
    | none => (s, snapshot)
    | some top =>
      let s1 := updateActiveAudioList s top.participant
      let snapshot1 :=
        if (s1.activeTalkerSilenceThresholdDb : ℚ) < top.score - top.noiseLevel ∧
            snapshot.length < s1.maxParticipants / 2 then
          snapshot ++ [{ endpointHashId := top.participant
                         ptt := if MpmcHashmap32.contains s1.audioParticipants top.participant
                                then false else pttThroughEnd
                         score := toUint8 top.score
                         noiseLevel := toUint8 top.noiseLevel }]
        else snapshot
      processTopSpeakers n s1 (heapPop heap) snapshot1

/-- The consecutive-win counter of `process`. -/
def countWin (s : ActiveMediaList) (winner : Nat) : ActiveMediaList :=
  if winner = s.prevWinningDominantSpeaker then
    { s with consecutiveDominantSpeakerWins := s.consecutiveDominantSpeakerWins + 1 }
  else
    { s with
      consecutiveDominantSpeakerWins := 1
      prevWinningDominantSpeaker := winner }

/-- The switch gate of `process`: true when the call returns before nominating. -/
def switchGateClosed (s : ActiveMediaList) (timestamp : Nat) : Bool :=
  decide (add64 (sub64 timestamp s.lastChangeTimestamp)
    (10 * Time.ms * (requiredConsecutiveWins - 1)) < maxSwitchDominantSpeakerEvery)

/-- The condition of the last `if` of `process`. -/
def switchCondition (s : ActiveMediaList) (timestamp : Nat)
    (dominantSpeaker : AudioParticipantScore) (currentDominantSpeakerScore : ℚ) : Bool :=
  decide (dominantSpeaker.participant ≠ s.dominantSpeakerId ∧
    ((s.dominantSpeakerId = 0 ∨ currentDominantSpeakerScore < 1 / 100) ∨
      (requiredConsecutiveWins ≤ s.consecutiveDominantSpeakerWins ∧
        currentDominantSpeakerScore < 3 / 4 * dominantSpeaker.score ∧
        maxSwitchDominantSpeakerEvery ≤ sub64 timestamp s.lastChangeTimestamp)))

/-- The part of `process` after the snapshot is written: switch gate, consecutive-win
counter and switch decision. -/
def nominate (s : ActiveMediaList) (timestamp : Nat) (dominantSpeaker : AudioParticipantScore)
    (currentDominantSpeakerScore : ℚ) : ActiveMediaList × Bool × Bool :=
  if switchGateClosed s timestamp then (s, false, false)
  else
    let s4 : ActiveMediaList :=
      { countWin s dominantSpeaker.participant with lastRunTimestamp := timestamp }
    if switchCondition s4 timestamp dominantSpeaker currentDominantSpeakerScore then
      let updated := updateActiveVideoList
        { s4 with
          lastChangeTimestamp := timestamp
          dominantSpeakerId := dominantSpeaker.participant }
        dominantSpeaker.participant
      (updated.1, true, updated.2)
    else (s4, false, false)

/-- The statement `_activeTalkerSnapshot.write(activeTalkersSnapshot)` after the loop over
the top speakers. -/
def writeSnapshot (looped : ActiveMediaList × List ActiveTalker) : ActiveMediaList :=
  { looped.1 with activeTalkerSnapshot := looped.2 }

/-- The method `ActiveMediaList::process`; the two booleans are `outDominantSpeakerChanged`
and `outUserMediaMapChanged`. -/
def process (s : ActiveMediaList) (timestamp : Nat) : ActiveMediaList × Bool × Bool :=
  if Time.diffLT s.lastRunTimestamp timestamp (INTERVAL_MS * Time.ms) then (s, false, false)
  else
    let s1 : ActiveMediaList := updateLevels { s with lastRunTimestamp := timestamp }
    let ranked := rankSpeakers s1
    match heapTop ranked.2 with
    | none => (s1, false, false)
    | some dominantSpeaker =>
      nominate (writeSnapshot (processTopSpeakers s1.audioLastN s1 ranked.2 [])) timestamp
        dominantSpeaker ranked.1

/-! ## Data-channel message builders -/

/-- Modelled from the spec: `EngineVideoStream` (header not among the sources), the handle
found in `engineVideoStreams`: the endpoint string id, the two streams and `_pinSsrc`. -/
structure EngineVideoStream where
  endpointId : String
  simulcastStream : SimulcastStream
  secondarySimulcastStream : Option SimulcastStream
  pinSsrc : Option SimulcastLevel
deriving DecidableEq

/-- Modelled from the spec: the calls into `api::DataChannelMessage` (not among the
sources). The content of the string builder is kept as the sequence of calls that wrote
into it; the JSON text and the 1024 byte limit of the builder are not modelled. -/
inductive MessagePart where
  | lastNStart
  | lastNAppend (endpointId : String) (isFirstElement : Bool)
  | lastNEnd
  | userMediaMapStart
  | userMediaEndpointStart (endpointId : String)
  | userMediaSsrc (ssrc : Nat)
  | userMediaEndpointEnd
  | userMediaMapEnd
deriving DecidableEq

/-- The while loop of `makeLastNListMessage` over the entries from tail to head, with the
counter `i` and the flag `isFirstElement`. -/
def lastNLoop (lastN endpointIdHash pinTargetEndpointIdHash : Nat)
    (engineVideoStreams : MpmcHashmap32 EngineVideoStream) :
    List Nat → Nat → Bool → List MessagePart → List MessagePart
  | [], _, _, outMessage => outMessage
  | participantEntry :: previous, i, isFirstElement, outMessage =>
    if i < lastN then
      if participantEntry ≠ pinTargetEndpointIdHash ∧ participantEntry ≠ endpointIdHash then
        match MpmcHashmap32.find engineVideoStreams participantEntry with
        | some videoStream =>
          lastNLoop lastN endpointIdHash pinTargetEndpointIdHash engineVideoStreams previous
            (i + 1) false
            (outMessage ++ [MessagePart.lastNAppend videoStream.endpointId isFirstElement])
        | none =>
          lastNLoop lastN endpointIdHash pinTargetEndpointIdHash engineVideoStreams previous
            (i + 1) isFirstElement outMessage
      else
        lastNLoop lastN endpointIdHash pinTargetEndpointIdHash engineVideoStreams previous
          i isFirstElement outMessage
    else outMessage

/-- The method `ActiveMediaList::makeLastNListMessage`. -/
def makeLastNListMessage (s : ActiveMediaList) (lastN endpointIdHash
    pinTargetEndpointIdHash : Nat) (engineVideoStreams : MpmcHashmap32 EngineVideoStream)
    (outMessage : List MessagePart) : List MessagePart × Bool :=
  if s.defaultLastN < lastN ∨ lastN = 0 then (outMessage, false)
  else
    let out1 := outMessage ++ [MessagePart.lastNStart]
    let pinned : Option EngineVideoStream :=
      if pinTargetEndpointIdHash ≠ 0 then
        MpmcHashmap32.find engineVideoStreams pinTargetEndpointIdHash
      else none
    let out2 :=
      match pinned with
      | some videoStream => out1 ++ [MessagePart.lastNAppend videoStream.endpointId true]
      | none => out1
    let out3 :=
      lastNLoop lastN endpointIdHash pinTargetEndpointIdHash engineVideoStreams
        (ListOps.tailToHead s.activeVideoList)
        (if pinned.isSome then 1 else 0) (!pinned.isSome) out2
    (out3 ++ [MessagePart.lastNEnd], true)

/-- Modelled from the spec: `isInUserActiveVideoList` (inline in the header), whether the
endpoint is in the active video list. -/
def isInUserActiveVideoList (s : ActiveMediaList) (endpointIdHash : Nat) : Bool :=
  decide (endpointIdHash ∈ s.activeVideoList)

/-- The SSRC lines of one block: the screen-share rewrite SSRC when the mapping is held by
the given endpoint. -/
def screenShareSsrcParts (s : ActiveMediaList) (endpointIdHash : Nat) : List MessagePart :=
  match s.videoScreenShareSsrcMapping with
  | some (holder, mapping) =>
    if holder = endpointIdHash then [MessagePart.userMediaSsrc mapping.rewriteSsrc] else []
  | none => []

/-- The while loop of `makeUserMediaMapMessage` over the entries from tail to head, with the
counter `addedElements`. -/
def userMediaMapLoop (s : ActiveMediaList) (lastN endpointIdHash pinTargetEndpointIdHash : Nat)
    (isPinTargetInActiveVideoList : Bool)
    (engineVideoStreams : MpmcHashmap32 EngineVideoStream) :
    List Nat → Nat → List MessagePart → List MessagePart
  | [], _, outMessage => outMessage
  | videoListEntry :: previous, addedElements, outMessage =>
    if addedElements < lastN then
      if videoListEntry = endpointIdHash ∨
          (videoListEntry = pinTargetEndpointIdHash ∧ isPinTargetInActiveVideoList = false) then
        userMediaMapLoop s lastN endpointIdHash pinTargetEndpointIdHash
          isPinTargetInActiveVideoList engineVideoStreams previous addedElements outMessage
      else
        match MpmcHashmap32.find engineVideoStreams videoListEntry with
        | none =>
          userMediaMapLoop s lastN endpointIdHash pinTargetEndpointIdHash
            isPinTargetInActiveVideoList engineVideoStreams previous addedElements outMessage
        | some videoStream =>
          userMediaMapLoop s lastN endpointIdHash pinTargetEndpointIdHash
            isPinTargetInActiveVideoList engineVideoStreams previous (addedElements + 1)
            (outMessage ++ [MessagePart.userMediaEndpointStart videoStream.endpointId] ++
              (match MpmcHashmap32.find s.videoSsrcRewriteMap videoListEntry with
               | some simulcastLevel => [MessagePart.userMediaSsrc simulcastLevel.ssrc]
               | none => []) ++
              screenShareSsrcParts s videoListEntry ++ [MessagePart.userMediaEndpointEnd])
    else outMessage

/-- The block written for a pin target outside the active video list; `none` when the
conditions for writing it do not hold. -/
def pinTargetBlock (s : ActiveMediaList) (endpointIdHash pinTargetEndpointIdHash : Nat)
    (engineVideoStreams : MpmcHashmap32 EngineVideoStream) : Option (List MessagePart) :=
  match MpmcHashmap32.find engineVideoStreams endpointIdHash,
      MpmcHashmap32.find engineVideoStreams pinTargetEndpointIdHash with
  | some videoStream, some targetVideoStream =>
    match videoStream.pinSsrc with
    | some pinSsrc =>
      some ([MessagePart.userMediaEndpointStart targetVideoStream.endpointId] ++
        (if sendsVideo targetVideoStream.simulcastStream
            targetVideoStream.secondarySimulcastStream then
          [MessagePart.userMediaSsrc pinSsrc.ssrc] else []) ++
        screenShareSsrcParts s pinTargetEndpointIdHash ++ [MessagePart.userMediaEndpointEnd])
    | none => none
  | _, _ => none

/-- The method `ActiveMediaList::makeUserMediaMapMessage` (its parameter
`engineAudioStreams` is not read by the body and is left out). -/
def makeUserMediaMapMessage (s : ActiveMediaList) (lastN endpointIdHash
    pinTargetEndpointIdHash : Nat) (engineVideoStreams : MpmcHashmap32 EngineVideoStream)
    (outMessage : List MessagePart) : List MessagePart × Bool :=
  if s.defaultLastN < lastN ∨ lastN = 0 then (outMessage, false)
  else
    let out1 := outMessage ++ [MessagePart.userMediaMapStart]
    let isPinTargetInActiveVideoList := isInUserActiveVideoList s pinTargetEndpointIdHash
    let pinBlock : Option (List MessagePart) :=
      if pinTargetEndpointIdHash ≠ 0 ∧ isPinTargetInActiveVideoList = false then
        pinTargetBlock s endpointIdHash pinTargetEndpointIdHash engineVideoStreams
      else none
    let out2 :=
      match pinBlock with
      | some block => out1 ++ block
      | none => out1
    let out3 :=
      userMediaMapLoop s lastN endpointIdHash pinTargetEndpointIdHash
        isPinTargetInActiveVideoList engineVideoStreams
        (ListOps.tailToHead s.activeVideoList) (if pinBlock.isSome then 1 else 0) out2
    (out3 ++ [MessagePart.userMediaMapEnd], true)

/-! ## Reachable states and invariants -/

/-- The states an `ActiveMediaList` can be in after construction: any sequence of calls of
the mutating methods, `updateActiveAudioList` and `updateActiveVideoList` included, with any
arguments. Video participants are added under non-zero endpoint id hashes (0 means
"none"). -/
inductive Reachable (init : ActiveMediaList) : ActiveMediaList → Prop where
  | start : Reachable init init
  | addAudio {s : ActiveMediaList} (e : Nat) :
      Reachable init s → Reachable init (addAudioParticipant s e).1
  | removeAudio {s : ActiveMediaList} (e : Nat) :
      Reachable init s → Reachable init (removeAudioParticipant s e).1
  | newLevel {s : ActiveMediaList} (e level : Nat) (ptt : Bool) :
      Reachable init s → Reachable init (onNewAudioLevel s e level ptt)
  | tick {s : ActiveMediaList} (timestamp : Nat) :
      Reachable init s → Reachable init (process s timestamp).1
  | promoteAudio {s : ActiveMediaList} (e : Nat) :
      Reachable init s → Reachable init (updateActiveAudioList s e)
  | addVideo {s : ActiveMediaList} (e : Nat) (primary : SimulcastStream)
      (secondary : Option SimulcastStream) :
      Reachable init s → e ≠ 0 → Reachable init (addVideoParticipant s e primary secondary).1
  | removeVideo {s : ActiveMediaList} (e : Nat) :
      Reachable init s → Reachable init (removeVideoParticipant s e).1
  | promoteVideo {s : ActiveMediaList} (e : Nat) :
      Reachable init s → Reachable init (updateActiveVideoList s e).1

/-- The reachable states in which every call of `updateActiveAudioList` so far was for an
endpoint that was a tracked audio participant at the time of the call. The call site of
`updateActiveAudioList` in `process` passes ranked, hence tracked, endpoints; the method
itself does not check its argument. -/
inductive ReachableTracked (init : ActiveMediaList) : ActiveMediaList → Prop where
  | start : ReachableTracked init init
  | addAudio {s : ActiveMediaList} (e : Nat) :
      ReachableTracked init s → ReachableTracked init (addAudioParticipant s e).1
  | removeAudio {s : ActiveMediaList} (e : Nat) :
      ReachableTracked init s → ReachableTracked init (removeAudioParticipant s e).1
  | newLevel {s : ActiveMediaList} (e level : Nat) (ptt : Bool) :
      ReachableTracked init s → ReachableTracked init (onNewAudioLevel s e level ptt)
  | tick {s : ActiveMediaList} (timestamp : Nat) :
      ReachableTracked init s → ReachableTracked init (process s timestamp).1
  | promoteAudio {s : ActiveMediaList} (e : Nat) :
      ReachableTracked init s → MpmcHashmap32.contains s.audioParticipants e = true →
      ReachableTracked init (updateActiveAudioList s e)
  | addVideo {s : ActiveMediaList} (e : Nat) (primary : SimulcastStream)
      (secondary : Option SimulcastStream) :
      ReachableTracked init s → e ≠ 0 →
      ReachableTracked init (addVideoParticipant s e primary secondary).1
  | removeVideo {s : ActiveMediaList} (e : Nat) :
      ReachableTracked init s → ReachableTracked init (removeVideoParticipant s e).1
  | promoteVideo {s : ActiveMediaList} (e : Nat) :
      ReachableTracked init s → ReachableTracked init (updateActiveVideoList s e).1

/-- The invariant of the audio side in the states of `ReachableTracked`: the pool and the
rewrite map together hold all SSRCs, rewrite SSRCs are held by tracked endpoints only, and
the active-audio list lists exactly the holders, each once. -/
structure AudioInv (s : ActiveMediaList) : Prop where
  conserved : s.audioSsrcs.length + MpmcHashmap32.size s.audioSsrcRewriteMap = s.maxSpeakers
  tracked : ∀ k ∈ MpmcHashmap32.keys s.audioSsrcRewriteMap,
    k ∈ MpmcHashmap32.keys s.audioParticipants
  listed : (MpmcHashmap32.keys s.audioSsrcRewriteMap).Perm s.activeAudioList
  nodup : (MpmcHashmap32.keys s.audioSsrcRewriteMap).Nodup

/-- What holds of the audio side in every reachable state, whatever the arguments of
`updateActiveAudioList` were: the rewrite map has no key twice, its keys are in the
active-audio list, the list and the pool together never exceed `maxSpeakers`, and as long
as no SSRC was lost (the rewrite map and the pool still hold `maxSpeakers` SSRCs) the list
lists exactly the keys of the rewrite map. -/
structure AudioLoose (s : ActiveMediaList) : Prop where
  nodup : (MpmcHashmap32.keys s.audioSsrcRewriteMap).Nodup
  owned : ∀ k ∈ MpmcHashmap32.keys s.audioSsrcRewriteMap, k ∈ s.activeAudioList
  room : s.activeAudioList.length + s.audioSsrcs.length ≤ s.maxSpeakers
  intact : MpmcHashmap32.size s.audioSsrcRewriteMap + s.audioSsrcs.length = s.maxSpeakers →
    (MpmcHashmap32.keys s.audioSsrcRewriteMap).Perm s.activeAudioList

/-- The invariant of the video side, relative to the SimulcastLevels `levels` left in the
pool by the constructor. -/
structure VideoInv (levels : List SimulcastLevel) (s : ActiveMediaList) : Prop where
  conserved : (s.videoSsrcs ++ s.videoSsrcRewriteMap.map Prod.snd).Perm levels
  owners : ∀ k ∈ MpmcHashmap32.keys s.videoSsrcRewriteMap, k ∈ s.activeVideoList
  ownersNodup : (MpmcHashmap32.keys s.videoSsrcRewriteMap).Nodup
  listed : ∀ k ∈ s.activeVideoList, k ∈ MpmcHashmap32.keys s.videoParticipants
  listNodup : s.activeVideoList.Nodup
  nonzero : 0 ∉ MpmcHashmap32.keys s.videoParticipants
  lookup : ∀ k ∈ MpmcHashmap32.keys s.activeVideoListLookupMap, k ∈ s.activeVideoList
  holder : ∀ h m, s.videoScreenShareSsrcMapping = some (h, m) →
    h ∈ MpmcHashmap32.keys s.videoParticipants
  reversed : ∀ k ∈ MpmcHashmap32.keys s.reverseVideoSsrcRewriteMap,
    k ∈ s.videoSsrcRewriteMap.map (fun p => p.2.ssrc)

/-! ## Specification-side definitions -/

/-- The list of endpoint ids a last-N message is specified to carry: the pin target first
when it is set and has a video stream, then, from tail to head of the active video list,
the entries that are neither the pin target nor the receiver, as many as the remaining
count allows, each contributing its id when it has a video stream. -/
def lastNEndpointsSpec (s : ActiveMediaList) (lastN receiver pinTarget : Nat)
    (engineVideoStreams : MpmcHashmap32 EngineVideoStream) : List String :=
  let pinPart : List String :=
    if pinTarget ≠ 0 then
      match MpmcHashmap32.find engineVideoStreams pinTarget with
      | some videoStream => [videoStream.endpointId]
      | none => []
    else []
  let candidates :=
    (ListOps.tailToHead s.activeVideoList).filter
      (fun e => decide (e ≠ pinTarget ∧ e ≠ receiver))
  pinPart ++ (candidates.take (lastN - pinPart.length)).filterMap
    (fun e => (MpmcHashmap32.find engineVideoStreams e).map (fun v => v.endpointId))

/-- The append calls that write a list of ids, the first one flagged as first element
when `isFirstElement` holds. -/
def lastNParts : List String → Bool → List MessagePart
  | [], _ => []
  | endpointId :: rest, isFirstElement =>
    MessagePart.lastNAppend endpointId isFirstElement :: lastNParts rest false

/-- Push `count` samples of one endpoint at one level into the ingest queue. -/
def feedSamples (s : ActiveMediaList) (participant level : Nat) : Nat → ActiveMediaList
  | 0 => s
  | count + 1 => feedSamples (onNewAudioLevel s participant level false) participant level count

/-- A run of ticks: before each `process` call at the given timestamp the endpoint
receives the given number of samples. The result is the final state and the
`dominantSpeakerChanged` flag of every call. -/
def runTicks (participant level : Nat) :
    ActiveMediaList → List (Nat × Nat) → ActiveMediaList × List Bool
  | s, [] => (s, [])
  | s, (timestamp, count) :: rest =>
    let r := process (feedSamples s participant level count) timestamp
    let rr := runTicks participant level r.1 rest
    (rr.1, r.2.1 :: rr.2)

/-- The components the audio invariant speaks about. -/
def audioSide (s : ActiveMediaList) :
    List Nat × List Nat × MpmcHashmap32 Nat × List Nat × Nat :=
  (MpmcHashmap32.keys s.audioParticipants, s.audioSsrcs, s.audioSsrcRewriteMap,
    s.activeAudioList, s.maxSpeakers)

/-- The components the video invariant speaks about. -/
def videoSide (s : ActiveMediaList) :
    MpmcHashmap32 VideoParticipant × List SimulcastLevel × MpmcHashmap32 SimulcastLevel ×
      MpmcHashmap32 Nat × List Nat × MpmcHashmap32 (Option Nat) ×
      Option (Nat × VideoScreenShareSsrcMapping) × Nat × SimulcastLevel × List Nat :=
  (s.videoParticipants, s.videoSsrcs, s.videoSsrcRewriteMap, s.reverseVideoSsrcRewriteMap,
    s.activeVideoList, s.activeVideoListLookupMap, s.videoScreenShareSsrcMapping,
    s.maxActiveListSize, s.videoScreenShareSsrc, s.activeVideoListNodes)

/-- What `releaseVideoSsrc` does to the pool and the two rewrite maps. -/
def ReleasedFrom (s t : ActiveMediaList) (r : Nat) : Prop :=
  (MpmcHashmap32.find s.videoSsrcRewriteMap r = none ∧ t.videoSsrcs = s.videoSsrcs ∧
      t.videoSsrcRewriteMap = s.videoSsrcRewriteMap ∧
      t.reverseVideoSsrcRewriteMap = s.reverseVideoSsrcRewriteMap) ∨
    (∃ level, MpmcHashmap32.find s.videoSsrcRewriteMap r = some level ∧
      t.videoSsrcs = s.videoSsrcs ++ [level] ∧
      t.videoSsrcRewriteMap = MpmcHashmap32.erase s.videoSsrcRewriteMap r ∧
      t.reverseVideoSsrcRewriteMap =
        MpmcHashmap32.erase s.reverseVideoSsrcRewriteMap level.ssrc)

/-- What claiming a SimulcastLevel (or not claiming one) does to the pool and the two
rewrite maps. -/
def ClaimedFrom (s t : ActiveMediaList) (e : Nat) : Prop :=
  (t.videoSsrcs = s.videoSsrcs ∧ t.videoSsrcRewriteMap = s.videoSsrcRewriteMap ∧
      t.reverseVideoSsrcRewriteMap = s.reverseVideoSsrcRewriteMap) ∨
    (∃ level, s.videoSsrcs = level :: t.videoSsrcs ∧
      t.videoSsrcRewriteMap = MpmcHashmap32.emplace s.videoSsrcRewriteMap e level ∧
      t.reverseVideoSsrcRewriteMap =
        MpmcHashmap32.emplace s.reverseVideoSsrcRewriteMap level.ssrc e)

/-- The members fixed by the constructor. -/
def config (s : ActiveMediaList) : Nat × Nat × Nat × Nat × Nat × Nat × SimulcastLevel :=
  (s.defaultLastN, s.maxActiveListSize, s.audioLastN, s.activeTalkerSilenceThresholdDb,
    s.maxSpeakers, s.maxParticipants, s.videoScreenShareSsrc)

/-- A small bridge for the worked scenarios: audio SSRCs 100 and 101, five video
SimulcastLevels, `defaultLastN = 2`, `audioLastN = 2`. -/
def scenarioInit : ActiveMediaList :=
  ActiveMediaList.new 1024 [100, 101]
    [{ ssrc := 1000, feedbackSsrc := 1001, mediaActive := false },
     { ssrc := 2000, feedbackSsrc := 2001, mediaActive := false },
     { ssrc := 3000, feedbackSsrc := 3001, mediaActive := false },
     { ssrc := 4000, feedbackSsrc := 4001, mediaActive := false },
     { ssrc := 5000, feedbackSsrc := 5001, mediaActive := false }] 2 2 10

/-- The state with the members of the video side blanked: two states agree on it exactly
when they agree on every member outside the video side. -/
def withoutVideo (s : ActiveMediaList) : ActiveMediaList :=
  { s with
    videoParticipants := []
    videoSsrcs := []
    videoSsrcRewriteMap := []
    reverseVideoSsrcRewriteMap := []
    activeVideoList := []
    activeVideoListNodes := []
    activeVideoListLookupMap := []
    videoScreenShareSsrcMapping := none }

/-- Whether the primary or the set secondary stream of a participant sends slides. -/
def sendsSlides (primary : SimulcastStream) (secondary : Option SimulcastStream) : Bool :=
  primary.sendingSlides ||
    (match secondary with
     | some s => s.sendingSlides
     | none => false)

/-- Agreement of two states on the video side up to the position of `e` in the list, its
node and its lookup entry. -/
def SameUpToLink (t0 t : ActiveMediaList) (e : Nat) : Prop :=
  t.videoParticipants = t0.videoParticipants ∧
    t.videoScreenShareSsrcMapping = t0.videoScreenShareSsrcMapping ∧
    t.videoSsrcs = t0.videoSsrcs ∧
    t.videoSsrcRewriteMap = t0.videoSsrcRewriteMap ∧
    t.reverseVideoSsrcRewriteMap = t0.reverseVideoSsrcRewriteMap ∧
    t.activeVideoList.erase e = t0.activeVideoList.erase e ∧
    MpmcHashmap32.erase t.activeVideoListLookupMap e =
      MpmcHashmap32.erase t0.activeVideoListLookupMap e ∧
    ListOps.removeNode t.activeVideoList t.activeVideoListNodes e =
      ListOps.removeNode t0.activeVideoList t0.activeVideoListNodes e

/-- The state of the scenario bridge with audio endpoint 9 (hence dominant) and the video
endpoints 1, 2, 3 filling the active video list. -/
def scenarioFullVideo : ActiveMediaList :=
  (addVideoParticipant
    (addVideoParticipant
      (addVideoParticipant (addAudioParticipant scenarioInit 9).1 1
        { levels := [], sendingVideo := true, sendingSlides := false } none).1 2
      { levels := [], sendingVideo := true, sendingSlides := false } none).1 3
    { levels := [], sendingVideo := true, sendingSlides := false } none).1

/-- The state with the pool, the rewrite map and the list of the audio side blanked: two
states agree on it exactly when they agree on every other member. -/
def withoutAudioList (s : ActiveMediaList) : ActiveMediaList :=
  { s with
    audioSsrcs := []
    audioSsrcRewriteMap := []
    activeAudioList := [] }

/-- The situation of scenario S1: `speaker` is the dominant speaker, every other tracked
endpoint has never received a sample, and the samples waiting in the ingest queue all
belong to `speaker`. -/
def OnlySpeaker (speaker : Nat) (s : ActiveMediaList) : Prop :=
  s.dominantSpeakerId = speaker ∧
    (∀ p ∈ s.audioParticipants, p.1 ≠ speaker →
      p.2.maxRecentLevel = 0 ∧ p.2.totalLevelLongWindow = 0) ∧
    (∀ x ∈ s.incomingAudioLevels, x.participant = speaker)

/-- The first half of the run that shows two dominant speaker changes 1980 ms apart:
endpoints 1 and 2 are added (1 becomes dominant), endpoint 2 receives a level 80 sample and
`process` is called at 1980 ms. -/
def firstSwitch : ActiveMediaList × Bool × Bool :=
  process
    (onNewAudioLevel (addAudioParticipant (addAudioParticipant scenarioInit 1).1 2).1 2 80 false)
    (1980 * Time.ms)

/-- The second half of that run: the dominant endpoint 2 leaves, endpoint 1 receives a
level 80 sample and `process` is called at 3960 ms. -/
def secondSwitch : ActiveMediaList × Bool × Bool :=
  process (onNewAudioLevel (removeAudioParticipant firstSwitch.1 2).1 1 80 false)
    (3960 * Time.ms)

/-- Scenario S3 before the eviction: audio SSRCs 100 and 101, endpoints 1, 2, 3 added in
this order (3 finds the pool empty), then 1 and 2 promoted in this order. -/
def scenarioS3 : ActiveMediaList :=
  updateActiveAudioList
    (updateActiveAudioList
      (addAudioParticipant (addAudioParticipant (addAudioParticipant scenarioInit 1).1 2).1 3).1
      1) 2

/-- A stream that sends video on one level with the given SSRC. -/
def videoStreamOf (ssrc : Nat) : SimulcastStream :=
  { levels := [{ ssrc := ssrc, feedbackSsrc := ssrc + 1, mediaActive := true }]
    sendingVideo := true
    sendingSlides := false }

/-- A bridge with `defaultLastN = 3` and six video SimulcastLevels for the message
scenarios S5 and S6. -/
def scenarioLastNInit : ActiveMediaList :=
  ActiveMediaList.new 1024 [100, 101]
    [{ ssrc := 1000, feedbackSsrc := 1001, mediaActive := false },
     { ssrc := 2000, feedbackSsrc := 2001, mediaActive := false },
     { ssrc := 3000, feedbackSsrc := 3001, mediaActive := false },
     { ssrc := 4000, feedbackSsrc := 4001, mediaActive := false },
     { ssrc := 5000, feedbackSsrc := 5001, mediaActive := false },
     { ssrc := 6000, feedbackSsrc := 6001, mediaActive := false }] 3 2 10

/-- Scenario S5: the video endpoints D = 4, C = 3, B = 2, A = 1 are added in this order, so
that the active video list read from tail to head is D, C, B, A. -/
def scenarioS5 : ActiveMediaList :=
  (addVideoParticipant
    (addVideoParticipant
      (addVideoParticipant
        (addVideoParticipant scenarioLastNInit 4 (videoStreamOf 40) none).1 3
        (videoStreamOf 30) none).1 2
      (videoStreamOf 20) none).1 1
    (videoStreamOf 10) none).1

/-- The engine video streams of scenarios S5 and S6: endpoints A = 1 (whose pin SSRC is
the level with SSRC 7000), B = 2, C = 3 and D = 4. -/
def scenarioStreams : MpmcHashmap32 EngineVideoStream :=
  [(1, { endpointId := "A", simulcastStream := videoStreamOf 10,
         secondarySimulcastStream := none,
         pinSsrc := some { ssrc := 7000, feedbackSsrc := 7001, mediaActive := false } }),
   (2, { endpointId := "B", simulcastStream := videoStreamOf 20,
         secondarySimulcastStream := none, pinSsrc := none }),
   (3, { endpointId := "C", simulcastStream := videoStreamOf 30,
         secondarySimulcastStream := none, pinSsrc := none }),
   (4, { endpointId := "D", simulcastStream := videoStreamOf 40,
         secondarySimulcastStream := none, pinSsrc := none })]

/-- The participant table and the screen-share mapping of the video side. -/
def registry (s : ActiveMediaList) :
    MpmcHashmap32 VideoParticipant × Option (Nat × VideoScreenShareSsrcMapping) :=
  (s.videoParticipants, s.videoScreenShareSsrcMapping)

/-- A stream that sends slides on one level with the given SSRC. -/
def slidesStreamOf (ssrc : Nat) : SimulcastStream :=
  { levels := [{ ssrc := ssrc, feedbackSsrc := ssrc + 1, mediaActive := true }]
    sendingVideo := false
    sendingSlides := true }

/-- The second invariant of the video side: the lookup map has exactly one entry per list
entry, and the list never exceeds `_maxActiveListSize`. -/
structure VideoBound (s : ActiveMediaList) : Prop where
  lookupPerm : (MpmcHashmap32.keys s.activeVideoListLookupMap).Perm s.activeVideoList
  bound : s.activeVideoList.length ≤ s.maxActiveListSize

/-- Scenario S2 at its first tick: endpoint 1 is dominant, endpoint 1 receives a level 70
sample and endpoint 2 a level 90 sample. -/
def scenarioS2 : ActiveMediaList :=
  onNewAudioLevel
    (onNewAudioLevel (addAudioParticipant (addAudioParticipant scenarioInit 1).1 2).1 1 70 false)
    2 90 false

/-- A run for the early return of `process`: endpoint 1 is dominant and silent, endpoint 2
receives one sample of level 10, which is below its noise level. -/
def scenarioQuiet : ActiveMediaList :=
  onNewAudioLevel (addAudioParticipant (addAudioParticipant scenarioInit 1).1 2).1 2 10 false

/-- The entries of the short window of a participant: the `lengthShortWindow` entries of
`levels` at the cyclic indices `indexEndShortWindow`, `indexEndShortWindow + 1`, ... -/
def shortWindowLevels (p : AudioParticipant) : List Nat :=
  (List.range lengthShortWindow).map
    (fun j => p.levels.getD ((p.indexEndShortWindow + j) % p.levels.length) 0)

/-- The ring invariant of an energy history in the words of the specification: the ring has
`lengthLongWindow` entries, the short window ends at `index`, and the running totals are the
sum of the ring, the sum of the short window and the number of non-zero entries of the short
window. -/
structure RingInv (p : AudioParticipant) : Prop where
  size : p.levels.length = lengthLongWindow
  indexEnd : p.indexEndShortWindow < lengthLongWindow
  index : p.index = (p.indexEndShortWindow + (lengthShortWindow - 1)) % lengthLongWindow
  long : p.totalLevelLongWindow = ((p.levels.sum : Nat) : Int)
  short : p.totalLevelShortWindow = (((shortWindowLevels p).sum : Nat) : Int)
  nonZero : p.nonZeroLevelsShortWindow =
    (((shortWindowLevels p).countP (fun x => decide (x ≠ 0)) : Nat) : Int)

/-- A run for the noise level: endpoint 1 is tracked and 26 samples of level 1 wait in the
ingest queue. -/
def scenarioFaint : ActiveMediaList :=
  feedSamples (addAudioParticipant scenarioInit 1).1 1 1 26

/-- A run for the noise level: endpoint 1 is tracked and never sends a sample, `process` is
called every `INTERVAL_MS` milliseconds, `n` times. -/
def silentRun : Nat → ActiveMediaList
  | 0 => (addAudioParticipant scenarioInit 1).1
  | n + 1 => (process (silentRun n) ((n + 1) * (INTERVAL_MS * Time.ms))).1

/-- A run for the published ptt flag: endpoint 1 is tracked and one sample of level 127 with
the ptt flag set waits in the ingest queue. -/
def scenarioPtt : ActiveMediaList :=
  onNewAudioLevel (addAudioParticipant scenarioInit 1).1 1 127 true

/-- The nodes of the active-video list and the lookup map: every entry of the list has its
node, no node is linked twice, and for every entry of the list the lookup map holds, under
the endpoint the entry carries, the node of this entry. -/
structure LookupInv (s : ActiveMediaList) : Prop where
  length : s.activeVideoListNodes.length = s.activeVideoList.length
  nodup : s.activeVideoListNodes.Nodup
  points : ∀ p ∈ s.activeVideoList.zip s.activeVideoListNodes,
    MpmcHashmap32.find s.activeVideoListLookupMap p.1 = some (some p.2)

/-- Ownership of a SimulcastLevel follows the streams: an endpoint in the active-video list
has an entry in the video rewrite map exactly when its primary or its set secondary stream
sends video. -/
def SenderInv (s : ActiveMediaList) : Prop :=
  ∀ e vp, e ∈ s.activeVideoList → MpmcHashmap32.find s.videoParticipants e = some vp →
    (e ∈ MpmcHashmap32.keys s.videoSsrcRewriteMap ↔
      sendsVideo vp.simulcastStream vp.secondarySimulcastStream = true)

/-- The scenario bridge with video endpoint 1, which sends slides only, and video endpoint
2, which sends video. -/
def scenarioMixed : ActiveMediaList :=
  (addVideoParticipant (addVideoParticipant scenarioInit 1 (slidesStreamOf 11) none).1 2
    (videoStreamOf 20) none).1

/-- The two video rewrite maps mirror each other entry by entry, and the SimulcastLevels in
the pool and in the rewrite map have pairwise distinct SSRCs. -/
def MirrorInv (s : ActiveMediaList) : Prop :=
  s.reverseVideoSsrcRewriteMap = s.videoSsrcRewriteMap.map (fun p => (p.2.ssrc, p.1)) ∧
    ((s.videoSsrcs ++ s.videoSsrcRewriteMap.map Prod.snd).map (fun l => l.ssrc)).Nodup

/-- A call of one of the mutating methods of `ActiveMediaList`. -/
inductive Call where
  | addAudioParticipant (endpointIdHash : Nat)
  | removeAudioParticipant (endpointIdHash : Nat)
  | onNewAudioLevel (participant level : Nat) (ptt : Bool)
  | process (timestamp : Nat)
  | addVideoParticipant (endpointIdHash : Nat) (simulcastStream : SimulcastStream)
      (secondarySimulcastStream : Option SimulcastStream)
  | removeVideoParticipant (endpointIdHash : Nat)
  | updateActiveAudioList (endpointIdHash : Nat)
  | updateActiveVideoList (endpointIdHash : Nat)
deriving DecidableEq

/-- The effect of one call: the new state and, for a `process` call, its timestamp together
with the flag `outDominantSpeakerChanged`. -/
def applyCall (s : ActiveMediaList) : Call → ActiveMediaList × Option (Nat × Bool)
  | Call.addAudioParticipant e => ((addAudioParticipant s e).1, none)
  | Call.removeAudioParticipant e => ((removeAudioParticipant s e).1, none)
  | Call.onNewAudioLevel e level ptt => (onNewAudioLevel s e level ptt, none)
  | Call.process timestamp =>
    ((process s timestamp).1, some (timestamp, (process s timestamp).2.1))
  | Call.addVideoParticipant e p q => ((addVideoParticipant s e p q).1, none)
  | Call.removeVideoParticipant e => ((removeVideoParticipant s e).1, none)
  | Call.updateActiveAudioList e => (updateActiveAudioList s e, none)
  | Call.updateActiveVideoList e => ((updateActiveVideoList s e).1, none)

/-- An execution: the calls are applied in order; the result is the final state and the log
of the `process` calls (timestamp and `outDominantSpeakerChanged`). -/
def execute : ActiveMediaList → List Call → ActiveMediaList × List (Nat × Bool)
  | s, [] => (s, [])
  | s, c :: rest =>
    let r := applyCall s c
    let rr := execute r.1 rest
    (rr.1, match r.2 with
      | some entry => entry :: rr.2
      | none => rr.2)

/-- The timestamps of the `process` calls of an execution, in order. -/
def processTimestamps : List Call → List Nat
  | [] => []
  | Call.process timestamp :: rest => timestamp :: processTimestamps rest
  | _ :: rest => processTimestamps rest

/-- The timestamps of the logged `process` calls that reported a dominant speaker change. -/
def changeTimes (log : List (Nat × Bool)) : List Nat :=
  (log.filter (fun entry => entry.2)).map (fun entry => entry.1)

/-- The gap the switch gate of `process` enforces:
`maxSwitchDominantSpeakerEvery - 10 ms * (requiredConsecutiveWins - 1)`. -/
def switchGateGap : Nat :=
  maxSwitchDominantSpeakerEvery - 10 * Time.ms * (requiredConsecutiveWins - 1)

/-- The run of the two switches of `firstSwitch` and `secondSwitch` as an execution. -/
def scenarioTwoSwitches : List Call :=
  [Call.addAudioParticipant 1, Call.addAudioParticipant 2, Call.onNewAudioLevel 2 80 false,
    Call.process (1980 * Time.ms), Call.removeAudioParticipant 2,
    Call.onNewAudioLevel 1 80 false, Call.process (3960 * Time.ms)]

/-- The endpoints that the loop of `process` over the top speakers promotes, in the order
of their extraction from the heap: the top `min(n, speakerCount)` speakers by score. -/
def topSpeakers : Nat → List AudioParticipantScore → List Nat
  | 0, _ => []
  | n + 1, heap =>
    match heapTop heap with
    | none => []
    | some top => top.participant :: topSpeakers n (heapPop heap)

/-- Scenario S3 with samples: endpoints 1 and 2 hold the two audio SSRCs, endpoint 3 is
tracked without one; endpoint 3 receives a level 90 sample and endpoint 2 a level 80
sample. -/
def scenarioTopTwo : ActiveMediaList :=
  onNewAudioLevel (onNewAudioLevel scenarioS3 3 90 false) 2 80 false

namespace MpmcHashmap32

theorem keys_nil {V : Type} : keys ([] : MpmcHashmap32 V) = [] := rfl

theorem keys_cons {V : Type} (p : Nat × V) (m : MpmcHashmap32 V) :
    keys (p :: m) = p.1 :: keys m := rfl

theorem keys_append {V : Type} (m n : MpmcHashmap32 V) : keys (m ++ n) = keys m ++ keys n := by
  simp [keys]

theorem find_eq_none_iff {V : Type} (m : MpmcHashmap32 V) (k : Nat) :
    find m k = none ↔ k ∉ keys m := by
  induction m with
  | nil => simp [find, keys]
  | cons p rest ih =>
    obtain ⟨a, b⟩ := p
    by_cases h : a = k
    · simp [find, keys, h]
    · have h2 : ¬ k = a := fun e => h e.symm
      simp [find, h, h2, keys_cons, ih]

theorem contains_eq_true_iff {V : Type} (m : MpmcHashmap32 V) (k : Nat) :
    contains m k = true ↔ k ∈ keys m := by
  unfold contains
  cases hf : find m k with
  | none => simpa using (find_eq_none_iff m k).1 hf
  | some v =>
    have : ¬ (k ∉ keys m) := fun hn => by
      rw [(find_eq_none_iff m k).2 hn] at hf; cases hf
    simpa using this

theorem contains_eq_false_iff {V : Type} (m : MpmcHashmap32 V) (k : Nat) :
    contains m k = false ↔ k ∉ keys m := by
  rw [← contains_eq_true_iff]; simp

theorem find_isSome_of_mem {V : Type} (m : MpmcHashmap32 V) (k : Nat) (h : k ∈ keys m) :
    ∃ v, find m k = some v := by
  cases hf : find m k with
  | none => exact absurd h ((find_eq_none_iff m k).1 hf)
  | some v => exact ⟨v, rfl⟩

theorem mem_keys_of_find {V : Type} (m : MpmcHashmap32 V) (k : Nat) (v : V)
    (h : find m k = some v) : k ∈ keys m := by
  by_contra hn
  rw [(find_eq_none_iff m k).2 hn] at h; cases h

theorem emplace_of_not_mem {V : Type} (m : MpmcHashmap32 V) (k : Nat) (v : V)
    (h : k ∉ keys m) : emplace m k v = m ++ [(k, v)] := by
  unfold emplace
  rw [(contains_eq_false_iff m k).2 h]; simp

theorem emplace_of_mem {V : Type} (m : MpmcHashmap32 V) (k : Nat) (v : V)
    (h : k ∈ keys m) : emplace m k v = m := by
  unfold emplace
  rw [(contains_eq_true_iff m k).2 h]; simp

theorem keys_erase {V : Type} (m : MpmcHashmap32 V) (k : Nat) :
    keys (erase m k) = (keys m).filter (fun x => !decide (x = k)) := by
  induction m with
  | nil => rfl
  | cons p rest ih =>
    simp only [erase, keys] at ih ⊢
    by_cases h : p.1 = k
    · simp [List.filter_cons, h, ih]
    · simp [List.filter_cons, h, ih]

theorem erase_of_not_mem {V : Type} (m : MpmcHashmap32 V) (k : Nat) (h : k ∉ keys m) :
    erase m k = m := by
  unfold erase
  rw [List.filter_eq_self]
  intro p hp
  have : p.1 ∈ keys m := List.mem_map_of_mem Prod.fst hp
  simp only [Bool.not_eq_true', decide_eq_false_iff_not]
  intro e
  exact h (e ▸ this)

theorem erase_append_singleton {V : Type} (m : MpmcHashmap32 V) (k : Nat) (v : V) :
    erase (m ++ [(k, v)]) k = erase m k := by
  simp [erase, List.filter_append]

theorem not_mem_keys_erase {V : Type} (m : MpmcHashmap32 V) (k : Nat) :
    k ∉ keys (erase m k) := by
  rw [keys_erase]; simp

theorem mem_keys_erase {V : Type} (m : MpmcHashmap32 V) (k x : Nat) :
    x ∈ keys (erase m k) ↔ x ∈ keys m ∧ x ≠ k := by
  rw [keys_erase]; simp

theorem find_erase_self {V : Type} (m : MpmcHashmap32 V) (k : Nat) :
    find (erase m k) k = none :=
  (find_eq_none_iff _ _).2 (not_mem_keys_erase m k)

theorem find_erase_ne {V : Type} (m : MpmcHashmap32 V) (k x : Nat) (h : x ≠ k) :
    find (erase m k) x = find m x := by
  induction m with
  | nil => rfl
  | cons p rest ih =>
    obtain ⟨a, b⟩ := p
    simp only [erase] at ih ⊢
    by_cases ha : a = k
    · subst ha
      have hax : ¬ a = x := fun e => h e.symm
      simp [List.filter_cons, find, hax, ih]
    · by_cases hax : a = x
      · subst hax
        simp [List.filter_cons, ha, find]
      · simp [List.filter_cons, ha, find, hax, ih]

theorem find_append_singleton_self {V : Type} (m : MpmcHashmap32 V) (k : Nat) (v : V)
    (h : k ∉ keys m) : find (m ++ [(k, v)]) k = some v := by
  induction m with
  | nil => simp [find]
  | cons p rest ih =>
    obtain ⟨a, b⟩ := p
    simp only [keys_cons, List.mem_cons, not_or] at h
    have ha : ¬ a = k := fun e => h.1 e.symm
    simp [find, ha, ih h.2]

theorem find_append_singleton_ne {V : Type} (m : MpmcHashmap32 V) (k x : Nat) (v : V)
    (h : x ≠ k) : find (m ++ [(k, v)]) x = find m x := by
  induction m with
  | nil =>
    have : ¬ k = x := fun e => h e.symm
    simp [find, this]
  | cons p rest ih =>
    obtain ⟨a, b⟩ := p
    by_cases hax : a = x
    · simp [find, hax]
    · simp [find, hax, ih]

theorem nodup_keys_erase {V : Type} (m : MpmcHashmap32 V) (k : Nat) (h : (keys m).Nodup) :
    (keys (erase m k)).Nodup := by
  rw [keys_erase]; exact h.filter _

theorem length_erase_add_one {V : Type} (m : MpmcHashmap32 V) (k : Nat)
    (hk : k ∈ keys m) (hn : (keys m).Nodup) : (erase m k).length + 1 = m.length := by
  induction m with
  | nil => simp [keys] at hk
  | cons p rest ih =>
    obtain ⟨a, b⟩ := p
    simp only [keys_cons, List.nodup_cons] at hn
    by_cases ha : a = k
    · subst ha
      have : erase ((a, b) :: rest) a = rest := by
        have h1 : erase ((a, b) :: rest) a = erase rest a := by
          simp [erase, List.filter_cons]
        rw [h1, erase_of_not_mem rest a hn.1]
      rw [this]; simp
    · have hk2 : k ∈ keys rest := by
        simp only [keys_cons, List.mem_cons] at hk
        rcases hk with e | e
        · exact absurd e.symm ha
        · exact e
      have h1 : erase ((a, b) :: rest) k = (a, b) :: erase rest k := by
        simp [erase, List.filter_cons, ha]
      rw [h1]
      simp only [List.length_cons]
      rw [ih hk2 hn.2]

theorem values_perm_erase {V : Type} (m : MpmcHashmap32 V) (k : Nat) (v : V)
    (hf : find m k = some v) (hn : (keys m).Nodup) :
    (m.map Prod.snd).Perm (v :: (erase m k).map Prod.snd) := by
  induction m with
  | nil => simp [find] at hf
  | cons p rest ih =>
    obtain ⟨a, b⟩ := p
    simp only [keys_cons, List.nodup_cons] at hn
    by_cases ha : a = k
    · subst ha
      simp only [find, if_true] at hf
      have hb : b = v := Option.some.inj hf
      subst hb
      have h1 : erase ((a, b) :: rest) a = rest := by
        have h1 : erase ((a, b) :: rest) a = erase rest a := by
          simp [erase, List.filter_cons]
        rw [h1, erase_of_not_mem rest a hn.1]
      rw [h1]; simp
    · simp only [find, if_neg ha] at hf
      have h1 : erase ((a, b) :: rest) k = (a, b) :: erase rest k := by
        simp [erase, List.filter_cons, ha]
      rw [h1]
      simp only [List.map_cons]
      exact ((ih hf hn.2).cons b).trans (List.Perm.swap v b _)

theorem keys_modify {V : Type} (m : MpmcHashmap32 V) (k : Nat) (f : V → V) :
    keys (modify m k f) = keys m := by
  induction m with
  | nil => rfl
  | cons p rest ih =>
    simp only [modify, keys] at ih ⊢
    by_cases h : p.1 = k
    · simp [h, ih]
    · simp [h, ih]

theorem erase_emplace_self {V : Type} (m : MpmcHashmap32 V) (k : Nat) (v : V)
    (h : k ∉ keys m) : erase (emplace m k v) k = m := by
  rw [emplace_of_not_mem m k v h, erase_append_singleton, erase_of_not_mem m k h]

end MpmcHashmap32

/-! ## Frames: what each operation leaves alone -/

theorem audioInv_congr {s t : ActiveMediaList} (h : audioSide t = audioSide s)
    (hs : AudioInv s) : AudioInv t := by
  simp only [audioSide, Prod.mk.injEq] at h
  obtain ⟨h1, h2, h3, h4, h5⟩ := h
  constructor
  · rw [h2, h3, h5]; exact hs.conserved
  · rw [h1, h3]; exact hs.tracked
  · rw [h3, h4]; exact hs.listed
  · rw [h3]; exact hs.nodup

theorem videoInv_congr {levels : List SimulcastLevel} {s t : ActiveMediaList}
    (h : videoSide t = videoSide s) (hs : VideoInv levels s) : VideoInv levels t := by
  simp only [videoSide, Prod.mk.injEq] at h
  obtain ⟨h1, h2, h3, h4, h5, h6, h7, _, _⟩ := h
  constructor
  · rw [h2, h3]; exact hs.conserved
  · rw [h3, h5]; exact hs.owners
  · rw [h3]; exact hs.ownersNodup
  · rw [h1, h5]; exact hs.listed
  · rw [h5]; exact hs.listNodup
  · rw [h1]; exact hs.nonzero
  · rw [h5, h6]; exact hs.lookup
  · rw [h1, h7]; exact hs.holder
  · rw [h3, h4]; exact hs.reversed

theorem audioSide_releaseVideoSsrc (s : ActiveMediaList) (e : Nat) :
    audioSide (releaseVideoSsrc s e) = audioSide s := by
  unfold releaseVideoSsrc
  split <;> rfl

theorem audioSide_claimVideoSsrc {s t : ActiveMediaList} {e : Nat}
    (h : claimVideoSsrc s e = some t) : audioSide t = audioSide s := by
  unfold claimVideoSsrc at h
  split at h
  · cases h
  · cases h; rfl

theorem audioSide_evictVideoHead {s t : ActiveMediaList} {r : Nat}
    (h : evictVideoHead s = some (t, r)) : audioSide t = audioSide s := by
  unfold evictVideoHead at h
  split at h
  · split at h
    · cases h
    · cases h; rfl
  · cases h; rfl

theorem audioSide_updateActiveVideoList (s : ActiveMediaList) (e : Nat) :
    audioSide (updateActiveVideoList s e).1 = audioSide s := by
  unfold updateActiveVideoList
  split
  · rfl
  · split
    · rfl
    · split
      · rfl
      · rename_i s1 r hev
        have h1 := audioSide_evictVideoHead hev
        have h2 : audioSide (if r ≠ 0 then releaseVideoSsrc s1 r else s1) = audioSide s := by
          split
          · rw [audioSide_releaseVideoSsrc, h1]
          · exact h1
        dsimp only
        split
        · split
          · exact h2
          · rename_i s3 hc
            have h3 := audioSide_claimVideoSsrc hc
            exact (show audioSide (linkVideoTail s3 e) = audioSide s3 from rfl).trans
              (h3.trans h2)
        · exact (show audioSide (linkVideoTail _ e) = audioSide _ from rfl).trans h2

theorem audioSide_hoistIfDominant (s : ActiveMediaList) (e : Nat) :
    audioSide (hoistIfDominant s e).1 = audioSide s := by
  unfold hoistIfDominant
  split
  · rfl
  · exact audioSide_updateActiveVideoList s _

theorem audioSide_addVideoParticipant (s : ActiveMediaList) (e : Nat) (p : SimulcastStream)
    (q : Option SimulcastStream) : audioSide (addVideoParticipant s e p q).1 = audioSide s := by
  unfold addVideoParticipant
  split
  · rfl
  · dsimp only
    split
    · exact audioSide_hoistIfDominant _ e
    · split
      · split
        · rfl
        · rename_i s3 hc
          rw [audioSide_hoistIfDominant]
          exact (show audioSide (linkVideoHead s3 e) = audioSide s3 from rfl).trans
            ((audioSide_claimVideoSsrc hc).trans rfl)
      · rw [audioSide_hoistIfDominant]; rfl

theorem audioSide_removeVideoParticipant (s : ActiveMediaList) (e : Nat) :
    audioSide (removeVideoParticipant s e).1 = audioSide s := by
  unfold removeVideoParticipant
  split
  · rfl
  · exact (show audioSide (unlinkVideo _ e) = audioSide _ from rfl).trans
      (audioSide_releaseVideoSsrc _ e)

/-! ## The audio invariant -/

theorem foldl_push {T : Type} (l acc : List T) : l.foldl MpmcQueue.push acc = acc ++ l := by
  induction l generalizing acc with
  | nil => simp
  | cons x rest ih => simp [List.foldl_cons, ih, MpmcQueue.push]

theorem pop_eq_some {T : Type} {q rest : List T} {x : T}
    (h : MpmcQueue.pop q = some (x, rest)) : q = x :: rest := by
  cases q with
  | nil => simp [MpmcQueue.pop] at h
  | cons y ys =>
    simp only [MpmcQueue.pop, Option.some.injEq, Prod.mk.injEq] at h
    rw [h.1, h.2]

theorem pop_eq_none {T : Type} {q : List T} (h : MpmcQueue.pop q = none) : q = [] := by
  cases q with
  | nil => rfl
  | cons y ys => simp [MpmcQueue.pop] at h

theorem popFromHead_eq_some {l rest : List Nat} {x : Nat}
    (h : ListOps.popFromHead l = some (x, rest)) : l = x :: rest := by
  cases l with
  | nil => simp [ListOps.popFromHead] at h
  | cons y ys =>
    simp only [ListOps.popFromHead, Option.some.injEq, Prod.mk.injEq] at h
    rw [h.1, h.2]

theorem popFromHead_eq_none {l : List Nat} (h : ListOps.popFromHead l = none) : l = [] := by
  cases l with
  | nil => rfl
  | cons y ys => simp [ListOps.popFromHead] at h

theorem audioInv_init (maxParticipants : Nat) (audioSsrcs : List Nat)
    (videoSsrcs : List SimulcastLevel) (defaultLastN audioLastN threshold : Nat) :
    AudioInv (ActiveMediaList.new maxParticipants audioSsrcs videoSsrcs defaultLastN audioLastN
      threshold) := by
  constructor
  · simp [ActiveMediaList.new, foldl_push, MpmcHashmap32.size]
  · intro k hk; simp [ActiveMediaList.new, MpmcHashmap32.keys] at hk
  · simp [ActiveMediaList.new, MpmcHashmap32.keys]
  · simp [ActiveMediaList.new, MpmcHashmap32.keys]

theorem audioInv_claimAudioSsrc {s : ActiveMediaList} (hs : AudioInv s) (e : Nat)
    (he : e ∈ MpmcHashmap32.keys s.audioParticipants)
    (hne : e ∉ MpmcHashmap32.keys s.audioSsrcRewriteMap) :
    AudioInv (bridge.claimAudioSsrc s e) := by
  unfold bridge.claimAudioSsrc
  split
  · exact hs
  · rename_i ssrc pool hp
    have hq := pop_eq_some hp
    have hc := hs.conserved
    constructor
    · simp only [MpmcHashmap32.emplace_of_not_mem _ e ssrc hne, MpmcHashmap32.size,
        List.length_append, List.length_singleton]
      rw [hq] at hc
      simp only [List.length_cons, MpmcHashmap32.size] at hc
      omega
    · intro k hk
      simp only [MpmcHashmap32.emplace_of_not_mem _ e ssrc hne, MpmcHashmap32.keys_append,
        List.mem_append] at hk
      rcases hk with hk | hk
      · exact hs.tracked k hk
      · simp only [MpmcHashmap32.keys, List.map_cons, List.map_nil, List.mem_singleton] at hk
        rw [hk]; exact he
    · simp only [MpmcHashmap32.emplace_of_not_mem _ e ssrc hne, MpmcHashmap32.keys_append,
        ListOps.pushToTail]
      exact hs.listed.append (List.Perm.refl _)
    · simp only [MpmcHashmap32.emplace_of_not_mem _ e ssrc hne, MpmcHashmap32.keys_append]
      refine List.Nodup.append hs.nodup (by simp [MpmcHashmap32.keys]) ?_
      intro x hx hx2
      simp only [MpmcHashmap32.keys, List.map_cons, List.map_nil, List.mem_singleton] at hx2
      exact hne (hx2 ▸ hx)

theorem audioInv_addAudioParticipant {s : ActiveMediaList} (hs : AudioInv s) (e : Nat) :
    AudioInv (bridge.addAudioParticipant s e).1 := by
  unfold bridge.addAudioParticipant
  split
  · exact hs
  · rename_i hcont
    have hnp : e ∉ MpmcHashmap32.keys s.audioParticipants := by
      rw [← MpmcHashmap32.contains_eq_true_iff]; exact hcont
    have hne : e ∉ MpmcHashmap32.keys s.audioSsrcRewriteMap := fun h => hnp (hs.tracked e h)
    have hkeys : MpmcHashmap32.keys (trackAudioParticipant s e).audioParticipants =
        MpmcHashmap32.keys s.audioParticipants ++ [e] := by
      simp [trackAudioParticipant, MpmcHashmap32.emplace_of_not_mem _ e _ hnp,
        MpmcHashmap32.keys_append, MpmcHashmap32.keys]
    split
    · constructor
      · exact hs.conserved
      · intro k hk
        rw [hkeys]
        exact List.mem_append_left _ (hs.tracked k hk)
      · exact hs.listed
      · exact hs.nodup
    · rename_i ssrc pool hp
      have hq := pop_eq_some hp
      have hc := hs.conserved
      constructor
      · simp only [MpmcHashmap32.emplace_of_not_mem _ e ssrc hne, MpmcHashmap32.size,
          List.length_append, List.length_singleton]
        rw [hq] at hc
        simp only [List.length_cons, MpmcHashmap32.size] at hc
        show pool.length + (s.audioSsrcRewriteMap.length + 1) = s.maxSpeakers
        omega
      · intro k hk
        show k ∈ MpmcHashmap32.keys (trackAudioParticipant s e).audioParticipants
        rw [hkeys]
        simp only [MpmcHashmap32.emplace_of_not_mem _ e ssrc hne, MpmcHashmap32.keys_append,
          List.mem_append] at hk
        rcases hk with hk | hk
        · exact List.mem_append_left _ (hs.tracked k hk)
        · exact List.mem_append_right _ hk
      · simp only [MpmcHashmap32.emplace_of_not_mem _ e ssrc hne, MpmcHashmap32.keys_append,
          ListOps.pushToHead]
        show (MpmcHashmap32.keys s.audioSsrcRewriteMap ++ [e]).Perm (e :: s.activeAudioList)
        exact (List.perm_append_comm).trans (List.Perm.cons e hs.listed)
      · simp only [MpmcHashmap32.emplace_of_not_mem _ e ssrc hne, MpmcHashmap32.keys_append]
        refine List.Nodup.append hs.nodup (by simp [MpmcHashmap32.keys]) ?_
        intro x hx hx2
        simp only [MpmcHashmap32.keys, List.map_cons, List.map_nil, List.mem_singleton] at hx2
        exact hne (hx2 ▸ hx)
theorem remove_fst (l : List Nat) (x : Nat) : (ListOps.remove l x).1 = l.erase x := by
  unfold ListOps.remove
  split
  · rfl
  · rename_i h
    exact (List.erase_of_not_mem h).symm

theorem remove_snd (l : List Nat) (x : Nat) : (ListOps.remove l x).2 = decide (x ∈ l) := by
  unfold ListOps.remove
  split <;> simp_all

theorem erase_eq_filter_of_nodup {l : List Nat} (h : l.Nodup) (x : Nat) :
    l.erase x = l.filter (fun y => !decide (y = x)) := by
  rw [List.Nodup.erase_eq_filter h]
  congr 1

theorem audioInv_released {s t : ActiveMediaList} (hs : AudioInv s) (h ssrc : Nat)
    (hf : MpmcHashmap32.find s.audioSsrcRewriteMap h = some ssrc)
    (h1 : t.audioSsrcs = MpmcQueue.push s.audioSsrcs ssrc)
    (h2 : t.audioSsrcRewriteMap = MpmcHashmap32.erase s.audioSsrcRewriteMap h)
    (h3 : t.activeAudioList = s.activeAudioList.erase h)
    (h4 : t.maxSpeakers = s.maxSpeakers)
    (h5 : ∀ k ∈ MpmcHashmap32.keys s.audioParticipants, k ≠ h →
      k ∈ MpmcHashmap32.keys t.audioParticipants) : AudioInv t := by
  have hmem := MpmcHashmap32.mem_keys_of_find _ _ _ hf
  constructor
  · rw [h1, h2, h4]
    have := MpmcHashmap32.length_erase_add_one _ h hmem hs.nodup
    have hc := hs.conserved
    simp only [MpmcQueue.push, List.length_append, List.length_singleton,
      MpmcHashmap32.size] at this hc ⊢
    omega
  · intro k hk
    rw [h2, MpmcHashmap32.mem_keys_erase] at hk
    exact h5 k (hs.tracked k hk.1) hk.2
  · rw [h2, h3, MpmcHashmap32.keys_erase, ← erase_eq_filter_of_nodup hs.nodup]
    exact hs.listed.erase h
  · rw [h2]; exact MpmcHashmap32.nodup_keys_erase _ _ hs.nodup

theorem audioInv_removeAudioParticipant {s : ActiveMediaList} (hs : AudioInv s) (e : Nat) :
    AudioInv (bridge.removeAudioParticipant s e).1 := by
  unfold bridge.removeAudioParticipant
  split
  · rename_i ssrc hf
    refine audioInv_released hs e ssrc hf rfl rfl (remove_fst _ _) rfl ?_
    intro k hk hne
    exact (MpmcHashmap32.mem_keys_erase _ _ _).2 ⟨hk, hne⟩
  · rename_i hf
    have hne := (MpmcHashmap32.find_eq_none_iff _ _).1 hf
    constructor
    · exact hs.conserved
    · intro k hk
      refine (MpmcHashmap32.mem_keys_erase _ _ _).2 ⟨hs.tracked k hk, ?_⟩
      intro e2; exact hne (e2 ▸ hk)
    · exact hs.listed
    · exact hs.nodup

theorem audioInv_updateActiveAudioList {s : ActiveMediaList} (hs : AudioInv s) (e : Nat)
    (he : e ∈ MpmcHashmap32.keys s.audioParticipants) :
    AudioInv (bridge.updateActiveAudioList s e) := by
  unfold bridge.updateActiveAudioList
  split
  · rename_i hc
    have hmem : e ∈ s.activeAudioList :=
      (hs.listed.mem_iff).1 ((MpmcHashmap32.contains_eq_true_iff _ _).1 hc)
    split
    · exact hs
    · rename_i l hr
      have hl : l = s.activeAudioList.erase e := by
        have := remove_fst s.activeAudioList e
        rw [hr] at this; exact this
      constructor
      · exact hs.conserved
      · exact hs.tracked
      · show (MpmcHashmap32.keys s.audioSsrcRewriteMap).Perm (l ++ [e])
        rw [hl]
        exact hs.listed.trans ((List.perm_cons_erase hmem).trans
          (List.perm_append_singleton e _).symm)
      · exact hs.nodup
  · rename_i hc
    have hne : e ∉ MpmcHashmap32.keys s.audioSsrcRewriteMap := by
      rw [← MpmcHashmap32.contains_eq_true_iff]; exact hc
    split
    · split
      · exact hs
      · rename_i r l hp
        have hlist := popFromHead_eq_some hp
        have hr : r ∈ MpmcHashmap32.keys s.audioSsrcRewriteMap := by
          rw [hs.listed.mem_iff, hlist]; exact List.mem_cons_self _ _
        split
        · rename_i hf
          exact absurd hr ((MpmcHashmap32.find_eq_none_iff _ _).1 hf)
        · rename_i ssrc hf
          refine audioInv_claimAudioSsrc ?_ e he ?_
          · refine audioInv_released hs r ssrc hf rfl rfl ?_ rfl (fun k hk _ => hk)
            show l = s.activeAudioList.erase r
            rw [hlist]; simp
          · show e ∉ MpmcHashmap32.keys (MpmcHashmap32.erase s.audioSsrcRewriteMap r)
            rw [MpmcHashmap32.mem_keys_erase]
            exact fun h => hne h.1
    · exact audioInv_claimAudioSsrc hs e he hne

/-! ## The arbiter and the audio invariant -/

theorem keys_ingestEntry (m : MpmcHashmap32 AudioParticipant) (x : AudioLevelEntry) :
    MpmcHashmap32.keys (ingestEntry m x) = MpmcHashmap32.keys m := by
  unfold ingestEntry
  split
  · exact MpmcHashmap32.keys_modify _ _ _
  · rfl

theorem keys_foldl_ingestEntry (q : List AudioLevelEntry) (m : MpmcHashmap32 AudioParticipant) :
    MpmcHashmap32.keys (q.foldl ingestEntry m) = MpmcHashmap32.keys m := by
  induction q generalizing m with
  | nil => rfl
  | cons x rest ih => rw [List.foldl_cons, ih, keys_ingestEntry]

theorem keys_updateLevels (s : ActiveMediaList) :
    MpmcHashmap32.keys (updateLevels s).audioParticipants =
      MpmcHashmap32.keys s.audioParticipants := by
  unfold updateLevels
  simp only [keys_foldl_ingestEntry]
  simp [MpmcHashmap32.keys, List.map_map, Function.comp_def]

theorem audioSide_updateLevels (s : ActiveMediaList) :
    audioSide (updateLevels s) = audioSide s := by
  have h := keys_updateLevels s
  simp only [audioSide, h]
  rfl

theorem rankLoop_participants (d : Nat) (m : MpmcHashmap32 AudioParticipant) (cur : ℚ)
    (acc : List AudioParticipantScore) :
    ∀ x ∈ (rankLoop d m cur acc).2, x ∈ acc ∨ x.participant ∈ MpmcHashmap32.keys m := by
  induction m generalizing cur acc with
  | nil => intro x hx; exact Or.inl hx
  | cons p rest ih =>
    obtain ⟨k, v⟩ := p
    intro x hx
    unfold rankLoop at hx
    split at hx
    · rcases ih _ _ x hx with h | h
      · exact Or.inl h
      · exact Or.inr (List.mem_cons_of_mem _ h)
    · rcases ih _ _ x hx with h | h
      · rcases List.mem_append.1 h with h | h
        · exact Or.inl h
        · right
          simp only [List.mem_singleton] at h
          rw [h]
          exact List.mem_cons_self _ _
      · exact Or.inr (List.mem_cons_of_mem _ h)

theorem rankSpeakers_participants (s : ActiveMediaList) :
    ∀ x ∈ (rankSpeakers s).2, x.participant ∈ MpmcHashmap32.keys s.audioParticipants := by
  intro x hx
  rcases rankLoop_participants _ _ _ _ x hx with h | h
  · cases h
  · exact h

theorem heapTop_mem {heap : List AudioParticipantScore} {t : AudioParticipantScore}
    (h : heapTop heap = some t) : t ∈ heap := by
  induction heap generalizing t with
  | nil => simp [heapTop] at h
  | cons x rest ih =>
    unfold heapTop at h
    split at h
    · cases h; exact List.mem_cons_self _ _
    · rename_i y hy
      split at h
      · cases h; exact List.mem_cons_of_mem _ (ih hy)
      · cases h; exact List.mem_cons_self _ _

theorem heapTop_eq_none {heap : List AudioParticipantScore} (h : heapTop heap = none) :
    heap = [] := by
  cases heap with
  | nil => rfl
  | cons x rest =>
    unfold heapTop at h
    split at h
    · cases h
    · split at h <;> cases h

theorem heapPop_subset (heap : List AudioParticipantScore) :
    ∀ x ∈ heapPop heap, x ∈ heap := by
  intro x hx
  unfold heapPop at hx
  split at hx
  · exact hx
  · exact List.mem_of_mem_erase hx

theorem audioParticipants_claimAudioSsrc (s : ActiveMediaList) (e : Nat) :
    (claimAudioSsrc s e).audioParticipants = s.audioParticipants := by
  unfold claimAudioSsrc
  split <;> rfl

theorem audioParticipants_updateActiveAudioList (s : ActiveMediaList) (e : Nat) :
    (updateActiveAudioList s e).audioParticipants = s.audioParticipants := by
  unfold updateActiveAudioList
  split
  · split <;> rfl
  · split
    · split
      · rfl
      · split
        · rfl
        · rw [audioParticipants_claimAudioSsrc]
    · rw [audioParticipants_claimAudioSsrc]

theorem processTopSpeakers_inv (n : Nat) (s : ActiveMediaList)
    (heap : List AudioParticipantScore) (snapshot : List ActiveTalker) (hs : AudioInv s)
    (hh : ∀ x ∈ heap, x.participant ∈ MpmcHashmap32.keys s.audioParticipants) :
    AudioInv (processTopSpeakers n s heap snapshot).1 ∧
      (processTopSpeakers n s heap snapshot).1.audioParticipants = s.audioParticipants := by
  induction n generalizing s heap snapshot with
  | zero => exact ⟨hs, rfl⟩
  | succ n ih =>
    unfold processTopSpeakers
    split
    · exact ⟨hs, rfl⟩
    · rename_i top ht
      have hp := audioParticipants_updateActiveAudioList s top.participant
      have h1 := audioInv_updateActiveAudioList hs top.participant (hh top (heapTop_mem ht))
      have h2 := ih (updateActiveAudioList s top.participant) (heapPop heap)
        (if ((updateActiveAudioList s top.participant).activeTalkerSilenceThresholdDb : ℚ) <
              top.score - top.noiseLevel ∧
            snapshot.length < (updateActiveAudioList s top.participant).maxParticipants / 2 then
          snapshot ++ [{ endpointHashId := top.participant
                         ptt := if MpmcHashmap32.contains
                                  (updateActiveAudioList s top.participant).audioParticipants
                                  top.participant
                                then false else pttThroughEnd
                         score := toUint8 top.score
                         noiseLevel := toUint8 top.noiseLevel }]
        else snapshot) h1
        (by
          intro x hx
          rw [hp]
          exact hh x (heapPop_subset heap x hx))
      exact ⟨h2.1, h2.2.trans hp⟩

theorem audioSide_countWin (s : ActiveMediaList) (w : Nat) :
    audioSide (countWin s w) = audioSide s := by
  unfold countWin
  split <;> rfl

theorem audioSide_nominate (s : ActiveMediaList) (timestamp : Nat) (d : AudioParticipantScore)
    (c : ℚ) : audioSide (nominate s timestamp d c).1 = audioSide s := by
  unfold nominate
  split
  · rfl
  · dsimp only
    split
    · rw [audioSide_updateActiveVideoList]
      exact audioSide_countWin s _
    · exact audioSide_countWin s _

theorem audioInv_process {s : ActiveMediaList} (hs : AudioInv s) (timestamp : Nat) :
    AudioInv (bridge.process s timestamp).1 := by
  unfold bridge.process
  split
  · exact hs
  · have h0 : AudioInv { s with lastRunTimestamp := timestamp } :=
      audioInv_congr (s := s) rfl hs
    have h1 : AudioInv (updateLevels { s with lastRunTimestamp := timestamp }) :=
      audioInv_congr (audioSide_updateLevels _) h0
    dsimp only
    split
    · exact h1
    · have h2 := processTopSpeakers_inv
        (updateLevels { s with lastRunTimestamp := timestamp }).audioLastN
        (updateLevels { s with lastRunTimestamp := timestamp })
        (rankSpeakers (updateLevels { s with lastRunTimestamp := timestamp })).2 [] h1
        (rankSpeakers_participants _)
      refine audioInv_congr (audioSide_nominate _ _ _ _) ?_
      exact audioInv_congr (s := (processTopSpeakers
        (updateLevels { s with lastRunTimestamp := timestamp }).audioLastN
        (updateLevels { s with lastRunTimestamp := timestamp })
        (rankSpeakers (updateLevels { s with lastRunTimestamp := timestamp })).2 []).1) rfl h2.1

theorem reachable_audioInv {init s : ActiveMediaList} (hinit : AudioInv init)
    (h : ReachableTracked init s) : AudioInv s := by
  induction h with
  | start => exact hinit
  | addAudio e _ ih => exact audioInv_addAudioParticipant ih e
  | removeAudio e _ ih => exact audioInv_removeAudioParticipant ih e
  | @newLevel s0 e level ptt _ ih => exact audioInv_congr (s := s0) rfl ih
  | tick timestamp _ ih => exact audioInv_process ih timestamp
  | promoteAudio e _ he ih =>
    exact audioInv_updateActiveAudioList ih e ((MpmcHashmap32.contains_eq_true_iff _ _).1 he)
  | addVideo e p q _ _ ih => exact audioInv_congr (audioSide_addVideoParticipant _ _ _ _) ih
  | removeVideo e _ ih => exact audioInv_congr (audioSide_removeVideoParticipant _ _) ih
  | promoteVideo e _ ih => exact audioInv_congr (audioSide_updateActiveVideoList _ _) ih

/-! ## The audio side under arbitrary promotions -/

theorem audioLoose_congr {s t : ActiveMediaList} (h : audioSide t = audioSide s)
    (hs : AudioLoose s) : AudioLoose t := by
  simp only [audioSide, Prod.mk.injEq] at h
  obtain ⟨_, h2, h3, h4, h5⟩ := h
  constructor
  · rw [h3]; exact hs.nodup
  · rw [h3, h4]; exact hs.owned
  · rw [h2, h4, h5]; exact hs.room
  · rw [h2, h3, h4, h5]; exact hs.intact

theorem audioLoose_size_le {s : ActiveMediaList} (hs : AudioLoose s) :
    MpmcHashmap32.size s.audioSsrcRewriteMap ≤ s.activeAudioList.length := by
  have h := (List.subperm_of_subset hs.nodup hs.owned).length_le
  simpa [MpmcHashmap32.size, MpmcHashmap32.keys] using h

theorem audioLoose_init (maxParticipants : Nat) (audioSsrcs : List Nat)
    (videoSsrcs : List SimulcastLevel) (defaultLastN audioLastN threshold : Nat) :
    AudioLoose (ActiveMediaList.new maxParticipants audioSsrcs videoSsrcs defaultLastN audioLastN
      threshold) := by
  constructor
  · simp [ActiveMediaList.new, MpmcHashmap32.keys]
  · intro k hk; simp [ActiveMediaList.new, MpmcHashmap32.keys] at hk
  · simp [ActiveMediaList.new, foldl_push]
  · intro _; simp [ActiveMediaList.new, MpmcHashmap32.keys]

theorem audioLoose_claimAudioSsrc {s : ActiveMediaList} (hs : AudioLoose s) (e : Nat)
    (hne : e ∉ MpmcHashmap32.keys s.audioSsrcRewriteMap) :
    AudioLoose (bridge.claimAudioSsrc s e) := by
  unfold bridge.claimAudioSsrc
  split
  · exact hs
  · rename_i ssrc pool hp
    have hq := pop_eq_some hp
    have hroom := hs.room
    rw [hq] at hroom
    constructor
    · simp only [MpmcHashmap32.emplace_of_not_mem _ e ssrc hne, MpmcHashmap32.keys_append]
      refine List.Nodup.append hs.nodup (by simp [MpmcHashmap32.keys]) ?_
      intro x hx hx2
      simp only [MpmcHashmap32.keys, List.map_cons, List.map_nil, List.mem_singleton] at hx2
      exact hne (hx2 ▸ hx)
    · intro k hk
      simp only [MpmcHashmap32.emplace_of_not_mem _ e ssrc hne, MpmcHashmap32.keys_append,
        List.mem_append, ListOps.pushToTail] at hk ⊢
      rcases hk with hk | hk
      · exact Or.inl (hs.owned k hk)
      · simp only [MpmcHashmap32.keys, List.map_cons, List.map_nil, List.mem_singleton] at hk
        exact Or.inr (by simp [hk])
    · simp only [ListOps.pushToTail, List.length_append, List.length_singleton]
      simp only [List.length_cons] at hroom
      omega
    · intro hfull
      simp only [MpmcHashmap32.emplace_of_not_mem _ e ssrc hne, MpmcHashmap32.keys_append,
        ListOps.pushToTail]
      refine (hs.intact ?_).append (List.Perm.refl _)
      simp only [MpmcHashmap32.emplace_of_not_mem _ e ssrc hne, MpmcHashmap32.size,
        List.length_append, List.length_singleton] at hfull
      rw [hq]
      simp only [MpmcHashmap32.size, List.length_cons]
      omega

theorem audioLoose_addAudioParticipant {s : ActiveMediaList} (hs : AudioLoose s) (e : Nat) :
    AudioLoose (bridge.addAudioParticipant s e).1 := by
  unfold bridge.addAudioParticipant
  split
  · exact hs
  · split
    · exact ⟨hs.nodup, hs.owned, hs.room, hs.intact⟩
    · rename_i ssrc pool hp
      have hq := pop_eq_some hp
      have hroom := hs.room
      have hsize := audioLoose_size_le hs
      rw [hq] at hroom
      simp only [List.length_cons] at hroom
      by_cases hmem : e ∈ MpmcHashmap32.keys s.audioSsrcRewriteMap
      · constructor
        · show (MpmcHashmap32.keys (MpmcHashmap32.emplace s.audioSsrcRewriteMap e ssrc)).Nodup
          rw [MpmcHashmap32.emplace_of_mem _ e ssrc hmem]; exact hs.nodup
        · intro k hk
          have hk2 : k ∈ MpmcHashmap32.keys s.audioSsrcRewriteMap := by
            have h2 : k ∈ MpmcHashmap32.keys
                (MpmcHashmap32.emplace s.audioSsrcRewriteMap e ssrc) := hk
            rw [MpmcHashmap32.emplace_of_mem _ e ssrc hmem] at h2; exact h2
          exact List.mem_cons_of_mem _ (hs.owned k hk2)
        · show (e :: s.activeAudioList).length + pool.length ≤ s.maxSpeakers
          simp only [List.length_cons]; omega
        · intro hfull
          exfalso
          have h2 : MpmcHashmap32.size (MpmcHashmap32.emplace s.audioSsrcRewriteMap e ssrc) +
              pool.length = s.maxSpeakers := hfull
          rw [MpmcHashmap32.emplace_of_mem _ e ssrc hmem] at h2
          omega
      · constructor
        · show (MpmcHashmap32.keys (MpmcHashmap32.emplace s.audioSsrcRewriteMap e ssrc)).Nodup
          rw [MpmcHashmap32.emplace_of_not_mem _ e ssrc hmem, MpmcHashmap32.keys_append]
          refine List.Nodup.append hs.nodup (by simp [MpmcHashmap32.keys]) ?_
          intro x hx hx2
          simp only [MpmcHashmap32.keys, List.map_cons, List.map_nil, List.mem_singleton] at hx2
          exact hmem (hx2 ▸ hx)
        · intro k hk
          have h2 : k ∈ MpmcHashmap32.keys
              (MpmcHashmap32.emplace s.audioSsrcRewriteMap e ssrc) := hk
          rw [MpmcHashmap32.emplace_of_not_mem _ e ssrc hmem, MpmcHashmap32.keys_append,
            List.mem_append] at h2
          show k ∈ e :: s.activeAudioList
          rcases h2 with h2 | h2
          · exact List.mem_cons_of_mem _ (hs.owned k h2)
          · simp only [MpmcHashmap32.keys, List.map_cons, List.map_nil, List.mem_singleton] at h2
            rw [h2]; exact List.mem_cons_self _ _
        · show (e :: s.activeAudioList).length + pool.length ≤ s.maxSpeakers
          simp only [List.length_cons]; omega
        · intro hfull
          have h2 : MpmcHashmap32.size (MpmcHashmap32.emplace s.audioSsrcRewriteMap e ssrc) +
              pool.length = s.maxSpeakers := hfull
          rw [MpmcHashmap32.emplace_of_not_mem _ e ssrc hmem] at h2
          simp only [MpmcHashmap32.size, List.length_append, List.length_singleton] at h2
          have h3 := hs.intact (by rw [hq]; simp only [MpmcHashmap32.size, List.length_cons]; omega)
          show (MpmcHashmap32.keys (MpmcHashmap32.emplace s.audioSsrcRewriteMap e ssrc)).Perm
            (e :: s.activeAudioList)
          rw [MpmcHashmap32.emplace_of_not_mem _ e ssrc hmem, MpmcHashmap32.keys_append]
          exact (List.perm_append_singleton e _).trans (List.Perm.cons e h3)

theorem audioLoose_released {s t : ActiveMediaList} (hs : AudioLoose s) (h ssrc : Nat)
    (hf : MpmcHashmap32.find s.audioSsrcRewriteMap h = some ssrc)
    (h1 : t.audioSsrcs = MpmcQueue.push s.audioSsrcs ssrc)
    (h2 : t.audioSsrcRewriteMap = MpmcHashmap32.erase s.audioSsrcRewriteMap h)
    (h3 : t.activeAudioList = s.activeAudioList.erase h)
    (h4 : t.maxSpeakers = s.maxSpeakers) : AudioLoose t := by
  have hmem := MpmcHashmap32.mem_keys_of_find _ _ _ hf
  have hlist : h ∈ s.activeAudioList := hs.owned h hmem
  have hlen := MpmcHashmap32.length_erase_add_one _ h hmem hs.nodup
  have hroom := hs.room
  constructor
  · rw [h2]; exact MpmcHashmap32.nodup_keys_erase _ _ hs.nodup
  · intro k hk
    rw [h2, MpmcHashmap32.mem_keys_erase] at hk
    rw [h3]
    exact (List.mem_erase_of_ne hk.2).2 (hs.owned k hk.1)
  · rw [h1, h3, h4, List.length_erase_of_mem hlist]
    have hpos : 0 < s.activeAudioList.length := List.length_pos_of_mem hlist
    simp only [MpmcQueue.push, List.length_append, List.length_singleton]
    omega
  · intro hfull
    rw [h1, h2, h4] at hfull
    simp only [MpmcQueue.push, List.length_append, List.length_singleton,
      MpmcHashmap32.size] at hfull
    have hp := hs.intact (by simp only [MpmcHashmap32.size]; omega)
    rw [h2, h3, MpmcHashmap32.keys_erase, ← erase_eq_filter_of_nodup hs.nodup]
    exact hp.erase h

theorem audioLoose_removeAudioParticipant {s : ActiveMediaList} (hs : AudioLoose s) (e : Nat) :
    AudioLoose (bridge.removeAudioParticipant s e).1 := by
  unfold bridge.removeAudioParticipant
  split
  · rename_i ssrc hf
    exact audioLoose_released hs e ssrc hf rfl rfl (remove_fst _ _) rfl
  · exact ⟨hs.nodup, hs.owned, hs.room, hs.intact⟩

theorem audioLoose_updateActiveAudioList {s : ActiveMediaList} (hs : AudioLoose s) (e : Nat) :
    AudioLoose (bridge.updateActiveAudioList s e) := by
  unfold bridge.updateActiveAudioList
  split
  · rename_i hc
    have hmem : e ∈ s.activeAudioList :=
      hs.owned e ((MpmcHashmap32.contains_eq_true_iff _ _).1 hc)
    split
    · exact hs
    · rename_i l hr
      have hl : l = s.activeAudioList.erase e := by
        have := remove_fst s.activeAudioList e
        rw [hr] at this; exact this
      have hperm : s.activeAudioList.Perm (l ++ [e]) := by
        rw [hl]
        exact (List.perm_cons_erase hmem).trans (List.perm_append_singleton e _).symm
      constructor
      · exact hs.nodup
      · intro k hk
        exact (hperm.mem_iff).1 (hs.owned k hk)
      · show (l ++ [e]).length + s.audioSsrcs.length ≤ s.maxSpeakers
        rw [← hperm.length_eq]; exact hs.room
      · intro hfull
        exact (hs.intact hfull).trans hperm
  · rename_i hc
    have hne : e ∉ MpmcHashmap32.keys s.audioSsrcRewriteMap := by
      rw [← MpmcHashmap32.contains_eq_true_iff]; exact hc
    split
    · rename_i hfull
      have hsize := audioLoose_size_le hs
      have hroom := hs.room
      have hperm := hs.intact (by omega)
      split
      · exact hs
      · rename_i r l hp
        have hlist := popFromHead_eq_some hp
        have hr : r ∈ MpmcHashmap32.keys s.audioSsrcRewriteMap := by
          rw [hperm.mem_iff, hlist]; exact List.mem_cons_self _ _
        split
        · rename_i hf
          exact absurd hr ((MpmcHashmap32.find_eq_none_iff _ _).1 hf)
        · rename_i ssrc hf
          refine audioLoose_claimAudioSsrc ?_ e ?_
          · refine audioLoose_released hs r ssrc hf rfl rfl ?_ rfl
            show l = s.activeAudioList.erase r
            rw [hlist]; simp
          · show e ∉ MpmcHashmap32.keys (MpmcHashmap32.erase s.audioSsrcRewriteMap r)
            rw [MpmcHashmap32.mem_keys_erase]
            exact fun h => hne h.1
    · exact audioLoose_claimAudioSsrc hs e hne

theorem processTopSpeakers_loose (n : Nat) (s : ActiveMediaList)
    (heap : List AudioParticipantScore) (snapshot : List ActiveTalker) (hs : AudioLoose s) :
    AudioLoose (processTopSpeakers n s heap snapshot).1 := by
  induction n generalizing s heap snapshot with
  | zero => exact hs
  | succ n ih =>
    unfold processTopSpeakers
    split
    · exact hs
    · rename_i top ht
      exact ih _ _ _ (audioLoose_updateActiveAudioList hs top.participant)

theorem audioLoose_process {s : ActiveMediaList} (hs : AudioLoose s) (timestamp : Nat) :
    AudioLoose (bridge.process s timestamp).1 := by
  unfold bridge.process
  split
  · exact hs
  · have h0 : AudioLoose { s with lastRunTimestamp := timestamp } :=
      audioLoose_congr (s := s) rfl hs
    have h1 : AudioLoose (updateLevels { s with lastRunTimestamp := timestamp }) :=
      audioLoose_congr (audioSide_updateLevels _) h0
    dsimp only
    split
    · exact h1
    · have h2 := processTopSpeakers_loose
        (updateLevels { s with lastRunTimestamp := timestamp }).audioLastN
        (updateLevels { s with lastRunTimestamp := timestamp })
        (rankSpeakers (updateLevels { s with lastRunTimestamp := timestamp })).2 [] h1
      refine audioLoose_congr (audioSide_nominate _ _ _ _) ?_
      exact audioLoose_congr (s := (processTopSpeakers
        (updateLevels { s with lastRunTimestamp := timestamp }).audioLastN
        (updateLevels { s with lastRunTimestamp := timestamp })
        (rankSpeakers (updateLevels { s with lastRunTimestamp := timestamp })).2 []).1) rfl h2

theorem reachable_audioLoose {init s : ActiveMediaList} (hinit : AudioLoose init)
    (h : Reachable init s) : AudioLoose s := by
  induction h with
  | start => exact hinit
  | addAudio e _ ih => exact audioLoose_addAudioParticipant ih e
  | removeAudio e _ ih => exact audioLoose_removeAudioParticipant ih e
  | @newLevel s0 e level ptt _ ih => exact audioLoose_congr (s := s0) rfl ih
  | tick timestamp _ ih => exact audioLoose_process ih timestamp
  | promoteAudio e _ ih => exact audioLoose_updateActiveAudioList ih e
  | addVideo e p q _ _ ih => exact audioLoose_congr (audioSide_addVideoParticipant _ _ _ _) ih
  | removeVideo e _ ih => exact audioLoose_congr (audioSide_removeVideoParticipant _ _) ih
  | promoteVideo e _ ih => exact audioLoose_congr (audioSide_updateActiveVideoList _ _) ih

theorem reachableTracked_reachable {init s : ActiveMediaList}
    (h : ReachableTracked init s) : Reachable init s := by
  induction h with
  | start => exact Reachable.start
  | addAudio e _ ih => exact Reachable.addAudio e ih
  | removeAudio e _ ih => exact Reachable.removeAudio e ih
  | newLevel e level ptt _ ih => exact Reachable.newLevel e level ptt ih
  | tick timestamp _ ih => exact Reachable.tick timestamp ih
  | promoteAudio e _ _ ih => exact Reachable.promoteAudio e ih
  | addVideo e p q _ he ih => exact Reachable.addVideo e p q ih he
  | removeVideo e _ ih => exact Reachable.removeVideo e ih
  | promoteVideo e _ ih => exact Reachable.promoteVideo e ih

/-! ## The video invariant -/

namespace MpmcHashmap32

theorem mem_keys_emplace {V : Type} (m : MpmcHashmap32 V) (k x : Nat) (v : V)
    (h : x ∈ keys (emplace m k v)) : x ∈ keys m ∨ x = k := by
  unfold emplace at h
  split at h
  · exact Or.inl h
  · rw [keys_append, List.mem_append] at h
    rcases h with h | h
    · exact Or.inl h
    · right; simpa [keys] using h

theorem find_of_mem {V : Type} (m : MpmcHashmap32 V) (k : Nat) (v : V)
    (hm : (k, v) ∈ m) (hn : (keys m).Nodup) : find m k = some v := by
  induction m with
  | nil => cases hm
  | cons p rest ih =>
    obtain ⟨a, b⟩ := p
    simp only [keys_cons, List.nodup_cons] at hn
    rcases List.mem_cons.1 hm with h | h
    · cases h; simp [find]
    · have hk : k ∈ keys rest := List.mem_map_of_mem Prod.fst h
      have ha : ¬ a = k := fun e => hn.1 (e ▸ hk)
      simp only [find, if_neg ha]
      exact ih h hn.2

theorem mem_of_find {V : Type} (m : MpmcHashmap32 V) (k : Nat) (v : V)
    (h : find m k = some v) : (k, v) ∈ m := by
  induction m with
  | nil => simp [find] at h
  | cons p rest ih =>
    obtain ⟨a, b⟩ := p
    by_cases ha : a = k
    · simp only [find, if_pos ha, Option.some.injEq] at h
      rw [ha, h]; exact List.mem_cons_self _ _
    · simp only [find, if_neg ha] at h
      exact List.mem_cons_of_mem _ (ih h)

theorem mem_erase_of_mem {V : Type} (m : MpmcHashmap32 V) (k : Nat) (p : Nat × V)
    (hp : p ∈ m) (hk : p.1 ≠ k) : p ∈ erase m k := by
  unfold erase
  rw [List.mem_filter]
  exact ⟨hp, by simpa using hk⟩

end MpmcHashmap32

theorem videoInv_init (maxParticipants : Nat) (audioSsrcs : List Nat)
    (videoSsrcs : List SimulcastLevel) (defaultLastN audioLastN threshold : Nat) :
    VideoInv videoSsrcs.tail (ActiveMediaList.new maxParticipants audioSsrcs videoSsrcs
      defaultLastN audioLastN threshold) := by
  have hpool : (ActiveMediaList.new maxParticipants audioSsrcs videoSsrcs defaultLastN
      audioLastN threshold).videoSsrcs = videoSsrcs.tail := by
    cases videoSsrcs with
    | nil => rfl
    | cons x rest => simp [ActiveMediaList.new, foldl_push, MpmcQueue.pop, MpmcQueue.push]
  constructor
  · rw [hpool]; simp [ActiveMediaList.new]
  · intro k hk; simp [ActiveMediaList.new, MpmcHashmap32.keys] at hk
  · simp [ActiveMediaList.new, MpmcHashmap32.keys]
  · intro k hk; simp [ActiveMediaList.new] at hk
  · simp [ActiveMediaList.new]
  · simp [ActiveMediaList.new, MpmcHashmap32.keys]
  · intro k hk; simp [ActiveMediaList.new, MpmcHashmap32.keys] at hk
  · intro h m hm; simp [ActiveMediaList.new] at hm
  · intro k hk; simp [ActiveMediaList.new, MpmcHashmap32.keys] at hk

theorem videoInv_unlinked {levels : List SimulcastLevel} {s t : ActiveMediaList}
    (hs : VideoInv levels s) (r : Nat)
    (hP : t.videoParticipants = s.videoParticipants)
    (hM : t.videoScreenShareSsrcMapping = s.videoScreenShareSsrcMapping)
    (hL : t.activeVideoList = s.activeVideoList.erase r)
    (hK : t.activeVideoListLookupMap = MpmcHashmap32.erase s.activeVideoListLookupMap r)
    (hR : ReleasedFrom s t r) : VideoInv levels t := by
  have hmemL : ∀ k, k ∈ s.activeVideoList → k ≠ r → k ∈ t.activeVideoList := by
    intro k hk hne
    rw [hL]; exact (List.mem_erase_of_ne hne).2 hk
  rcases hR with ⟨hf, h1, h2, h3⟩ | ⟨level, hf, h1, h2, h3⟩
  · have hnr := (MpmcHashmap32.find_eq_none_iff _ _).1 hf
    constructor
    · rw [h1, h2]; exact hs.conserved
    · intro k hk
      rw [h2] at hk
      exact hmemL k (hs.owners k hk) (fun e => hnr (e ▸ hk))
    · rw [h2]; exact hs.ownersNodup
    · intro k hk
      rw [hL] at hk
      rw [hP]; exact hs.listed k (List.mem_of_mem_erase hk)
    · rw [hL]; exact hs.listNodup.erase r
    · rw [hP]; exact hs.nonzero
    · intro k hk
      rw [hK, MpmcHashmap32.mem_keys_erase] at hk
      exact hmemL k (hs.lookup k hk.1) hk.2
    · intro h m hm
      rw [hM] at hm
      rw [hP]; exact hs.holder h m hm
    · rw [h2, h3]; exact hs.reversed
  · constructor
    · rw [h1, h2]
      have hp := MpmcHashmap32.values_perm_erase _ r level hf hs.ownersNodup
      refine List.Perm.trans ?_ hs.conserved
      rw [List.append_assoc]
      refine List.Perm.append_left _ ?_
      exact hp.symm
    · intro k hk
      rw [h2, MpmcHashmap32.mem_keys_erase] at hk
      exact hmemL k (hs.owners k hk.1) hk.2
    · rw [h2]; exact MpmcHashmap32.nodup_keys_erase _ _ hs.ownersNodup
    · intro k hk
      rw [hL] at hk
      rw [hP]; exact hs.listed k (List.mem_of_mem_erase hk)
    · rw [hL]; exact hs.listNodup.erase r
    · rw [hP]; exact hs.nonzero
    · intro k hk
      rw [hK, MpmcHashmap32.mem_keys_erase] at hk
      exact hmemL k (hs.lookup k hk.1) hk.2
    · intro h m hm
      rw [hM] at hm
      rw [hP]; exact hs.holder h m hm
    · intro k hk
      rw [h3, MpmcHashmap32.mem_keys_erase] at hk
      rw [h2]
      have := hs.reversed k hk.1
      rw [List.mem_map] at this ⊢
      obtain ⟨p, hp, hpk⟩ := this
      refine ⟨p, MpmcHashmap32.mem_erase_of_mem _ _ p hp ?_, hpk⟩
      intro e
      have hfp : MpmcHashmap32.find s.videoSsrcRewriteMap p.1 = some p.2 :=
        MpmcHashmap32.find_of_mem _ _ _ hp hs.ownersNodup
      rw [e, hf] at hfp
      have : level = p.2 := Option.some.inj hfp
      exact hk.2 (by rw [← hpk, this])
theorem videoInv_linked {levels : List SimulcastLevel} {s t : ActiveMediaList}
    (hs : VideoInv levels s) (e : Nat)
    (he : e ∈ MpmcHashmap32.keys s.videoParticipants) (hne : e ∉ s.activeVideoList)
    (hP : t.videoParticipants = s.videoParticipants)
    (hM : t.videoScreenShareSsrcMapping = s.videoScreenShareSsrcMapping)
    (hL : t.activeVideoList.Perm (e :: s.activeVideoList))
    (hK : ∀ k ∈ MpmcHashmap32.keys t.activeVideoListLookupMap,
      k ∈ MpmcHashmap32.keys s.activeVideoListLookupMap ∨ k = e)
    (hR : ClaimedFrom s t e) : VideoInv levels t := by
  have hmemL : ∀ k, k ∈ s.activeVideoList → k ∈ t.activeVideoList := by
    intro k hk
    rw [hL.mem_iff]; exact List.mem_cons_of_mem _ hk
  have heL : e ∈ t.activeVideoList := by
    rw [hL.mem_iff]; exact List.mem_cons_self _ _
  have hlisted : ∀ k ∈ t.activeVideoList, k ∈ MpmcHashmap32.keys t.videoParticipants := by
    intro k hk
    rw [hP]
    rw [hL.mem_iff] at hk
    rcases List.mem_cons.1 hk with h | h
    · rw [h]; exact he
    · exact hs.listed k h
  have hnodup : t.activeVideoList.Nodup :=
    (hL.nodup_iff).2 (List.nodup_cons.2 ⟨hne, hs.listNodup⟩)
  have hlookup : ∀ k ∈ MpmcHashmap32.keys t.activeVideoListLookupMap,
      k ∈ t.activeVideoList := by
    intro k hk
    rcases hK k hk with h | h
    · exact hmemL k (hs.lookup k h)
    · rw [h]; exact heL
  have hholder : ∀ h m, t.videoScreenShareSsrcMapping = some (h, m) →
      h ∈ MpmcHashmap32.keys t.videoParticipants := by
    intro h m hm
    rw [hM] at hm
    rw [hP]; exact hs.holder h m hm
  rcases hR with ⟨h1, h2, h3⟩ | ⟨level, h1, h2, h3⟩
  · constructor
    · rw [h1, h2]; exact hs.conserved
    · intro k hk
      rw [h2] at hk
      exact hmemL k (hs.owners k hk)
    · rw [h2]; exact hs.ownersNodup
    · exact hlisted
    · exact hnodup
    · rw [hP]; exact hs.nonzero
    · exact hlookup
    · exact hholder
    · rw [h2, h3]; exact hs.reversed
  · have hnR : e ∉ MpmcHashmap32.keys s.videoSsrcRewriteMap := fun h => hne (hs.owners e h)
    rw [MpmcHashmap32.emplace_of_not_mem _ e level hnR] at h2
    constructor
    · rw [h2]
      refine List.Perm.trans ?_ hs.conserved
      rw [h1]
      simp only [List.map_append, List.map_cons, List.map_nil]
      rw [← List.append_assoc]
      exact List.perm_append_comm.trans (by simp)
    · intro k hk
      rw [h2, MpmcHashmap32.keys_append, List.mem_append] at hk
      rcases hk with h | h
      · exact hmemL k (hs.owners k h)
      · simp only [MpmcHashmap32.keys, List.map_cons, List.map_nil, List.mem_singleton] at h
        rw [h]; exact heL
    · rw [h2, MpmcHashmap32.keys_append]
      refine List.Nodup.append hs.ownersNodup (by simp [MpmcHashmap32.keys]) ?_
      intro x hx hx2
      simp only [MpmcHashmap32.keys, List.map_cons, List.map_nil, List.mem_singleton] at hx2
      exact hnR (hx2 ▸ hx)
    · exact hlisted
    · exact hnodup
    · rw [hP]; exact hs.nonzero
    · exact hlookup
    · exact hholder
    · intro k hk
      rw [h3] at hk
      rw [h2, List.map_append, List.mem_append]
      rcases MpmcHashmap32.mem_keys_emplace _ _ _ _ hk with h | h
      · exact Or.inl (hs.reversed k h)
      · right; simp [h]

theorem videoInv_registerVideoParticipant {levels : List SimulcastLevel} {s : ActiveMediaList}
    (hs : VideoInv levels s) (e : Nat) (p : SimulcastStream) (q : Option SimulcastStream)
    (he : e ≠ 0) (hne : e ∉ MpmcHashmap32.keys s.videoParticipants) :
    VideoInv levels (bridge.registerVideoParticipant s e p q) := by
  have hkeys : MpmcHashmap32.keys (bridge.registerVideoParticipant s e p q).videoParticipants =
      MpmcHashmap32.keys s.videoParticipants ++ [e] := by
    simp [bridge.registerVideoParticipant, MpmcHashmap32.emplace_of_not_mem _ e _ hne,
      MpmcHashmap32.keys_append, MpmcHashmap32.keys]
  constructor
  · exact hs.conserved
  · exact hs.owners
  · exact hs.ownersNodup
  · intro k hk
    rw [hkeys]
    exact List.mem_append_left _ (hs.listed k hk)
  · exact hs.listNodup
  · rw [hkeys, List.mem_append]
    intro h
    rcases h with h | h
    · exact hs.nonzero h
    · simp only [List.mem_singleton] at h
      exact he h.symm
  · exact hs.lookup
  · intro h m hm
    rw [hkeys, List.mem_append]
    simp only [bridge.registerVideoParticipant] at hm
    split at hm
    · simp only [Option.some.injEq, Prod.mk.injEq] at hm
      right; simp [hm.1]
    · split at hm
      · split at hm
        · simp only [Option.some.injEq, Prod.mk.injEq] at hm
          right; simp [hm.1]
        · exact Or.inl (hs.holder h m hm)
      · exact Or.inl (hs.holder h m hm)
  · exact hs.reversed

theorem videoInv_unregisterVideoParticipant {levels : List SimulcastLevel}
    {s : ActiveMediaList} (hs : VideoInv levels s) (e : Nat) (hne : e ∉ s.activeVideoList) :
    VideoInv levels (bridge.unregisterVideoParticipant s e) := by
  constructor
  · exact hs.conserved
  · exact hs.owners
  · exact hs.ownersNodup
  · intro k hk
    show k ∈ MpmcHashmap32.keys (MpmcHashmap32.erase s.videoParticipants e)
    rw [MpmcHashmap32.mem_keys_erase]
    exact ⟨hs.listed k hk, fun h => hne (h ▸ hk)⟩
  · exact hs.listNodup
  · show 0 ∉ MpmcHashmap32.keys (MpmcHashmap32.erase s.videoParticipants e)
    rw [MpmcHashmap32.mem_keys_erase]
    exact fun h => hs.nonzero h.1
  · exact hs.lookup
  · intro h m hm
    show h ∈ MpmcHashmap32.keys (MpmcHashmap32.erase s.videoParticipants e)
    rw [MpmcHashmap32.mem_keys_erase]
    simp only [bridge.unregisterVideoParticipant] at hm
    split at hm
    · rename_i holder mapping hsm
      split at hm
      · cases hm
      · rename_i hh
        simp only [Option.some.injEq, Prod.mk.injEq] at hm
        rw [← hm.1]
        exact ⟨hs.holder holder mapping hsm, hh⟩
    · cases hm
  · exact hs.reversed

theorem videoInv_moveVideoToTail {levels : List SimulcastLevel} {s : ActiveMediaList}
    (hs : VideoInv levels s) (e : Nat) (he : e ∈ s.activeVideoList) :
    VideoInv levels (bridge.moveVideoToTail s e) := by
  have hperm : (bridge.moveVideoToTail s e).activeVideoList.Perm s.activeVideoList := by
    show (ListOps.pushToTail (ListOps.remove s.activeVideoList e).1 e).Perm s.activeVideoList
    rw [remove_fst]
    exact (List.perm_append_singleton e _).trans (List.perm_cons_erase he).symm
  constructor
  · exact hs.conserved
  · intro k hk
    rw [hperm.mem_iff]; exact hs.owners k hk
  · exact hs.ownersNodup
  · intro k hk
    rw [hperm.mem_iff] at hk; exact hs.listed k hk
  · exact (hperm.nodup_iff).2 hs.listNodup
  · exact hs.nonzero
  · intro k hk
    rw [hperm.mem_iff]
    rcases MpmcHashmap32.mem_keys_emplace _ _ _ _ hk with h | h
    · exact hs.lookup k ((MpmcHashmap32.mem_keys_erase _ _ _).1 h).1
    · rw [h]; exact he
  · exact hs.holder
  · exact hs.reversed

theorem releaseVideoSsrc_spec (s : ActiveMediaList) (r : Nat) :
    (releaseVideoSsrc s r).videoParticipants = s.videoParticipants ∧
      (releaseVideoSsrc s r).videoScreenShareSsrcMapping = s.videoScreenShareSsrcMapping ∧
      (releaseVideoSsrc s r).activeVideoList = s.activeVideoList ∧
      (releaseVideoSsrc s r).activeVideoListLookupMap = s.activeVideoListLookupMap ∧
      ReleasedFrom s (releaseVideoSsrc s r) r := by
  unfold releaseVideoSsrc
  split
  · rename_i level hf
    exact ⟨rfl, rfl, rfl, rfl, Or.inr ⟨level, hf, rfl, rfl, rfl⟩⟩
  · rename_i hf
    exact ⟨rfl, rfl, rfl, rfl, Or.inl ⟨hf, rfl, rfl, rfl⟩⟩

theorem claimVideoSsrc_spec {s t : ActiveMediaList} {e : Nat}
    (h : claimVideoSsrc s e = some t) :
    t.videoParticipants = s.videoParticipants ∧
      t.videoScreenShareSsrcMapping = s.videoScreenShareSsrcMapping ∧
      t.activeVideoList = s.activeVideoList ∧
      t.activeVideoListLookupMap = s.activeVideoListLookupMap ∧
      t.maxActiveListSize = s.maxActiveListSize ∧
      t.dominantSpeakerId = s.dominantSpeakerId ∧
      ClaimedFrom s t e := by
  unfold claimVideoSsrc at h
  split at h
  · cases h
  · rename_i level pool hp
    cases h
    exact ⟨rfl, rfl, rfl, rfl, rfl, rfl, Or.inr ⟨level, pop_eq_some hp, rfl, rfl⟩⟩
theorem videoInv_linkVideoTail {levels : List SimulcastLevel} {s t : ActiveMediaList}
    (hs : VideoInv levels s) (e : Nat)
    (he : e ∈ MpmcHashmap32.keys s.videoParticipants) (hne : e ∉ s.activeVideoList)
    (hP : t.videoParticipants = s.videoParticipants)
    (hM : t.videoScreenShareSsrcMapping = s.videoScreenShareSsrcMapping)
    (hL : t.activeVideoList = s.activeVideoList)
    (hK : t.activeVideoListLookupMap = s.activeVideoListLookupMap)
    (hR : ClaimedFrom s t e) : VideoInv levels (bridge.linkVideoTail t e) := by
  refine videoInv_linked hs e he hne hP hM ?_ ?_ hR
  · show (ListOps.pushToTail t.activeVideoList e).Perm (e :: s.activeVideoList)
    rw [hL]; exact List.perm_append_singleton e _
  · intro k hk
    have := MpmcHashmap32.mem_keys_emplace _ _ _ _ hk
    rw [hK] at this; exact this

theorem videoInv_linkVideoHead {levels : List SimulcastLevel} {s t : ActiveMediaList}
    (hs : VideoInv levels s) (e : Nat)
    (he : e ∈ MpmcHashmap32.keys s.videoParticipants) (hne : e ∉ s.activeVideoList)
    (hP : t.videoParticipants = s.videoParticipants)
    (hM : t.videoScreenShareSsrcMapping = s.videoScreenShareSsrcMapping)
    (hL : t.activeVideoList = s.activeVideoList)
    (hK : t.activeVideoListLookupMap = s.activeVideoListLookupMap)
    (hR : ClaimedFrom s t e) : VideoInv levels (bridge.linkVideoHead t e) := by
  refine videoInv_linked hs e he hne hP hM ?_ ?_ hR
  · show (ListOps.pushToHead t.activeVideoList e).Perm (e :: s.activeVideoList)
    rw [hL]; exact List.Perm.refl _
  · intro k hk
    have := MpmcHashmap32.mem_keys_emplace _ _ _ _ hk
    rw [hK] at this; exact this

theorem videoInv_evicted {levels : List SimulcastLevel} {s s1 : ActiveMediaList} {r : Nat}
    (hs : VideoInv levels s) (h : evictVideoHead s = some (s1, r)) :
    VideoInv levels (if r ≠ 0 then releaseVideoSsrc s1 r else s1) ∧
      (if r ≠ 0 then releaseVideoSsrc s1 r else s1).videoParticipants = s.videoParticipants ∧
      ∀ k, k ∈ (if r ≠ 0 then releaseVideoSsrc s1 r else s1).activeVideoList →
        k ∈ s.activeVideoList := by
  unfold evictVideoHead at h
  split at h
  · split at h
    · cases h
    · rename_i r0 l hp
      have hlist := popFromHead_eq_some hp
      simp only [Option.some.injEq, Prod.mk.injEq] at h
      obtain ⟨h1, h2⟩ := h
      subst h2
      have hr : r0 ≠ 0 := by
        intro e0
        have : r0 ∈ MpmcHashmap32.keys s.videoParticipants :=
          hs.listed r0 (by rw [hlist]; exact List.mem_cons_self _ _)
        exact hs.nonzero (e0 ▸ this)
      rw [if_pos hr]
      have hsp := releaseVideoSsrc_spec s1 r0
      have hl : (releaseVideoSsrc s1 r0).activeVideoList = s.activeVideoList.erase r0 := by
        rw [hsp.2.2.1, ← h1, hlist]; simp
      refine ⟨?_, ?_, ?_⟩
      · refine videoInv_unlinked hs r0 ?_ ?_ hl ?_ ?_
        · rw [hsp.1, ← h1]
        · rw [hsp.2.1, ← h1]
        · rw [hsp.2.2.2.1, ← h1]
        · have := hsp.2.2.2.2
          rw [← h1] at this ⊢
          exact this
      · rw [hsp.1, ← h1]
      · intro k hk
        rw [hl] at hk
        exact List.mem_of_mem_erase hk
  · simp only [Option.some.injEq, Prod.mk.injEq] at h
    obtain ⟨h1, h2⟩ := h
    subst h1; subst h2
    have h0 : (if (0 : Nat) ≠ 0 then releaseVideoSsrc s 0 else s) = s := by simp
    rw [h0]
    exact ⟨hs, rfl, fun k hk => hk⟩

theorem videoInv_updateActiveVideoList {levels : List SimulcastLevel} {s : ActiveMediaList}
    (hs : VideoInv levels s) (e : Nat) :
    VideoInv levels (bridge.updateActiveVideoList s e).1 := by
  unfold bridge.updateActiveVideoList
  split
  · exact hs
  · rename_i vp hf
    have he := MpmcHashmap32.mem_keys_of_find _ _ _ hf
    split
    · rename_i hin
      exact videoInv_moveVideoToTail hs e (by simpa [ListOps.tailToHead] using hin)
    · rename_i hnin
      have hnin2 : e ∉ s.activeVideoList := by simpa [ListOps.tailToHead] using hnin
      split
      · exact hs
      · rename_i s1 r hev
        obtain ⟨h2, hP2, hL2⟩ := videoInv_evicted hs hev
        have he2 : e ∈ MpmcHashmap32.keys
            (if r ≠ 0 then releaseVideoSsrc s1 r else s1).videoParticipants := by
          rw [hP2]; exact he
        have hne2 : e ∉ (if r ≠ 0 then releaseVideoSsrc s1 r else s1).activeVideoList :=
          fun h => hnin2 (hL2 e h)
        dsimp only
        split
        · split
          · exact h2
          · rename_i s3 hc
            have hsp := claimVideoSsrc_spec hc
            exact videoInv_linkVideoTail h2 e he2 hne2 hsp.1 hsp.2.1 hsp.2.2.1 hsp.2.2.2.1
              hsp.2.2.2.2.2.2
        · exact videoInv_linkVideoTail h2 e he2 hne2 rfl rfl rfl rfl (Or.inl ⟨rfl, rfl, rfl⟩)

theorem videoInv_hoistIfDominant {levels : List SimulcastLevel} {s : ActiveMediaList}
    (hs : VideoInv levels s) (e : Nat) : VideoInv levels (bridge.hoistIfDominant s e).1 := by
  unfold bridge.hoistIfDominant
  split
  · exact hs
  · exact videoInv_updateActiveVideoList hs _

theorem videoInv_addVideoParticipant {levels : List SimulcastLevel} {s : ActiveMediaList}
    (hs : VideoInv levels s) (e : Nat) (p : SimulcastStream) (q : Option SimulcastStream)
    (he : e ≠ 0) : VideoInv levels (bridge.addVideoParticipant s e p q).1 := by
  unfold bridge.addVideoParticipant
  split
  · exact hs
  · rename_i hc
    have hnp : e ∉ MpmcHashmap32.keys s.videoParticipants := by
      rw [← MpmcHashmap32.contains_eq_true_iff]; exact hc
    have h2 := videoInv_registerVideoParticipant hs e p q he hnp
    have he2 : e ∈ MpmcHashmap32.keys
        (bridge.registerVideoParticipant s e p q).videoParticipants := by
      simp [bridge.registerVideoParticipant, MpmcHashmap32.emplace_of_not_mem _ e _ hnp,
        MpmcHashmap32.keys_append, MpmcHashmap32.keys]
    have hne2 : e ∉ (bridge.registerVideoParticipant s e p q).activeVideoList :=
      fun h => hnp (hs.listed e h)
    dsimp only
    split
    · exact videoInv_hoistIfDominant h2 e
    · split
      · split
        · exact h2
        · rename_i s3 hcl
          have hsp := claimVideoSsrc_spec hcl
          exact videoInv_hoistIfDominant
            (videoInv_linkVideoHead h2 e he2 hne2 hsp.1 hsp.2.1 hsp.2.2.1 hsp.2.2.2.1
              hsp.2.2.2.2.2.2) e
      · exact videoInv_hoistIfDominant
          (videoInv_linkVideoHead h2 e he2 hne2 rfl rfl rfl rfl (Or.inl ⟨rfl, rfl, rfl⟩)) e

theorem removeVideoParticipant_eq (s : ActiveMediaList) (e : Nat)
    (h : MpmcHashmap32.contains s.videoParticipants e = true) :
    (removeVideoParticipant s e).1 =
      unregisterVideoParticipant (unlinkVideo (releaseVideoSsrc s e) e) e := by
  unfold removeVideoParticipant
  rw [h]
  simp only [Bool.not_true, Bool.false_eq_true, if_false]
  unfold releaseVideoSsrc
  show unlinkVideo (match MpmcHashmap32.find s.videoSsrcRewriteMap e with
    | some simulcastLevel => _
    | none => _) e = _
  split <;> rfl

theorem videoInv_removeVideoParticipant {levels : List SimulcastLevel} {s : ActiveMediaList}
    (hs : VideoInv levels s) (e : Nat) :
    VideoInv levels (bridge.removeVideoParticipant s e).1 := by
  by_cases h : MpmcHashmap32.contains s.videoParticipants e = true
  · rw [removeVideoParticipant_eq s e h]
    have hsp := releaseVideoSsrc_spec s e
    have h1 : VideoInv levels (unlinkVideo (releaseVideoSsrc s e) e) := by
      refine videoInv_unlinked hs e hsp.1 hsp.2.1 ?_ ?_ ?_
      · show (ListOps.remove (releaseVideoSsrc s e).activeVideoList e).1 = _
        rw [remove_fst, hsp.2.2.1]
      · show MpmcHashmap32.erase (releaseVideoSsrc s e).activeVideoListLookupMap e = _
        rw [hsp.2.2.2.1]
      · exact hsp.2.2.2.2
    refine videoInv_unregisterVideoParticipant h1 e ?_
    show e ∉ (ListOps.remove (releaseVideoSsrc s e).activeVideoList e).1
    rw [remove_fst, hsp.2.2.1]
    exact fun hm => (List.Nodup.mem_erase_iff hs.listNodup).1 hm |>.1 rfl
  · unfold bridge.removeVideoParticipant
    simp only [Bool.not_eq_true] at h
    rw [h]
    exact hs

theorem videoSide_claimAudioSsrc (s : ActiveMediaList) (e : Nat) :
    videoSide (claimAudioSsrc s e) = videoSide s := by
  unfold claimAudioSsrc
  split <;> rfl

theorem videoSide_updateActiveAudioList (s : ActiveMediaList) (e : Nat) :
    videoSide (updateActiveAudioList s e) = videoSide s := by
  unfold updateActiveAudioList
  split
  · split <;> rfl
  · split
    · split
      · rfl
      · split
        · rfl
        · rw [videoSide_claimAudioSsrc]; rfl
    · rw [videoSide_claimAudioSsrc]

theorem videoSide_addAudioParticipant (s : ActiveMediaList) (e : Nat) :
    videoSide (addAudioParticipant s e).1 = videoSide s := by
  unfold addAudioParticipant
  split
  · rfl
  · split <;> rfl

theorem videoSide_removeAudioParticipant (s : ActiveMediaList) (e : Nat) :
    videoSide (removeAudioParticipant s e).1 = videoSide s := by
  unfold removeAudioParticipant
  split <;> rfl

theorem videoSide_processTopSpeakers (n : Nat) (s : ActiveMediaList)
    (heap : List AudioParticipantScore) (snapshot : List ActiveTalker) :
    videoSide (processTopSpeakers n s heap snapshot).1 = videoSide s := by
  induction n generalizing s heap snapshot with
  | zero => rfl
  | succ n ih =>
    unfold processTopSpeakers
    split
    · rfl
    · dsimp only
      rw [ih, videoSide_updateActiveAudioList]

theorem videoSide_countWin (s : ActiveMediaList) (w : Nat) :
    videoSide (countWin s w) = videoSide s := by
  unfold countWin
  split <;> rfl

theorem videoInv_nominate {levels : List SimulcastLevel} {s : ActiveMediaList}
    (hs : VideoInv levels s) (timestamp : Nat) (d : AudioParticipantScore) (c : ℚ) :
    VideoInv levels (bridge.nominate s timestamp d c).1 := by
  unfold bridge.nominate
  split
  · exact hs
  · have h4 : VideoInv levels
        { countWin s d.participant with lastRunTimestamp := timestamp } :=
      videoInv_congr (s := s) (videoSide_countWin s _) hs
    dsimp only
    split
    · refine videoInv_updateActiveVideoList ?_ _
      exact videoInv_congr
        (s := { countWin s d.participant with lastRunTimestamp := timestamp }) rfl h4
    · exact h4

theorem videoInv_process {levels : List SimulcastLevel} {s : ActiveMediaList}
    (hs : VideoInv levels s) (timestamp : Nat) :
    VideoInv levels (bridge.process s timestamp).1 := by
  unfold bridge.process
  split
  · exact hs
  · have h1 : VideoInv levels (updateLevels { s with lastRunTimestamp := timestamp }) :=
      videoInv_congr (s := s) rfl hs
    dsimp only
    split
    · exact h1
    · refine videoInv_nominate ?_ _ _ _
      exact videoInv_congr (s := updateLevels { s with lastRunTimestamp := timestamp })
        (videoSide_processTopSpeakers _ _ _ _) h1

theorem reachable_videoInv {levels : List SimulcastLevel} {init s : ActiveMediaList}
    (hinit : VideoInv levels init) (h : Reachable init s) : VideoInv levels s := by
  induction h with
  | start => exact hinit
  | addAudio e _ ih => exact videoInv_congr (videoSide_addAudioParticipant _ _) ih
  | removeAudio e _ ih => exact videoInv_congr (videoSide_removeAudioParticipant _ _) ih
  | @newLevel s0 e level ptt _ ih => exact videoInv_congr (s := s0) rfl ih
  | tick timestamp _ ih => exact videoInv_process ih timestamp
  | promoteAudio e _ ih => exact videoInv_congr (videoSide_updateActiveAudioList _ _) ih
  | addVideo e p q _ he ih => exact videoInv_addVideoParticipant ih e p q he
  | removeVideo e _ ih => exact videoInv_removeVideoParticipant ih e
  | promoteVideo e _ ih => exact videoInv_updateActiveVideoList ih e

/-! ## The nodes of the active-video list -/

theorem freshNode_not_mem (nodes : List Nat) : ListOps.freshNode nodes ∉ nodes := by
  have h : ∀ n ∈ nodes, n ≤ nodes.foldr max 0 := by
    induction nodes with
    | nil => intro n hn; cases hn
    | cons x xs ih =>
      intro n hn
      simp only [List.foldr_cons]
      rcases List.mem_cons.1 hn with h | h
      · rw [h]; exact le_max_left _ _
      · exact le_trans (ih n h) (le_max_right _ _)
  intro hm
  have h2 := h _ hm
  unfold ListOps.freshNode at h2
  omega

theorem removeNode_nil (nodes : List Nat) (e : Nat) : ListOps.removeNode [] nodes e = nodes := by
  cases nodes <;> rfl

theorem removeNode_cons_self (l nodes : List Nat) (e n : Nat) :
    ListOps.removeNode (e :: l) (n :: nodes) e = nodes := by
  simp [ListOps.removeNode]

theorem removeNode_cons_ne (l nodes : List Nat) (x e n : Nat) (h : x ≠ e) :
    ListOps.removeNode (x :: l) (n :: nodes) e = n :: ListOps.removeNode l nodes e := by
  simp [ListOps.removeNode, h]

theorem removeNode_head (l nodes : List Nat) (e : Nat) :
    ListOps.removeNode (e :: l) nodes e = nodes.tail := by
  cases nodes with
  | nil => rfl
  | cons n ns => rw [removeNode_cons_self]; rfl

theorem removeNode_of_not_mem (l nodes : List Nat) (e : Nat) (h : e ∉ l) :
    ListOps.removeNode l nodes e = nodes := by
  induction l generalizing nodes with
  | nil => exact removeNode_nil nodes e
  | cons x xs ih =>
    cases nodes with
    | nil => rfl
    | cons n ns =>
      have hx : x ≠ e := fun hxe => h (hxe ▸ List.mem_cons_self _ _)
      rw [removeNode_cons_ne _ _ _ _ _ hx, ih ns (fun hm => h (List.mem_cons_of_mem _ hm))]

theorem removeNode_sublist (l nodes : List Nat) (e : Nat) :
    (ListOps.removeNode l nodes e).Sublist nodes := by
  induction l generalizing nodes with
  | nil => rw [removeNode_nil]
  | cons x xs ih =>
    cases nodes with
    | nil => exact List.Sublist.refl _
    | cons n ns =>
      by_cases hx : x = e
      · rw [hx, removeNode_cons_self]; exact List.sublist_cons_self _ _
      · rw [removeNode_cons_ne _ _ _ _ _ hx]; exact (ih ns).cons₂ n

theorem length_removeNode (l nodes : List Nat) (e : Nat) (hl : nodes.length = l.length) :
    (ListOps.removeNode l nodes e).length = (l.erase e).length := by
  induction l generalizing nodes with
  | nil => rw [removeNode_nil]; simpa using hl
  | cons x xs ih =>
    cases nodes with
    | nil => simp at hl
    | cons n ns =>
      have hl2 : ns.length = xs.length := by simpa using hl
      by_cases hx : x = e
      · rw [hx, removeNode_cons_self]; simpa using hl2
      · rw [removeNode_cons_ne _ _ _ _ _ hx, List.erase_cons_tail (by simpa using hx)]
        simp only [List.length_cons, ih ns hl2]

theorem zip_removeNode (l nodes : List Nat) (e : Nat) (p : Nat × Nat)
    (hp : p ∈ (l.erase e).zip (ListOps.removeNode l nodes e)) : p ∈ l.zip nodes := by
  induction l generalizing nodes with
  | nil => simp at hp
  | cons x xs ih =>
    cases nodes with
    | nil =>
      have : ListOps.removeNode (x :: xs) [] e = [] := rfl
      rw [this] at hp; simp at hp
    | cons n ns =>
      by_cases hx : x = e
      · rw [hx, removeNode_cons_self] at hp
        simp only [List.erase_cons_head] at hp
        rw [hx, List.zip_cons_cons]
        exact List.mem_cons_of_mem _ hp
      · rw [removeNode_cons_ne _ _ _ _ _ hx, List.erase_cons_tail (by simpa using hx),
          List.zip_cons_cons] at hp
        rw [List.zip_cons_cons]
        rcases List.mem_cons.1 hp with h | h
        · rw [h]; exact List.mem_cons_self _ _
        · exact List.mem_cons_of_mem _ (ih ns h)

theorem removeNode_append_singleton (l nodes : List Nat) (e n : Nat) (h : e ∉ l)
    (hl : nodes.length = l.length) :
    ListOps.removeNode (l ++ [e]) (nodes ++ [n]) e = nodes := by
  induction l generalizing nodes with
  | nil =>
    have : nodes = [] := List.length_eq_zero.1 (by simpa using hl)
    rw [this]
    exact removeNode_cons_self [] [] e n
  | cons x xs ih =>
    cases nodes with
    | nil => simp at hl
    | cons m ms =>
      have hl2 : ms.length = xs.length := by simpa using hl
      have hx : x ≠ e := fun hxe => h (hxe ▸ List.mem_cons_self _ _)
      show ListOps.removeNode (x :: (xs ++ [e])) (m :: (ms ++ [n])) e = _
      rw [removeNode_cons_ne _ _ _ _ _ hx, ih ms (fun hm => h (List.mem_cons_of_mem _ hm)) hl2]

theorem nodes_releaseVideoSsrc (s : ActiveMediaList) (r : Nat) :
    (releaseVideoSsrc s r).activeVideoListNodes = s.activeVideoListNodes := by
  unfold releaseVideoSsrc
  split <;> rfl

theorem nodes_claimVideoSsrc {s t : ActiveMediaList} {e : Nat}
    (h : claimVideoSsrc s e = some t) : t.activeVideoListNodes = s.activeVideoListNodes := by
  unfold claimVideoSsrc at h
  split at h
  · cases h
  · cases h; rfl

theorem lookupInv_congr {s t : ActiveMediaList} (h : videoSide t = videoSide s)
    (hs : LookupInv s) : LookupInv t := by
  simp only [videoSide, Prod.mk.injEq] at h
  obtain ⟨_, _, _, _, h5, h6, _, _, _, h10⟩ := h
  constructor
  · rw [h5, h10]; exact hs.length
  · rw [h10]; exact hs.nodup
  · rw [h5, h6, h10]; exact hs.points

theorem lookupInv_same {s t : ActiveMediaList} (hs : LookupInv s)
    (hL : t.activeVideoList = s.activeVideoList)
    (hN : t.activeVideoListNodes = s.activeVideoListNodes)
    (hK : t.activeVideoListLookupMap = s.activeVideoListLookupMap) : LookupInv t := by
  constructor
  · rw [hL, hN]; exact hs.length
  · rw [hN]; exact hs.nodup
  · rw [hL, hN, hK]; exact hs.points

theorem lookupInv_init (maxParticipants : Nat) (audioSsrcs : List Nat)
    (videoSsrcs : List SimulcastLevel) (defaultLastN audioLastN threshold : Nat) :
    LookupInv (ActiveMediaList.new maxParticipants audioSsrcs videoSsrcs defaultLastN audioLastN
      threshold) :=
  ⟨rfl, List.nodup_nil, fun p hp => by cases hp⟩

theorem lookupInv_removed {s t : ActiveMediaList} (hs : LookupInv s)
    (hn : s.activeVideoList.Nodup) (e : Nat)
    (hL : t.activeVideoList = s.activeVideoList.erase e)
    (hN : t.activeVideoListNodes =
      ListOps.removeNode s.activeVideoList s.activeVideoListNodes e)
    (hK : t.activeVideoListLookupMap = MpmcHashmap32.erase s.activeVideoListLookupMap e) :
    LookupInv t := by
  constructor
  · rw [hL, hN]; exact length_removeNode _ _ e hs.length
  · rw [hN]; exact hs.nodup.sublist (removeNode_sublist _ _ e)
  · intro p hp
    rw [hL, hN] at hp
    have hmem : p.1 ∈ s.activeVideoList.erase e := (List.of_mem_zip hp).1
    have hne : p.1 ≠ e := ((List.Nodup.mem_erase_iff hn).1 hmem).1
    rw [hK, MpmcHashmap32.find_erase_ne _ _ _ hne]
    exact hs.points p (zip_removeNode _ _ e p hp)

theorem lookupInv_pushedTail {s t : ActiveMediaList} (hs : LookupInv s) (e : Nat)
    (hne : e ∉ s.activeVideoList)
    (hnk : e ∉ MpmcHashmap32.keys s.activeVideoListLookupMap)
    (hL : t.activeVideoList = s.activeVideoList ++ [e])
    (hN : t.activeVideoListNodes =
      s.activeVideoListNodes ++ [ListOps.freshNode s.activeVideoListNodes])
    (hK : t.activeVideoListLookupMap =
      MpmcHashmap32.emplace s.activeVideoListLookupMap e
        (s.activeVideoListNodes ++ [ListOps.freshNode s.activeVideoListNodes]).getLast?) :
    LookupInv t := by
  have hfresh := freshNode_not_mem s.activeVideoListNodes
  constructor
  · rw [hL, hN]; simp [hs.length]
  · rw [hN]
    refine List.Nodup.append hs.nodup (List.nodup_singleton _) ?_
    intro x hx hx2
    rw [List.mem_singleton.1 hx2] at hx
    exact hfresh hx
  · intro p hp
    rw [hL, hN, List.zip_append hs.length.symm] at hp
    rw [hK, MpmcHashmap32.emplace_of_not_mem _ _ _ hnk, List.getLast?_concat]
    rcases List.mem_append.1 hp with h | h
    · have hmem : p.1 ∈ s.activeVideoList := (List.of_mem_zip h).1
      have hpe : p.1 ≠ e := fun heq => hne (heq ▸ hmem)
      rw [MpmcHashmap32.find_append_singleton_ne _ _ _ _ hpe]
      exact hs.points p h
    · simp only [List.zip_cons_cons, List.zip_nil_right, List.mem_singleton] at h
      rw [h]
      exact MpmcHashmap32.find_append_singleton_self _ _ _ hnk

theorem lookupInv_pushedHead {s t : ActiveMediaList} (hs : LookupInv s) (e : Nat)
    (hne : e ∉ s.activeVideoList)
    (hnk : e ∉ MpmcHashmap32.keys s.activeVideoListLookupMap)
    (hL : t.activeVideoList = e :: s.activeVideoList)
    (hN : t.activeVideoListNodes =
      ListOps.freshNode s.activeVideoListNodes :: s.activeVideoListNodes)
    (hK : t.activeVideoListLookupMap =
      MpmcHashmap32.emplace s.activeVideoListLookupMap e
        (ListOps.freshNode s.activeVideoListNodes :: s.activeVideoListNodes).head?) :
    LookupInv t := by
  have hfresh := freshNode_not_mem s.activeVideoListNodes
  constructor
  · rw [hL, hN]; simp [hs.length]
  · rw [hN]; exact List.nodup_cons.2 ⟨hfresh, hs.nodup⟩
  · intro p hp
    rw [hL, hN, List.zip_cons_cons] at hp
    rw [hK, MpmcHashmap32.emplace_of_not_mem _ _ _ hnk, List.head?_cons]
    rcases List.mem_cons.1 hp with h | h
    · rw [h]
      exact MpmcHashmap32.find_append_singleton_self _ _ _ hnk
    · have hmem : p.1 ∈ s.activeVideoList := (List.of_mem_zip h).1
      have hpe : p.1 ≠ e := fun heq => hne (heq ▸ hmem)
      rw [MpmcHashmap32.find_append_singleton_ne _ _ _ _ hpe]
      exact hs.points p h

theorem lookupInv_moveVideoToTail {levels : List SimulcastLevel} {s : ActiveMediaList}
    (hs : LookupInv s) (hv : VideoInv levels s) (e : Nat) :
    LookupInv (moveVideoToTail s e) := by
  have h1 : LookupInv
      { s with
        activeVideoList := s.activeVideoList.erase e
        activeVideoListNodes := ListOps.removeNode s.activeVideoList s.activeVideoListNodes e
        activeVideoListLookupMap := MpmcHashmap32.erase s.activeVideoListLookupMap e } :=
    lookupInv_removed hs hv.listNodup e rfl rfl rfl
  refine lookupInv_pushedTail h1 e ?_ ?_ ?_ rfl rfl
  · exact fun hm => ((List.Nodup.mem_erase_iff hv.listNodup).1 hm).1 rfl
  · exact MpmcHashmap32.not_mem_keys_erase _ _
  · show ListOps.pushToTail (ListOps.remove s.activeVideoList e).1 e = _
    rw [remove_fst]; rfl

theorem lookupInv_evicted {levels : List SimulcastLevel} {s s1 : ActiveMediaList} {r : Nat}
    (hs : LookupInv s) (hv : VideoInv levels s) (h : evictVideoHead s = some (s1, r)) :
    LookupInv (if r ≠ 0 then releaseVideoSsrc s1 r else s1) := by
  unfold evictVideoHead at h
  split at h
  · split at h
    · cases h
    · rename_i r0 l hp
      have hlist := popFromHead_eq_some hp
      simp only [Option.some.injEq, Prod.mk.injEq] at h
      obtain ⟨h1, h2⟩ := h
      subst h2
      have hsp := releaseVideoSsrc_spec s1 r0
      have hrem : LookupInv s1 := by
        refine lookupInv_removed hs hv.listNodup r0 ?_ ?_ ?_
        · rw [← h1, hlist]; simp
        · rw [← h1, hlist, removeNode_head]
        · rw [← h1]
      split
      · exact lookupInv_same hrem hsp.2.2.1 (nodes_releaseVideoSsrc _ _) hsp.2.2.2.1
      · exact hrem
  · simp only [Option.some.injEq, Prod.mk.injEq] at h
    obtain ⟨h1, h2⟩ := h
    subst h1; subst h2
    have h0 : (if (0 : Nat) ≠ 0 then releaseVideoSsrc s 0 else s) = s := by simp
    rw [h0]
    exact hs

theorem lookupInv_updateActiveVideoList {levels : List SimulcastLevel} {s : ActiveMediaList}
    (hs : LookupInv s) (hv : VideoInv levels s) (e : Nat) :
    LookupInv (updateActiveVideoList s e).1 := by
  unfold updateActiveVideoList
  split
  · exact hs
  · split
    · exact lookupInv_moveVideoToTail hs hv e
    · rename_i hnin
      have hnin2 : e ∉ s.activeVideoList := by simpa [ListOps.tailToHead] using hnin
      split
      · exact hs
      · rename_i s1 r hev
        obtain ⟨v2, _, hL2⟩ := videoInv_evicted hv hev
        have h2 := lookupInv_evicted hs hv hev
        have hne2 : e ∉ (if r ≠ 0 then releaseVideoSsrc s1 r else s1).activeVideoList :=
          fun h => hnin2 (hL2 e h)
        have hnk2 : e ∉ MpmcHashmap32.keys
            (if r ≠ 0 then releaseVideoSsrc s1 r else s1).activeVideoListLookupMap :=
          fun h => hne2 (v2.lookup e h)
        dsimp only
        split
        · split
          · exact h2
          · rename_i s3 hc
            have hsp := claimVideoSsrc_spec hc
            have hnd := nodes_claimVideoSsrc hc
            refine lookupInv_pushedTail h2 e hne2 hnk2 ?_ ?_ ?_
            · show ListOps.pushToTail s3.activeVideoList e = _
              rw [hsp.2.2.1]; rfl
            · show s3.activeVideoListNodes ++ [ListOps.freshNode s3.activeVideoListNodes] = _
              rw [hnd]
            · show MpmcHashmap32.emplace s3.activeVideoListLookupMap e
                (s3.activeVideoListNodes ++
                  [ListOps.freshNode s3.activeVideoListNodes]).getLast? = _
              rw [hsp.2.2.2.1, hnd]
        · exact lookupInv_pushedTail h2 e hne2 hnk2 rfl rfl rfl

theorem lookupInv_hoistIfDominant {levels : List SimulcastLevel} {s : ActiveMediaList}
    (hs : LookupInv s) (hv : VideoInv levels s) (e : Nat) :
    LookupInv (hoistIfDominant s e).1 := by
  unfold hoistIfDominant
  split
  · exact hs
  · exact lookupInv_updateActiveVideoList hs hv _

theorem lookupInv_addVideoParticipant {levels : List SimulcastLevel} {s : ActiveMediaList}
    (hs : LookupInv s) (hv : VideoInv levels s) (e : Nat) (p : SimulcastStream)
    (q : Option SimulcastStream) (he : e ≠ 0) :
    LookupInv (addVideoParticipant s e p q).1 := by
  unfold addVideoParticipant
  split
  · exact hs
  · rename_i hc
    have hnp : e ∉ MpmcHashmap32.keys s.videoParticipants := by
      rw [← MpmcHashmap32.contains_eq_true_iff]; exact hc
    have v2 := videoInv_registerVideoParticipant hv e p q he hnp
    have h2 : LookupInv (registerVideoParticipant s e p q) := lookupInv_same hs rfl rfl rfl
    have he2 : e ∈ MpmcHashmap32.keys (registerVideoParticipant s e p q).videoParticipants := by
      simp [registerVideoParticipant, MpmcHashmap32.emplace_of_not_mem _ e _ hnp,
        MpmcHashmap32.keys_append, MpmcHashmap32.keys]
    have hne2 : e ∉ (registerVideoParticipant s e p q).activeVideoList :=
      fun h => hnp (hv.listed e h)
    have hnk2 : e ∉ MpmcHashmap32.keys
        (registerVideoParticipant s e p q).activeVideoListLookupMap :=
      fun h => hne2 (v2.lookup e h)
    dsimp only
    split
    · exact lookupInv_hoistIfDominant h2 v2 e
    · split
      · split
        · exact h2
        · rename_i s3 hcl
          have hsp := claimVideoSsrc_spec hcl
          have hnd := nodes_claimVideoSsrc hcl
          refine lookupInv_hoistIfDominant ?_
            (videoInv_linkVideoHead v2 e he2 hne2 hsp.1 hsp.2.1 hsp.2.2.1 hsp.2.2.2.1
              hsp.2.2.2.2.2.2) e
          refine lookupInv_pushedHead h2 e hne2 hnk2 ?_ ?_ ?_
          · show ListOps.pushToHead s3.activeVideoList e = _
            rw [hsp.2.2.1]; rfl
          · show ListOps.freshNode s3.activeVideoListNodes :: s3.activeVideoListNodes = _
            rw [hnd]
          · show MpmcHashmap32.emplace s3.activeVideoListLookupMap e
              (ListOps.freshNode s3.activeVideoListNodes :: s3.activeVideoListNodes).head? = _
            rw [hsp.2.2.2.1, hnd]
      · refine lookupInv_hoistIfDominant ?_
          (videoInv_linkVideoHead v2 e he2 hne2 rfl rfl rfl rfl (Or.inl ⟨rfl, rfl, rfl⟩)) e
        exact lookupInv_pushedHead h2 e hne2 hnk2 rfl rfl rfl

theorem lookupInv_removeVideoParticipant {levels : List SimulcastLevel} {s : ActiveMediaList}
    (hs : LookupInv s) (hv : VideoInv levels s) (e : Nat) :
    LookupInv (removeVideoParticipant s e).1 := by
  by_cases h : MpmcHashmap32.contains s.videoParticipants e = true
  · rw [removeVideoParticipant_eq s e h]
    have hsp := releaseVideoSsrc_spec s e
    refine lookupInv_removed hs hv.listNodup e ?_ ?_ ?_
    · show (ListOps.remove (releaseVideoSsrc s e).activeVideoList e).1 = _
      rw [remove_fst, hsp.2.2.1]
    · show ListOps.removeNode (releaseVideoSsrc s e).activeVideoList
        (releaseVideoSsrc s e).activeVideoListNodes e = _
      rw [hsp.2.2.1, nodes_releaseVideoSsrc]
    · show MpmcHashmap32.erase (releaseVideoSsrc s e).activeVideoListLookupMap e = _
      rw [hsp.2.2.2.1]
  · unfold removeVideoParticipant
    simp only [Bool.not_eq_true] at h
    rw [h]
    exact hs

theorem lookupInv_nominate {levels : List SimulcastLevel} {s : ActiveMediaList}
    (hs : LookupInv s) (hv : VideoInv levels s) (timestamp : Nat) (d : AudioParticipantScore)
    (c : ℚ) : LookupInv (nominate s timestamp d c).1 := by
  unfold nominate
  split
  · exact hs
  · have h4 : LookupInv { countWin s d.participant with lastRunTimestamp := timestamp } :=
      lookupInv_congr (s := s) (videoSide_countWin s _) hs
    have v4 : VideoInv levels { countWin s d.participant with lastRunTimestamp := timestamp } :=
      videoInv_congr (s := s) (videoSide_countWin s _) hv
    dsimp only
    split
    · have h5 : LookupInv
          { countWin s d.participant with
            lastRunTimestamp := timestamp
            lastChangeTimestamp := timestamp
            dominantSpeakerId := d.participant } :=
        lookupInv_congr
          (s := { countWin s d.participant with lastRunTimestamp := timestamp }) rfl h4
      have v5 : VideoInv levels
          { countWin s d.participant with
            lastRunTimestamp := timestamp
            lastChangeTimestamp := timestamp
            dominantSpeakerId := d.participant } :=
        videoInv_congr
          (s := { countWin s d.participant with lastRunTimestamp := timestamp }) rfl v4
      exact lookupInv_updateActiveVideoList h5 v5 _
    · exact h4

theorem lookupInv_process {levels : List SimulcastLevel} {s : ActiveMediaList}
    (hs : LookupInv s) (hv : VideoInv levels s) (timestamp : Nat) :
    LookupInv (process s timestamp).1 := by
  unfold process
  split
  · exact hs
  · have h1 : LookupInv (updateLevels { s with lastRunTimestamp := timestamp }) :=
      lookupInv_congr (s := s) rfl hs
    have v1 : VideoInv levels (updateLevels { s with lastRunTimestamp := timestamp }) :=
      videoInv_congr (s := s) rfl hv
    dsimp only
    split
    · exact h1
    · have h2 : LookupInv (writeSnapshot (processTopSpeakers
          (updateLevels { s with lastRunTimestamp := timestamp }).audioLastN
          (updateLevels { s with lastRunTimestamp := timestamp })
          (rankSpeakers (updateLevels { s with lastRunTimestamp := timestamp })).2 [])) :=
        lookupInv_congr (s := updateLevels { s with lastRunTimestamp := timestamp })
          (videoSide_processTopSpeakers _ _ _ _) h1
      have v2 : VideoInv levels (writeSnapshot (processTopSpeakers
          (updateLevels { s with lastRunTimestamp := timestamp }).audioLastN
          (updateLevels { s with lastRunTimestamp := timestamp })
          (rankSpeakers (updateLevels { s with lastRunTimestamp := timestamp })).2 [])) :=
        videoInv_congr (s := updateLevels { s with lastRunTimestamp := timestamp })
          (videoSide_processTopSpeakers _ _ _ _) v1
      exact lookupInv_nominate h2 v2 _ _ _

theorem reachable_lookupInv {levels : List SimulcastLevel} {init s : ActiveMediaList}
    (hinit : LookupInv init) (vinit : VideoInv levels init) (h : Reachable init s) :
    LookupInv s := by
  induction h with
  | start => exact hinit
  | addAudio e _ ih => exact lookupInv_congr (videoSide_addAudioParticipant _ _) ih
  | removeAudio e _ ih => exact lookupInv_congr (videoSide_removeAudioParticipant _ _) ih
  | @newLevel s0 e level ptt _ ih => exact lookupInv_congr (s := s0) rfl ih
  | tick timestamp hr ih => exact lookupInv_process ih (reachable_videoInv vinit hr) timestamp
  | promoteAudio e _ ih => exact lookupInv_congr (videoSide_updateActiveAudioList _ _) ih
  | addVideo e p q hr he ih =>
    exact lookupInv_addVideoParticipant ih (reachable_videoInv vinit hr) e p q he
  | removeVideo e hr ih =>
    exact lookupInv_removeVideoParticipant ih (reachable_videoInv vinit hr) e
  | promoteVideo e hr ih =>
    exact lookupInv_updateActiveVideoList ih (reachable_videoInv vinit hr) e

/-! ## The constructor parameters never change -/

theorem config_claimAudioSsrc (s : ActiveMediaList) (e : Nat) :
    config (claimAudioSsrc s e) = config s := by
  unfold claimAudioSsrc
  split <;> rfl

theorem config_updateActiveAudioList (s : ActiveMediaList) (e : Nat) :
    config (updateActiveAudioList s e) = config s := by
  unfold updateActiveAudioList
  split
  · split <;> rfl
  · split
    · split
      · rfl
      · split
        · rfl
        · rw [config_claimAudioSsrc]; rfl
    · rw [config_claimAudioSsrc]

theorem config_addAudioParticipant (s : ActiveMediaList) (e : Nat) :
    config (addAudioParticipant s e).1 = config s := by
  unfold addAudioParticipant
  split
  · rfl
  · split <;> rfl

theorem config_removeAudioParticipant (s : ActiveMediaList) (e : Nat) :
    config (removeAudioParticipant s e).1 = config s := by
  unfold removeAudioParticipant
  split <;> rfl

theorem config_processTopSpeakers (n : Nat) (s : ActiveMediaList)
    (heap : List AudioParticipantScore) (snapshot : List ActiveTalker) :
    config (processTopSpeakers n s heap snapshot).1 = config s := by
  induction n generalizing s heap snapshot with
  | zero => rfl
  | succ n ih =>
    unfold processTopSpeakers
    split
    · rfl
    · dsimp only
      rw [ih, config_updateActiveAudioList]

theorem config_countWin (s : ActiveMediaList) (w : Nat) : config (countWin s w) = config s := by
  unfold countWin
  split <;> rfl

theorem config_releaseVideoSsrc (s : ActiveMediaList) (e : Nat) :
    config (releaseVideoSsrc s e) = config s := by
  unfold releaseVideoSsrc
  split <;> rfl

theorem config_claimVideoSsrc {s t : ActiveMediaList} {e : Nat}
    (h : claimVideoSsrc s e = some t) : config t = config s := by
  unfold claimVideoSsrc at h
  split at h
  · cases h
  · cases h; rfl

theorem config_evictVideoHead {s t : ActiveMediaList} {r : Nat}
    (h : evictVideoHead s = some (t, r)) : config t = config s := by
  unfold evictVideoHead at h
  split at h
  · split at h
    · cases h
    · cases h; rfl
  · cases h; rfl

theorem config_updateActiveVideoList (s : ActiveMediaList) (e : Nat) :
    config (updateActiveVideoList s e).1 = config s := by
  unfold updateActiveVideoList
  split
  · rfl
  · split
    · rfl
    · split
      · rfl
      · rename_i s1 r hev
        have h1 := config_evictVideoHead hev
        have h2 : config (if r ≠ 0 then releaseVideoSsrc s1 r else s1) = config s := by
          split
          · rw [config_releaseVideoSsrc, h1]
          · exact h1
        dsimp only
        split
        · split
          · exact h2
          · rename_i s3 hc
            have h3 := config_claimVideoSsrc hc
            exact (show config (linkVideoTail s3 e) = config s3 from rfl).trans (h3.trans h2)
        · exact (show config (linkVideoTail _ e) = config _ from rfl).trans h2

theorem config_hoistIfDominant (s : ActiveMediaList) (e : Nat) :
    config (hoistIfDominant s e).1 = config s := by
  unfold hoistIfDominant
  split
  · rfl
  · exact config_updateActiveVideoList s _

theorem config_addVideoParticipant (s : ActiveMediaList) (e : Nat) (p : SimulcastStream)
    (q : Option SimulcastStream) : config (addVideoParticipant s e p q).1 = config s := by
  unfold addVideoParticipant
  split
  · rfl
  · dsimp only
    split
    · exact config_hoistIfDominant _ e
    · split
      · split
        · rfl
        · rename_i s3 hc
          rw [config_hoistIfDominant]
          exact (show config (linkVideoHead s3 e) = config s3 from rfl).trans
            ((config_claimVideoSsrc hc).trans rfl)
      · rw [config_hoistIfDominant]; rfl

theorem config_removeVideoParticipant (s : ActiveMediaList) (e : Nat) :
    config (removeVideoParticipant s e).1 = config s := by
  unfold removeVideoParticipant
  split
  · rfl
  · exact (show config (unlinkVideo _ e) = config _ from rfl).trans
      (config_releaseVideoSsrc _ e)

theorem config_nominate (s : ActiveMediaList) (timestamp : Nat) (d : AudioParticipantScore)
    (c : ℚ) : config (nominate s timestamp d c).1 = config s := by
  unfold nominate
  split
  · rfl
  · dsimp only
    split
    · rw [config_updateActiveVideoList]
      exact config_countWin s _
    · exact config_countWin s _

theorem config_process (s : ActiveMediaList) (timestamp : Nat) :
    config (process s timestamp).1 = config s := by
  unfold process
  split
  · rfl
  · dsimp only
    split
    · rfl
    · rw [config_nominate]
      exact (config_processTopSpeakers _ _ _ _).trans rfl

theorem reachable_config_eq {init s : ActiveMediaList} (h : Reachable init s) :
    config s = config init := by
  induction h with
  | start => rfl
  | addAudio e _ ih => rw [config_addAudioParticipant, ih]
  | removeAudio e _ ih => rw [config_removeAudioParticipant, ih]
  | newLevel e level ptt _ ih => exact ih
  | tick timestamp _ ih => rw [config_process, ih]
  | promoteAudio e _ ih => rw [config_updateActiveAudioList, ih]
  | addVideo e p q _ he ih => rw [config_addVideoParticipant, ih]
  | removeVideo e _ ih => rw [config_removeVideoParticipant, ih]
  | promoteVideo e _ ih => rw [config_updateActiveVideoList, ih]

theorem reachable_maxSpeakers_eq {init s : ActiveMediaList} (h : Reachable init s) :
    s.maxSpeakers = init.maxSpeakers := by
  have := reachable_config_eq h
  simp only [config, Prod.mk.injEq] at this
  exact this.2.2.2.2.1

/-! ## Conservation of the pools (C1, C2) -/

/-- The property of C1 under the caller condition that `process` keeps: in every state
reachable from construction by calls in which `updateActiveAudioList` is only called for
tracked audio participants, the audio pool and the audio rewrite map
together hold as many SSRCs as the constructor received. -/
theorem audio_pool_conservation (maxParticipants : Nat) (audioSsrcs : List Nat)
    (videoSsrcs : List SimulcastLevel) (defaultLastN audioLastN threshold : Nat)
    (s : ActiveMediaList)
    (h : ReachableTracked (ActiveMediaList.new maxParticipants audioSsrcs videoSsrcs defaultLastN
      audioLastN threshold) s) :
    s.audioSsrcs.length + MpmcHashmap32.size s.audioSsrcRewriteMap = audioSsrcs.length := by
  have hinv := reachable_audioInv (audioInv_init _ _ _ _ _ _) h
  have hmax : s.maxSpeakers = audioSsrcs.length :=
    reachable_maxSpeakers_eq (reachableTracked_reachable h)
  rw [← hmax]
  exact hinv.conserved

/-- C2: in every state reachable from a construction that received at least one video
SimulcastLevel (video participants being added under non-zero endpoint ids), the video
pool, the video rewrite map and the reserved screen-share level together account for
every SimulcastLevel the constructor received. -/
theorem video_pool_conservation (maxParticipants : Nat) (audioSsrcs : List Nat)
    (videoSsrcs : List SimulcastLevel) (defaultLastN audioLastN threshold : Nat)
    (s : ActiveMediaList) (hlen : 0 < videoSsrcs.length)
    (h : Reachable (ActiveMediaList.new maxParticipants audioSsrcs videoSsrcs defaultLastN
      audioLastN threshold) s) :
    s.videoSsrcs.length + MpmcHashmap32.size s.videoSsrcRewriteMap + 1 = videoSsrcs.length := by
  have hinv := reachable_videoInv (videoInv_init _ _ _ _ _ _) h
  have hl := hinv.conserved.length_eq
  simp only [List.length_append, List.length_map, List.length_tail] at hl
  simp only [MpmcHashmap32.size]
  omega

/-- Witness of `audio_pool_conservation`: after adding endpoint 1 the pool holds 101 and the
rewrite map holds 100. -/
theorem audio_pool_conservation_witness :
    ReachableTracked scenarioInit (addAudioParticipant scenarioInit 1).1 ∧
      (addAudioParticipant scenarioInit 1).1.audioSsrcs.length +
        MpmcHashmap32.size (addAudioParticipant scenarioInit 1).1.audioSsrcRewriteMap =
        [100, 101].length :=
  ⟨ReachableTracked.addAudio 1 ReachableTracked.start,
    audio_pool_conservation 1024 [100, 101] _ 2 2 10 _
      (ReachableTracked.addAudio 1 ReachableTracked.start)⟩

/-- C2, witness: after adding a video sending participant the pool holds three levels, the
rewrite map one, and one is reserved for screen share. -/
theorem video_pool_conservation_witness :
    0 < 5 ∧
      Reachable scenarioInit
        (addVideoParticipant scenarioInit 1
          { levels := [], sendingVideo := true, sendingSlides := false } none).1 ∧
      (addVideoParticipant scenarioInit 1
          { levels := [], sendingVideo := true, sendingSlides := false } none).1.videoSsrcs.length +
        MpmcHashmap32.size (addVideoParticipant scenarioInit 1
          { levels := [], sendingVideo := true, sendingSlides := false }
            none).1.videoSsrcRewriteMap + 1 = 5 :=
  ⟨by decide, Reachable.addVideo 1 _ none Reachable.start (by decide),
    video_pool_conservation 1024 [100, 101] _ 2 2 10 _ (by decide)
      (Reachable.addVideo 1 _ none Reachable.start (by decide))⟩

/-! ## Pool exhaustion on add (C3) -/

/-- C3, as amended: when the audio pool is empty and `e` is not tracked,
`addAudioParticipant(e)` returns false and leaves the rewrite map, the active-audio list and
the pool as they are, but `e` is entered into the audio participant table and becomes the
dominant speaker when there was none. -/
theorem addAudioParticipant_pool_exhausted (s : ActiveMediaList) (e : Nat)
    (hpool : s.audioSsrcs = [])
    (hnew : MpmcHashmap32.contains s.audioParticipants e = false) :
    (addAudioParticipant s e).2 = false ∧
      (addAudioParticipant s e).1 =
        { s with
          audioParticipants := s.audioParticipants ++ [(e, AudioParticipant.new)]
          dominantSpeakerId := if s.dominantSpeakerId = 0 then e else s.dominantSpeakerId } := by
  have hpop : MpmcQueue.pop s.audioSsrcs = none := by rw [hpool]; rfl
  unfold addAudioParticipant
  rw [hnew, hpop]
  simp only [Bool.false_eq_true, if_false, trackAudioParticipant, true_and]
  rw [MpmcHashmap32.emplace_of_not_mem _ _ _ ((MpmcHashmap32.contains_eq_false_iff _ _).1 hnew)]

/-- C3, witness: both SSRCs are taken by endpoints 1 and 2, endpoint 3 is added. -/
theorem addAudioParticipant_pool_exhausted_witness :
    (addAudioParticipant (addAudioParticipant scenarioInit 1).1 2).1.audioSsrcs = [] ∧
      MpmcHashmap32.contains
        (addAudioParticipant (addAudioParticipant scenarioInit 1).1 2).1.audioParticipants 3 =
        false ∧
      (addAudioParticipant (addAudioParticipant (addAudioParticipant scenarioInit 1).1 2).1 3).2 =
        false :=
  ⟨by decide, by decide,
    (addAudioParticipant_pool_exhausted
      (addAudioParticipant (addAudioParticipant scenarioInit 1).1 2).1 3 (by decide)
      (by decide)).1⟩

/-- C3, counterexample to the statement as written: with the pool exhausted by endpoints 1
and 2, `addAudioParticipant(3)` returns false, yet endpoint 3 is a tracked audio participant
afterwards. -/
theorem addAudioParticipant_pool_exhausted_not_atomic :
    Reachable scenarioInit (addAudioParticipant (addAudioParticipant scenarioInit 1).1 2).1 ∧
      (addAudioParticipant (addAudioParticipant scenarioInit 1).1 2).1.audioSsrcs = [] ∧
      MpmcHashmap32.contains
        (addAudioParticipant (addAudioParticipant scenarioInit 1).1 2).1.audioParticipants 3 =
        false ∧
      (addAudioParticipant (addAudioParticipant (addAudioParticipant scenarioInit 1).1 2).1 3).2 =
        false ∧
      MpmcHashmap32.contains
        (addAudioParticipant (addAudioParticipant (addAudioParticipant scenarioInit 1).1 2).1
          3).1.audioParticipants 3 = true :=
  ⟨Reachable.addAudio 2 (Reachable.addAudio 1 Reachable.start), by decide, by decide, by decide,
    by decide⟩

/-! ## Add then remove (C4) -/

theorem rotate_one_cons {T : Type} (x : T) (rest : List T) :
    (x :: rest).rotate 1 = rest ++ [x] := by
  simp [List.rotate_cons_succ]

theorem remove_head_fst (l : List Nat) (e : Nat) : (ListOps.remove (e :: l) e).1 = l := by
  rw [remove_fst]; simp

theorem add_then_remove_audio (s : ActiveMediaList) (e : Nat)
    (hnew : MpmcHashmap32.contains s.audioParticipants e = false)
    (hfree : MpmcHashmap32.contains s.audioSsrcRewriteMap e = false) :
    (removeAudioParticipant (addAudioParticipant s e).1 e).1 =
      { s with
        audioSsrcs := s.audioSsrcs.rotate 1
        dominantSpeakerId := if s.dominantSpeakerId = 0 then e else s.dominantSpeakerId } := by
  have hnp : e ∉ MpmcHashmap32.keys s.audioParticipants :=
    (MpmcHashmap32.contains_eq_false_iff _ _).1 hnew
  have hnR : e ∉ MpmcHashmap32.keys s.audioSsrcRewriteMap :=
    (MpmcHashmap32.contains_eq_false_iff _ _).1 hfree
  have hP : MpmcHashmap32.erase
      (MpmcHashmap32.emplace s.audioParticipants e AudioParticipant.new) e =
      s.audioParticipants := MpmcHashmap32.erase_emplace_self _ _ _ hnp
  cases hpool : s.audioSsrcs with
  | nil =>
    have hpop : MpmcQueue.pop s.audioSsrcs = none := by rw [hpool]; rfl
    have hfind : MpmcHashmap32.find s.audioSsrcRewriteMap e = none :=
      (MpmcHashmap32.find_eq_none_iff _ _).2 hnR
    unfold addAudioParticipant
    rw [hnew]
    simp only [Bool.false_eq_true, if_false, hpop]
    unfold removeAudioParticipant
    simp only [trackAudioParticipant, hfind, hP, List.rotate_nil]
    apply ActiveMediaList.ext <;> simp [hpool]
  | cons x rest =>
    have hpop : MpmcQueue.pop s.audioSsrcs = some (x, rest) := by rw [hpool]; rfl
    have hfind : MpmcHashmap32.find (MpmcHashmap32.emplace s.audioSsrcRewriteMap e x) e =
        some x := by
      rw [MpmcHashmap32.emplace_of_not_mem _ _ _ hnR]
      exact MpmcHashmap32.find_append_singleton_self _ _ _ hnR
    have hR : MpmcHashmap32.erase (MpmcHashmap32.emplace s.audioSsrcRewriteMap e x) e =
        s.audioSsrcRewriteMap := MpmcHashmap32.erase_emplace_self _ _ _ hnR
    unfold addAudioParticipant
    rw [hnew]
    simp only [Bool.false_eq_true, if_false, hpop]
    unfold removeAudioParticipant
    simp only [trackAudioParticipant, hfind, hP, hR, ListOps.pushToHead, remove_head_fst,
      MpmcQueue.push, rotate_one_cons]
theorem withoutVideo_releaseVideoSsrc (s : ActiveMediaList) (e : Nat) :
    withoutVideo (releaseVideoSsrc s e) = withoutVideo s := by
  unfold releaseVideoSsrc
  split <;> rfl

theorem withoutVideo_claimVideoSsrc {s t : ActiveMediaList} {e : Nat}
    (h : claimVideoSsrc s e = some t) : withoutVideo t = withoutVideo s := by
  unfold claimVideoSsrc at h
  split at h
  · cases h
  · cases h; rfl

theorem withoutVideo_evictVideoHead {s t : ActiveMediaList} {r : Nat}
    (h : evictVideoHead s = some (t, r)) : withoutVideo t = withoutVideo s := by
  unfold evictVideoHead at h
  split at h
  · split at h
    · cases h
    · cases h; rfl
  · cases h; rfl

theorem withoutVideo_updateActiveVideoList (s : ActiveMediaList) (e : Nat) :
    withoutVideo (updateActiveVideoList s e).1 = withoutVideo s := by
  unfold updateActiveVideoList
  split
  · rfl
  · split
    · rfl
    · split
      · rfl
      · rename_i s1 r hev
        have h1 := withoutVideo_evictVideoHead hev
        have h2 : withoutVideo (if r ≠ 0 then releaseVideoSsrc s1 r else s1) =
            withoutVideo s := by
          split
          · rw [withoutVideo_releaseVideoSsrc, h1]
          · exact h1
        dsimp only
        split
        · split
          · exact h2
          · rename_i s3 hc
            have h3 := withoutVideo_claimVideoSsrc hc
            exact (show withoutVideo (linkVideoTail s3 e) = withoutVideo s3 from rfl).trans
              (h3.trans h2)
        · exact (show withoutVideo (linkVideoTail _ e) = withoutVideo _ from rfl).trans h2

theorem withoutVideo_hoistIfDominant (s : ActiveMediaList) (e : Nat) :
    withoutVideo (hoistIfDominant s e).1 = withoutVideo s := by
  unfold hoistIfDominant
  split
  · rfl
  · exact withoutVideo_updateActiveVideoList s _

theorem withoutVideo_addVideoParticipant (s : ActiveMediaList) (e : Nat) (p : SimulcastStream)
    (q : Option SimulcastStream) :
    withoutVideo (addVideoParticipant s e p q).1 = withoutVideo s := by
  unfold addVideoParticipant
  split
  · rfl
  · dsimp only
    split
    · exact withoutVideo_hoistIfDominant _ e
    · split
      · split
        · rfl
        · rename_i s3 hc
          rw [withoutVideo_hoistIfDominant]
          exact (show withoutVideo (linkVideoHead s3 e) = withoutVideo s3 from rfl).trans
            ((withoutVideo_claimVideoSsrc hc).trans rfl)
      · rw [withoutVideo_hoistIfDominant]; rfl

theorem withoutVideo_removeVideoParticipant (s : ActiveMediaList) (e : Nat) :
    withoutVideo (removeVideoParticipant s e).1 = withoutVideo s := by
  unfold removeVideoParticipant
  split
  · rfl
  · exact (show withoutVideo (unlinkVideo _ e) = withoutVideo _ from rfl).trans
      (withoutVideo_releaseVideoSsrc _ e)

theorem eq_of_withoutVideo {s t : ActiveMediaList} (h : withoutVideo t = withoutVideo s)
    (h1 : t.videoParticipants = s.videoParticipants) (h2 : t.videoSsrcs = s.videoSsrcs)
    (h3 : t.videoSsrcRewriteMap = s.videoSsrcRewriteMap)
    (h4 : t.reverseVideoSsrcRewriteMap = s.reverseVideoSsrcRewriteMap)
    (h5 : t.activeVideoList = s.activeVideoList)
    (h6 : t.activeVideoListLookupMap = s.activeVideoListLookupMap)
    (h7 : t.videoScreenShareSsrcMapping = s.videoScreenShareSsrcMapping)
    (h8 : t.activeVideoListNodes = s.activeVideoListNodes) : t = s := by
  rw [ActiveMediaList.ext_iff] at h
  simp only [withoutVideo, true_and, and_true] at h
  apply ActiveMediaList.ext <;> simp [*]
theorem removeVideoParticipant_fields (t : ActiveMediaList) (e : Nat)
    (h : MpmcHashmap32.contains t.videoParticipants e = true) :
    (removeVideoParticipant t e).1.videoParticipants =
        MpmcHashmap32.erase t.videoParticipants e ∧
      (removeVideoParticipant t e).1.videoScreenShareSsrcMapping =
        (match t.videoScreenShareSsrcMapping with
         | some (holder, mapping) => if holder = e then none else some (holder, mapping)
         | none => none) ∧
      (removeVideoParticipant t e).1.activeVideoList = t.activeVideoList.erase e ∧
      (removeVideoParticipant t e).1.activeVideoListLookupMap =
        MpmcHashmap32.erase t.activeVideoListLookupMap e ∧
      (removeVideoParticipant t e).1.activeVideoListNodes =
        ListOps.removeNode t.activeVideoList t.activeVideoListNodes e ∧
      ReleasedFrom t (removeVideoParticipant t e).1 e := by
  rw [removeVideoParticipant_eq t e h]
  have hsp := releaseVideoSsrc_spec t e
  refine ⟨?_, ?_, ?_, ?_, ?_, ?_⟩
  · show MpmcHashmap32.erase (releaseVideoSsrc t e).videoParticipants e = _
    rw [hsp.1]
  · show (match (releaseVideoSsrc t e).videoScreenShareSsrcMapping with
      | some (holder, mapping) => if holder = e then none else some (holder, mapping)
      | none => none) = _
    rw [hsp.2.1]
  · show (ListOps.remove (releaseVideoSsrc t e).activeVideoList e).1 = _
    rw [remove_fst, hsp.2.2.1]
  · show MpmcHashmap32.erase (releaseVideoSsrc t e).activeVideoListLookupMap e = _
    rw [hsp.2.2.2.1]
  · show ListOps.removeNode (releaseVideoSsrc t e).activeVideoList
      (releaseVideoSsrc t e).activeVideoListNodes e = _
    rw [hsp.2.2.1, nodes_releaseVideoSsrc]
  · exact hsp.2.2.2.2

theorem erase_append_singleton_self {l : List Nat} {e : Nat} (h : e ∉ l) :
    (l ++ [e]).erase e = l := by
  rw [List.erase_append_right _ h]; simp

theorem hoistIfDominant_fields (t0 : ActiveMediaList) (e : Nat)
    (hP : e ∈ MpmcHashmap32.keys t0.videoParticipants) (hL : e ∈ t0.activeVideoList)
    (hN : t0.activeVideoList.Nodup)
    (hlen : t0.activeVideoListNodes.length = t0.activeVideoList.length) :
    SameUpToLink t0 (hoistIfDominant t0 e).1 e := by
  unfold hoistIfDominant
  split
  · exact ⟨rfl, rfl, rfl, rfl, rfl, rfl, rfl, rfl⟩
  · rename_i hd
    have hd2 : t0.dominantSpeakerId = e := by
      by_contra hne
      exact hd (fun h => hne h.symm)
    rw [hd2]
    obtain ⟨vp, hf⟩ := MpmcHashmap32.find_isSome_of_mem _ _ hP
    unfold updateActiveVideoList
    rw [hf]
    have hin : e ∈ ListOps.tailToHead t0.activeVideoList := by
      simpa [ListOps.tailToHead] using hL
    simp only [hin, if_true]
    refine ⟨rfl, rfl, rfl, rfl, rfl, ?_, ?_, ?_⟩
    · show (ListOps.pushToTail (ListOps.remove t0.activeVideoList e).1 e).erase e = _
      rw [remove_fst]
      exact erase_append_singleton_self
        (fun hm => ((List.Nodup.mem_erase_iff hN).1 hm).1 rfl)
    · show MpmcHashmap32.erase (MpmcHashmap32.emplace
        (MpmcHashmap32.erase t0.activeVideoListLookupMap e) e _) e = _
      exact MpmcHashmap32.erase_emplace_self _ _ _ (MpmcHashmap32.not_mem_keys_erase _ _)
    · show ListOps.removeNode (ListOps.pushToTail (ListOps.remove t0.activeVideoList e).1 e)
        (ListOps.removeNode t0.activeVideoList t0.activeVideoListNodes e ++
          [ListOps.freshNode
            (ListOps.removeNode t0.activeVideoList t0.activeVideoListNodes e)]) e = _
      rw [remove_fst]
      exact removeNode_append_singleton _ _ e _
        (fun hm => ((List.Nodup.mem_erase_iff hN).1 hm).1 rfl)
        (length_removeNode _ _ e hlen)
theorem addVideoParticipant_fields {levels : List SimulcastLevel} (s : ActiveMediaList)
    (e : Nat) (p : SimulcastStream) (q : Option SimulcastStream) (hs : VideoInv levels s)
    (hnew : MpmcHashmap32.contains s.videoParticipants e = false)
    (hdom : ¬ (MpmcHashmap32.size s.activeVideoListLookupMap = s.maxActiveListSize ∧
      e = s.dominantSpeakerId))
    (hlen : s.activeVideoListNodes.length = s.activeVideoList.length) :
    (addVideoParticipant s e p q).1.videoParticipants =
        s.videoParticipants ++ [(e, { simulcastStream := p, secondarySimulcastStream := q })] ∧
      (addVideoParticipant s e p q).1.videoScreenShareSsrcMapping =
        (registerVideoParticipant s e p q).videoScreenShareSsrcMapping ∧
      (addVideoParticipant s e p q).1.activeVideoList.erase e = s.activeVideoList ∧
      MpmcHashmap32.erase (addVideoParticipant s e p q).1.activeVideoListLookupMap e =
        s.activeVideoListLookupMap ∧
      ListOps.removeNode (addVideoParticipant s e p q).1.activeVideoList
        (addVideoParticipant s e p q).1.activeVideoListNodes e = s.activeVideoListNodes ∧
      (((addVideoParticipant s e p q).1.videoSsrcs = s.videoSsrcs ∧
          (addVideoParticipant s e p q).1.videoSsrcRewriteMap = s.videoSsrcRewriteMap ∧
          (addVideoParticipant s e p q).1.reverseVideoSsrcRewriteMap =
            s.reverseVideoSsrcRewriteMap ∧
          (¬ (sendsVideo p q = true ∧
              MpmcHashmap32.size s.activeVideoListLookupMap ≠ s.maxActiveListSize) ∨
            s.videoSsrcs = [])) ∨
        ((sendsVideo p q = true ∧
            MpmcHashmap32.size s.activeVideoListLookupMap ≠ s.maxActiveListSize) ∧
          ∃ x rest, s.videoSsrcs = x :: rest ∧
            (addVideoParticipant s e p q).1.videoSsrcs = rest ∧
            (addVideoParticipant s e p q).1.videoSsrcRewriteMap =
              s.videoSsrcRewriteMap ++ [(e, x)] ∧
            (addVideoParticipant s e p q).1.reverseVideoSsrcRewriteMap =
              MpmcHashmap32.emplace s.reverseVideoSsrcRewriteMap x.ssrc e)) := by
  have hnp : e ∉ MpmcHashmap32.keys s.videoParticipants :=
    (MpmcHashmap32.contains_eq_false_iff _ _).1 hnew
  have hnL : e ∉ s.activeVideoList := fun h => hnp (hs.listed e h)
  have hnK : e ∉ MpmcHashmap32.keys s.activeVideoListLookupMap := fun h => hnL (hs.lookup e h)
  have hnR : e ∉ MpmcHashmap32.keys s.videoSsrcRewriteMap := fun h => hnL (hs.owners e h)
  have hP2 : (registerVideoParticipant s e p q).videoParticipants =
      s.videoParticipants ++ [(e, { simulcastStream := p, secondarySimulcastStream := q })] := by
    show MpmcHashmap32.emplace s.videoParticipants e _ = _
    rw [MpmcHashmap32.emplace_of_not_mem _ _ _ hnp]
  have hkeys2 : e ∈ MpmcHashmap32.keys (registerVideoParticipant s e p q).videoParticipants := by
    rw [hP2, MpmcHashmap32.keys_append]
    simp [MpmcHashmap32.keys]
  have hNodup : (e :: s.activeVideoList).Nodup := List.nodup_cons.2 ⟨hnL, hs.listNodup⟩
  have hEraseL : (e :: s.activeVideoList).erase e = s.activeVideoList := by simp
  unfold addVideoParticipant
  rw [hnew]
  simp only [Bool.false_eq_true, if_false]
  split
  · rename_i hfull
    have hfull2 : MpmcHashmap32.size s.activeVideoListLookupMap = s.maxActiveListSize := hfull
    have hne : e ≠ s.dominantSpeakerId := fun h => hdom ⟨hfull2, h⟩
    have hh : hoistIfDominant (registerVideoParticipant s e p q) e =
        (registerVideoParticipant s e p q, true) := by
      unfold hoistIfDominant
      rw [if_pos (show e ≠ (registerVideoParticipant s e p q).dominantSpeakerId from hne)]
    rw [hh]
    refine ⟨hP2, rfl, ?_, ?_, ?_, Or.inl ⟨rfl, rfl, rfl, Or.inl (fun h => h.2 hfull2)⟩⟩
    · exact List.erase_of_not_mem hnL
    · exact MpmcHashmap32.erase_of_not_mem _ _ hnK
    · exact removeNode_of_not_mem _ _ e hnL
  · rename_i hfull
    have hfull2 : MpmcHashmap32.size s.activeVideoListLookupMap ≠ s.maxActiveListSize := hfull
    split
    · rename_i hsv
      split
      · rename_i hc
        have hpool : s.videoSsrcs = [] := by
          unfold claimVideoSsrc at hc
          split at hc
          · rename_i hp; exact pop_eq_none hp
          · cases hc
        refine ⟨hP2, rfl, ?_, ?_, ?_, Or.inl ⟨rfl, rfl, rfl, Or.inr hpool⟩⟩
        · exact List.erase_of_not_mem hnL
        · exact MpmcHashmap32.erase_of_not_mem _ _ hnK
        · exact removeNode_of_not_mem _ _ e hnL
      · rename_i s3 hc
        have hsp := claimVideoSsrc_spec hc
        have hcl : ∃ x rest, s.videoSsrcs = x :: rest ∧ s3.videoSsrcs = rest ∧
            s3.videoSsrcRewriteMap = s.videoSsrcRewriteMap ++ [(e, x)] ∧
            s3.reverseVideoSsrcRewriteMap =
              MpmcHashmap32.emplace s.reverseVideoSsrcRewriteMap x.ssrc e := by
          unfold claimVideoSsrc at hc
          split at hc
          · cases hc
          · rename_i x rest hp
            cases hc
            refine ⟨x, rest, pop_eq_some hp, rfl, ?_, rfl⟩
            show MpmcHashmap32.emplace s.videoSsrcRewriteMap e x = _
            rw [MpmcHashmap32.emplace_of_not_mem _ _ _ hnR]
        have hf := hoistIfDominant_fields (linkVideoHead s3 e) e
          (by show e ∈ MpmcHashmap32.keys s3.videoParticipants; rw [hsp.1]; exact hkeys2)
          (by show e ∈ ListOps.pushToHead s3.activeVideoList e
              exact List.mem_cons_self _ _)
          (by show (ListOps.pushToHead s3.activeVideoList e).Nodup
              rw [hsp.2.2.1]; exact hNodup)
          (by show (ListOps.freshNode s3.activeVideoListNodes ::
                s3.activeVideoListNodes).length = (ListOps.pushToHead s3.activeVideoList e).length
              rw [hsp.2.2.1, nodes_claimVideoSsrc hc]
              simp [ListOps.pushToHead, registerVideoParticipant, hlen])
        obtain ⟨f1, f2, f3, f4, f5, f6, f7, f8⟩ := hf
        obtain ⟨x, rest, c1, c2, c3, c4⟩ := hcl
        refine ⟨?_, ?_, ?_, ?_, ?_, Or.inr ⟨⟨hsv, hfull2⟩, x, rest, c1, ?_, ?_, ?_⟩⟩
        · rw [f1]; show s3.videoParticipants = _; rw [hsp.1, hP2]
        · rw [f2]; show s3.videoScreenShareSsrcMapping = _; rw [hsp.2.1]
        · rw [f6]; show (ListOps.pushToHead s3.activeVideoList e).erase e = _
          rw [hsp.2.2.1]; exact hEraseL
        · rw [f7]
          show MpmcHashmap32.erase (MpmcHashmap32.emplace s3.activeVideoListLookupMap e _) e = _
          rw [hsp.2.2.2.1]
          exact MpmcHashmap32.erase_emplace_self _ _ _ hnK
        · rw [f8]
          show ListOps.removeNode (ListOps.pushToHead s3.activeVideoList e)
            (ListOps.freshNode s3.activeVideoListNodes :: s3.activeVideoListNodes) e = _
          rw [nodes_claimVideoSsrc hc]
          exact removeNode_cons_self _ _ e _
        · rw [f3]; exact c2
        · rw [f4]; exact c3
        · rw [f5]; exact c4
    · rename_i hsv
      have hf := hoistIfDominant_fields (linkVideoHead (registerVideoParticipant s e p q) e) e
        hkeys2 (List.mem_cons_self _ _) hNodup
        (by show (ListOps.freshNode s.activeVideoListNodes :: s.activeVideoListNodes).length =
              (e :: s.activeVideoList).length
            simp [hlen])
      obtain ⟨f1, f2, f3, f4, f5, f6, f7, f8⟩ := hf
      refine ⟨?_, ?_, ?_, ?_, ?_, Or.inl ⟨?_, ?_, ?_, Or.inl (fun h => hsv h.1)⟩⟩
      · rw [f1]; exact hP2
      · rw [f2]; rfl
      · rw [f6]; exact hEraseL
      · rw [f7]
        exact MpmcHashmap32.erase_emplace_self _ _ _ hnK
      · rw [f8]
        exact removeNode_cons_self _ _ e _
      · rw [f3]; rfl
      · rw [f4]; rfl
      · rw [f5]; rfl
theorem add_then_remove_video {levels : List SimulcastLevel} (s : ActiveMediaList)
    (e : Nat) (p : SimulcastStream) (q : Option SimulcastStream) (hs : VideoInv levels s)
    (hd : (levels.map (fun l => l.ssrc)).Nodup)
    (hnew : MpmcHashmap32.contains s.videoParticipants e = false)
    (hdom : ¬ (MpmcHashmap32.size s.activeVideoListLookupMap = s.maxActiveListSize ∧
      e = s.dominantSpeakerId))
    (hlen : s.activeVideoListNodes.length = s.activeVideoList.length) :
    (removeVideoParticipant (addVideoParticipant s e p q).1 e).1 =
      { s with
        videoSsrcs :=
          if sendsVideo p q = true ∧
              MpmcHashmap32.size s.activeVideoListLookupMap ≠ s.maxActiveListSize then
            s.videoSsrcs.rotate 1
          else s.videoSsrcs
        videoScreenShareSsrcMapping :=
          if sendsSlides p q = true then none else s.videoScreenShareSsrcMapping } := by
  have hnp : e ∉ MpmcHashmap32.keys s.videoParticipants :=
    (MpmcHashmap32.contains_eq_false_iff _ _).1 hnew
  have hnL : e ∉ s.activeVideoList := fun h => hnp (hs.listed e h)
  have hnR : e ∉ MpmcHashmap32.keys s.videoSsrcRewriteMap := fun h => hnL (hs.owners e h)
  obtain ⟨a1, a2, a3, a4, a6, a5⟩ := addVideoParticipant_fields s e p q hs hnew hdom hlen
  have hcont : MpmcHashmap32.contains (addVideoParticipant s e p q).1.videoParticipants e =
      true := by
    rw [MpmcHashmap32.contains_eq_true_iff, a1, MpmcHashmap32.keys_append]
    simp [MpmcHashmap32.keys]
  obtain ⟨r1, r2, r3, r4, r6, r5⟩ :=
    removeVideoParticipant_fields (addVideoParticipant s e p q).1 e hcont
  have hmapping : (match (registerVideoParticipant s e p q).videoScreenShareSsrcMapping with
      | some (holder, mapping) => if holder = e then none else some (holder, mapping)
      | none => none) =
      (if sendsSlides p q = true then none else s.videoScreenShareSsrcMapping) := by
    have hold : (match s.videoScreenShareSsrcMapping with
        | some (holder, mapping) => if holder = e then none else some (holder, mapping)
        | none => none) = s.videoScreenShareSsrcMapping := by
      split
      · rename_i holder mapping hm
        have : holder ≠ e := fun h => hnp (h ▸ hs.holder holder mapping hm)
        rw [if_neg this, hm]
      · rename_i hm; rw [hm]
    unfold registerVideoParticipant sendsSlides
    dsimp only
    by_cases hp : p.sendingSlides = true
    · simp [hp]
    · cases q with
      | none => simpa [hp] using hold
      | some sec =>
        by_cases hq : sec.sendingSlides = true
        · simp [hp, hq]
        · simpa [hp, hq] using hold
  refine eq_of_withoutVideo ?_ ?_ ?_ ?_ ?_ ?_ ?_ ?_ ?_
  · rw [withoutVideo_removeVideoParticipant, withoutVideo_addVideoParticipant]
    rfl
  · rw [r1, a1, MpmcHashmap32.erase_append_singleton, MpmcHashmap32.erase_of_not_mem _ _ hnp]
  · show _ = (if sendsVideo p q = true ∧
        MpmcHashmap32.size s.activeVideoListLookupMap ≠ s.maxActiveListSize then
        s.videoSsrcs.rotate 1 else s.videoSsrcs)
    rcases a5 with ⟨b1, b2, b3, b4⟩ | ⟨hc, x, rest, c1, c2, c3, c4⟩
    · have hfn : MpmcHashmap32.find (addVideoParticipant s e p q).1.videoSsrcRewriteMap e =
          none := by rw [b2]; exact (MpmcHashmap32.find_eq_none_iff _ _).2 hnR
      rcases r5 with ⟨_, d1, _, _⟩ | ⟨level, d0, _⟩
      · rw [d1, b1]
        rcases b4 with h | h
        · rw [if_neg h]
        · rw [h]; simp
      · rw [hfn] at d0; cases d0
    · have hfs : MpmcHashmap32.find (addVideoParticipant s e p q).1.videoSsrcRewriteMap e =
          some x := by rw [c3]; exact MpmcHashmap32.find_append_singleton_self _ _ _ hnR
      rcases r5 with ⟨d0, _⟩ | ⟨level, d0, d1, _, _⟩
      · rw [hfs] at d0; cases d0
      · rw [hfs] at d0
        have : level = x := (Option.some.inj d0).symm
        rw [d1, c2, this, if_pos hc, c1, rotate_one_cons]
  · rcases a5 with ⟨b1, b2, b3, b4⟩ | ⟨hc, x, rest, c1, c2, c3, c4⟩
    · have hfn : MpmcHashmap32.find (addVideoParticipant s e p q).1.videoSsrcRewriteMap e =
          none := by rw [b2]; exact (MpmcHashmap32.find_eq_none_iff _ _).2 hnR
      rcases r5 with ⟨_, _, d2, _⟩ | ⟨level, d0, _⟩
      · rw [d2, b2]
      · rw [hfn] at d0; cases d0
    · have hfs : MpmcHashmap32.find (addVideoParticipant s e p q).1.videoSsrcRewriteMap e =
          some x := by rw [c3]; exact MpmcHashmap32.find_append_singleton_self _ _ _ hnR
      rcases r5 with ⟨d0, _⟩ | ⟨level, d0, _, d2, _⟩
      · rw [hfs] at d0; cases d0
      · rw [d2, c3, MpmcHashmap32.erase_append_singleton,
          MpmcHashmap32.erase_of_not_mem _ _ hnR]
  · rcases a5 with ⟨b1, b2, b3, b4⟩ | ⟨hc, x, rest, c1, c2, c3, c4⟩
    · have hfn : MpmcHashmap32.find (addVideoParticipant s e p q).1.videoSsrcRewriteMap e =
          none := by rw [b2]; exact (MpmcHashmap32.find_eq_none_iff _ _).2 hnR
      rcases r5 with ⟨_, _, _, d3⟩ | ⟨level, d0, _⟩
      · rw [d3, b3]
      · rw [hfn] at d0; cases d0
    · have hfs : MpmcHashmap32.find (addVideoParticipant s e p q).1.videoSsrcRewriteMap e =
          some x := by rw [c3]; exact MpmcHashmap32.find_append_singleton_self _ _ _ hnR
      have hx : x.ssrc ∉ MpmcHashmap32.keys s.reverseVideoSsrcRewriteMap := by
        intro hk
        have hin := hs.reversed _ hk
        have hnd : ((s.videoSsrcs ++ s.videoSsrcRewriteMap.map Prod.snd).map
            (fun l => l.ssrc)).Nodup :=
          ((hs.conserved.map (fun l => l.ssrc)).nodup_iff).2 hd
        rw [c1] at hnd
        simp only [List.cons_append, List.map_cons, List.nodup_cons, List.map_append,
          List.mem_append, not_or, List.map_map] at hnd
        exact hnd.1.2 (by simpa [List.map_map, Function.comp_def] using hin)
      rcases r5 with ⟨d0, _⟩ | ⟨level, d0, _, _, d3⟩
      · rw [hfs] at d0; cases d0
      · rw [hfs] at d0
        have : level = x := (Option.some.inj d0).symm
        rw [d3, c4, this]
        exact MpmcHashmap32.erase_emplace_self _ _ _ hx
  · rw [r3, a3]
  · rw [r4, a4]
  · rw [r2, a2]
    exact hmapping
  · rw [r6, a6]
/-- C4, as amended: in every reachable state (construction with pairwise distinct video
SSRCs) add followed by remove restores the state up to the following. Audio, for every
endpoint `e` that is not tracked and has no entry in the audio rewrite map: the pool is
rotated by one place (the SSRC handed out comes back at the end of the queue) and
`dominantSpeakerId` is `e` when it was 0. Video, for every endpoint `e` that is not
registered, unless `e` is the dominant speaker while the active video list is full: the
pool is rotated by one place when a level was claimed, and the screen-share mapping is
unset when a stream of `e` sends slides. In the states reached with `updateActiveAudioList`
called for tracked endpoints only, an endpoint that is not tracked has no entry in the
audio rewrite map. -/
theorem add_then_remove (maxParticipants : Nat) (audioSsrcs : List Nat)
    (videoSsrcs : List SimulcastLevel) (defaultLastN audioLastN threshold : Nat)
    (s : ActiveMediaList) (hd : (videoSsrcs.map (fun l => l.ssrc)).Nodup)
    (h : Reachable (ActiveMediaList.new maxParticipants audioSsrcs videoSsrcs defaultLastN
      audioLastN threshold) s) :
    (∀ e, MpmcHashmap32.contains s.audioParticipants e = false →
      MpmcHashmap32.contains s.audioSsrcRewriteMap e = false →
      (removeAudioParticipant (addAudioParticipant s e).1 e).1 =
        { s with
          audioSsrcs := s.audioSsrcs.rotate 1
          dominantSpeakerId := if s.dominantSpeakerId = 0 then e else s.dominantSpeakerId }) ∧
    (∀ e p q, MpmcHashmap32.contains s.videoParticipants e = false →
      ¬ (MpmcHashmap32.size s.activeVideoListLookupMap = s.maxActiveListSize ∧
        e = s.dominantSpeakerId) →
      (removeVideoParticipant (addVideoParticipant s e p q).1 e).1 =
        { s with
          videoSsrcs :=
            if sendsVideo p q = true ∧
                MpmcHashmap32.size s.activeVideoListLookupMap ≠ s.maxActiveListSize then
              s.videoSsrcs.rotate 1
            else s.videoSsrcs
          videoScreenShareSsrcMapping :=
            if sendsSlides p q = true then none else s.videoScreenShareSsrcMapping }) ∧
    (ReachableTracked (ActiveMediaList.new maxParticipants audioSsrcs videoSsrcs defaultLastN
        audioLastN threshold) s →
      ∀ e, MpmcHashmap32.contains s.audioParticipants e = false →
        MpmcHashmap32.contains s.audioSsrcRewriteMap e = false) := by
  have hv := reachable_videoInv (videoInv_init _ _ _ _ _ _) h
  have hl := reachable_lookupInv (lookupInv_init _ _ _ _ _ _) (videoInv_init _ _ _ _ _ _) h
  have hd2 : (videoSsrcs.tail.map (fun l => l.ssrc)).Nodup := by
    rw [List.map_tail]
    exact hd.sublist (List.tail_sublist _)
  refine ⟨fun e he hf => add_then_remove_audio s e he hf,
    fun e p q he hdom => add_then_remove_video s e p q hv hd2 he hdom hl.length, ?_⟩
  intro ht e he
  have ha := reachable_audioInv (audioInv_init _ _ _ _ _ _) ht
  rw [MpmcHashmap32.contains_eq_false_iff] at he ⊢
  exact fun hk => he (ha.tracked e hk)

/-- C4, witness: add and remove of audio endpoint 1 on the fresh scenario bridge. -/
theorem add_then_remove_witness :
    (([1000, 2000, 3000, 4000, 5000] : List Nat).Nodup ∧
      Reachable scenarioInit scenarioInit) ∧
      (removeAudioParticipant (addAudioParticipant scenarioInit 1).1 1).1 =
        { scenarioInit with
          audioSsrcs := [101, 100]
          dominantSpeakerId := 1 } :=
  ⟨⟨by decide, Reachable.start⟩,
    (add_then_remove 1024 [100, 101] _ 2 2 10 scenarioInit (by decide) Reachable.start).1 1
      (by decide) (by decide)⟩

/-- C4, counterexample to the statement as written. On the fresh bridge, adding and removing
audio endpoint 1 leaves it dominant speaker and the pool in another order; with endpoint 1
holding the screen-share mapping, adding and removing the slides sender 2 leaves the
mapping unset; with the active video list full, adding and removing the dominant speaker 9
as video participant evicts endpoint 3 from the list. -/
theorem add_then_remove_not_identity :
    (MpmcHashmap32.contains scenarioInit.audioParticipants 1 = false ∧
      scenarioInit.dominantSpeakerId = 0 ∧
      (removeAudioParticipant (addAudioParticipant scenarioInit 1).1 1).1.dominantSpeakerId = 1 ∧
      scenarioInit.audioSsrcs = [100, 101] ∧
      (removeAudioParticipant (addAudioParticipant scenarioInit 1).1 1).1.audioSsrcs =
        [101, 100]) ∧
    ((addVideoParticipant scenarioInit 1
        { levels := [{ ssrc := 11, feedbackSsrc := 12, mediaActive := false }],
          sendingVideo := false, sendingSlides := true } none).1.videoScreenShareSsrcMapping =
        some (1, { ssrc := 11, rewriteSsrc := 1000 }) ∧
      (removeVideoParticipant
        (addVideoParticipant
          (addVideoParticipant scenarioInit 1
            { levels := [{ ssrc := 11, feedbackSsrc := 12, mediaActive := false }],
              sendingVideo := false, sendingSlides := true } none).1 2
          { levels := [{ ssrc := 21, feedbackSsrc := 22, mediaActive := false }],
            sendingVideo := false, sendingSlides := true } none).1
        2).1.videoScreenShareSsrcMapping = none) ∧
    (scenarioFullVideo.dominantSpeakerId = 9 ∧
      MpmcHashmap32.contains scenarioFullVideo.videoParticipants 9 = false ∧
      scenarioFullVideo.activeVideoList = [3, 2, 1] ∧
      (removeVideoParticipant
        (addVideoParticipant scenarioFullVideo 9
          { levels := [], sendingVideo := true, sendingSlides := false } none).1
        9).1.activeVideoList = [2, 1]) := by
  decide

/-! ## The rate limit of `process` (C6) -/

theorem withoutAudioList_claimAudioSsrc (s : ActiveMediaList) (e : Nat) :
    withoutAudioList (claimAudioSsrc s e) = withoutAudioList s := by
  unfold claimAudioSsrc
  split <;> rfl

theorem withoutAudioList_updateActiveAudioList (s : ActiveMediaList) (e : Nat) :
    withoutAudioList (updateActiveAudioList s e) = withoutAudioList s := by
  unfold updateActiveAudioList
  split
  · split <;> rfl
  · split
    · split
      · rfl
      · split
        · rfl
        · rw [withoutAudioList_claimAudioSsrc]; rfl
    · rw [withoutAudioList_claimAudioSsrc]

theorem withoutAudioList_processTopSpeakers (n : Nat) (s : ActiveMediaList)
    (heap : List AudioParticipantScore) (snapshot : List ActiveTalker) :
    withoutAudioList (processTopSpeakers n s heap snapshot).1 = withoutAudioList s := by
  induction n generalizing s heap snapshot with
  | zero => rfl
  | succ n ih =>
    unfold processTopSpeakers
    split
    · rfl
    · dsimp only
      rw [ih, withoutAudioList_updateActiveAudioList]

theorem lastRunTimestamp_nominate (s : ActiveMediaList) (timestamp : Nat)
    (d : AudioParticipantScore) (c : ℚ) (h : s.lastRunTimestamp = timestamp) :
    (nominate s timestamp d c).1.lastRunTimestamp = timestamp := by
  unfold nominate
  split
  · exact h
  · dsimp only
    split
    · exact congrArg ActiveMediaList.lastRunTimestamp
        (withoutVideo_updateActiveVideoList _ _)
    · rfl

theorem lastRunTimestamp_process (s : ActiveMediaList) (timestamp : Nat)
    (hran : Time.diffLT s.lastRunTimestamp timestamp (INTERVAL_MS * Time.ms) = false) :
    (process s timestamp).1.lastRunTimestamp = timestamp := by
  unfold process
  rw [hran]
  simp only [Bool.false_eq_true, if_false]
  split
  · rfl
  · apply lastRunTimestamp_nominate
    exact congrArg ActiveMediaList.lastRunTimestamp
      (withoutAudioList_processTopSpeakers _ _ _ _)

/-- C6: when a `process` call at timestamp `t` ran (it was not itself inside the rate-limit
window), a following call at `t'` with `t ≤ t'` and `t' - t < INTERVAL_MS` returns the
state unchanged and reports neither a dominant speaker change nor a user media map
change. -/
theorem process_idempotent_in_window (s : ActiveMediaList) (t t' : Nat)
    (hran : Time.diffLT s.lastRunTimestamp t (INTERVAL_MS * Time.ms) = false)
    (h1 : t ≤ t') (h2 : t' - t < INTERVAL_MS * Time.ms) :
    process (process s t).1 t' = ((process s t).1, false, false) := by
  have hlast := lastRunTimestamp_process s t hran
  have hlt : Time.diffLT (process s t).1.lastRunTimestamp t' (INTERVAL_MS * Time.ms) = true := by
    rw [hlast]
    unfold Time.diffLT
    simp only [decide_eq_true_eq]
    omega
  generalize (process s t).1 = u at hlt ⊢
  unfold process
  rw [hlt]
  simp

/-- C6, witness: a sample of endpoint 1 is pending, `process` runs at 10 ms and is called
again at 15 ms. -/
theorem process_idempotent_in_window_witness :
    (Time.diffLT (onNewAudioLevel (addAudioParticipant scenarioInit 1).1 1 80
        false).lastRunTimestamp (10 * Time.ms) (INTERVAL_MS * Time.ms) = false ∧
      10 * Time.ms ≤ 15 * Time.ms ∧ 15 * Time.ms - 10 * Time.ms < INTERVAL_MS * Time.ms) ∧
      process (process (onNewAudioLevel (addAudioParticipant scenarioInit 1).1 1 80 false)
        (10 * Time.ms)).1 (15 * Time.ms) =
        ((process (onNewAudioLevel (addAudioParticipant scenarioInit 1).1 1 80 false)
          (10 * Time.ms)).1, false, false) :=
  ⟨⟨by decide, by decide, by decide⟩,
    process_idempotent_in_window _ (10 * Time.ms) (15 * Time.ms) (by decide) (by decide)
      (by decide)⟩

/-! ## Scenario S1: the first speaker (C7) -/

theorem mem_modify_of_ne {V : Type} (m : MpmcHashmap32 V) (k : Nat) (f : V → V)
    (p : Nat × V) (hp : p ∈ MpmcHashmap32.modify m k f) (hne : p.1 ≠ k) : p ∈ m := by
  unfold MpmcHashmap32.modify at hp
  rw [List.mem_map] at hp
  obtain ⟨a, ha, hap⟩ := hp
  by_cases h : a.1 = k
  · rw [if_pos h] at hap
    rw [← hap] at hne
    exact absurd h hne
  · rw [if_neg h] at hap
    rw [← hap]; exact ha

theorem silent_foldl_ingestEntry (A : Nat) (q : List AudioLevelEntry)
    (m : MpmcHashmap32 AudioParticipant) (hq : ∀ x ∈ q, x.participant = A)
    (hm : ∀ p ∈ m, p.1 ≠ A → p.2.maxRecentLevel = 0 ∧ p.2.totalLevelLongWindow = 0) :
    ∀ p ∈ q.foldl ingestEntry m, p.1 ≠ A →
      p.2.maxRecentLevel = 0 ∧ p.2.totalLevelLongWindow = 0 := by
  induction q generalizing m with
  | nil => exact hm
  | cons x rest ih =>
    rw [List.foldl_cons]
    apply ih _ (fun y hy => hq y (List.mem_cons_of_mem _ hy))
    intro p hp hne
    have hx : x.participant = A := hq x (List.mem_cons_self _ _)
    unfold ingestEntry at hp
    split at hp
    · rw [hx] at hp
      exact hm p (mem_modify_of_ne _ _ _ p hp hne) hne
    · exact hm p hp hne

theorem silent_updateLevels (A : Nat) (s : ActiveMediaList)
    (hq : ∀ x ∈ s.incomingAudioLevels, x.participant = A)
    (hm : ∀ p ∈ s.audioParticipants, p.1 ≠ A →
      p.2.maxRecentLevel = 0 ∧ p.2.totalLevelLongWindow = 0) :
    ∀ p ∈ (updateLevels s).audioParticipants, p.1 ≠ A →
      p.2.maxRecentLevel = 0 ∧ p.2.totalLevelLongWindow = 0 := by
  unfold updateLevels
  apply silent_foldl_ingestEntry A _ _ hq
  intro p hp hne
  rw [List.mem_map] at hp
  obtain ⟨a, ha, hap⟩ := hp
  rw [← hap] at hne ⊢
  obtain ⟨h1, h2⟩ := hm a ha hne
  simp [decayLevels, h1, h2]

theorem rankLoop_only (A d : Nat) (m : MpmcHashmap32 AudioParticipant) (cur : ℚ)
    (acc : List AudioParticipantScore)
    (hm : ∀ p ∈ m, p.1 ≠ A → p.2.maxRecentLevel = 0 ∧ p.2.totalLevelLongWindow = 0) :
    ∀ x ∈ (rankLoop d m cur acc).2, x ∈ acc ∨ x.participant = A := by
  induction m generalizing cur acc with
  | nil => intro x hx; exact Or.inl hx
  | cons p rest ih =>
    obtain ⟨k, v⟩ := p
    have hrest : ∀ p ∈ rest, p.1 ≠ A →
        p.2.maxRecentLevel = 0 ∧ p.2.totalLevelLongWindow = 0 :=
      fun p hp => hm p (List.mem_cons_of_mem _ hp)
    intro x hx
    unfold rankLoop at hx
    split at hx
    · exact ih _ _ hrest x hx
    · rename_i hnz
      rcases ih _ _ hrest x hx with h | h
      · rcases List.mem_append.1 h with h | h
        · exact Or.inl h
        · right
          simp only [List.mem_singleton] at h
          rw [h]
          by_contra hne
          exact hnz (hm (k, v) (List.mem_cons_self _ _) hne).1
      · exact Or.inr h

theorem nominate_of_dominant (s : ActiveMediaList) (timestamp : Nat)
    (d : AudioParticipantScore) (c : ℚ) (h : d.participant = s.dominantSpeakerId) :
    (nominate s timestamp d c).2.1 = false ∧
      (nominate s timestamp d c).1.dominantSpeakerId = s.dominantSpeakerId ∧
      (nominate s timestamp d c).1.audioParticipants = s.audioParticipants ∧
      (nominate s timestamp d c).1.incomingAudioLevels = s.incomingAudioLevels := by
  have hcw : (countWin s d.participant).dominantSpeakerId = s.dominantSpeakerId ∧
      (countWin s d.participant).audioParticipants = s.audioParticipants ∧
      (countWin s d.participant).incomingAudioLevels = s.incomingAudioLevels := by
    unfold countWin
    split <;> exact ⟨rfl, rfl, rfl⟩
  unfold nominate
  split
  · exact ⟨rfl, rfl, rfl, rfl⟩
  · dsimp only
    have hsw : switchCondition
        { countWin s d.participant with lastRunTimestamp := timestamp } timestamp d c =
        false := by
      unfold switchCondition
      simp only [decide_eq_false_iff_not, not_and]
      intro hne
      exact absurd (h.trans hcw.1.symm) hne
    rw [hsw]
    exact ⟨rfl, hcw.1, hcw.2.1, hcw.2.2⟩

theorem onlySpeaker_nominate (A : Nat) (s1 : ActiveMediaList) (n : Nat)
    (heap : List AudioParticipantScore) (timestamp : Nat) (d : AudioParticipantScore) (c : ℚ)
    (h1 : OnlySpeaker A s1) (hd : d.participant = A) :
    OnlySpeaker A
        (nominate (writeSnapshot (processTopSpeakers n s1 heap [])) timestamp d c).1 ∧
      (nominate (writeSnapshot (processTopSpeakers n s1 heap [])) timestamp d c).2.1 =
        false := by
  have hframe := withoutAudioList_processTopSpeakers n s1 heap []
  have hdom := congrArg ActiveMediaList.dominantSpeakerId hframe
  have hpar := congrArg ActiveMediaList.audioParticipants hframe
  have hque := congrArg ActiveMediaList.incomingAudioLevels hframe
  simp only [withoutAudioList] at hdom hpar hque
  generalize processTopSpeakers n s1 heap [] = looped at hdom hpar hque ⊢
  have hnom := nominate_of_dominant (writeSnapshot looped) timestamp d c
    (by rw [hd]; exact (hdom.trans h1.1).symm)
  generalize nominate (writeSnapshot looped) timestamp d c = r at hnom ⊢
  obtain ⟨n1, n2, n3, n4⟩ := hnom
  refine ⟨⟨?_, ?_, ?_⟩, n1⟩
  · rw [n2]; exact hdom.trans h1.1
  · rw [n3]; intro p hp; exact h1.2.1 p (hpar ▸ hp)
  · rw [n4]; intro x hx; exact h1.2.2 x (hque ▸ hx)

theorem onlySpeaker_process (A : Nat) (s : ActiveMediaList) (timestamp : Nat)
    (hs : OnlySpeaker A s) :
    OnlySpeaker A (process s timestamp).1 ∧ (process s timestamp).2.1 = false := by
  obtain ⟨hd, hm, hq⟩ := hs
  unfold process
  split
  · exact ⟨⟨hd, hm, hq⟩, rfl⟩
  · have h1 : OnlySpeaker A (updateLevels { s with lastRunTimestamp := timestamp }) := by
      refine ⟨hd, silent_updateLevels A _ hq hm, ?_⟩
      intro x hx
      simp [updateLevels] at hx
    dsimp only
    split
    · exact ⟨h1, rfl⟩
    · rename_i dominantSpeaker htop
      have hpart : dominantSpeaker.participant = A := by
        rcases rankLoop_only A _ _ _ _ h1.2.1 dominantSpeaker (heapTop_mem htop) with h | h
        · cases h
        · exact h
      exact onlySpeaker_nominate A _ _ _ timestamp dominantSpeaker _ h1 hpart

theorem onlySpeaker_feedSamples (A level : Nat) (count : Nat) (s : ActiveMediaList)
    (hs : OnlySpeaker A s) : OnlySpeaker A (feedSamples s A level count) := by
  induction count generalizing s with
  | zero => exact hs
  | succ n ih =>
    unfold feedSamples
    apply ih
    refine ⟨hs.1, hs.2.1, ?_⟩
    intro x hx
    simp only [onNewAudioLevel, MpmcQueue.push, List.mem_append, List.mem_singleton] at hx
    rcases hx with h | h
    · exact hs.2.2 x h
    · rw [h]

theorem onlySpeaker_runTicks (A level : Nat) (ticks : List (Nat × Nat)) (s : ActiveMediaList)
    (hs : OnlySpeaker A s) :
    (runTicks A level s ticks).1.dominantSpeakerId = A ∧
      ∀ flag ∈ (runTicks A level s ticks).2, flag = false := by
  induction ticks generalizing s with
  | nil => exact ⟨hs.1, fun f hf => by cases hf⟩
  | cons tk rest ih =>
    obtain ⟨timestamp, count⟩ := tk
    unfold runTicks
    have hp := onlySpeaker_process A (feedSamples s A level count) timestamp
      (onlySpeaker_feedSamples A level count s hs)
    obtain ⟨i1, i2⟩ := ih _ hp.1
    refine ⟨i1, ?_⟩
    intro f hf
    rcases List.mem_cons.1 hf with h | h
    · rw [h]; exact hp.2
    · exact i2 f h

/-- C7, as amended: on a freshly constructed bridge, after `addAudioParticipant(A)` with
`A ≠ 0` and `addAudioParticipant(B)`, `A` is the dominant speaker already, and through any
run of `process` ticks in which only `A` receives samples (of level 80) `dominantSpeakerId`
stays `A` and no call reports `dominantSpeakerChanged`. -/
theorem first_speaker_is_dominant_without_change (maxParticipants : Nat)
    (audioSsrcs : List Nat) (videoSsrcs : List SimulcastLevel)
    (defaultLastN audioLastN threshold : Nat) (A B : Nat) (ticks : List (Nat × Nat))
    (hA : A ≠ 0) :
    (addAudioParticipant (addAudioParticipant (ActiveMediaList.new maxParticipants audioSsrcs
        videoSsrcs defaultLastN audioLastN threshold) A).1 B).1.dominantSpeakerId = A ∧
      (runTicks A 80
        (addAudioParticipant (addAudioParticipant (ActiveMediaList.new maxParticipants
          audioSsrcs videoSsrcs defaultLastN audioLastN threshold) A).1 B).1
        ticks).1.dominantSpeakerId = A ∧
      ∀ flag ∈ (runTicks A 80
        (addAudioParticipant (addAudioParticipant (ActiveMediaList.new maxParticipants
          audioSsrcs videoSsrcs defaultLastN audioLastN threshold) A).1 B).1 ticks).2,
        flag = false := by
  have hfresh : ∀ p ∈ [(A, AudioParticipant.new)], p.1 ≠ A →
      p.2.maxRecentLevel = 0 ∧ p.2.totalLevelLongWindow = 0 := by
    intro p hp hne
    simp only [List.mem_singleton] at hp
    rw [hp] at hne
    exact absurd rfl hne
  have h1 : OnlySpeaker A (addAudioParticipant (ActiveMediaList.new maxParticipants audioSsrcs
      videoSsrcs defaultLastN audioLastN threshold) A).1 := by
    unfold addAudioParticipant
    have hc : MpmcHashmap32.contains (ActiveMediaList.new maxParticipants audioSsrcs
        videoSsrcs defaultLastN audioLastN threshold).audioParticipants A = false := rfl
    rw [hc]
    simp only [Bool.false_eq_true, if_false]
    split
    · refine ⟨?_, ?_, ?_⟩
      · simp [trackAudioParticipant, ActiveMediaList.new]
      · exact hfresh
      · intro x hx; cases hx
    · refine ⟨?_, ?_, ?_⟩
      · simp [trackAudioParticipant, ActiveMediaList.new]
      · exact hfresh
      · intro x hx; cases hx
  have h2 : ∀ s, OnlySpeaker A s → OnlySpeaker A (addAudioParticipant s B).1 := by
    intro s hs
    have hnew : AudioParticipant.new.maxRecentLevel = 0 ∧
        AudioParticipant.new.totalLevelLongWindow = 0 := ⟨rfl, rfl⟩
    have hpart : ∀ p ∈ (trackAudioParticipant s B).audioParticipants, p.1 ≠ A →
        p.2.maxRecentLevel = 0 ∧ p.2.totalLevelLongWindow = 0 := by
      intro p hp hne
      have hp2 : p ∈ MpmcHashmap32.emplace s.audioParticipants B AudioParticipant.new := hp
      unfold MpmcHashmap32.emplace at hp2
      split at hp2
      · exact hs.2.1 p hp2 hne
      · rcases List.mem_append.1 hp2 with h | h
        · exact hs.2.1 p h hne
        · simp only [List.mem_singleton] at h
          rw [h]; exact hnew
    have hdom : (trackAudioParticipant s B).dominantSpeakerId = A := by
      show (if s.dominantSpeakerId = 0 then B else s.dominantSpeakerId) = A
      rw [hs.1, if_neg hA]
    unfold addAudioParticipant
    split
    · exact hs
    · split
      · exact ⟨hdom, hpart, hs.2.2⟩
      · exact ⟨hdom, hpart, hs.2.2⟩
  have h3 := h2 _ h1
  exact ⟨h3.1, onlySpeaker_runTicks A 80 ticks _ h3⟩

/-- C7, witness: endpoints 1 and 2, two ticks with one sample each. -/
theorem first_speaker_is_dominant_without_change_witness :
    (1 : Nat) ≠ 0 ∧
      (runTicks 1 80 (addAudioParticipant (addAudioParticipant scenarioInit 1).1 2).1
        [(10 * Time.ms, 1), (1980 * Time.ms, 1)]).1.dominantSpeakerId = 1 :=
  ⟨by decide,
    (first_speaker_is_dominant_without_change 1024 [100, 101] _ 2 2 10 1 2
      [(10 * Time.ms, 1), (1980 * Time.ms, 1)] (by decide)).2.1⟩

/-- C7, counterexample to the statement as written: endpoints 1 and 2 are added, endpoint 1
receives a level 80 sample and `process` is called at 1980 ms. The call passes the switch
gate (it records endpoint 1 as the winner of its first round), endpoint 1 is the dominant
speaker, and `dominantSpeakerChanged` is false. -/
theorem first_speaker_reports_no_change :
    switchGateClosed
        (onNewAudioLevel (addAudioParticipant (addAudioParticipant scenarioInit 1).1 2).1 1 80
          false) (1980 * Time.ms) = false ∧
      (process
        (onNewAudioLevel (addAudioParticipant (addAudioParticipant scenarioInit 1).1 2).1 1 80
          false) (1980 * Time.ms)).1.prevWinningDominantSpeaker = 1 ∧
      (process
        (onNewAudioLevel (addAudioParticipant (addAudioParticipant scenarioInit 1).1 2).1 1 80
          false) (1980 * Time.ms)).1.consecutiveDominantSpeakerWins = 1 ∧
      (process
        (onNewAudioLevel (addAudioParticipant (addAudioParticipant scenarioInit 1).1 2).1 1 80
          false) (1980 * Time.ms)).1.dominantSpeakerId = 1 ∧
      (process
        (onNewAudioLevel (addAudioParticipant (addAudioParticipant scenarioInit 1).1 2).1 1 80
          false) (1980 * Time.ms)).2.1 = false := by
  decide!

/-! ## The dominant speaker switch rate (C5) -/

/-- C5, evaluation of the code at the failing input: both `process` calls, at 1980 ms and
at 3960 ms, report `dominantSpeakerChanged = true` (to endpoint 2, then back to endpoint
1), and the two timestamps are less than `maxSwitchDominantSpeakerEvery` apart. -/
theorem dominant_speaker_changes_1980ms_apart :
    firstSwitch.2.1 = true ∧ firstSwitch.1.dominantSpeakerId = 2 ∧
      firstSwitch.1.lastChangeTimestamp = 1980 * Time.ms ∧
      secondSwitch.2.1 = true ∧ secondSwitch.1.dominantSpeakerId = 1 ∧
      secondSwitch.1.lastChangeTimestamp = 3960 * Time.ms ∧
      3960 * Time.ms - 1980 * Time.ms < maxSwitchDominantSpeakerEvery := by
  decide!

/-! ## Evict for insert (C8) -/

/-- C8: in a reachable state whose active-audio list is full (`maxSpeakers ≥ 1`), promoting
a tracked endpoint `e` that is not in the list pops the head of the list, erases it from
the rewrite map, gives `e` exactly the SSRC the head held, links `e` at the tail and leaves
the SSRC of every other endpoint, the order of the remaining entries and the (empty) pool
as they were. -/
theorem updateActiveAudioList_evicts_head (maxParticipants : Nat) (audioSsrcs : List Nat)
    (videoSsrcs : List SimulcastLevel) (defaultLastN audioLastN threshold : Nat)
    (s : ActiveMediaList) (e : Nat)
    (h : Reachable (ActiveMediaList.new maxParticipants audioSsrcs videoSsrcs defaultLastN
      audioLastN threshold) s)
    (hfull : MpmcHashmap32.size s.audioSsrcRewriteMap = s.maxSpeakers)
    (hpos : 1 ≤ s.maxSpeakers)
    (_htracked : MpmcHashmap32.contains s.audioParticipants e = true)
    (hnot : e ∉ s.activeAudioList) :
    ∃ head rest ssrc, s.activeAudioList = head :: rest ∧
      MpmcHashmap32.find s.audioSsrcRewriteMap head = some ssrc ∧
      (updateActiveAudioList s e).activeAudioList = rest ++ [e] ∧
      head ∉ (updateActiveAudioList s e).activeAudioList ∧
      MpmcHashmap32.find (updateActiveAudioList s e).audioSsrcRewriteMap head = none ∧
      MpmcHashmap32.find (updateActiveAudioList s e).audioSsrcRewriteMap e = some ssrc ∧
      (∀ x, x ≠ head → x ≠ e →
        MpmcHashmap32.find (updateActiveAudioList s e).audioSsrcRewriteMap x =
          MpmcHashmap32.find s.audioSsrcRewriteMap x) ∧
      (updateActiveAudioList s e).audioSsrcs = [] ∧ s.audioSsrcs = [] := by
  have hloose := reachable_audioLoose (audioLoose_init _ _ _ _ _ _) h
  have hsize := audioLoose_size_le hloose
  have hroom := hloose.room
  have hpool : s.audioSsrcs = [] := List.length_eq_zero.1 (by omega)
  have hlisted : (MpmcHashmap32.keys s.audioSsrcRewriteMap).Perm s.activeAudioList :=
    hloose.intact (by rw [hpool, hfull]; rfl)
  have hlen : s.activeAudioList.length = s.maxSpeakers := by
    rw [← hlisted.length_eq, ← hfull]
    simp [MpmcHashmap32.keys, MpmcHashmap32.size]
  have hne : e ∉ MpmcHashmap32.keys s.audioSsrcRewriteMap := fun hk =>
    hnot ((hlisted.mem_iff).1 hk)
  have hcont : MpmcHashmap32.contains s.audioSsrcRewriteMap e = false :=
    (MpmcHashmap32.contains_eq_false_iff _ _).2 hne
  cases hl : s.activeAudioList with
  | nil => rw [hl] at hlen; simp at hlen; omega
  | cons head rest =>
    have hnd : (head :: rest).Nodup := by
      rw [← hl]; exact (hlisted.nodup_iff).1 hloose.nodup
    have hhead : head ∈ MpmcHashmap32.keys s.audioSsrcRewriteMap := by
      rw [hlisted.mem_iff, hl]; exact List.mem_cons_self _ _
    obtain ⟨ssrc, hf⟩ := MpmcHashmap32.find_isSome_of_mem _ _ hhead
    have hhe : head ≠ e := fun heq => hne (heq ▸ hhead)
    have hne2 : e ∉ MpmcHashmap32.keys (MpmcHashmap32.erase s.audioSsrcRewriteMap head) :=
      fun hk => hne ((MpmcHashmap32.mem_keys_erase _ _ _).1 hk).1
    have hupd : updateActiveAudioList s e =
        { s with
          activeAudioList := rest ++ [e]
          audioSsrcRewriteMap :=
            MpmcHashmap32.erase s.audioSsrcRewriteMap head ++ [(e, ssrc)]
          audioSsrcs := [] } := by
      unfold updateActiveAudioList
      rw [hcont]
      simp only [Bool.false_eq_true, if_false, hfull, if_true, hl, ListOps.popFromHead, hf]
      unfold claimAudioSsrc
      simp only [hpool, MpmcQueue.push, List.nil_append, MpmcQueue.pop,
        MpmcHashmap32.emplace_of_not_mem _ _ _ hne2, ListOps.pushToTail]
    refine ⟨head, rest, ssrc, rfl, hf, ?_, ?_, ?_, ?_, ?_, ?_, hpool⟩
    · rw [hupd]
    · rw [hupd]
      show head ∉ rest ++ [e]
      simp only [List.mem_append, List.mem_singleton, not_or]
      exact ⟨(List.nodup_cons.1 hnd).1, hhe⟩
    · rw [hupd]
      show MpmcHashmap32.find (MpmcHashmap32.erase s.audioSsrcRewriteMap head ++ [(e, ssrc)])
        head = none
      rw [MpmcHashmap32.find_append_singleton_ne _ _ _ _ hhe, MpmcHashmap32.find_erase_self]
    · rw [hupd]
      exact MpmcHashmap32.find_append_singleton_self _ _ _ hne2
    · intro x hx1 hx2
      rw [hupd]
      show MpmcHashmap32.find (MpmcHashmap32.erase s.audioSsrcRewriteMap head ++ [(e, ssrc)])
        x = _
      rw [MpmcHashmap32.find_append_singleton_ne _ _ _ _ hx2,
        MpmcHashmap32.find_erase_ne _ _ _ hx1]
    · rw [hupd]

/-- C8, witness S3: with audio SSRCs 100 and 101 and endpoints 1, 2, 3 added and 1, 2
promoted in order, promoting 3 evicts 1 and gives 3 the SSRC 100; removing 3 afterwards
leaves the pool equal to [100] with 101 held by 2. -/
theorem updateActiveAudioList_evicts_head_witness :
    (Reachable scenarioInit scenarioS3 ∧
      MpmcHashmap32.size scenarioS3.audioSsrcRewriteMap = scenarioS3.maxSpeakers ∧
      1 ≤ scenarioS3.maxSpeakers ∧
      MpmcHashmap32.contains scenarioS3.audioParticipants 3 = true ∧
      3 ∉ scenarioS3.activeAudioList) ∧
    (∃ head rest ssrc, scenarioS3.activeAudioList = head :: rest ∧
      MpmcHashmap32.find scenarioS3.audioSsrcRewriteMap head = some ssrc ∧
      (updateActiveAudioList scenarioS3 3).activeAudioList = rest ++ [3] ∧
      head ∉ (updateActiveAudioList scenarioS3 3).activeAudioList ∧
      MpmcHashmap32.find (updateActiveAudioList scenarioS3 3).audioSsrcRewriteMap head = none ∧
      MpmcHashmap32.find (updateActiveAudioList scenarioS3 3).audioSsrcRewriteMap 3 =
        some ssrc ∧
      (∀ x, x ≠ head → x ≠ 3 →
        MpmcHashmap32.find (updateActiveAudioList scenarioS3 3).audioSsrcRewriteMap x =
          MpmcHashmap32.find scenarioS3.audioSsrcRewriteMap x) ∧
      (updateActiveAudioList scenarioS3 3).audioSsrcs = [] ∧ scenarioS3.audioSsrcs = []) ∧
    (scenarioS3.activeAudioList = [1, 2] ∧
      (updateActiveAudioList scenarioS3 3).activeAudioList = [2, 3] ∧
      (updateActiveAudioList scenarioS3 3).audioSsrcRewriteMap = [(2, 101), (3, 100)] ∧
      (removeAudioParticipant (updateActiveAudioList scenarioS3 3) 3).1.audioSsrcs = [100] ∧
      (removeAudioParticipant (updateActiveAudioList scenarioS3 3) 3).1.audioSsrcRewriteMap =
        [(2, 101)]) :=
  have hr : Reachable scenarioInit scenarioS3 :=
    Reachable.promoteAudio 2
      (Reachable.promoteAudio 1
        (Reachable.addAudio 3 (Reachable.addAudio 2 (Reachable.addAudio 1 Reachable.start))))
  ⟨⟨hr, by decide, by decide, by decide, by decide⟩,
    updateActiveAudioList_evicts_head 1024 [100, 101] _ 2 2 10 scenarioS3 3 hr (by decide)
      (by decide) (by decide) (by decide),
    by decide⟩

/-! ## The last-N message (C9) -/

theorem lastNLoop_eq (lastN receiver pinTarget : Nat)
    (streams : MpmcHashmap32 EngineVideoStream) (entries : List Nat) (i : Nat)
    (isFirst : Bool) (out : List MessagePart) :
    lastNLoop lastN receiver pinTarget streams entries i isFirst out =
      out ++ lastNParts
        (((entries.filter (fun e => decide (e ≠ pinTarget ∧ e ≠ receiver))).take
          (lastN - i)).filterMap
          (fun e => (MpmcHashmap32.find streams e).map (fun v => v.endpointId))) isFirst := by
  induction entries generalizing i isFirst out with
  | nil => simp [lastNLoop, lastNParts]
  | cons entry rest ih =>
    unfold lastNLoop
    by_cases hi : i < lastN
    · rw [if_pos hi]
      by_cases hq : entry ≠ pinTarget ∧ entry ≠ receiver
      · rw [if_pos hq]
        have hfil : (entry :: rest).filter (fun e => decide (e ≠ pinTarget ∧ e ≠ receiver)) =
            entry :: rest.filter (fun e => decide (e ≠ pinTarget ∧ e ≠ receiver)) := by
          rw [List.filter_cons_of_pos]; exact decide_eq_true hq
        have hsub : lastN - i = (lastN - (i + 1)) + 1 := by omega
        rw [hfil, hsub, List.take_succ_cons]
        cases hf : MpmcHashmap32.find streams entry with
        | none =>
          simp only [List.filterMap_cons, hf, Option.map_none']
          exact ih (i + 1) isFirst out
        | some v =>
          simp only [List.filterMap_cons, hf, Option.map_some', lastNParts]
          rw [ih (i + 1) false _]
          simp
      · rw [if_neg hq]
        have hfil : (entry :: rest).filter (fun e => decide (e ≠ pinTarget ∧ e ≠ receiver)) =
            rest.filter (fun e => decide (e ≠ pinTarget ∧ e ≠ receiver)) := by
          rw [List.filter_cons_of_neg]; simpa using hq
        rw [hfil]
        exact ih i isFirst out
    · rw [if_neg hi]
      have : lastN - i = 0 := by omega
      rw [this]
      simp [lastNParts]

/-- C9: for every valid `lastN` (`1 ≤ lastN ≤ defaultLastN`) `makeLastNListMessage`
succeeds and appends, between the start and the end of the message, exactly the ids of
`lastNEndpointsSpec`: the id of the pin target first when it is set and has a stream, then
the ids of the entries visited from tail to head that are neither the pin target nor the
receiver and that have a stream, the visit ending when pin target and visited entries
count `lastN`; never more than `lastN` ids. -/
theorem makeLastNListMessage_ids (s : ActiveMediaList) (lastN receiver pinTarget : Nat)
    (streams : MpmcHashmap32 EngineVideoStream) (out : List MessagePart)
    (h1 : 1 ≤ lastN) (h2 : lastN ≤ s.defaultLastN) :
    makeLastNListMessage s lastN receiver pinTarget streams out =
        (out ++ [MessagePart.lastNStart] ++
          lastNParts (lastNEndpointsSpec s lastN receiver pinTarget streams) true ++
          [MessagePart.lastNEnd], true) ∧
      (lastNEndpointsSpec s lastN receiver pinTarget streams).length ≤ lastN := by
  have hvalid : ¬ (s.defaultLastN < lastN ∨ lastN = 0) := by omega
  constructor
  · unfold makeLastNListMessage lastNEndpointsSpec
    rw [if_neg hvalid]
    dsimp only
    by_cases hp : pinTarget ≠ 0
    · simp only [if_pos hp]
      cases hf : MpmcHashmap32.find streams pinTarget with
      | none =>
        simp only [Option.isSome_none, Bool.false_eq_true, if_false, Bool.not_false,
          List.length_nil, List.nil_append, Nat.sub_zero]
        rw [lastNLoop_eq]
        simp
      | some v =>
        simp only [Option.isSome_some, if_true, Bool.not_true, List.length_singleton]
        rw [lastNLoop_eq]
        simp [lastNParts]
    · simp only [if_neg hp, Option.isSome_none, Bool.false_eq_true, if_false, Bool.not_false,
        List.length_nil, List.nil_append, Nat.sub_zero]
      rw [lastNLoop_eq]
      simp
  · unfold lastNEndpointsSpec
    dsimp only
    have hpin : (if pinTarget ≠ 0 then
        match MpmcHashmap32.find streams pinTarget with
        | some videoStream => [videoStream.endpointId]
        | none => []
        else ([] : List String)).length ≤ 1 := by
      split
      · split <;> simp
      · simp
    rw [List.length_append]
    have hrest := List.length_filterMap_le
      (fun e => (MpmcHashmap32.find streams e).map (fun v => v.endpointId))
      (((ListOps.tailToHead s.activeVideoList).filter
        (fun e => decide (e ≠ pinTarget ∧ e ≠ receiver))).take
        (lastN - (if pinTarget ≠ 0 then
          match MpmcHashmap32.find streams pinTarget with
          | some videoStream => [videoStream.endpointId]
          | none => []
          else ([] : List String)).length))
    have htake := List.length_take_le (lastN - (if pinTarget ≠ 0 then
          match MpmcHashmap32.find streams pinTarget with
          | some videoStream => [videoStream.endpointId]
          | none => []
          else ([] : List String)).length)
      ((ListOps.tailToHead s.activeVideoList).filter
        (fun e => decide (e ≠ pinTarget ∧ e ≠ receiver)))
    omega

/-- C9, witness S5: list from tail to head D, C, B, A, receiver A, pin target D, `lastN`
3: the message lists D, C, B. -/
theorem makeLastNListMessage_ids_witness :
    (1 ≤ 3 ∧ 3 ≤ scenarioS5.defaultLastN) ∧
      ListOps.tailToHead scenarioS5.activeVideoList = [4, 3, 2, 1] ∧
      makeLastNListMessage scenarioS5 3 1 4 scenarioStreams [] =
        ([MessagePart.lastNStart, MessagePart.lastNAppend "D" true,
          MessagePart.lastNAppend "C" false, MessagePart.lastNAppend "B" false,
          MessagePart.lastNEnd], true) :=
  ⟨⟨by decide, by decide⟩, by decide,
    (makeLastNListMessage_ids scenarioS5 3 1 4 scenarioStreams [] (by decide)
      (by decide)).1.trans (by decide)⟩

/-! ## The user media map with an off-list pin target (C10) -/

/-- C11: both message builders return false and leave the output builder untouched when
`lastN = 0` or `lastN > defaultLastN`, and return true for every other `lastN`. -/
theorem builders_reject_invalid_lastN (s : ActiveMediaList) (lastN receiver pinTarget : Nat)
    (streams : MpmcHashmap32 EngineVideoStream) (out : List MessagePart) :
    ((lastN = 0 ∨ s.defaultLastN < lastN) ∧
        makeLastNListMessage s lastN receiver pinTarget streams out = (out, false) ∧
        makeUserMediaMapMessage s lastN receiver pinTarget streams out = (out, false)) ∨
      (¬ (lastN = 0 ∨ s.defaultLastN < lastN) ∧
        (makeLastNListMessage s lastN receiver pinTarget streams out).2 = true ∧
        (makeUserMediaMapMessage s lastN receiver pinTarget streams out).2 = true) := by
  by_cases h : s.defaultLastN < lastN ∨ lastN = 0
  · left
    refine ⟨h.symm, ?_, ?_⟩
    · unfold makeLastNListMessage; rw [if_pos h]
    · unfold makeUserMediaMapMessage; rw [if_pos h]
  · right
    refine ⟨fun h2 => h h2.symm, ?_, ?_⟩
    · unfold makeLastNListMessage; rw [if_neg h]
    · unfold makeUserMediaMapMessage; rw [if_neg h]

/-! ## Duplicate add and unknown remove (C14, C15) -/

/-- C14: `addAudioParticipant(e)` for an endpoint already in the audio participant table and
`addVideoParticipant(e, ...)` for an endpoint already in the video participant table return
false and leave the whole state as it is. -/
theorem duplicate_add_rejected (s : ActiveMediaList) (e : Nat) (p : SimulcastStream)
    (q : Option SimulcastStream) :
    (MpmcHashmap32.contains s.audioParticipants e = true →
        addAudioParticipant s e = (s, false)) ∧
      (MpmcHashmap32.contains s.videoParticipants e = true →
        addVideoParticipant s e p q = (s, false)) := by
  constructor
  · intro h
    unfold addAudioParticipant
    rw [if_pos h]
  · intro h
    unfold addVideoParticipant
    rw [if_pos h]

/-- C14, witness: endpoint 1 is added twice, as audio and as video participant. -/
theorem duplicate_add_rejected_witness :
    (MpmcHashmap32.contains (addAudioParticipant scenarioInit 1).1.audioParticipants 1 = true ∧
      addAudioParticipant (addAudioParticipant scenarioInit 1).1 1 =
        ((addAudioParticipant scenarioInit 1).1, false)) ∧
    (MpmcHashmap32.contains
        (addVideoParticipant scenarioInit 1 (videoStreamOf 10) none).1.videoParticipants 1 =
        true ∧
      addVideoParticipant (addVideoParticipant scenarioInit 1 (videoStreamOf 10) none).1 1
          (videoStreamOf 11) none =
        ((addVideoParticipant scenarioInit 1 (videoStreamOf 10) none).1, false)) :=
  ⟨⟨by decide,
      (duplicate_add_rejected (addAudioParticipant scenarioInit 1).1 1 (videoStreamOf 11)
        none).1 (by decide)⟩,
    ⟨by decide,
      (duplicate_add_rejected (addVideoParticipant scenarioInit 1 (videoStreamOf 10) none).1 1
        (videoStreamOf 11) none).2 (by decide)⟩⟩

/-- The property of C15 under the caller condition that `process` keeps: in every state reachable
with `updateActiveAudioList` called for tracked endpoints only, `removeAudioParticipant(e)`
for an endpoint that is not a tracked audio participant and `removeVideoParticipant(e)` for an
endpoint that is not a registered video participant return false and leave the whole state as
it is. -/
theorem unknown_remove_is_noop (maxParticipants : Nat) (audioSsrcs : List Nat)
    (videoSsrcs : List SimulcastLevel) (defaultLastN audioLastN threshold : Nat)
    (s : ActiveMediaList) (e : Nat)
    (h : ReachableTracked (ActiveMediaList.new maxParticipants audioSsrcs videoSsrcs defaultLastN
      audioLastN threshold) s) :
    (MpmcHashmap32.contains s.audioParticipants e = false →
        removeAudioParticipant s e = (s, false)) ∧
      (MpmcHashmap32.contains s.videoParticipants e = false →
        removeVideoParticipant s e = (s, false)) := by
  have hinv := reachable_audioInv (audioInv_init _ _ _ _ _ _) h
  constructor
  · intro hc
    have hnp : e ∉ MpmcHashmap32.keys s.audioParticipants :=
      (MpmcHashmap32.contains_eq_false_iff _ _).1 hc
    have hnR : MpmcHashmap32.find s.audioSsrcRewriteMap e = none :=
      (MpmcHashmap32.find_eq_none_iff _ _).2 (fun hk => hnp (hinv.tracked e hk))
    unfold removeAudioParticipant
    rw [hnR]
    simp only [MpmcHashmap32.erase_of_not_mem _ _ hnp]
  · intro hc
    unfold removeVideoParticipant
    rw [hc]
    simp

/-- Witness of `unknown_remove_is_noop`: endpoint 5 is unknown to the bridge with audio endpoint
1. -/
theorem unknown_remove_is_noop_witness :
    ReachableTracked scenarioInit (addAudioParticipant scenarioInit 1).1 ∧
      MpmcHashmap32.contains (addAudioParticipant scenarioInit 1).1.audioParticipants 5 =
        false ∧
      removeAudioParticipant (addAudioParticipant scenarioInit 1).1 5 =
        ((addAudioParticipant scenarioInit 1).1, false) ∧
      removeVideoParticipant (addAudioParticipant scenarioInit 1).1 5 =
        ((addAudioParticipant scenarioInit 1).1, false) :=
  ⟨ReachableTracked.addAudio 1 ReachableTracked.start, by decide,
    (unknown_remove_is_noop 1024 [100, 101] _ 2 2 10 _ 5
      (ReachableTracked.addAudio 1 ReachableTracked.start)).1 (by decide),
    (unknown_remove_is_noop 1024 [100, 101] _ 2 2 10 _ 5
      (ReachableTracked.addAudio 1 ReachableTracked.start)).2 (by decide)⟩

/-- The property of C20 under the caller condition that `process` keeps: in every state reachable
with `updateActiveAudioList` called for tracked endpoints only, the endpoints in the
active-audio list are exactly the keys of the audio rewrite map, the list contains no endpoint
twice, and every such endpoint is a tracked audio participant. -/
theorem audio_rewrite_map_agrees_with_list (maxParticipants : Nat) (audioSsrcs : List Nat)
    (videoSsrcs : List SimulcastLevel) (defaultLastN audioLastN threshold : Nat)
    (s : ActiveMediaList)
    (h : ReachableTracked (ActiveMediaList.new maxParticipants audioSsrcs videoSsrcs defaultLastN
      audioLastN threshold) s) :
    (∀ e, e ∈ s.activeAudioList ↔ MpmcHashmap32.contains s.audioSsrcRewriteMap e = true) ∧
      s.activeAudioList.Nodup ∧
      s.activeAudioList.length = MpmcHashmap32.size s.audioSsrcRewriteMap ∧
      (∀ e, e ∈ s.activeAudioList → MpmcHashmap32.contains s.audioParticipants e = true) := by
  have hinv := reachable_audioInv (audioInv_init _ _ _ _ _ _) h
  refine ⟨?_, ?_, ?_, ?_⟩
  · intro e
    rw [MpmcHashmap32.contains_eq_true_iff]
    exact (hinv.listed.mem_iff).symm
  · exact (hinv.listed.nodup_iff).1 hinv.nodup
  · rw [← hinv.listed.length_eq]
    simp [MpmcHashmap32.keys, MpmcHashmap32.size]
  · intro e he
    rw [MpmcHashmap32.contains_eq_true_iff]
    exact hinv.tracked e ((hinv.listed.mem_iff).2 he)

/-- Witness of `audio_rewrite_map_agrees_with_list`: scenario S3 before the eviction, list [1, 2]
and rewrite map keys 1, 2. -/
theorem audio_rewrite_map_agrees_with_list_witness :
    ReachableTracked scenarioInit scenarioS3 ∧ scenarioS3.activeAudioList.Nodup ∧
      scenarioS3.activeAudioList.length = MpmcHashmap32.size scenarioS3.audioSsrcRewriteMap :=
  have hr : ReachableTracked scenarioInit scenarioS3 :=
    ReachableTracked.promoteAudio 2
      (ReachableTracked.promoteAudio 1
        (ReachableTracked.addAudio 3
          (ReachableTracked.addAudio 2 (ReachableTracked.addAudio 1 ReachableTracked.start)))
        (by decide))
      (by decide)
  ⟨hr, (audio_rewrite_map_agrees_with_list 1024 [100, 101] _ 2 2 10 scenarioS3 hr).2.1,
    (audio_rewrite_map_agrees_with_list 1024 [100, 101] _ 2 2 10 scenarioS3 hr).2.2.1⟩

theorem registry_releaseVideoSsrc (s : ActiveMediaList) (e : Nat) :
    registry (releaseVideoSsrc s e) = registry s := by
  unfold releaseVideoSsrc
  split <;> rfl

theorem registry_claimVideoSsrc {s t : ActiveMediaList} {e : Nat}
    (h : claimVideoSsrc s e = some t) : registry t = registry s := by
  unfold claimVideoSsrc at h
  split at h
  · cases h
  · cases h; rfl

theorem registry_evictVideoHead {s t : ActiveMediaList} {r : Nat}
    (h : evictVideoHead s = some (t, r)) : registry t = registry s := by
  unfold evictVideoHead at h
  split at h
  · split at h
    · cases h
    · cases h; rfl
  · cases h; rfl

theorem registry_updateActiveVideoList (s : ActiveMediaList) (e : Nat) :
    registry (updateActiveVideoList s e).1 = registry s := by
  unfold updateActiveVideoList
  split
  · rfl
  · split
    · rfl
    · split
      · rfl
      · rename_i s1 r hev
        have h1 := registry_evictVideoHead hev
        have h2 : registry (if r ≠ 0 then releaseVideoSsrc s1 r else s1) = registry s := by
          split
          · rw [registry_releaseVideoSsrc, h1]
          · exact h1
        dsimp only
        split
        · split
          · exact h2
          · rename_i s3 hc
            have h3 := registry_claimVideoSsrc hc
            exact (show registry (linkVideoTail s3 e) = registry s3 from rfl).trans
              (h3.trans h2)
        · exact (show registry (linkVideoTail _ e) = registry _ from rfl).trans h2

theorem registry_hoistIfDominant (s : ActiveMediaList) (e : Nat) :
    registry (hoistIfDominant s e).1 = registry s := by
  unfold hoistIfDominant
  split
  · rfl
  · exact registry_updateActiveVideoList s _

theorem registry_addVideoParticipant (s : ActiveMediaList) (e : Nat) (p : SimulcastStream)
    (q : Option SimulcastStream)
    (hnew : MpmcHashmap32.contains s.videoParticipants e = false) :
    registry (addVideoParticipant s e p q).1 = registry (registerVideoParticipant s e p q) := by
  unfold addVideoParticipant
  rw [hnew]
  simp only [Bool.false_eq_true, if_false]
  split
  · exact registry_hoistIfDominant _ e
  · split
    · split
      · rfl
      · rename_i s3 hc
        rw [registry_hoistIfDominant]
        exact (show registry (linkVideoHead s3 e) = registry s3 from rfl).trans
          (registry_claimVideoSsrc hc)
    · rw [registry_hoistIfDominant]; rfl

/-- C12: in every reachable state (construction with distinct SimulcastLevels), for every
unregistered non-zero endpoint `S` whose primary stream sends slides,
`addVideoParticipant(S, ...)` sets the screen-share mapping to `S` with the pair of the
primary level 0 SSRC and the SSRC of the reserved screen-share level; a following
`removeVideoParticipant(S)` succeeds and leaves the mapping unset, and the reserved level,
which is still the same, is not in the video pool afterwards. -/
theorem screen_share_life_cycle (maxParticipants : Nat) (audioSsrcs : List Nat)
    (videoSsrcs : List SimulcastLevel) (defaultLastN audioLastN threshold : Nat)
    (s : ActiveMediaList) (S : Nat) (p : SimulcastStream) (q : Option SimulcastStream)
    (h : Reachable (ActiveMediaList.new maxParticipants audioSsrcs videoSsrcs defaultLastN
      audioLastN threshold) s)
    (hd : videoSsrcs.Nodup) (hS : S ≠ 0)
    (hnew : MpmcHashmap32.contains s.videoParticipants S = false)
    (hslides : p.sendingSlides = true) :
    (addVideoParticipant s S p q).1.videoScreenShareSsrcMapping =
        some (S, { ssrc := p.ssrc0, rewriteSsrc := s.videoScreenShareSsrc.ssrc }) ∧
      (removeVideoParticipant (addVideoParticipant s S p q).1 S).2 = true ∧
      (removeVideoParticipant (addVideoParticipant s S p q).1 S).1.videoScreenShareSsrcMapping =
        none ∧
      (removeVideoParticipant (addVideoParticipant s S p q).1 S).1.videoScreenShareSsrc =
        s.videoScreenShareSsrc ∧
      s.videoScreenShareSsrc ∉
        (removeVideoParticipant (addVideoParticipant s S p q).1 S).1.videoSsrcs := by
  have hnp : S ∉ MpmcHashmap32.keys s.videoParticipants :=
    (MpmcHashmap32.contains_eq_false_iff _ _).1 hnew
  have hreg := registry_addVideoParticipant s S p q hnew
  simp only [registry, Prod.mk.injEq] at hreg
  obtain ⟨hP, hM⟩ := hreg
  have hmap : (addVideoParticipant s S p q).1.videoScreenShareSsrcMapping =
      some (S, { ssrc := p.ssrc0, rewriteSsrc := s.videoScreenShareSsrc.ssrc }) := by
    rw [hM]
    simp [registerVideoParticipant, hslides]
  have hcont : MpmcHashmap32.contains (addVideoParticipant s S p q).1.videoParticipants S =
      true := by
    rw [hP, MpmcHashmap32.contains_eq_true_iff]
    show S ∈ MpmcHashmap32.keys (MpmcHashmap32.emplace s.videoParticipants S _)
    rw [MpmcHashmap32.emplace_of_not_mem _ _ _ hnp, MpmcHashmap32.keys_append]
    simp [MpmcHashmap32.keys]
  have hrem := removeVideoParticipant_fields (addVideoParticipant s S p q).1 S hcont
  have hreach : Reachable (ActiveMediaList.new maxParticipants audioSsrcs videoSsrcs
      defaultLastN audioLastN threshold)
      (removeVideoParticipant (addVideoParticipant s S p q).1 S).1 :=
    Reachable.removeVideo S (Reachable.addVideo S p q h hS)
  have hinv := reachable_videoInv (videoInv_init _ _ _ _ _ _) hreach
  have hcfg := reachable_config_eq hreach
  have hcfg0 := reachable_config_eq h
  simp only [config, Prod.mk.injEq] at hcfg hcfg0
  have hss : (removeVideoParticipant (addVideoParticipant s S p q).1 S).1.videoScreenShareSsrc =
      s.videoScreenShareSsrc := hcfg.2.2.2.2.2.2.trans hcfg0.2.2.2.2.2.2.symm
  refine ⟨hmap, ?_, ?_, hss, ?_⟩
  · unfold removeVideoParticipant
    rw [hcont]; rfl
  · rw [hrem.2.1, hmap]
    simp
  · intro hmem
    have hin : s.videoScreenShareSsrc ∈ videoSsrcs.tail :=
      (hinv.conserved.mem_iff).1 (List.mem_append_left _ hmem)
    rw [hcfg0.2.2.2.2.2.2] at hin
    cases videoSsrcs with
    | nil => simp at hin
    | cons x rest =>
      have hx : (ActiveMediaList.new maxParticipants audioSsrcs (x :: rest) defaultLastN
          audioLastN threshold).videoScreenShareSsrc = x := by
        simp [ActiveMediaList.new, foldl_push, MpmcQueue.pop, MpmcQueue.push]
      rw [hx] at hin
      exact (List.nodup_cons.1 hd).1 hin

/-- C12, witness S4: endpoint 1 sends slides on SSRC 11; the reserved level of the scenario
bridge has SSRC 1000. -/
theorem screen_share_life_cycle_witness :
    (Reachable scenarioInit scenarioInit ∧ (1 : Nat) ≠ 0 ∧
      MpmcHashmap32.contains scenarioInit.videoParticipants 1 = false ∧
      (slidesStreamOf 11).sendingSlides = true) ∧
    ((addVideoParticipant scenarioInit 1 (slidesStreamOf 11) none).1.videoScreenShareSsrcMapping =
        some (1, { ssrc := 11, rewriteSsrc := 1000 }) ∧
      (removeVideoParticipant (addVideoParticipant scenarioInit 1 (slidesStreamOf 11) none).1
        1).1.videoScreenShareSsrcMapping = none) :=
  ⟨⟨Reachable.start, by decide, by decide, by decide⟩,
    (screen_share_life_cycle 1024 [100, 101] _ 2 2 10 scenarioInit 1 (slidesStreamOf 11) none
      Reachable.start (by decide) (by decide) (by decide) (by decide)).1,
    (screen_share_life_cycle 1024 [100, 101] _ 2 2 10 scenarioInit 1 (slidesStreamOf 11) none
      Reachable.start (by decide) (by decide) (by decide) (by decide)).2.2.1⟩

/-! ## The contract of `updateActiveVideoList` (C13) -/

theorem videoBound_congr {s t : ActiveMediaList} (h : videoSide t = videoSide s)
    (hs : VideoBound s) : VideoBound t := by
  simp only [videoSide, Prod.mk.injEq] at h
  obtain ⟨_, _, _, _, h5, h6, _, h8, _⟩ := h
  constructor
  · rw [h5, h6]; exact hs.lookupPerm
  · rw [h5, h8]; exact hs.bound

theorem videoBound_init (maxParticipants : Nat) (audioSsrcs : List Nat)
    (videoSsrcs : List SimulcastLevel) (defaultLastN audioLastN threshold : Nat) :
    VideoBound (ActiveMediaList.new maxParticipants audioSsrcs videoSsrcs defaultLastN
      audioLastN threshold) := by
  constructor
  · simp [ActiveMediaList.new, MpmcHashmap32.keys]
  · simp [ActiveMediaList.new]

theorem lookup_size_eq {s : ActiveMediaList} (hb : VideoBound s) :
    MpmcHashmap32.size s.activeVideoListLookupMap = s.activeVideoList.length := by
  rw [← hb.lookupPerm.length_eq]
  simp [MpmcHashmap32.keys, MpmcHashmap32.size]

theorem keys_emplace_perm {V : Type} (m : MpmcHashmap32 V) (k : Nat) (v : V) (l : List Nat)
    (hk : k ∉ MpmcHashmap32.keys m) (hp : (MpmcHashmap32.keys m).Perm l) :
    (MpmcHashmap32.keys (MpmcHashmap32.emplace m k v)).Perm (k :: l) := by
  rw [MpmcHashmap32.emplace_of_not_mem _ _ _ hk, MpmcHashmap32.keys_append]
  exact (List.perm_append_comm).trans (List.Perm.cons k hp)

theorem keys_erase_perm {V : Type} (m : MpmcHashmap32 V) (k : Nat) (l : List Nat)
    (hn : l.Nodup) (hp : (MpmcHashmap32.keys m).Perm l) :
    (MpmcHashmap32.keys (MpmcHashmap32.erase m k)).Perm (l.erase k) := by
  have hnk : (MpmcHashmap32.keys m).Nodup := (hp.nodup_iff).2 hn
  rw [MpmcHashmap32.keys_erase, ← erase_eq_filter_of_nodup hnk]
  exact hp.erase k

theorem videoBound_moveVideoToTail {s : ActiveMediaList} (hb : VideoBound s)
    (hn : s.activeVideoList.Nodup) (e : Nat) (he : e ∈ s.activeVideoList) :
    VideoBound (moveVideoToTail s e) := by
  have hperm : (ListOps.pushToTail (ListOps.remove s.activeVideoList e).1 e).Perm
      s.activeVideoList := by
    rw [remove_fst]
    exact (List.perm_append_singleton e _).trans (List.perm_cons_erase he).symm
  constructor
  · show (MpmcHashmap32.keys (MpmcHashmap32.emplace
      (MpmcHashmap32.erase s.activeVideoListLookupMap e) e _)).Perm
      (ListOps.pushToTail (ListOps.remove s.activeVideoList e).1 e)
    refine (keys_emplace_perm _ e _ (s.activeVideoList.erase e)
      (MpmcHashmap32.not_mem_keys_erase _ _)
      (keys_erase_perm _ e _ hn hb.lookupPerm)).trans ?_
    rw [remove_fst]
    exact (List.perm_append_singleton e _).symm
  · show (ListOps.pushToTail (ListOps.remove s.activeVideoList e).1 e).length ≤ _
    rw [hperm.length_eq]; exact hb.bound

theorem videoBound_linked {s t u : ActiveMediaList} (hb : VideoBound s)
    (hroom : s.activeVideoList.length < s.maxActiveListSize) (e : Nat)
    (hne : e ∉ s.activeVideoList)
    (hL : t.activeVideoList = s.activeVideoList)
    (hK : t.activeVideoListLookupMap = s.activeVideoListLookupMap)
    (hM : t.maxActiveListSize = s.maxActiveListSize)
    (hu : u = linkVideoTail t e ∨ u = linkVideoHead t e) : VideoBound u := by
  have hnk : e ∉ MpmcHashmap32.keys s.activeVideoListLookupMap :=
    fun h => hne ((hb.lookupPerm.mem_iff).1 h)
  rcases hu with hu | hu
  · rw [hu]
    constructor
    · show (MpmcHashmap32.keys (MpmcHashmap32.emplace t.activeVideoListLookupMap e _)).Perm
        (ListOps.pushToTail t.activeVideoList e)
      rw [hK, hL]
      exact (keys_emplace_perm _ e _ _ hnk hb.lookupPerm).trans
        (List.perm_append_singleton e _).symm
    · show (ListOps.pushToTail t.activeVideoList e).length ≤ t.maxActiveListSize
      rw [hL, hM]
      simp only [ListOps.pushToTail, List.length_append, List.length_singleton]
      omega
  · rw [hu]
    constructor
    · show (MpmcHashmap32.keys (MpmcHashmap32.emplace t.activeVideoListLookupMap e _)).Perm
        (ListOps.pushToHead t.activeVideoList e)
      rw [hK, hL]
      exact keys_emplace_perm _ e _ _ hnk hb.lookupPerm
    · show (ListOps.pushToHead t.activeVideoList e).length ≤ t.maxActiveListSize
      rw [hL, hM]
      simp only [ListOps.pushToHead, List.length_cons]
      omega

/-- The state after the eviction step of `updateActiveVideoList` (including the release of
the SimulcastLevel of the evicted endpoint) has room for one more entry. -/
theorem evicted_has_room {levels : List SimulcastLevel} {s s1 : ActiveMediaList} {r : Nat}
    (hs : VideoInv levels s) (hb : VideoBound s) (h : evictVideoHead s = some (s1, r)) :
    VideoBound (if r ≠ 0 then releaseVideoSsrc s1 r else s1) ∧
      (if r ≠ 0 then releaseVideoSsrc s1 r else s1).activeVideoList.length <
        (if r ≠ 0 then releaseVideoSsrc s1 r else s1).maxActiveListSize ∧
      (if r ≠ 0 then releaseVideoSsrc s1 r else s1).maxActiveListSize =
        s.maxActiveListSize := by
  have hsize := lookup_size_eq hb
  have hframe : ∀ t : ActiveMediaList,
      (if r ≠ 0 then releaseVideoSsrc t r else t).activeVideoList = t.activeVideoList ∧
      (if r ≠ 0 then releaseVideoSsrc t r else t).activeVideoListLookupMap =
        t.activeVideoListLookupMap ∧
      (if r ≠ 0 then releaseVideoSsrc t r else t).maxActiveListSize = t.maxActiveListSize := by
    intro t
    split
    · have hsp := releaseVideoSsrc_spec t r
      have hc := config_releaseVideoSsrc t r
      simp only [config, Prod.mk.injEq] at hc
      exact ⟨hsp.2.2.1, hsp.2.2.2.1, hc.2.1⟩
    · exact ⟨rfl, rfl, rfl⟩
  obtain ⟨f1, f2, f3⟩ := hframe s1
  unfold evictVideoHead at h
  split at h
  · rename_i hfull
    split at h
    · cases h
    · rename_i r0 l hp
      have hlist := popFromHead_eq_some hp
      simp only [Option.some.injEq, Prod.mk.injEq] at h
      obtain ⟨h1, h2⟩ := h
      subst h2
      have hl1 : s1.activeVideoList = l := by rw [← h1]
      have hk1 : s1.activeVideoListLookupMap =
          MpmcHashmap32.erase s.activeVideoListLookupMap r0 := by rw [← h1]
      have hm1 : s1.maxActiveListSize = s.maxActiveListSize := by rw [← h1]
      have hle : l = s.activeVideoList.erase r0 := by rw [hlist]; simp
      have hlen : s.activeVideoList.length = l.length + 1 := by rw [hlist]; simp
      refine ⟨⟨?_, ?_⟩, ?_, ?_⟩
      · rw [f1, f2, hl1, hk1, hle]
        exact keys_erase_perm _ r0 _ hs.listNodup hb.lookupPerm
      · rw [f1, f3, hl1, hm1]
        have := hb.bound
        omega
      · rw [f1, f3, hl1, hm1]
        have := hb.bound
        omega
      · rw [f3, hm1]
  · rename_i hfull
    simp only [Option.some.injEq, Prod.mk.injEq] at h
    obtain ⟨h1, h2⟩ := h
    subst h1
    refine ⟨⟨?_, ?_⟩, ?_, f3⟩
    · rw [f1, f2]; exact hb.lookupPerm
    · rw [f1, f3]; exact hb.bound
    · rw [f1, f3]
      have := hb.bound
      have hne : s.activeVideoList.length ≠ s.maxActiveListSize := by
        rw [← hsize]; exact hfull
      omega
theorem pool_nonempty_of_room {levels : List SimulcastLevel} {s : ActiveMediaList}
    (hs : VideoInv levels s) (hroom : s.activeVideoList.length < s.maxActiveListSize)
    (hlev : s.maxActiveListSize + 1 ≤ levels.length) : s.videoSsrcs ≠ [] := by
  intro hpool
  have hlen := hs.conserved.length_eq
  rw [hpool] at hlen
  simp only [List.nil_append, List.length_map] at hlen
  have hsub : (MpmcHashmap32.keys s.videoSsrcRewriteMap).length ≤ s.activeVideoList.length :=
    (List.Nodup.subperm hs.ownersNodup (fun k hk => hs.owners k hk)).length_le
  simp only [MpmcHashmap32.keys, List.length_map] at hsub
  omega

theorem claimVideoSsrc_isSome {s : ActiveMediaList} (e : Nat) (h : s.videoSsrcs ≠ []) :
    ∃ t, claimVideoSsrc s e = some t := by
  unfold claimVideoSsrc
  cases hp : s.videoSsrcs with
  | nil => exact absurd hp h
  | cons x rest => exact ⟨_, rfl⟩

theorem getLast_pushToTail (l : List Nat) (e : Nat) :
    (ListOps.pushToTail l e).getLast? = some e := by
  simp [ListOps.pushToTail]

theorem updateActiveVideoList_contract {levels : List SimulcastLevel} {s : ActiveMediaList}
    (hs : VideoInv levels s) (hb : VideoBound s) (e : Nat) :
    VideoBound (updateActiveVideoList s e).1 ∧
      (MpmcHashmap32.contains s.videoParticipants e = true →
        1 ≤ s.maxActiveListSize ∧ s.maxActiveListSize + 1 ≤ levels.length →
        (updateActiveVideoList s e).2 = true ∧
          (updateActiveVideoList s e).1.activeVideoList.getLast? = some e) := by
  unfold updateActiveVideoList
  split
  · rename_i hf
    refine ⟨hb, ?_⟩
    intro hc
    unfold MpmcHashmap32.contains at hc
    rw [hf] at hc
    cases hc
  · rename_i vp hf
    split
    · rename_i hin
      have hin2 : e ∈ s.activeVideoList := by simpa [ListOps.tailToHead] using hin
      exact ⟨videoBound_moveVideoToTail hb hs.listNodup e hin2,
        fun _ _ => ⟨rfl, getLast_pushToTail _ e⟩⟩
    · rename_i hnin
      have hnin2 : e ∉ s.activeVideoList := by simpa [ListOps.tailToHead] using hnin
      have hsize := lookup_size_eq hb
      split
      · rename_i hev
        refine ⟨hb, ?_⟩
        intro _ hpos
        exfalso
        unfold evictVideoHead at hev
        split at hev
        · rename_i hfull
          split at hev
          · rename_i hp
            have hl := popFromHead_eq_none hp
            have hmax : s.maxActiveListSize = 0 := by
              rw [← hfull, hsize, hl]; rfl
            have := hpos.1
            omega
          · cases hev
        · cases hev
      · rename_i s1 r hev
        obtain ⟨h2, hP2, hL2⟩ := videoInv_evicted hs hev
        obtain ⟨b2, hroom, hmax⟩ := evicted_has_room hs hb hev
        have hne2 : e ∉ (if r ≠ 0 then releaseVideoSsrc s1 r else s1).activeVideoList :=
          fun h => hnin2 (hL2 e h)
        dsimp only
        split
        · split
          · rename_i hc
            refine ⟨b2, ?_⟩
            intro _ hlev
            exfalso
            have hpool := pool_nonempty_of_room h2 hroom (by rw [hmax]; exact hlev.2)
            obtain ⟨t, ht⟩ := claimVideoSsrc_isSome e hpool
            rw [ht] at hc
            cases hc
          · rename_i s3 hc
            have hsp := claimVideoSsrc_spec hc
            exact ⟨videoBound_linked b2 hroom e hne2 hsp.2.2.1 hsp.2.2.2.1 hsp.2.2.2.2.1
              (Or.inl rfl), fun _ _ => ⟨rfl, getLast_pushToTail _ e⟩⟩
        · exact ⟨videoBound_linked b2 hroom e hne2 rfl rfl rfl (Or.inl rfl),
            fun _ _ => ⟨rfl, getLast_pushToTail _ e⟩⟩

theorem videoBound_hoistIfDominant {levels : List SimulcastLevel} {s : ActiveMediaList}
    (hs : VideoInv levels s) (hb : VideoBound s) (e : Nat) :
    VideoBound (hoistIfDominant s e).1 := by
  unfold hoistIfDominant
  split
  · exact hb
  · exact (updateActiveVideoList_contract hs hb _).1

theorem videoBound_addVideoParticipant {levels : List SimulcastLevel} {s : ActiveMediaList}
    (hs : VideoInv levels s) (hb : VideoBound s) (e : Nat) (p : SimulcastStream)
    (q : Option SimulcastStream) (he : e ≠ 0) :
    VideoBound (addVideoParticipant s e p q).1 := by
  unfold addVideoParticipant
  split
  · exact hb
  · rename_i hc
    have hnp : e ∉ MpmcHashmap32.keys s.videoParticipants := by
      rw [← MpmcHashmap32.contains_eq_true_iff]; exact hc
    have h2 := videoInv_registerVideoParticipant hs e p q he hnp
    have b2 : VideoBound (registerVideoParticipant s e p q) := ⟨hb.lookupPerm, hb.bound⟩
    have he2 : e ∈ MpmcHashmap32.keys (registerVideoParticipant s e p q).videoParticipants := by
      simp [registerVideoParticipant, MpmcHashmap32.emplace_of_not_mem _ e _ hnp,
        MpmcHashmap32.keys_append, MpmcHashmap32.keys]
    have hne2 : e ∉ (registerVideoParticipant s e p q).activeVideoList :=
      fun h => hnp (hs.listed e h)
    dsimp only
    split
    · exact videoBound_hoistIfDominant h2 b2 e
    · rename_i hfull
      have hroom : (registerVideoParticipant s e p q).activeVideoList.length <
          (registerVideoParticipant s e p q).maxActiveListSize := by
        have hsize := lookup_size_eq b2
        have := b2.bound
        have hne : (registerVideoParticipant s e p q).activeVideoList.length ≠
            (registerVideoParticipant s e p q).maxActiveListSize := by
          rw [← hsize]; exact hfull
        omega
      split
      · split
        · exact b2
        · rename_i s3 hcl
          have hsp := claimVideoSsrc_spec hcl
          exact videoBound_hoistIfDominant
            (videoInv_linkVideoHead h2 e he2 hne2 hsp.1 hsp.2.1 hsp.2.2.1 hsp.2.2.2.1
              hsp.2.2.2.2.2.2)
            (videoBound_linked b2 hroom e hne2 hsp.2.2.1 hsp.2.2.2.1 hsp.2.2.2.2.1
              (Or.inr rfl)) e
      · exact videoBound_hoistIfDominant
          (videoInv_linkVideoHead h2 e he2 hne2 rfl rfl rfl rfl (Or.inl ⟨rfl, rfl, rfl⟩))
          (videoBound_linked b2 hroom e hne2 rfl rfl rfl (Or.inr rfl)) e

theorem videoBound_removeVideoParticipant {levels : List SimulcastLevel}
    {s : ActiveMediaList} (hs : VideoInv levels s) (hb : VideoBound s) (e : Nat) :
    VideoBound (removeVideoParticipant s e).1 := by
  by_cases h : MpmcHashmap32.contains s.videoParticipants e = true
  · have hf := removeVideoParticipant_fields s e h
    have hc := config_removeVideoParticipant s e
    simp only [config, Prod.mk.injEq] at hc
    constructor
    · rw [hf.2.2.1, hf.2.2.2.1]
      exact keys_erase_perm _ e _ hs.listNodup hb.lookupPerm
    · rw [hf.2.2.1, hc.2.1]
      exact (List.length_erase_le _ _).trans hb.bound
  · unfold removeVideoParticipant
    simp only [Bool.not_eq_true] at h
    rw [h]
    exact hb

theorem videoBound_nominate {levels : List SimulcastLevel} {s : ActiveMediaList}
    (hs : VideoInv levels s) (hb : VideoBound s) (timestamp : Nat)
    (d : AudioParticipantScore) (c : ℚ) : VideoBound (nominate s timestamp d c).1 := by
  unfold nominate
  split
  · exact hb
  · have h4 : VideoInv levels
        { countWin s d.participant with lastRunTimestamp := timestamp } :=
      videoInv_congr (s := s) (videoSide_countWin s _) hs
    have b4 : VideoBound
        { countWin s d.participant with lastRunTimestamp := timestamp } :=
      videoBound_congr (s := s) (videoSide_countWin s _) hb
    dsimp only
    split
    · have h5 : VideoInv levels
          { ({ countWin s d.participant with lastRunTimestamp := timestamp } :
              ActiveMediaList) with
            lastChangeTimestamp := timestamp
            dominantSpeakerId := d.participant } :=
        videoInv_congr
          (s := { countWin s d.participant with lastRunTimestamp := timestamp }) rfl h4
      have b5 : VideoBound
          { ({ countWin s d.participant with lastRunTimestamp := timestamp } :
              ActiveMediaList) with
            lastChangeTimestamp := timestamp
            dominantSpeakerId := d.participant } :=
        videoBound_congr
          (s := { countWin s d.participant with lastRunTimestamp := timestamp }) rfl b4
      exact (updateActiveVideoList_contract h5 b5 _).1
    · exact b4

theorem videoBound_process {levels : List SimulcastLevel} {s : ActiveMediaList}
    (hs : VideoInv levels s) (hb : VideoBound s) (timestamp : Nat) :
    VideoBound (process s timestamp).1 := by
  unfold process
  split
  · exact hb
  · have h1 : VideoInv levels (updateLevels { s with lastRunTimestamp := timestamp }) :=
      videoInv_congr (s := s) rfl hs
    have b1 : VideoBound (updateLevels { s with lastRunTimestamp := timestamp }) :=
      videoBound_congr (s := s) rfl hb
    dsimp only
    split
    · exact b1
    · have h2 : VideoInv levels (writeSnapshot (processTopSpeakers
          (updateLevels { s with lastRunTimestamp := timestamp }).audioLastN
          (updateLevels { s with lastRunTimestamp := timestamp })
          (rankSpeakers (updateLevels { s with lastRunTimestamp := timestamp })).2 [])) :=
        videoInv_congr (s := updateLevels { s with lastRunTimestamp := timestamp })
          (videoSide_processTopSpeakers _ _ _ _) h1
      have b2 : VideoBound (writeSnapshot (processTopSpeakers
          (updateLevels { s with lastRunTimestamp := timestamp }).audioLastN
          (updateLevels { s with lastRunTimestamp := timestamp })
          (rankSpeakers (updateLevels { s with lastRunTimestamp := timestamp })).2 [])) :=
        videoBound_congr (s := updateLevels { s with lastRunTimestamp := timestamp })
          (videoSide_processTopSpeakers _ _ _ _) b1
      exact videoBound_nominate h2 b2 _ _ _

theorem reachable_videoBound {levels : List SimulcastLevel} {init s : ActiveMediaList}
    (hinit : VideoInv levels init) (binit : VideoBound init) (h : Reachable init s) :
    VideoBound s := by
  induction h with
  | start => exact binit
  | addAudio e _ ih => exact videoBound_congr (videoSide_addAudioParticipant _ _) ih
  | removeAudio e _ ih => exact videoBound_congr (videoSide_removeAudioParticipant _ _) ih
  | @newLevel s0 e level ptt _ ih => exact videoBound_congr (s := s0) rfl ih
  | tick timestamp hr ih => exact videoBound_process (reachable_videoInv hinit hr) ih timestamp
  | promoteAudio e _ ih => exact videoBound_congr (videoSide_updateActiveAudioList _ _) ih
  | addVideo e p q hr he ih =>
    exact videoBound_addVideoParticipant (reachable_videoInv hinit hr) ih e p q he
  | removeVideo e hr ih =>
    exact videoBound_removeVideoParticipant (reachable_videoInv hinit hr) ih e
  | promoteVideo e hr ih =>
    exact (updateActiveVideoList_contract (reachable_videoInv hinit hr) ih e).1

/-- C13: in every reachable state (construction with at least `defaultLastN + 3` video
SimulcastLevels) `updateActiveVideoList(e)` returns false and changes nothing when `e` is
not a registered video participant; when `e` is registered it returns true and `e` is the
tail of the active video list afterwards. -/
theorem updateActiveVideoList_returns (maxParticipants : Nat) (audioSsrcs : List Nat)
    (videoSsrcs : List SimulcastLevel) (defaultLastN audioLastN threshold : Nat)
    (s : ActiveMediaList) (e : Nat)
    (hlen : defaultLastN + 3 ≤ videoSsrcs.length)
    (h : Reachable (ActiveMediaList.new maxParticipants audioSsrcs videoSsrcs defaultLastN
      audioLastN threshold) s) :
    (MpmcHashmap32.contains s.videoParticipants e = false →
        updateActiveVideoList s e = (s, false)) ∧
      (MpmcHashmap32.contains s.videoParticipants e = true →
        (updateActiveVideoList s e).2 = true ∧
          (updateActiveVideoList s e).1.activeVideoList.getLast? = some e) := by
  have hinv := reachable_videoInv (videoInv_init _ _ _ _ _ _) h
  have hb := reachable_videoBound (videoInv_init _ _ _ _ _ _) (videoBound_init _ _ _ _ _ _) h
  have hcfg := reachable_config_eq h
  simp only [config, Prod.mk.injEq] at hcfg
  have hmax : s.maxActiveListSize = defaultLastN + 1 := hcfg.2.1
  constructor
  · intro hc
    have hf : MpmcHashmap32.find s.videoParticipants e = none :=
      (MpmcHashmap32.find_eq_none_iff _ _).2 ((MpmcHashmap32.contains_eq_false_iff _ _).1 hc)
    unfold updateActiveVideoList
    rw [hf]
  · intro hc
    refine (updateActiveVideoList_contract hinv hb e).2 hc ⟨?_, ?_⟩
    · rw [hmax]; omega
    · rw [hmax, List.length_tail]
      omega

/-- C13, witness: in scenario S5 (list from head to tail A, B, C, D) promoting A = 1 moves
it to the tail; endpoint 9 is unknown. -/
theorem updateActiveVideoList_returns_witness :
    (3 + 3 ≤ 6 ∧ Reachable scenarioLastNInit scenarioS5 ∧
      MpmcHashmap32.contains scenarioS5.videoParticipants 9 = false ∧
      MpmcHashmap32.contains scenarioS5.videoParticipants 1 = true) ∧
    updateActiveVideoList scenarioS5 9 = (scenarioS5, false) ∧
    ((updateActiveVideoList scenarioS5 1).2 = true ∧
      (updateActiveVideoList scenarioS5 1).1.activeVideoList.getLast? = some 1) ∧
    (updateActiveVideoList scenarioS5 1).1.activeVideoList = [2, 3, 4, 1] :=
  have hr : Reachable scenarioLastNInit scenarioS5 :=
    Reachable.addVideo 1 _ none
      (Reachable.addVideo 2 _ none
        (Reachable.addVideo 3 _ none
          (Reachable.addVideo 4 _ none Reachable.start (by decide)) (by decide)) (by decide))
      (by decide)
  ⟨⟨by decide, hr, by decide, by decide⟩,
    (updateActiveVideoList_returns 1024 [100, 101] _ 3 2 10 scenarioS5 9 (by decide) hr).1
      (by decide),
    (updateActiveVideoList_returns 1024 [100, 101] _ 3 2 10 scenarioS5 1 (by decide) hr).2
      (by decide),
    by decide⟩

/-! ## The switch decision (C18) -/

theorem sub64_eq (a b : Nat) (hb : b ≤ a) (ha : a < 2 ^ 64) : sub64 a b = a - b := by
  unfold sub64
  have hb2 : b % 2 ^ 64 = b := Nat.mod_eq_of_lt (lt_of_le_of_lt hb ha)
  rw [hb2]
  have : a + 2 ^ 64 - b = (a - b) + 2 ^ 64 := by omega
  rw [this, Nat.add_mod_right]
  exact Nat.mod_eq_of_lt (lt_of_le_of_lt (Nat.sub_le _ _) ha)

theorem countWin_fields (s : ActiveMediaList) (w : Nat) :
    (countWin s w).dominantSpeakerId = s.dominantSpeakerId ∧
      (countWin s w).lastChangeTimestamp = s.lastChangeTimestamp ∧
      (countWin s w).prevWinningDominantSpeaker = w ∧
      (countWin s w).consecutiveDominantSpeakerWins =
        (if w = s.prevWinningDominantSpeaker then s.consecutiveDominantSpeakerWins + 1
         else 1) := by
  unfold countWin
  split
  · rename_i h
    exact ⟨rfl, rfl, h.symm, rfl⟩
  · exact ⟨rfl, rfl, rfl, rfl⟩

theorem rankLoop_all_silent (d : Nat) (m : MpmcHashmap32 AudioParticipant) (c : ℚ)
    (acc : List AudioParticipantScore) (h : ∀ p ∈ m, p.2.maxRecentLevel = 0) :
    rankLoop d m c acc = (c, acc) := by
  induction m generalizing c acc with
  | nil => rfl
  | cons x rest ih =>
    obtain ⟨e, p⟩ := x
    have hp : p.maxRecentLevel = 0 := h (e, p) (List.mem_cons_self _ _)
    unfold rankLoop
    rw [if_pos hp]
    exact ih c acc (fun q hq => h q (List.mem_cons_of_mem _ hq))

/-- C19, counterexample: in `scenarioQuiet` no participant has a positive score after the
level update of the call at 1980 ms (endpoint 1 is silent, the peak 10 of endpoint 2 is below
its noise level), yet the call does not return early: endpoint 2 is ranked with score 0, wins
the round and replaces the dominant speaker 1, and `dominantSpeakerChanged` is set. -/
theorem process_without_positive_score_switches :
    Time.diffLT scenarioQuiet.lastRunTimestamp (1980 * Time.ms) (INTERVAL_MS * Time.ms) = false ∧
      (∀ p ∈ (updateLevels
          { scenarioQuiet with lastRunTimestamp := 1980 * Time.ms }).audioParticipants,
        max 0 (p.2.maxRecentLevel - p.2.noiseLevel) = 0) ∧
      scenarioQuiet.dominantSpeakerId = 1 ∧
      (process scenarioQuiet (1980 * Time.ms)).1.dominantSpeakerId = 2 ∧
      (process scenarioQuiet (1980 * Time.ms)).2.1 = true ∧
      scenarioQuiet.consecutiveDominantSpeakerWins = 0 ∧
      (process scenarioQuiet (1980 * Time.ms)).1.consecutiveDominantSpeakerWins = 1 ∧
      scenarioQuiet.prevWinningDominantSpeaker = 0 ∧
      (process scenarioQuiet (1980 * Time.ms)).1.prevWinningDominantSpeaker = 2 := by
  decide!

/-- C19, amended: a `process` call that passes the rate limit in a state where, after the
level update, every participant has `maxRecentLevel == 0` (nobody is ranked) returns right
after the level update: both flags are false and `dominantSpeakerId`, the active-audio list,
the audio rewrite map, the audio pool, the active-video list, the video rewrite map and the
consecutive-win state are those of the state before the call. -/
theorem process_no_ranked_speaker (s : ActiveMediaList) (t : Nat)
    (hran : Time.diffLT s.lastRunTimestamp t (INTERVAL_MS * Time.ms) = false)
    (hsilent : ∀ p ∈ (updateLevels { s with lastRunTimestamp := t }).audioParticipants,
      p.2.maxRecentLevel = 0) :
    process s t = (updateLevels { s with lastRunTimestamp := t }, false, false) ∧
      (process s t).1.dominantSpeakerId = s.dominantSpeakerId ∧
      (process s t).1.activeAudioList = s.activeAudioList ∧
      (process s t).1.audioSsrcRewriteMap = s.audioSsrcRewriteMap ∧
      (process s t).1.audioSsrcs = s.audioSsrcs ∧
      (process s t).1.activeVideoList = s.activeVideoList ∧
      (process s t).1.videoSsrcRewriteMap = s.videoSsrcRewriteMap ∧
      (process s t).1.consecutiveDominantSpeakerWins = s.consecutiveDominantSpeakerWins ∧
      (process s t).1.prevWinningDominantSpeaker = s.prevWinningDominantSpeaker ∧
      (process s t).1.lastChangeTimestamp = s.lastChangeTimestamp := by
  have hrank : rankSpeakers (updateLevels { s with lastRunTimestamp := t }) =
      (0, []) := rankLoop_all_silent _ _ 0 [] hsilent
  have hproc : process s t = (updateLevels { s with lastRunTimestamp := t }, false, false) := by
    unfold process
    rw [hran]
    simp only [Bool.false_eq_true, if_false, hrank, heapTop]
  rw [hproc]
  exact ⟨rfl, rfl, rfl, rfl, rfl, rfl, rfl, rfl, rfl, rfl⟩

/-- C19, witness: two participants that never sent a sample, a call at 1980 ms. -/
theorem process_no_ranked_speaker_witness :
    (Time.diffLT (addAudioParticipant (addAudioParticipant scenarioInit 1).1 2).1.lastRunTimestamp
        (1980 * Time.ms) (INTERVAL_MS * Time.ms) = false ∧
      (∀ p ∈ (updateLevels
          { (addAudioParticipant (addAudioParticipant scenarioInit 1).1 2).1 with
            lastRunTimestamp := 1980 * Time.ms }).audioParticipants,
        p.2.maxRecentLevel = 0)) ∧
    (process (addAudioParticipant (addAudioParticipant scenarioInit 1).1 2).1
        (1980 * Time.ms)).2 = (false, false) ∧
    (process (addAudioParticipant (addAudioParticipant scenarioInit 1).1 2).1
        (1980 * Time.ms)).1.dominantSpeakerId = 1 :=
  ⟨⟨by decide!, by decide!⟩,
    congrArg Prod.snd (process_no_ranked_speaker
      (addAudioParticipant (addAudioParticipant scenarioInit 1).1 2).1 (1980 * Time.ms)
      (by decide!) (by decide!)).1,
    (process_no_ranked_speaker
      (addAudioParticipant (addAudioParticipant scenarioInit 1).1 2).1 (1980 * Time.ms)
      (by decide!) (by decide!)).2.1.trans (by decide!)⟩

/-! ## The ring of levels and its running totals (C16) -/

theorem sum_set_int (l : List Nat) (i v : Nat) (h : i < l.length) :
    (((l.set i v).sum : Nat) : Int) = ((l.sum : Nat) : Int) + ((v : Int) - ((l.getD i 0 : Nat) : Int)) := by
  induction l generalizing i with
  | nil => simp at h
  | cons x rest ih =>
    cases i with
    | zero => simp [List.getD]; ring
    | succ k =>
      have hk : k < rest.length := by simpa using h
      have := ih k hk
      simp only [List.set_cons_succ, List.sum_cons, List.getD_cons_succ, Nat.cast_add, this]
      ring

theorem getD_set_ne (l : List Nat) (i j v : Nat) (h : i ≠ j) :
    (l.set i v).getD j 0 = l.getD j 0 := by
  rw [List.getD_eq_getElem?_getD, List.getD_eq_getElem?_getD, List.getElem?_set_ne h]

theorem getD_set_self (l : List Nat) (i v : Nat) (h : i < l.length) :
    (l.set i v).getD i 0 = v := by
  rw [List.getD_eq_getElem?_getD, List.getElem?_set_self h]
  rfl

/-- The short window before a sample is ingested: the entry that leaves, then the 24
entries that stay. -/
theorem shortWindowLevels_eq (p : AudioParticipant) (hsize : p.levels.length = lengthLongWindow)
    (hend : p.indexEndShortWindow < lengthLongWindow) :
    shortWindowLevels p = p.levels.getD p.indexEndShortWindow 0 ::
      (List.range 24).map
        (fun j => p.levels.getD ((p.indexEndShortWindow + (j + 1)) % lengthLongWindow) 0) := by
  unfold shortWindowLevels
  rw [hsize]
  have h25 : lengthShortWindow = 24 + 1 := rfl
  rw [h25, List.range_succ_eq_map, List.map_cons, List.map_map]
  have h0 : (p.indexEndShortWindow + 0) % lengthLongWindow = p.indexEndShortWindow :=
    Nat.mod_eq_of_lt hend
  rw [h0]
  rfl

/-- The short window after a sample is ingested: the 24 entries that stay, then the new
sample. -/
theorem shortWindowLevels_ingestLevel (p : AudioParticipant) (level : Nat) (ptt : Bool)
    (hsize : p.levels.length = lengthLongWindow)
    (hindex : p.index = (p.indexEndShortWindow + (lengthShortWindow - 1)) % lengthLongWindow) :
    shortWindowLevels (ingestLevel p level ptt) =
      (List.range 24).map
        (fun j => p.levels.getD ((p.indexEndShortWindow + (j + 1)) % lengthLongWindow) 0) ++
        [level] := by
  unfold shortWindowLevels
  show (List.range lengthShortWindow).map
    (fun j => (p.levels.set ((p.index + 1) % p.levels.length) level).getD
      (((p.indexEndShortWindow + 1) % p.levels.length + j) %
        (p.levels.set ((p.index + 1) % p.levels.length) level).length) 0) = _
  rw [List.length_set, hsize]
  have h25 : lengthShortWindow = 24 + 1 := rfl
  rw [h25, List.range_succ, List.map_append, List.map_singleton]
  simp only [lengthShortWindow, lengthLongWindow] at hindex ⊢
  congr 1
  · apply List.map_congr_left
    intro j hj
    have hj2 : j < 24 := List.mem_range.1 hj
    have hidx : ((p.indexEndShortWindow + 1) % 256 + j) % 256 =
        (p.indexEndShortWindow + (j + 1)) % 256 := by omega
    rw [hidx]
    apply getD_set_ne
    omega
  · have hidx : ((p.indexEndShortWindow + 1) % 256 + 24) % 256 = (p.index + 1) % 256 := by
      omega
    rw [hidx]
    congr 1
    apply getD_set_self
    rw [hsize]
    exact Nat.mod_lt _ (by decide)

theorem nonZero_step (x v : Nat) (rest : List Nat) (n : Int)
    (hn : n = ((List.countP (fun y => decide (y ≠ 0)) (x :: rest) : Nat) : Int)) :
    (if v ≠ 0 then (if x ≠ 0 then n - 1 else n) + 1 else (if x ≠ 0 then n - 1 else n)) =
      ((List.countP (fun y => decide (y ≠ 0)) (rest ++ [v]) : Nat) : Int) := by
  subst hn
  simp only [List.countP_cons, List.countP_append, List.countP_nil]
  by_cases h1 : v = 0 <;> by_cases h2 : x = 0 <;> simp [h1, h2]

theorem ringInv_new : RingInv AudioParticipant.new := by
  refine ⟨by decide!, by decide!, by decide!, by decide!, by decide!, by decide!⟩

theorem ringInv_decayLevels {p : AudioParticipant} (h : RingInv p) : RingInv (decayLevels p) :=
  ⟨h.size, h.indexEnd, h.index, h.long, h.short, h.nonZero⟩

theorem ringInv_ingestLevel {p : AudioParticipant} (h : RingInv p) (level : Nat) (ptt : Bool) :
    RingInv (ingestLevel p level ptt) := by
  have hw := shortWindowLevels_eq p h.size h.indexEnd
  have hw2 := shortWindowLevels_ingestLevel p level ptt h.size h.index
  have hshort := h.short
  have hnz := h.nonZero
  rw [hw] at hshort hnz
  have hsz := h.size
  have hend := h.indexEnd
  have hidx := h.index
  refine ⟨?_, ?_, ?_, ?_, ?_, ?_⟩
  · show (p.levels.set ((p.index + 1) % p.levels.length) level).length = lengthLongWindow
    rw [List.length_set]; exact h.size
  · show (p.indexEndShortWindow + 1) % p.levels.length < lengthLongWindow
    rw [hsz]; exact Nat.mod_lt _ (by decide)
  · show (p.index + 1) % p.levels.length =
      ((p.indexEndShortWindow + 1) % p.levels.length + (lengthShortWindow - 1)) %
        lengthLongWindow
    rw [hsz]
    simp only [lengthShortWindow, lengthLongWindow] at hidx hend ⊢
    omega
  · show p.totalLevelLongWindow +
        ((level : Int) - ((p.levels.getD ((p.index + 1) % p.levels.length) 0 : Nat) : Int)) =
      (((p.levels.set ((p.index + 1) % p.levels.length) level).sum : Nat) : Int)
    rw [sum_set_int _ _ _ (Nat.mod_lt _ (by rw [hsz]; decide)), h.long]
  · rw [hw2]
    show p.totalLevelShortWindow +
        ((level : Int) - ((p.levels.getD p.indexEndShortWindow 0 : Nat) : Int)) = _
    rw [hshort]
    simp only [List.sum_cons, List.sum_append, List.sum_nil, Nat.cast_add, Nat.cast_zero,
      add_zero]
    ring
  · rw [hw2]
    exact nonZero_step _ _ _ _ hnz

/-! ## Properties of every tracked energy history -/

theorem participants_modify (P : AudioParticipant → Prop) (f : AudioParticipant → AudioParticipant)
    (hf : ∀ p, P p → P (f p)) (m : MpmcHashmap32 AudioParticipant) (key : Nat)
    (hm : ∀ p ∈ m, P p.2) : ∀ p ∈ MpmcHashmap32.modify m key f, P p.2 := by
  intro p hp
  unfold MpmcHashmap32.modify at hp
  obtain ⟨q, hq, rfl⟩ := List.mem_map.1 hp
  split
  · exact hf _ (hm q hq)
  · exact hm q hq

theorem participants_ingestEntry (P : AudioParticipant → Prop)
    (hingest : ∀ p level ptt, P p → P (ingestLevel p level ptt))
    (m : MpmcHashmap32 AudioParticipant) (x : AudioLevelEntry) (hm : ∀ p ∈ m, P p.2) :
    ∀ p ∈ ingestEntry m x, P p.2 := by
  unfold ingestEntry
  split
  · exact participants_modify P _ (fun p hp => hingest p _ _ hp) m _ hm
  · exact hm

theorem participants_foldl_ingestEntry (P : AudioParticipant → Prop)
    (hingest : ∀ p level ptt, P p → P (ingestLevel p level ptt))
    (q : List AudioLevelEntry) (m : MpmcHashmap32 AudioParticipant) (hm : ∀ p ∈ m, P p.2) :
    ∀ p ∈ q.foldl ingestEntry m, P p.2 := by
  induction q generalizing m with
  | nil => exact hm
  | cons x rest ih =>
    rw [List.foldl_cons]
    exact ih _ (participants_ingestEntry P hingest m x hm)

theorem participants_updateLevels (P : AudioParticipant → Prop)
    (hdecay : ∀ p, P p → P (decayLevels p))
    (hingest : ∀ p level ptt, P p → P (ingestLevel p level ptt))
    (s : ActiveMediaList) (hs : ∀ p ∈ s.audioParticipants, P p.2) :
    ∀ p ∈ (updateLevels s).audioParticipants, P p.2 := by
  unfold updateLevels
  apply participants_foldl_ingestEntry P hingest
  intro p hp
  obtain ⟨q, hq, rfl⟩ := List.mem_map.1 hp
  exact hdecay _ (hs q hq)

theorem audioParticipants_updateActiveVideoList (s : ActiveMediaList) (e : Nat) :
    (updateActiveVideoList s e).1.audioParticipants = s.audioParticipants := by
  have h := congrArg ActiveMediaList.audioParticipants (withoutVideo_updateActiveVideoList s e)
  exact h

theorem audioParticipants_addVideoParticipant (s : ActiveMediaList) (e : Nat)
    (p : SimulcastStream) (q : Option SimulcastStream) :
    (addVideoParticipant s e p q).1.audioParticipants = s.audioParticipants := by
  have h := congrArg ActiveMediaList.audioParticipants (withoutVideo_addVideoParticipant s e p q)
  exact h

theorem audioParticipants_removeVideoParticipant (s : ActiveMediaList) (e : Nat) :
    (removeVideoParticipant s e).1.audioParticipants = s.audioParticipants := by
  have h := congrArg ActiveMediaList.audioParticipants (withoutVideo_removeVideoParticipant s e)
  exact h

theorem audioParticipants_processTopSpeakers (n : Nat) (s : ActiveMediaList)
    (heap : List AudioParticipantScore) (snapshot : List ActiveTalker) :
    (processTopSpeakers n s heap snapshot).1.audioParticipants = s.audioParticipants := by
  have h := congrArg ActiveMediaList.audioParticipants
    (withoutAudioList_processTopSpeakers n s heap snapshot)
  exact h

theorem audioParticipants_countWin (s : ActiveMediaList) (w : Nat) :
    (countWin s w).audioParticipants = s.audioParticipants := by
  unfold countWin
  split <;> rfl

theorem audioParticipants_nominate (s : ActiveMediaList) (timestamp : Nat)
    (d : AudioParticipantScore) (c : ℚ) :
    (nominate s timestamp d c).1.audioParticipants = s.audioParticipants := by
  unfold nominate
  split
  · rfl
  · dsimp only
    split
    · rw [audioParticipants_updateActiveVideoList]
      exact audioParticipants_countWin s _
    · exact audioParticipants_countWin s _

theorem audioParticipants_process (s : ActiveMediaList) (timestamp : Nat) :
    (process s timestamp).1.audioParticipants = s.audioParticipants ∨
      (process s timestamp).1.audioParticipants =
        (updateLevels { s with lastRunTimestamp := timestamp }).audioParticipants := by
  unfold process
  split
  · exact Or.inl rfl
  · dsimp only
    split
    · exact Or.inr rfl
    · right
      rw [audioParticipants_nominate]
      exact audioParticipants_processTopSpeakers _ _ _ _

theorem participants_process (P : AudioParticipant → Prop)
    (hdecay : ∀ p, P p → P (decayLevels p))
    (hingest : ∀ p level ptt, P p → P (ingestLevel p level ptt))
    (s : ActiveMediaList) (timestamp : Nat) (hs : ∀ p ∈ s.audioParticipants, P p.2) :
    ∀ p ∈ (process s timestamp).1.audioParticipants, P p.2 := by
  rcases audioParticipants_process s timestamp with h | h
  · rw [h]; exact hs
  · rw [h]
    exact participants_updateLevels P hdecay hingest _ hs

theorem participants_addAudioParticipant (P : AudioParticipant → Prop)
    (hnew : P AudioParticipant.new) (s : ActiveMediaList) (e : Nat)
    (hs : ∀ p ∈ s.audioParticipants, P p.2) :
    ∀ p ∈ (addAudioParticipant s e).1.audioParticipants, P p.2 := by
  have htrack : ∀ p ∈ MpmcHashmap32.emplace s.audioParticipants e AudioParticipant.new,
      P p.2 := by
    intro p hp
    unfold MpmcHashmap32.emplace at hp
    split at hp
    · exact hs p hp
    · rcases List.mem_append.1 hp with h | h
      · exact hs p h
      · rw [List.mem_singleton.1 h]; exact hnew
  unfold addAudioParticipant
  split
  · exact hs
  · split
    · exact htrack
    · exact htrack

theorem participants_removeAudioParticipant (P : AudioParticipant → Prop)
    (s : ActiveMediaList) (e : Nat) (hs : ∀ p ∈ s.audioParticipants, P p.2) :
    ∀ p ∈ (removeAudioParticipant s e).1.audioParticipants, P p.2 := by
  have herase : ∀ p ∈ MpmcHashmap32.erase s.audioParticipants e, P p.2 :=
    fun p hp => hs p (List.mem_of_mem_filter hp)
  unfold removeAudioParticipant
  split
  · exact herase
  · exact herase

theorem reachable_participants (P : AudioParticipant → Prop) (hnew : P AudioParticipant.new)
    (hdecay : ∀ p, P p → P (decayLevels p))
    (hingest : ∀ p level ptt, P p → P (ingestLevel p level ptt))
    {init s : ActiveMediaList} (hinit : init.audioParticipants = [])
    (h : Reachable init s) : ∀ p ∈ s.audioParticipants, P p.2 := by
  induction h with
  | start => rw [hinit]; intro p hp; cases hp
  | addAudio e _ ih => exact participants_addAudioParticipant P hnew _ e ih
  | removeAudio e _ ih => exact participants_removeAudioParticipant P _ e ih
  | newLevel e level ptt _ ih => exact ih
  | tick timestamp _ ih => exact participants_process P hdecay hingest _ timestamp ih
  | promoteAudio e _ ih =>
    rw [audioParticipants_updateActiveAudioList]; exact ih
  | addVideo e p q _ _ ih =>
    rw [audioParticipants_addVideoParticipant]; exact ih
  | removeVideo e _ ih =>
    rw [audioParticipants_removeVideoParticipant]; exact ih
  | promoteVideo e _ ih =>
    rw [audioParticipants_updateActiveVideoList]; exact ih

/-- C16: in every state reachable from construction (any samples, any ptt flags, any
interleaving with the other entry points) every tracked energy history has the ring
invariant: `totalLevelLongWindow` is the sum of the 256 entries of `levels`,
`totalLevelShortWindow` is the sum of the 25 entries at the cyclic indices
`indexEndShortWindow` to `index`, and `nonZeroLevelsShortWindow` is the number of non-zero
entries among them, hence between 0 and 25. -/
theorem ring_running_sums (maxParticipants : Nat) (audioSsrcs : List Nat)
    (videoSsrcs : List SimulcastLevel) (defaultLastN audioLastN threshold : Nat)
    (s : ActiveMediaList)
    (h : Reachable (ActiveMediaList.new maxParticipants audioSsrcs videoSsrcs defaultLastN
      audioLastN threshold) s) :
    ∀ p ∈ s.audioParticipants,
      RingInv p.2 ∧ (shortWindowLevels p.2).length = lengthShortWindow ∧
        0 ≤ p.2.nonZeroLevelsShortWindow ∧
        p.2.nonZeroLevelsShortWindow ≤ (lengthShortWindow : Int) := by
  intro p hp
  have hinv : RingInv p.2 :=
    reachable_participants RingInv ringInv_new (fun _ hq => ringInv_decayLevels hq)
      (fun _ level ptt hq => ringInv_ingestLevel hq level ptt) rfl h p hp
  have hlen : (shortWindowLevels p.2).length = lengthShortWindow := by
    unfold shortWindowLevels
    rw [List.length_map, List.length_range]
  refine ⟨hinv, hlen, ?_, ?_⟩
  · rw [hinv.nonZero]; exact Int.natCast_nonneg _
  · rw [hinv.nonZero, ← hlen]
    exact Int.ofNat_le.2 (List.countP_le_length _)

/-- C16, witness: scenario S2 after its first `process` call; endpoint 2 has ingested one
sample of level 90. -/
theorem ring_running_sums_witness :
    Reachable scenarioInit (process scenarioS2 (1980 * Time.ms)).1 ∧
      (∀ p ∈ (process scenarioS2 (1980 * Time.ms)).1.audioParticipants,
        RingInv p.2 ∧ (shortWindowLevels p.2).length = lengthShortWindow ∧
          0 ≤ p.2.nonZeroLevelsShortWindow ∧
          p.2.nonZeroLevelsShortWindow ≤ (lengthShortWindow : Int)) ∧
      (process scenarioS2 (1980 * Time.ms)).1.audioParticipants.map
        (fun p => (p.1, p.2.totalLevelLongWindow, p.2.totalLevelShortWindow,
          p.2.nonZeroLevelsShortWindow)) = [(1, 70, 70, 1), (2, 90, 90, 1)] :=
  ⟨Reachable.tick _ (Reachable.newLevel 2 90 false (Reachable.newLevel 1 70 false
      (Reachable.addAudio 2 (Reachable.addAudio 1 Reachable.start)))),
    ring_running_sums 1024 [100, 101] _ 2 2 10 _
      (Reachable.tick _ (Reachable.newLevel 2 90 false (Reachable.newLevel 1 70 false
        (Reachable.addAudio 2 (Reachable.addAudio 1 Reachable.start))))),
    by decide!⟩

/-! ## The bounds of the noise level (C17) -/

theorem short_total_ge {p : AudioParticipant} (h : RingInv p) (level : Nat) (ptt : Bool)
    (hl : level ≠ 0) (hnz : p.nonZeroLevelsShortWindow = (lengthShortWindow : Int)) :
    (lengthShortWindow : Int) ≤ (ingestLevel p level ptt).totalLevelShortWindow := by
  have h2 := ringInv_ingestLevel h level ptt
  rw [h2.short, shortWindowLevels_ingestLevel p level ptt h.size h.index]
  have hc := h.nonZero
  rw [hnz, shortWindowLevels_eq p h.size h.indexEnd] at hc
  have hc2 : List.countP (fun x => decide (x ≠ 0))
      (p.levels.getD p.indexEndShortWindow 0 ::
        (List.range 24).map
          (fun j => p.levels.getD ((p.indexEndShortWindow + (j + 1)) % lengthLongWindow) 0)) =
      (p.levels.getD p.indexEndShortWindow 0 ::
        (List.range 24).map
          (fun j => p.levels.getD ((p.indexEndShortWindow + (j + 1)) % lengthLongWindow)
            0)).length := by
    have := Int.ofNat_inj.1 hc
    rw [← this]
    simp [lengthShortWindow]
  have hall := List.countP_eq_length.1 hc2
  have hone : ∀ i ∈ (List.range 24).map
      (fun j => p.levels.getD ((p.indexEndShortWindow + (j + 1)) % lengthLongWindow) 0) ++
      [level], 1 ≤ i := by
    intro i hi
    rcases List.mem_append.1 hi with hi | hi
    · have := hall i (List.mem_cons_of_mem _ hi)
      have hne : i ≠ 0 := by simpa using this
      omega
    · rw [List.mem_singleton.1 hi]; omega
  have hsum := List.length_le_sum_of_one_le _ hone
  have hlen : ((List.range 24).map
      (fun j => p.levels.getD ((p.indexEndShortWindow + (j + 1)) % lengthLongWindow) 0) ++
      [level]).length = lengthShortWindow := by
    simp [lengthShortWindow]
  rw [hlen] at hsum
  exact Int.ofNat_le.2 hsum

theorem noise_ingestLevel {p : AudioParticipant} (h : RingInv p) (hn : 1 ≤ p.noiseLevel)
    (level : Nat) (ptt : Bool) : 1 ≤ (ingestLevel p level ptt).noiseLevel := by
  have hshort := short_total_ge h level ptt
  show 1 ≤ (if ptt = true then (37 : ℚ)
    else if level ≠ 0 ∧ p.nonZeroLevelsShortWindow = (lengthShortWindow : Int) then
      min p.noiseLevel
        (((p.totalLevelShortWindow +
          ((level : Int) - ((p.levels.getD p.indexEndShortWindow 0 : Nat) : Int)) : Int) : ℚ) /
          ((lengthShortWindow : Nat) : ℚ))
    else p.noiseLevel)
  split
  · norm_num
  · split
    · rename_i hc
      have h3 : (lengthShortWindow : Int) ≤ p.totalLevelShortWindow +
          ((level : Int) - ((p.levels.getD p.indexEndShortWindow 0 : Nat) : Int)) :=
        hshort hc.1 hc.2
      have h4 : (((lengthShortWindow : Nat) : Int) : ℚ) ≤ ((p.totalLevelShortWindow +
          ((level : Int) - ((p.levels.getD p.indexEndShortWindow 0 : Nat) : Int)) : Int) : ℚ) :=
        Int.cast_le.2 h3
      refine le_min hn ?_
      have hpos : (0 : ℚ) < ((lengthShortWindow : Nat) : ℚ) := by norm_num [lengthShortWindow]
      rw [le_div_iff₀ hpos, one_mul]
      simpa using h4
    · exact hn

theorem noise_decayLevels (p : AudioParticipant) :
    (MIN_NOISE : ℚ) ≤ (decayLevels p).noiseLevel :=
  le_max_right _ _

theorem decayLevels_silent (x : ℚ) (hx : (MIN_NOISE : ℚ) ≤ x + NOISE_RAMPUP) :
    decayLevels { AudioParticipant.new with noiseLevel := x } =
      { AudioParticipant.new with noiseLevel := x + NOISE_RAMPUP } := by
  unfold decayLevels
  have h1 : max (x + NOISE_RAMPUP) (MIN_NOISE : ℚ) = x + NOISE_RAMPUP := max_eq_left hx
  simp only [h1]
  simp [AudioParticipant.new]

/-- One `process` call of the silent run: nobody is ranked, the noise level of the only
participant grows by `NOISE_RAMPUP`. -/
theorem process_silent_step (s : ActiveMediaList) (t : Nat) (x : ℚ)
    (hran : Time.diffLT s.lastRunTimestamp t (INTERVAL_MS * Time.ms) = false)
    (hqueue : s.incomingAudioLevels = [])
    (hpart : s.audioParticipants = [(1, { AudioParticipant.new with noiseLevel := x })])
    (hx : (MIN_NOISE : ℚ) ≤ x + NOISE_RAMPUP) :
    (process s t).1.audioParticipants =
        [(1, { AudioParticipant.new with noiseLevel := x + NOISE_RAMPUP })] ∧
      (process s t).1.incomingAudioLevels = [] ∧ (process s t).1.lastRunTimestamp = t := by
  have hupd : (updateLevels { s with lastRunTimestamp := t }).audioParticipants =
      [(1, { AudioParticipant.new with noiseLevel := x + NOISE_RAMPUP })] := by
    show s.incomingAudioLevels.foldl ingestEntry
      (s.audioParticipants.map (fun entry => (entry.1, decayLevels entry.2))) = _
    rw [hqueue, hpart, List.foldl_nil, List.map_cons, List.map_nil, decayLevels_silent x hx]
  have hsilent : ∀ p ∈ (updateLevels { s with lastRunTimestamp := t }).audioParticipants,
      p.2.maxRecentLevel = 0 := by
    rw [hupd]
    intro p hp
    rw [List.mem_singleton.1 hp]
    rfl
  have hrank : rankSpeakers (updateLevels { s with lastRunTimestamp := t }) = (0, []) :=
    rankLoop_all_silent _ _ 0 [] hsilent
  have hproc : process s t = (updateLevels { s with lastRunTimestamp := t }, false, false) := by
    unfold process
    rw [hran]
    simp only [Bool.false_eq_true, if_false, hrank, heapTop]
  rw [hproc]
  exact ⟨hupd, rfl, rfl⟩

theorem silentRun_spec (n : Nat) :
    (silentRun n).audioParticipants =
        [(1, { AudioParticipant.new with noiseLevel := 50 + (n : ℚ) * NOISE_RAMPUP })] ∧
      (silentRun n).incomingAudioLevels = [] ∧
      (silentRun n).lastRunTimestamp = n * (INTERVAL_MS * Time.ms) := by
  induction n with
  | zero =>
    refine ⟨?_, rfl, by decide⟩
    have h : (50 : ℚ) + ((0 : Nat) : ℚ) * NOISE_RAMPUP = 50 := by norm_num
    rw [h]
    rfl
  | succ n ih =>
    obtain ⟨h1, h2, h3⟩ := ih
    have hran : Time.diffLT (silentRun n).lastRunTimestamp ((n + 1) * (INTERVAL_MS * Time.ms))
        (INTERVAL_MS * Time.ms) = false := by
      rw [h3]
      unfold Time.diffLT
      simp only [decide_eq_false_iff_not, not_lt]
      push_cast
      linarith
    have hx : (MIN_NOISE : ℚ) ≤ 50 + (n : ℚ) * NOISE_RAMPUP + NOISE_RAMPUP := by
      have hn : (0 : ℚ) ≤ (n : ℚ) := Nat.cast_nonneg n
      norm_num [MIN_NOISE, NOISE_RAMPUP]
      linarith
    have hstep := process_silent_step (silentRun n) ((n + 1) * (INTERVAL_MS * Time.ms)) _
      hran h2 h1 hx
    have hnoise : 50 + (n : ℚ) * NOISE_RAMPUP + NOISE_RAMPUP =
        50 + ((n + 1 : Nat) : ℚ) * NOISE_RAMPUP := by
      push_cast; ring
    rw [hnoise] at hstep
    exact hstep

/-- C17, counterexample: (a) endpoint 1 sends 26 samples of level 1; after the `process`
call that ingests them its noise level is 1, below `MIN_NOISE` (small whole numbers, the
same in float arithmetic); (b) endpoint 1 sends nothing; after 20000 `process` calls 10 ms
apart its noise level is above 140, where the claim allows 127 (the margin of 13 is far more
than the rounding of 20000 float additions can take away). -/
theorem noise_level_leaves_bounds :
    ((process scenarioFaint (10 * Time.ms)).1.audioParticipants.map
        (fun p => (p.1, p.2.noiseLevel)) = [(1, 1)] ∧ (1 : ℚ) < (MIN_NOISE : ℚ)) ∧
      ((silentRun 20000).audioParticipants.map (fun p => p.1) = [1] ∧
        ∀ p ∈ (silentRun 20000).audioParticipants, (140 : ℚ) < p.2.noiseLevel) := by
  refine ⟨⟨by decide!, by decide!⟩, ?_, ?_⟩
  · rw [(silentRun_spec 20000).1]
    rfl
  · intro p hp
    rw [(silentRun_spec 20000).1, List.mem_singleton] at hp
    rw [hp]
    norm_num [NOISE_RAMPUP]

theorem reachable_feedSamples {init s : ActiveMediaList} (e level count : Nat)
    (h : Reachable init s) : Reachable init (feedSamples s e level count) := by
  induction count generalizing s with
  | zero => exact h
  | succ n ih => exact ih (Reachable.newLevel e level false h)

/-- C17, amended: in every state reachable from construction every tracked energy history
has a noise level of at least 1, and right after the decay pass of `updateLevels` of at
least `MIN_NOISE`. -/
theorem noise_level_lower_bound (maxParticipants : Nat) (audioSsrcs : List Nat)
    (videoSsrcs : List SimulcastLevel) (defaultLastN audioLastN threshold : Nat)
    (s : ActiveMediaList)
    (h : Reachable (ActiveMediaList.new maxParticipants audioSsrcs videoSsrcs defaultLastN
      audioLastN threshold) s) :
    ∀ p ∈ s.audioParticipants,
      1 ≤ p.2.noiseLevel ∧ (MIN_NOISE : ℚ) ≤ (decayLevels p.2).noiseLevel := by
  intro p hp
  have hinv : RingInv p.2 ∧ 1 ≤ p.2.noiseLevel :=
    reachable_participants (fun q => RingInv q ∧ 1 ≤ q.noiseLevel)
      ⟨ringInv_new, by norm_num [AudioParticipant.new]⟩
      (fun q hq => ⟨ringInv_decayLevels hq.1,
        le_trans (by norm_num [MIN_NOISE]) (noise_decayLevels q)⟩)
      (fun q level ptt hq => ⟨ringInv_ingestLevel hq.1 level ptt,
        noise_ingestLevel hq.1 hq.2 level ptt⟩) rfl h p hp
  exact ⟨hinv.2, noise_decayLevels p.2⟩

/-- C17, witness of the amended statement: after the `process` call that ingests 26 samples
of level 1 the noise level of endpoint 1 is exactly 1. -/
theorem noise_level_lower_bound_witness :
    Reachable scenarioInit (process scenarioFaint (10 * Time.ms)).1 ∧
      ∀ p ∈ (process scenarioFaint (10 * Time.ms)).1.audioParticipants,
        1 ≤ p.2.noiseLevel ∧ (MIN_NOISE : ℚ) ≤ (decayLevels p.2).noiseLevel :=
  ⟨Reachable.tick _ (reachable_feedSamples 1 1 26 (Reachable.addAudio 1 Reachable.start)),
    noise_level_lower_bound 1024 [100, 101] _ 2 2 10 _
      (Reachable.tick _ (reachable_feedSamples 1 1 26 (Reachable.addAudio 1 Reachable.start)))⟩

/-! ## The sizes of the two lists (C24) -/

/-- C24: in every reachable state the active-video list has at most `defaultLastN + 1`
entries and the active-audio list at most as many entries as audio SSRCs were passed to the
constructor. -/
theorem list_size_bounds (maxParticipants : Nat) (audioSsrcs : List Nat)
    (videoSsrcs : List SimulcastLevel) (defaultLastN audioLastN threshold : Nat)
    (s : ActiveMediaList)
    (h : Reachable (ActiveMediaList.new maxParticipants audioSsrcs videoSsrcs defaultLastN
      audioLastN threshold) s) :
    s.activeVideoList.length ≤ defaultLastN + 1 ∧
      s.activeAudioList.length ≤ audioSsrcs.length := by
  have hb := reachable_videoBound (videoInv_init _ _ _ _ _ _) (videoBound_init _ _ _ _ _ _) h
  have ha := reachable_audioLoose (audioLoose_init _ _ _ _ _ _) h
  have hcfg := reachable_config_eq h
  simp only [config, Prod.mk.injEq] at hcfg
  have hmax : s.maxActiveListSize = defaultLastN + 1 := hcfg.2.1
  have hsp : s.maxSpeakers = audioSsrcs.length := hcfg.2.2.2.2.1
  refine ⟨?_, ?_⟩
  · rw [← hmax]; exact hb.bound
  · have hroom := ha.room
    omega

/-- C24, witness: the scenario bridge (`defaultLastN = 2`, two audio SSRCs) with audio
endpoint 9 and the video endpoints 1, 2, 3; both lists are within their bounds, the video
list is full. -/
theorem list_size_bounds_witness :
    Reachable scenarioInit scenarioFullVideo ∧
      (scenarioFullVideo.activeVideoList.length ≤ 2 + 1 ∧
        scenarioFullVideo.activeAudioList.length ≤ [100, 101].length) ∧
      scenarioFullVideo.activeVideoList.length = 3 :=
  have hr : Reachable scenarioInit scenarioFullVideo :=
    Reachable.addVideo 3 _ none
      (Reachable.addVideo 2 _ none
        (Reachable.addVideo 1 _ none (Reachable.addAudio 9 Reachable.start) (by decide))
        (by decide))
      (by decide)
  ⟨hr, list_size_bounds 1024 [100, 101] _ 2 2 10 scenarioFullVideo hr, by decide⟩

/-! ## The result of `removeAudioParticipant` (C29) -/

/-- The property of C29 under the caller condition that `process` keeps: in every state reachable
with `updateActiveAudioList` called for tracked endpoints only, `removeAudioParticipant(e)`
returns true exactly when `e` had an entry in the audio rewrite map; whatever the result, `e`
is afterwards absent from the audio participant table, from the audio rewrite map and from the
active-audio list, and `dominantSpeakerId` is unchanged. -/
theorem removeAudioParticipant_result (maxParticipants : Nat) (audioSsrcs : List Nat)
    (videoSsrcs : List SimulcastLevel) (defaultLastN audioLastN threshold : Nat)
    (s : ActiveMediaList) (e : Nat)
    (h : ReachableTracked (ActiveMediaList.new maxParticipants audioSsrcs videoSsrcs defaultLastN
      audioLastN threshold) s) :
    ((removeAudioParticipant s e).2 = true ↔
        MpmcHashmap32.contains s.audioSsrcRewriteMap e = true) ∧
      MpmcHashmap32.contains (removeAudioParticipant s e).1.audioParticipants e = false ∧
      MpmcHashmap32.contains (removeAudioParticipant s e).1.audioSsrcRewriteMap e = false ∧
      e ∉ (removeAudioParticipant s e).1.activeAudioList ∧
      (removeAudioParticipant s e).1.dominantSpeakerId = s.dominantSpeakerId := by
  have ha := reachable_audioInv (audioInv_init _ _ _ _ _ _) h
  have hlistNodup : s.activeAudioList.Nodup := (ha.listed.nodup_iff).1 ha.nodup
  unfold removeAudioParticipant
  split
  · rename_i ssrc hf
    have hc : MpmcHashmap32.contains s.audioSsrcRewriteMap e = true := by
      unfold MpmcHashmap32.contains; rw [hf]; rfl
    refine ⟨⟨fun _ => hc, fun _ => rfl⟩, ?_, ?_, ?_, rfl⟩
    · rw [MpmcHashmap32.contains_eq_false_iff]
      exact MpmcHashmap32.not_mem_keys_erase _ _
    · rw [MpmcHashmap32.contains_eq_false_iff]
      exact MpmcHashmap32.not_mem_keys_erase _ _
    · show e ∉ (ListOps.remove s.activeAudioList e).1
      rw [remove_fst]
      exact fun hm => ((List.Nodup.mem_erase_iff hlistNodup).1 hm).1 rfl
  · rename_i hf
    have hnk : e ∉ MpmcHashmap32.keys s.audioSsrcRewriteMap :=
      (MpmcHashmap32.find_eq_none_iff _ _).1 hf
    have hc : MpmcHashmap32.contains s.audioSsrcRewriteMap e = false :=
      (MpmcHashmap32.contains_eq_false_iff _ _).2 hnk
    have hiff : (false = true) ↔ MpmcHashmap32.contains s.audioSsrcRewriteMap e = true := by
      rw [hc]
    refine ⟨hiff, ?_, hc, ?_, rfl⟩
    · rw [MpmcHashmap32.contains_eq_false_iff]
      exact MpmcHashmap32.not_mem_keys_erase _ _
    · exact fun hm => hnk ((ha.listed.mem_iff).2 hm)

/-- Witness of `removeAudioParticipant_result`: scenario S3, where endpoints 1 and 2 hold the two
SSRCs and endpoint 3 is tracked without one: removing 3 returns false, removing 1 returns
true, and both are gone from the participant table afterwards. -/
theorem removeAudioParticipant_result_witness :
    ReachableTracked scenarioInit scenarioS3 ∧
      (removeAudioParticipant scenarioS3 3).2 = false ∧
      (removeAudioParticipant scenarioS3 1).2 = true ∧
      MpmcHashmap32.contains (removeAudioParticipant scenarioS3 3).1.audioParticipants 3 =
        false ∧
      1 ∉ (removeAudioParticipant scenarioS3 1).1.activeAudioList :=
  have hr : ReachableTracked scenarioInit scenarioS3 :=
    ReachableTracked.promoteAudio 2
      (ReachableTracked.promoteAudio 1
        (ReachableTracked.addAudio 3
          (ReachableTracked.addAudio 2 (ReachableTracked.addAudio 1 ReachableTracked.start)))
        (by decide))
      (by decide)
  ⟨hr, by decide, by decide,
    (removeAudioParticipant_result 1024 [100, 101] _ 2 2 10 scenarioS3 3 hr).2.1,
    (removeAudioParticipant_result 1024 [100, 101] _ 2 2 10 scenarioS3 1 hr).2.2.2.1⟩

theorem processTopSpeakers_ptt (n : Nat) (s : ActiveMediaList)
    (heap : List AudioParticipantScore) (snapshot : List ActiveTalker)
    (hh : ∀ x ∈ heap, x.participant ∈ MpmcHashmap32.keys s.audioParticipants)
    (hsnap : ∀ x ∈ snapshot, x.ptt = false) :
    ∀ x ∈ (processTopSpeakers n s heap snapshot).2, x.ptt = false := by
  induction n generalizing s heap snapshot with
  | zero => exact hsnap
  | succ n ih =>
    unfold processTopSpeakers
    split
    · exact hsnap
    · rename_i top ht
      have hp := audioParticipants_updateActiveAudioList s top.participant
      have hc : MpmcHashmap32.contains
          (updateActiveAudioList s top.participant).audioParticipants top.participant = true := by
        rw [hp, MpmcHashmap32.contains_eq_true_iff]
        exact hh top (heapTop_mem ht)
      dsimp only
      apply ih
      · intro x hx
        rw [hp]
        exact hh x (heapPop_subset heap x hx)
      · intro x hx
        simp only [hc, if_true] at hx
        split at hx
        · rcases List.mem_append.1 hx with h | h
          · exact hsnap x h
          · rw [List.mem_singleton.1 h]
        · exact hsnap x hx

theorem activeTalkerSnapshot_updateActiveVideoList (s : ActiveMediaList) (e : Nat) :
    (updateActiveVideoList s e).1.activeTalkerSnapshot = s.activeTalkerSnapshot := by
  have h := congrArg ActiveMediaList.activeTalkerSnapshot (withoutVideo_updateActiveVideoList s e)
  exact h

theorem activeTalkerSnapshot_addVideoParticipant (s : ActiveMediaList) (e : Nat)
    (p : SimulcastStream) (q : Option SimulcastStream) :
    (addVideoParticipant s e p q).1.activeTalkerSnapshot = s.activeTalkerSnapshot := by
  have h := congrArg ActiveMediaList.activeTalkerSnapshot
    (withoutVideo_addVideoParticipant s e p q)
  exact h

theorem activeTalkerSnapshot_removeVideoParticipant (s : ActiveMediaList) (e : Nat) :
    (removeVideoParticipant s e).1.activeTalkerSnapshot = s.activeTalkerSnapshot := by
  have h := congrArg ActiveMediaList.activeTalkerSnapshot
    (withoutVideo_removeVideoParticipant s e)
  exact h

theorem activeTalkerSnapshot_updateActiveAudioList (s : ActiveMediaList) (e : Nat) :
    (updateActiveAudioList s e).activeTalkerSnapshot = s.activeTalkerSnapshot := by
  have h := congrArg ActiveMediaList.activeTalkerSnapshot
    (withoutAudioList_updateActiveAudioList s e)
  exact h

theorem activeTalkerSnapshot_countWin (s : ActiveMediaList) (w : Nat) :
    (countWin s w).activeTalkerSnapshot = s.activeTalkerSnapshot := by
  unfold countWin
  split <;> rfl

theorem activeTalkerSnapshot_nominate (s : ActiveMediaList) (timestamp : Nat)
    (d : AudioParticipantScore) (c : ℚ) :
    (nominate s timestamp d c).1.activeTalkerSnapshot = s.activeTalkerSnapshot := by
  unfold nominate
  split
  · rfl
  · dsimp only
    split
    · rw [activeTalkerSnapshot_updateActiveVideoList]
      exact activeTalkerSnapshot_countWin s _
    · exact activeTalkerSnapshot_countWin s _

/-- The snapshot after a `process` call is the one before it, or the one collected by the
loop over the top speakers of this call. -/
theorem activeTalkerSnapshot_process (s : ActiveMediaList) (timestamp : Nat) :
    (process s timestamp).1.activeTalkerSnapshot = s.activeTalkerSnapshot ∨
      (process s timestamp).1.activeTalkerSnapshot =
        (processTopSpeakers (updateLevels { s with lastRunTimestamp := timestamp }).audioLastN
          (updateLevels { s with lastRunTimestamp := timestamp })
          (rankSpeakers (updateLevels { s with lastRunTimestamp := timestamp })).2 []).2 := by
  unfold process
  split
  · exact Or.inl rfl
  · dsimp only
    split
    · exact Or.inl rfl
    · right
      rw [activeTalkerSnapshot_nominate]
      rfl

theorem ptt_process (s : ActiveMediaList) (timestamp : Nat)
    (hs : ∀ x ∈ s.activeTalkerSnapshot, x.ptt = false) :
    ∀ x ∈ (process s timestamp).1.activeTalkerSnapshot, x.ptt = false := by
  rcases activeTalkerSnapshot_process s timestamp with h | h
  · rw [h]; exact hs
  · rw [h]
    exact processTopSpeakers_ptt _ _ _ _ (rankSpeakers_participants _)
      (fun x hx => by cases hx)

theorem reachable_ptt {init s : ActiveMediaList} (hinit : init.activeTalkerSnapshot = [])
    (h : Reachable init s) : ∀ x ∈ s.activeTalkerSnapshot, x.ptt = false := by
  induction h with
  | start => rw [hinit]; intro x hx; cases hx
  | @addAudio s0 e _ ih =>
    have hf : (addAudioParticipant s0 e).1.activeTalkerSnapshot = s0.activeTalkerSnapshot := by
      unfold addAudioParticipant
      split
      · rfl
      · split <;> rfl
    rw [hf]; exact ih
  | @removeAudio s0 e _ ih =>
    have hf : (removeAudioParticipant s0 e).1.activeTalkerSnapshot =
        s0.activeTalkerSnapshot := by
      unfold removeAudioParticipant
      split <;> rfl
    rw [hf]; exact ih
  | newLevel e level ptt _ ih => exact ih
  | tick timestamp _ ih => exact ptt_process _ timestamp ih
  | promoteAudio e _ ih => rw [activeTalkerSnapshot_updateActiveAudioList]; exact ih
  | addVideo e p q _ _ ih => rw [activeTalkerSnapshot_addVideoParticipant]; exact ih
  | removeVideo e _ ih => rw [activeTalkerSnapshot_removeVideoParticipant]; exact ih
  | promoteVideo e _ ih => rw [activeTalkerSnapshot_updateActiveVideoList]; exact ih

/-- C25: in every reachable state, and so after every `process` call, every entry of the
active-talker snapshot has `ptt == false`, whatever the ptt flags of the samples were: the
endpoints that `process` publishes are ranked, hence tracked, so the lookup
`_audioParticipants.find` never returns `end()` and the conditional always takes the branch
`false`. -/
theorem published_ptt_is_false (maxParticipants : Nat) (audioSsrcs : List Nat)
    (videoSsrcs : List SimulcastLevel) (defaultLastN audioLastN threshold : Nat)
    (s : ActiveMediaList) (timestamp : Nat)
    (h : Reachable (ActiveMediaList.new maxParticipants audioSsrcs videoSsrcs defaultLastN
      audioLastN threshold) s) :
    (∀ x ∈ s.activeTalkerSnapshot, x.ptt = false) ∧
      (∀ x ∈ (process s timestamp).1.activeTalkerSnapshot, x.ptt = false) ∧
      (∀ x ∈ (processTopSpeakers (updateLevels { s with lastRunTimestamp := timestamp }).audioLastN
          (updateLevels { s with lastRunTimestamp := timestamp })
          (rankSpeakers (updateLevels { s with lastRunTimestamp := timestamp })).2 []).2,
        x.ptt = false) :=
  ⟨reachable_ptt rfl h, ptt_process s timestamp (reachable_ptt rfl h),
    processTopSpeakers_ptt _ _ _ _ (rankSpeakers_participants _) (fun x hx => by cases hx)⟩

/-- C25, witness: endpoint 1 sends one sample of level 127 with the ptt flag set; the
`process` call at 1980 ms stores `ptt = true` in its energy history and publishes it as an
active talker with `ptt = false`. -/
theorem published_ptt_is_false_witness :
    Reachable scenarioInit scenarioPtt ∧
      (process scenarioPtt (1980 * Time.ms)).1.audioParticipants.map
        (fun p => (p.1, p.2.ptt)) = [(1, true)] ∧
      (process scenarioPtt (1980 * Time.ms)).1.activeTalkerSnapshot =
        [{ endpointHashId := 1, ptt := false, score := 90, noiseLevel := 37 }] ∧
      ∀ x ∈ (process scenarioPtt (1980 * Time.ms)).1.activeTalkerSnapshot, x.ptt = false :=
  ⟨Reachable.newLevel 1 127 true (Reachable.addAudio 1 Reachable.start), by decide!,
    by decide!,
    (published_ptt_is_false 1024 [100, 101] _ 2 2 10 scenarioPtt (1980 * Time.ms)
      (Reachable.newLevel 1 127 true (Reachable.addAudio 1 Reachable.start))).2.1⟩

/-! ## The active-video list and its lookup map (C23) -/

/-- C23: in every reachable state (video participants being added under non-zero endpoint
ids) the active-video list contains no endpoint twice, every endpoint in it is a registered
video participant, the keys of `activeVideoListLookupMap` are exactly the endpoints in the
list (as many as the list is long), every entry of the list has its own node, and for every
entry of the list the lookup map holds, under the endpoint the entry carries, the node of
this entry. -/
theorem active_video_list_agrees_with_lookup (maxParticipants : Nat) (audioSsrcs : List Nat)
    (videoSsrcs : List SimulcastLevel) (defaultLastN audioLastN threshold : Nat)
    (s : ActiveMediaList)
    (h : Reachable (ActiveMediaList.new maxParticipants audioSsrcs videoSsrcs defaultLastN
      audioLastN threshold) s) :
    s.activeVideoList.Nodup ∧
      (∀ e ∈ s.activeVideoList, MpmcHashmap32.contains s.videoParticipants e = true) ∧
      (∀ e, MpmcHashmap32.contains s.activeVideoListLookupMap e = true ↔
        e ∈ s.activeVideoList) ∧
      MpmcHashmap32.size s.activeVideoListLookupMap = s.activeVideoList.length ∧
      s.activeVideoListNodes.length = s.activeVideoList.length ∧
      s.activeVideoListNodes.Nodup ∧
      (∀ p ∈ s.activeVideoList.zip s.activeVideoListNodes,
        MpmcHashmap32.find s.activeVideoListLookupMap p.1 = some (some p.2)) := by
  have hv := reachable_videoInv (videoInv_init _ _ _ _ _ _) h
  have hb := reachable_videoBound (videoInv_init _ _ _ _ _ _) (videoBound_init _ _ _ _ _ _) h
  have hl := reachable_lookupInv (lookupInv_init _ _ _ _ _ _) (videoInv_init _ _ _ _ _ _) h
  refine ⟨hv.listNodup, ?_, ?_, lookup_size_eq hb, hl.length, hl.nodup, hl.points⟩
  · intro e he
    exact (MpmcHashmap32.contains_eq_true_iff _ _).2 (hv.listed e he)
  · intro e
    rw [MpmcHashmap32.contains_eq_true_iff]
    exact hb.lookupPerm.mem_iff

/-- C23, witness: scenario S5 (list 1, 2, 3, 4 from head to tail, linked in the order 4, 3,
2, 1 and so carried by the nodes 4, 3, 2, 1) after `updateActiveVideoList(2)`: endpoint 2
left node 3 and is carried by the new tail node 5, to which its lookup entry points. -/
theorem active_video_list_agrees_with_lookup_witness :
    Reachable scenarioLastNInit (updateActiveVideoList scenarioS5 2).1 ∧
      scenarioS5.activeVideoList = [1, 2, 3, 4] ∧
      scenarioS5.activeVideoListNodes = [4, 3, 2, 1] ∧
      (updateActiveVideoList scenarioS5 2).1.activeVideoList = [1, 3, 4, 2] ∧
      (updateActiveVideoList scenarioS5 2).1.activeVideoListNodes = [4, 2, 1, 5] ∧
      MpmcHashmap32.find (updateActiveVideoList scenarioS5 2).1.activeVideoListLookupMap 2 =
        some (some 5) :=
  have hr : Reachable scenarioLastNInit (updateActiveVideoList scenarioS5 2).1 :=
    Reachable.promoteVideo 2
      (Reachable.addVideo 1 _ none
        (Reachable.addVideo 2 _ none
          (Reachable.addVideo 3 _ none
            (Reachable.addVideo 4 _ none Reachable.start (by decide)) (by decide)) (by decide))
        (by decide))
  ⟨hr, by decide, by decide, by decide, by decide,
    (active_video_list_agrees_with_lookup 1024 [100, 101] _ 3 2 10
      (updateActiveVideoList scenarioS5 2).1 hr).2.2.2.2.2.2 (2, 5) (by decide)⟩

/-! ## Ownership of SimulcastLevels and list membership (C22) -/

theorem mem_keys_emplace_iff {V : Type} (m : MpmcHashmap32 V) (k x : Nat) (v : V) :
    x ∈ MpmcHashmap32.keys (MpmcHashmap32.emplace m k v) ↔
      x ∈ MpmcHashmap32.keys m ∨ x = k := by
  constructor
  · exact MpmcHashmap32.mem_keys_emplace m k x v
  · intro h
    by_cases hk : k ∈ MpmcHashmap32.keys m
    · rw [MpmcHashmap32.emplace_of_mem _ _ _ hk]
      rcases h with h | h
      · exact h
      · rw [h]; exact hk
    · rw [MpmcHashmap32.emplace_of_not_mem _ _ _ hk, MpmcHashmap32.keys_append,
        List.mem_append]
      rcases h with h | h
      · exact Or.inl h
      · right; simp [MpmcHashmap32.keys, h]

theorem senderInv_congr {s t : ActiveMediaList} (h : videoSide t = videoSide s)
    (hs : SenderInv s) : SenderInv t := by
  simp only [videoSide, Prod.mk.injEq] at h
  obtain ⟨h1, _, h3, _, h5, _, _, _, _⟩ := h
  unfold SenderInv
  rw [h1, h3, h5]; exact hs

theorem senderInv_unlinked {levels : List SimulcastLevel} {s t : ActiveMediaList}
    (hs : SenderInv s) (hv : VideoInv levels s) (r : Nat)
    (hP : t.videoParticipants = s.videoParticipants)
    (hL : t.activeVideoList = s.activeVideoList.erase r)
    (hR : ReleasedFrom s t r) : SenderInv t := by
  intro e vp he hf
  rw [hL] at he
  rw [hP] at hf
  have hmem := (List.Nodup.mem_erase_iff hv.listNodup).1 he
  have hold := hs e vp hmem.2 hf
  rcases hR with ⟨_, _, h2, _⟩ | ⟨level, _, _, h2, _⟩
  · rw [h2]; exact hold
  · rw [h2, MpmcHashmap32.mem_keys_erase]
    exact ⟨fun h => hold.1 h.1, fun h => ⟨hold.2 h, hmem.1⟩⟩

theorem senderInv_linked {s t : ActiveMediaList} (hs : SenderInv s) (e : Nat)
    (hP : t.videoParticipants = s.videoParticipants)
    (hL : t.activeVideoList.Perm (e :: s.activeVideoList))
    (hR : ClaimedFrom s t e)
    (hS : ∀ vp, MpmcHashmap32.find s.videoParticipants e = some vp →
      (e ∈ MpmcHashmap32.keys t.videoSsrcRewriteMap ↔
        sendsVideo vp.simulcastStream vp.secondarySimulcastStream = true)) :
    SenderInv t := by
  intro k vp hk hf
  rw [hP] at hf
  by_cases hke : k = e
  · rw [hke] at hf ⊢
    exact hS vp hf
  · rw [hL.mem_iff] at hk
    have hk2 : k ∈ s.activeVideoList := by
      rcases List.mem_cons.1 hk with h | h
      · exact absurd h hke
      · exact h
    have hold := hs k vp hk2 hf
    rcases hR with ⟨_, h2, _⟩ | ⟨level, _, h2, _⟩
    · rw [h2]; exact hold
    · rw [h2, mem_keys_emplace_iff]
      exact ⟨fun h => hold.1 (h.resolve_right hke), fun h => Or.inl (hold.2 h)⟩

theorem senderInv_registerVideoParticipant {levels : List SimulcastLevel}
    {s : ActiveMediaList} (hs : SenderInv s) (hv : VideoInv levels s) (e : Nat)
    (p : SimulcastStream) (q : Option SimulcastStream)
    (hne : e ∉ MpmcHashmap32.keys s.videoParticipants) :
    SenderInv (registerVideoParticipant s e p q) := by
  intro k vp hk hf
  have hk2 : k ∈ s.activeVideoList := hk
  have hke : k ≠ e := fun h => hne (h ▸ hv.listed k hk2)
  have hf2 : MpmcHashmap32.find s.videoParticipants k = some vp := by
    have : MpmcHashmap32.find (MpmcHashmap32.emplace s.videoParticipants e
        { simulcastStream := p, secondarySimulcastStream := q }) k = some vp := hf
    rw [MpmcHashmap32.emplace_of_not_mem _ _ _ hne,
      MpmcHashmap32.find_append_singleton_ne _ _ _ _ hke] at this
    exact this
  exact hs k vp hk2 hf2

theorem senderInv_unregisterVideoParticipant {s : ActiveMediaList} (hs : SenderInv s)
    (e : Nat) (hne : e ∉ s.activeVideoList) :
    SenderInv (unregisterVideoParticipant s e) := by
  intro k vp hk hf
  have hk2 : k ∈ s.activeVideoList := hk
  have hke : k ≠ e := fun h => hne (h ▸ hk2)
  have hf2 : MpmcHashmap32.find s.videoParticipants k = some vp := by
    have : MpmcHashmap32.find (MpmcHashmap32.erase s.videoParticipants e) k = some vp := hf
    rw [MpmcHashmap32.find_erase_ne _ _ _ hke] at this
    exact this
  exact hs k vp hk2 hf2

theorem senderInv_moveVideoToTail {s : ActiveMediaList} (hs : SenderInv s) (e : Nat)
    (he : e ∈ s.activeVideoList) : SenderInv (moveVideoToTail s e) := by
  have hperm : (moveVideoToTail s e).activeVideoList.Perm s.activeVideoList := by
    show (ListOps.pushToTail (ListOps.remove s.activeVideoList e).1 e).Perm s.activeVideoList
    rw [remove_fst]
    exact (List.perm_append_singleton e _).trans (List.perm_cons_erase he).symm
  intro k vp hk hf
  exact hs k vp ((hperm.mem_iff).1 hk) hf

theorem claimVideoSsrc_owner {s t : ActiveMediaList} {e : Nat}
    (h : claimVideoSsrc s e = some t) : e ∈ MpmcHashmap32.keys t.videoSsrcRewriteMap := by
  unfold claimVideoSsrc at h
  split at h
  · cases h
  · cases h
    exact (mem_keys_emplace_iff _ _ _ _).2 (Or.inr rfl)

theorem senderInv_evicted {levels : List SimulcastLevel} {s s1 : ActiveMediaList} {r : Nat}
    (hs : SenderInv s) (hv : VideoInv levels s) (h : evictVideoHead s = some (s1, r)) :
    SenderInv (if r ≠ 0 then releaseVideoSsrc s1 r else s1) := by
  unfold evictVideoHead at h
  split at h
  · split at h
    · cases h
    · rename_i r0 l hp
      have hlist := popFromHead_eq_some hp
      simp only [Option.some.injEq, Prod.mk.injEq] at h
      obtain ⟨h1, h2⟩ := h
      subst h2
      have hr : r0 ≠ 0 := by
        intro e0
        have : r0 ∈ MpmcHashmap32.keys s.videoParticipants :=
          hv.listed r0 (by rw [hlist]; exact List.mem_cons_self _ _)
        exact hv.nonzero (e0 ▸ this)
      rw [if_pos hr]
      have hsp := releaseVideoSsrc_spec s1 r0
      have hl : (releaseVideoSsrc s1 r0).activeVideoList = s.activeVideoList.erase r0 := by
        rw [hsp.2.2.1, ← h1, hlist]; simp
      refine senderInv_unlinked hs hv r0 ?_ hl ?_
      · rw [hsp.1, ← h1]
      · have := hsp.2.2.2.2
        rw [← h1] at this ⊢
        exact this
  · simp only [Option.some.injEq, Prod.mk.injEq] at h
    obtain ⟨h1, h2⟩ := h
    subst h1; subst h2
    have h0 : (if (0 : Nat) ≠ 0 then releaseVideoSsrc s 0 else s) = s := by simp
    rw [h0]
    exact hs

theorem senderInv_updateActiveVideoList {levels : List SimulcastLevel} {s : ActiveMediaList}
    (hs : SenderInv s) (hv : VideoInv levels s) (e : Nat) :
    SenderInv (updateActiveVideoList s e).1 := by
  unfold updateActiveVideoList
  split
  · exact hs
  · rename_i vp hf
    split
    · rename_i hin
      exact senderInv_moveVideoToTail hs e (by simpa [ListOps.tailToHead] using hin)
    · rename_i hnin
      have hnin2 : e ∉ s.activeVideoList := by simpa [ListOps.tailToHead] using hnin
      split
      · exact hs
      · rename_i s1 r hev
        obtain ⟨v2, hP2, hL2⟩ := videoInv_evicted hv hev
        have h2 := senderInv_evicted hs hv hev
        have hne2 : e ∉ (if r ≠ 0 then releaseVideoSsrc s1 r else s1).activeVideoList :=
          fun h => hnin2 (hL2 e h)
        have hf2 : MpmcHashmap32.find
            (if r ≠ 0 then releaseVideoSsrc s1 r else s1).videoParticipants e = some vp := by
          rw [hP2]; exact hf
        dsimp only
        split
        · rename_i hsend
          split
          · exact h2
          · rename_i s3 hc
            have hsp := claimVideoSsrc_spec hc
            have ho : e ∈ MpmcHashmap32.keys s3.videoSsrcRewriteMap := claimVideoSsrc_owner hc
            refine senderInv_linked h2 e hsp.1 ?_ hsp.2.2.2.2.2.2 ?_
            · show (ListOps.pushToTail s3.activeVideoList e).Perm _
              rw [hsp.2.2.1]; exact List.perm_append_singleton e _
            · intro vp2 hvp2
              rw [hf2] at hvp2
              cases hvp2
              exact ⟨fun _ => hsend, fun _ => ho⟩
        · rename_i hsend
          refine senderInv_linked h2 e rfl ?_ (Or.inl ⟨rfl, rfl, rfl⟩) ?_
          · exact List.perm_append_singleton e _
          · intro vp2 hvp2
            rw [hf2] at hvp2
            cases hvp2
            exact ⟨fun hk => absurd (v2.owners e hk) hne2, fun hx => absurd hx hsend⟩

theorem senderInv_hoistIfDominant {levels : List SimulcastLevel} {s : ActiveMediaList}
    (hs : SenderInv s) (hv : VideoInv levels s) (e : Nat) :
    SenderInv (hoistIfDominant s e).1 := by
  unfold hoistIfDominant
  split
  · exact hs
  · exact senderInv_updateActiveVideoList hs hv _

theorem senderInv_addVideoParticipant {levels : List SimulcastLevel} {s : ActiveMediaList}
    (hs : SenderInv s) (hv : VideoInv levels s) (e : Nat) (p : SimulcastStream)
    (q : Option SimulcastStream) (he : e ≠ 0) :
    SenderInv (addVideoParticipant s e p q).1 := by
  unfold addVideoParticipant
  split
  · exact hs
  · rename_i hc
    have hnp : e ∉ MpmcHashmap32.keys s.videoParticipants := by
      rw [← MpmcHashmap32.contains_eq_true_iff]; exact hc
    have v2 := videoInv_registerVideoParticipant hv e p q he hnp
    have h2 := senderInv_registerVideoParticipant hs hv e p q hnp
    have he2 : e ∈ MpmcHashmap32.keys (registerVideoParticipant s e p q).videoParticipants := by
      simp [registerVideoParticipant, MpmcHashmap32.emplace_of_not_mem _ e _ hnp,
        MpmcHashmap32.keys_append, MpmcHashmap32.keys]
    have hne2 : e ∉ (registerVideoParticipant s e p q).activeVideoList :=
      fun h => hnp (hv.listed e h)
    have hf2 : MpmcHashmap32.find (registerVideoParticipant s e p q).videoParticipants e =
        some { simulcastStream := p, secondarySimulcastStream := q } := by
      show MpmcHashmap32.find (MpmcHashmap32.emplace s.videoParticipants e _) e = _
      rw [MpmcHashmap32.emplace_of_not_mem _ _ _ hnp,
        MpmcHashmap32.find_append_singleton_self _ _ _ hnp]
    dsimp only
    split
    · exact senderInv_hoistIfDominant h2 v2 e
    · split
      · rename_i hsend
        split
        · exact h2
        · rename_i s3 hcl
          have hsp := claimVideoSsrc_spec hcl
          have ho : e ∈ MpmcHashmap32.keys s3.videoSsrcRewriteMap := claimVideoSsrc_owner hcl
          refine senderInv_hoistIfDominant ?_
            (videoInv_linkVideoHead v2 e he2 hne2 hsp.1 hsp.2.1 hsp.2.2.1 hsp.2.2.2.1
              hsp.2.2.2.2.2.2) e
          refine senderInv_linked h2 e hsp.1 ?_ hsp.2.2.2.2.2.2 ?_
          · show (ListOps.pushToHead s3.activeVideoList e).Perm _
            rw [hsp.2.2.1]; exact List.Perm.refl _
          · intro vp2 hvp2
            rw [hf2] at hvp2
            cases hvp2
            exact ⟨fun _ => hsend, fun _ => ho⟩
      · rename_i hsend
        refine senderInv_hoistIfDominant ?_
          (videoInv_linkVideoHead v2 e he2 hne2 rfl rfl rfl rfl (Or.inl ⟨rfl, rfl, rfl⟩)) e
        refine senderInv_linked h2 e rfl (List.Perm.refl _) (Or.inl ⟨rfl, rfl, rfl⟩) ?_
        intro vp2 hvp2
        rw [hf2] at hvp2
        cases hvp2
        exact ⟨fun hk => absurd (v2.owners e hk) hne2, fun hx => absurd hx hsend⟩

theorem senderInv_removeVideoParticipant {levels : List SimulcastLevel} {s : ActiveMediaList}
    (hs : SenderInv s) (hv : VideoInv levels s) (e : Nat) :
    SenderInv (removeVideoParticipant s e).1 := by
  by_cases h : MpmcHashmap32.contains s.videoParticipants e = true
  · rw [removeVideoParticipant_eq s e h]
    have hsp := releaseVideoSsrc_spec s e
    have h1 : SenderInv (unlinkVideo (releaseVideoSsrc s e) e) := by
      refine senderInv_unlinked hs hv e hsp.1 ?_ hsp.2.2.2.2
      show (ListOps.remove (releaseVideoSsrc s e).activeVideoList e).1 = _
      rw [remove_fst, hsp.2.2.1]
    refine senderInv_unregisterVideoParticipant h1 e ?_
    show e ∉ (ListOps.remove (releaseVideoSsrc s e).activeVideoList e).1
    rw [remove_fst, hsp.2.2.1]
    exact fun hm => (List.Nodup.mem_erase_iff hv.listNodup).1 hm |>.1 rfl
  · unfold removeVideoParticipant
    simp only [Bool.not_eq_true] at h
    rw [h]
    exact hs

theorem senderInv_nominate {levels : List SimulcastLevel} {s : ActiveMediaList}
    (hs : SenderInv s) (hv : VideoInv levels s) (timestamp : Nat) (d : AudioParticipantScore)
    (c : ℚ) : SenderInv (nominate s timestamp d c).1 := by
  unfold nominate
  split
  · exact hs
  · have h4 : SenderInv { countWin s d.participant with lastRunTimestamp := timestamp } :=
      senderInv_congr (s := s) (videoSide_countWin s _) hs
    have v4 : VideoInv levels { countWin s d.participant with lastRunTimestamp := timestamp } :=
      videoInv_congr (s := s) (videoSide_countWin s _) hv
    dsimp only
    split
    · have h5 : SenderInv
          { countWin s d.participant with
            lastRunTimestamp := timestamp
            lastChangeTimestamp := timestamp
            dominantSpeakerId := d.participant } :=
        senderInv_congr
          (s := { countWin s d.participant with lastRunTimestamp := timestamp }) rfl h4
      have v5 : VideoInv levels
          { countWin s d.participant with
            lastRunTimestamp := timestamp
            lastChangeTimestamp := timestamp
            dominantSpeakerId := d.participant } :=
        videoInv_congr
          (s := { countWin s d.participant with lastRunTimestamp := timestamp }) rfl v4
      exact senderInv_updateActiveVideoList h5 v5 _
    · exact h4

theorem senderInv_process {levels : List SimulcastLevel} {s : ActiveMediaList}
    (hs : SenderInv s) (hv : VideoInv levels s) (timestamp : Nat) :
    SenderInv (process s timestamp).1 := by
  unfold process
  split
  · exact hs
  · have h1 : SenderInv (updateLevels { s with lastRunTimestamp := timestamp }) :=
      senderInv_congr (s := s) rfl hs
    have v1 : VideoInv levels (updateLevels { s with lastRunTimestamp := timestamp }) :=
      videoInv_congr (s := s) rfl hv
    dsimp only
    split
    · exact h1
    · have h2 : SenderInv (writeSnapshot (processTopSpeakers
          (updateLevels { s with lastRunTimestamp := timestamp }).audioLastN
          (updateLevels { s with lastRunTimestamp := timestamp })
          (rankSpeakers (updateLevels { s with lastRunTimestamp := timestamp })).2 [])) :=
        senderInv_congr (s := updateLevels { s with lastRunTimestamp := timestamp })
          (videoSide_processTopSpeakers _ _ _ _) h1
      have v2 : VideoInv levels (writeSnapshot (processTopSpeakers
          (updateLevels { s with lastRunTimestamp := timestamp }).audioLastN
          (updateLevels { s with lastRunTimestamp := timestamp })
          (rankSpeakers (updateLevels { s with lastRunTimestamp := timestamp })).2 [])) :=
        videoInv_congr (s := updateLevels { s with lastRunTimestamp := timestamp })
          (videoSide_processTopSpeakers _ _ _ _) v1
      exact senderInv_nominate h2 v2 _ _ _

theorem reachable_senderInv {levels : List SimulcastLevel} {init s : ActiveMediaList}
    (hinit : SenderInv init) (vinit : VideoInv levels init) (h : Reachable init s) :
    SenderInv s := by
  induction h with
  | start => exact hinit
  | addAudio e _ ih => exact senderInv_congr (videoSide_addAudioParticipant _ _) ih
  | removeAudio e _ ih => exact senderInv_congr (videoSide_removeAudioParticipant _ _) ih
  | @newLevel s0 e level ptt _ ih => exact senderInv_congr (s := s0) rfl ih
  | tick timestamp hr ih => exact senderInv_process ih (reachable_videoInv vinit hr) timestamp
  | promoteAudio e _ ih => exact senderInv_congr (videoSide_updateActiveAudioList _ _) ih
  | addVideo e p q hr he ih =>
    exact senderInv_addVideoParticipant ih (reachable_videoInv vinit hr) e p q he
  | removeVideo e hr ih =>
    exact senderInv_removeVideoParticipant ih (reachable_videoInv vinit hr) e
  | promoteVideo e hr ih =>
    exact senderInv_updateActiveVideoList ih (reachable_videoInv vinit hr) e

/-- C22: in every reachable state (video participants being added under non-zero endpoint
ids) an endpoint has an entry in the video rewrite map exactly when it is in the
active-video list and its primary stream, or its set secondary stream, sends video; in
particular no endpoint outside the list holds a SimulcastLevel. -/
theorem video_ssrc_ownership (maxParticipants : Nat) (audioSsrcs : List Nat)
    (videoSsrcs : List SimulcastLevel) (defaultLastN audioLastN threshold : Nat)
    (s : ActiveMediaList) (e : Nat)
    (h : Reachable (ActiveMediaList.new maxParticipants audioSsrcs videoSsrcs defaultLastN
      audioLastN threshold) s) :
    (MpmcHashmap32.contains s.videoSsrcRewriteMap e = true ↔
      e ∈ s.activeVideoList ∧
        ∃ vp, MpmcHashmap32.find s.videoParticipants e = some vp ∧
          sendsVideo vp.simulcastStream vp.secondarySimulcastStream = true) ∧
    (e ∉ s.activeVideoList → MpmcHashmap32.find s.videoSsrcRewriteMap e = none) := by
  have hv := reachable_videoInv (videoInv_init _ _ _ _ _ _) h
  have hs : SenderInv s :=
    reachable_senderInv (fun k vp hk => by cases hk) (videoInv_init _ _ _ _ _ _) h
  rw [MpmcHashmap32.contains_eq_true_iff]
  refine ⟨⟨?_, ?_⟩, ?_⟩
  · intro hk
    have hl := hv.owners e hk
    obtain ⟨vp, hf⟩ := MpmcHashmap32.find_isSome_of_mem _ _ (hv.listed e hl)
    exact ⟨hl, vp, hf, (hs e vp hl hf).1 hk⟩
  · rintro ⟨hl, vp, hf, hsend⟩
    exact (hs e vp hl hf).2 hsend
  · intro hne
    rw [MpmcHashmap32.find_eq_none_iff]
    exact fun hk => hne (hv.owners e hk)

/-- C22, witness: endpoint 1 sends slides only and endpoint 2 sends video; both are in the
active-video list, only endpoint 2 holds a SimulcastLevel. -/
theorem video_ssrc_ownership_witness :
    Reachable scenarioInit scenarioMixed ∧ scenarioMixed.activeVideoList = [2, 1] ∧
      MpmcHashmap32.keys scenarioMixed.videoSsrcRewriteMap = [2] ∧
      (MpmcHashmap32.contains scenarioMixed.videoSsrcRewriteMap 2 = true ↔
        2 ∈ scenarioMixed.activeVideoList ∧
          ∃ vp, MpmcHashmap32.find scenarioMixed.videoParticipants 2 = some vp ∧
            sendsVideo vp.simulcastStream vp.secondarySimulcastStream = true) ∧
      MpmcHashmap32.find scenarioMixed.videoSsrcRewriteMap 7 = none :=
  have hr : Reachable scenarioInit scenarioMixed :=
    Reachable.addVideo 2 _ none (Reachable.addVideo 1 _ none Reachable.start (by decide))
      (by decide)
  ⟨hr, by decide, by decide,
    (video_ssrc_ownership 1024 [100, 101] _ 2 2 10 scenarioMixed 2 hr).1,
    (video_ssrc_ownership 1024 [100, 101] _ 2 2 10 scenarioMixed 7 hr).2 (by decide)⟩

/-! ## The two video rewrite maps (C21) -/

theorem mirrorInv_congr {s t : ActiveMediaList} (h : videoSide t = videoSide s)
    (hs : MirrorInv s) : MirrorInv t := by
  simp only [videoSide, Prod.mk.injEq] at h
  obtain ⟨_, h2, h3, h4, _, _, _, _, _⟩ := h
  unfold MirrorInv
  rw [h2, h3, h4]; exact hs

theorem mirrorInv_released {s t : ActiveMediaList} (hm : MirrorInv s)
    (hn : (MpmcHashmap32.keys s.videoSsrcRewriteMap).Nodup) {r : Nat}
    (hR : ReleasedFrom s t r) : MirrorInv t := by
  rcases hR with ⟨_, h1, h2, h3⟩ | ⟨level, hf, h1, h2, h3⟩
  · unfold MirrorInv
    rw [h1, h2, h3]; exact hm
  · have hmem := MpmcHashmap32.mem_of_find _ _ _ hf
    have hvals : ((s.videoSsrcRewriteMap.map Prod.snd).map (fun l => l.ssrc)).Nodup := by
      have := hm.2
      rw [List.map_append] at this
      exact (List.nodup_append.1 this).2.1
    rw [List.map_map] at hvals
    constructor
    · rw [h2, h3, hm.1]
      unfold MpmcHashmap32.erase
      rw [List.filter_map]
      congr 1
      apply List.filter_congr
      intro p hp
      have hiff : p.2.ssrc = level.ssrc ↔ p.1 = r := by
        constructor
        · intro hx
          have := List.inj_on_of_nodup_map hvals hp hmem hx
          rw [this]
        · intro hx
          have := List.inj_on_of_nodup_map hn hp hmem hx
          rw [this]
      simp only [Function.comp, hiff]
    · rw [h1, h2]
      have hp := MpmcHashmap32.values_perm_erase _ r level hf hn
      have hperm : (s.videoSsrcs ++ [level] ++
          (MpmcHashmap32.erase s.videoSsrcRewriteMap r).map Prod.snd).Perm
          (s.videoSsrcs ++ s.videoSsrcRewriteMap.map Prod.snd) := by
        rw [List.append_assoc]
        exact List.Perm.append_left _ hp.symm
      exact ((hperm.map _).nodup_iff).2 hm.2

theorem mirrorInv_claimed {s t : ActiveMediaList} (hm : MirrorInv s) {e : Nat}
    (hne : e ∉ MpmcHashmap32.keys s.videoSsrcRewriteMap) (hR : ClaimedFrom s t e) :
    MirrorInv t := by
  rcases hR with ⟨h1, h2, h3⟩ | ⟨level, h1, h2, h3⟩
  · unfold MirrorInv
    rw [h1, h2, h3]; exact hm
  · have hnod := hm.2
    rw [h1] at hnod
    have hnew : level.ssrc ∉ MpmcHashmap32.keys s.reverseVideoSsrcRewriteMap := by
      rw [hm.1]
      simp only [List.cons_append, List.map_cons, List.nodup_cons, List.map_append,
        List.mem_append, not_or] at hnod
      intro hk
      apply hnod.1.2
      simp only [MpmcHashmap32.keys, List.map_map] at hk
      simpa [List.map_map] using hk
    rw [MpmcHashmap32.emplace_of_not_mem _ _ _ hne] at h2
    rw [MpmcHashmap32.emplace_of_not_mem _ _ _ hnew] at h3
    constructor
    · rw [h2, h3, hm.1]
      simp
    · rw [h2]
      have hperm : (t.videoSsrcs ++ (s.videoSsrcRewriteMap ++ [(e, level)]).map Prod.snd).Perm
          ((level :: t.videoSsrcs) ++ s.videoSsrcRewriteMap.map Prod.snd) := by
        simp only [List.map_append, List.map_cons, List.map_nil, List.cons_append]
        rw [← List.append_assoc]
        exact List.perm_append_singleton level _
      exact ((hperm.map _).nodup_iff).2 hnod

theorem mirrorInv_evicted {levels : List SimulcastLevel} {s s1 : ActiveMediaList} {r : Nat}
    (hm : MirrorInv s) (hv : VideoInv levels s) (h : evictVideoHead s = some (s1, r)) :
    MirrorInv (if r ≠ 0 then releaseVideoSsrc s1 r else s1) := by
  have h1 : MirrorInv s1 ∧ (MpmcHashmap32.keys s1.videoSsrcRewriteMap).Nodup := by
    unfold evictVideoHead at h
    split at h
    · split at h
      · cases h
      · simp only [Option.some.injEq, Prod.mk.injEq] at h
        rw [← h.1]
        exact ⟨hm, hv.ownersNodup⟩
    · simp only [Option.some.injEq, Prod.mk.injEq] at h
      rw [← h.1]
      exact ⟨hm, hv.ownersNodup⟩
  split
  · exact mirrorInv_released h1.1 h1.2 (releaseVideoSsrc_spec s1 r).2.2.2.2
  · exact h1.1

theorem mirrorInv_updateActiveVideoList {levels : List SimulcastLevel} {s : ActiveMediaList}
    (hm : MirrorInv s) (hv : VideoInv levels s) (e : Nat) :
    MirrorInv (updateActiveVideoList s e).1 := by
  unfold updateActiveVideoList
  split
  · exact hm
  · split
    · exact hm
    · rename_i hnin
      have hnin2 : e ∉ s.activeVideoList := by simpa [ListOps.tailToHead] using hnin
      split
      · exact hm
      · rename_i s1 r hev
        obtain ⟨v2, _, hL2⟩ := videoInv_evicted hv hev
        have h2 := mirrorInv_evicted hm hv hev
        have hne2 : e ∉ MpmcHashmap32.keys
            (if r ≠ 0 then releaseVideoSsrc s1 r else s1).videoSsrcRewriteMap :=
          fun hk => hnin2 (hL2 e (v2.owners e hk))
        dsimp only
        split
        · split
          · exact h2
          · rename_i s3 hc
            have h3 : MirrorInv s3 :=
              mirrorInv_claimed h2 hne2 (claimVideoSsrc_spec hc).2.2.2.2.2.2
            exact h3
        · exact h2

theorem mirrorInv_hoistIfDominant {levels : List SimulcastLevel} {s : ActiveMediaList}
    (hm : MirrorInv s) (hv : VideoInv levels s) (e : Nat) :
    MirrorInv (hoistIfDominant s e).1 := by
  unfold hoistIfDominant
  split
  · exact hm
  · exact mirrorInv_updateActiveVideoList hm hv _

theorem mirrorInv_addVideoParticipant {levels : List SimulcastLevel} {s : ActiveMediaList}
    (hm : MirrorInv s) (hv : VideoInv levels s) (e : Nat) (p : SimulcastStream)
    (q : Option SimulcastStream) (he : e ≠ 0) :
    MirrorInv (addVideoParticipant s e p q).1 := by
  unfold addVideoParticipant
  split
  · exact hm
  · rename_i hc
    have hnp : e ∉ MpmcHashmap32.keys s.videoParticipants := by
      rw [← MpmcHashmap32.contains_eq_true_iff]; exact hc
    have v2 := videoInv_registerVideoParticipant hv e p q he hnp
    have h2 : MirrorInv (registerVideoParticipant s e p q) := hm
    have he2 : e ∈ MpmcHashmap32.keys (registerVideoParticipant s e p q).videoParticipants := by
      simp [registerVideoParticipant, MpmcHashmap32.emplace_of_not_mem _ e _ hnp,
        MpmcHashmap32.keys_append, MpmcHashmap32.keys]
    have hne2 : e ∉ (registerVideoParticipant s e p q).activeVideoList :=
      fun h => hnp (hv.listed e h)
    have hnk : e ∉ MpmcHashmap32.keys (registerVideoParticipant s e p q).videoSsrcRewriteMap :=
      fun hk => hne2 (v2.owners e hk)
    dsimp only
    split
    · exact mirrorInv_hoistIfDominant h2 v2 e
    · split
      · split
        · exact h2
        · rename_i s3 hcl
          have hsp := claimVideoSsrc_spec hcl
          have h3 : MirrorInv (linkVideoHead s3 e) :=
            mirrorInv_claimed h2 hnk hsp.2.2.2.2.2.2
          exact mirrorInv_hoistIfDominant h3
            (videoInv_linkVideoHead v2 e he2 hne2 hsp.1 hsp.2.1 hsp.2.2.1 hsp.2.2.2.1
              hsp.2.2.2.2.2.2) e
      · have h3 : MirrorInv (linkVideoHead (registerVideoParticipant s e p q) e) := hm
        exact mirrorInv_hoistIfDominant h3
          (videoInv_linkVideoHead v2 e he2 hne2 rfl rfl rfl rfl (Or.inl ⟨rfl, rfl, rfl⟩)) e

theorem mirrorInv_removeVideoParticipant {levels : List SimulcastLevel} {s : ActiveMediaList}
    (hm : MirrorInv s) (hv : VideoInv levels s) (e : Nat) :
    MirrorInv (removeVideoParticipant s e).1 := by
  by_cases h : MpmcHashmap32.contains s.videoParticipants e = true
  · rw [removeVideoParticipant_eq s e h]
    have h1 : MirrorInv (releaseVideoSsrc s e) :=
      mirrorInv_released hm hv.ownersNodup (releaseVideoSsrc_spec s e).2.2.2.2
    exact h1
  · unfold removeVideoParticipant
    simp only [Bool.not_eq_true] at h
    rw [h]
    exact hm

theorem mirrorInv_nominate {levels : List SimulcastLevel} {s : ActiveMediaList}
    (hm : MirrorInv s) (hv : VideoInv levels s) (timestamp : Nat) (d : AudioParticipantScore)
    (c : ℚ) : MirrorInv (nominate s timestamp d c).1 := by
  unfold nominate
  split
  · exact hm
  · have h4 : MirrorInv { countWin s d.participant with lastRunTimestamp := timestamp } :=
      mirrorInv_congr (s := s) (videoSide_countWin s _) hm
    have v4 : VideoInv levels { countWin s d.participant with lastRunTimestamp := timestamp } :=
      videoInv_congr (s := s) (videoSide_countWin s _) hv
    dsimp only
    split
    · have h5 : MirrorInv
          { countWin s d.participant with
            lastRunTimestamp := timestamp
            lastChangeTimestamp := timestamp
            dominantSpeakerId := d.participant } :=
        mirrorInv_congr
          (s := { countWin s d.participant with lastRunTimestamp := timestamp }) rfl h4
      have v5 : VideoInv levels
          { countWin s d.participant with
            lastRunTimestamp := timestamp
            lastChangeTimestamp := timestamp
            dominantSpeakerId := d.participant } :=
        videoInv_congr
          (s := { countWin s d.participant with lastRunTimestamp := timestamp }) rfl v4
      exact mirrorInv_updateActiveVideoList h5 v5 _
    · exact h4

theorem mirrorInv_process {levels : List SimulcastLevel} {s : ActiveMediaList}
    (hm : MirrorInv s) (hv : VideoInv levels s) (timestamp : Nat) :
    MirrorInv (process s timestamp).1 := by
  unfold process
  split
  · exact hm
  · have h1 : MirrorInv (updateLevels { s with lastRunTimestamp := timestamp }) :=
      mirrorInv_congr (s := s) rfl hm
    have v1 : VideoInv levels (updateLevels { s with lastRunTimestamp := timestamp }) :=
      videoInv_congr (s := s) rfl hv
    dsimp only
    split
    · exact h1
    · have h2 : MirrorInv (writeSnapshot (processTopSpeakers
          (updateLevels { s with lastRunTimestamp := timestamp }).audioLastN
          (updateLevels { s with lastRunTimestamp := timestamp })
          (rankSpeakers (updateLevels { s with lastRunTimestamp := timestamp })).2 [])) :=
        mirrorInv_congr (s := updateLevels { s with lastRunTimestamp := timestamp })
          (videoSide_processTopSpeakers _ _ _ _) h1
      have v2 : VideoInv levels (writeSnapshot (processTopSpeakers
          (updateLevels { s with lastRunTimestamp := timestamp }).audioLastN
          (updateLevels { s with lastRunTimestamp := timestamp })
          (rankSpeakers (updateLevels { s with lastRunTimestamp := timestamp })).2 [])) :=
        videoInv_congr (s := updateLevels { s with lastRunTimestamp := timestamp })
          (videoSide_processTopSpeakers _ _ _ _) v1
      exact mirrorInv_nominate h2 v2 _ _ _

theorem reachable_mirrorInv {levels : List SimulcastLevel} {init s : ActiveMediaList}
    (hinit : MirrorInv init) (vinit : VideoInv levels init) (h : Reachable init s) :
    MirrorInv s := by
  induction h with
  | start => exact hinit
  | addAudio e _ ih => exact mirrorInv_congr (videoSide_addAudioParticipant _ _) ih
  | removeAudio e _ ih => exact mirrorInv_congr (videoSide_removeAudioParticipant _ _) ih
  | @newLevel s0 e level ptt _ ih => exact mirrorInv_congr (s := s0) rfl ih
  | tick timestamp hr ih => exact mirrorInv_process ih (reachable_videoInv vinit hr) timestamp
  | promoteAudio e _ ih => exact mirrorInv_congr (videoSide_updateActiveAudioList _ _) ih
  | addVideo e p q hr he ih =>
    exact mirrorInv_addVideoParticipant ih (reachable_videoInv vinit hr) e p q he
  | removeVideo e hr ih =>
    exact mirrorInv_removeVideoParticipant ih (reachable_videoInv vinit hr) e
  | promoteVideo e hr ih =>
    exact mirrorInv_updateActiveVideoList ih (reachable_videoInv vinit hr) e

theorem mirrorInv_init (maxParticipants : Nat) (audioSsrcs : List Nat)
    (videoSsrcs : List SimulcastLevel) (defaultLastN audioLastN threshold : Nat)
    (hd : (videoSsrcs.map (fun l => l.ssrc)).Nodup) :
    MirrorInv (ActiveMediaList.new maxParticipants audioSsrcs videoSsrcs defaultLastN
      audioLastN threshold) := by
  have hpool : (ActiveMediaList.new maxParticipants audioSsrcs videoSsrcs defaultLastN
      audioLastN threshold).videoSsrcs = videoSsrcs.tail := by
    cases videoSsrcs with
    | nil => rfl
    | cons x rest => simp [ActiveMediaList.new, foldl_push, MpmcQueue.pop, MpmcQueue.push]
  constructor
  · rfl
  · rw [hpool]
    show ((videoSsrcs.tail ++ []).map (fun l : SimulcastLevel => l.ssrc)).Nodup
    rw [List.append_nil]
    exact hd.sublist ((List.tail_sublist videoSsrcs).map _)

/-- C21: in every state reachable from a construction with pairwise distinct SSRCs (video
participants being added under non-zero endpoint ids) the two video rewrite maps are
inverse to each other: an entry `e ↦ level` of `videoSsrcRewriteMap` has the entry
`level.ssrc ↦ e` in `reverseVideoSsrcRewriteMap`, every entry of the reverse map comes from
such an entry, and for a SimulcastLevel of the constructor the two are equivalent; the maps
have the same size and no two endpoints share a rewrite SSRC. -/
theorem video_rewrite_maps_inverse (maxParticipants : Nat) (audioSsrcs : List Nat)
    (videoSsrcs : List SimulcastLevel) (defaultLastN audioLastN threshold : Nat)
    (s : ActiveMediaList)
    (hd : (videoSsrcs.map (fun l => l.ssrc)).Nodup)
    (h : Reachable (ActiveMediaList.new maxParticipants audioSsrcs videoSsrcs defaultLastN
      audioLastN threshold) s) :
    (∀ e level, MpmcHashmap32.find s.videoSsrcRewriteMap e = some level →
        MpmcHashmap32.find s.reverseVideoSsrcRewriteMap level.ssrc = some e) ∧
      (∀ x e, MpmcHashmap32.find s.reverseVideoSsrcRewriteMap x = some e →
        ∃ level, MpmcHashmap32.find s.videoSsrcRewriteMap e = some level ∧ level.ssrc = x) ∧
      (∀ e level, level ∈ videoSsrcs →
        (MpmcHashmap32.find s.videoSsrcRewriteMap e = some level ↔
          MpmcHashmap32.find s.reverseVideoSsrcRewriteMap level.ssrc = some e)) ∧
      MpmcHashmap32.size s.videoSsrcRewriteMap =
        MpmcHashmap32.size s.reverseVideoSsrcRewriteMap ∧
      (∀ e1 e2 l1 l2, MpmcHashmap32.find s.videoSsrcRewriteMap e1 = some l1 →
        MpmcHashmap32.find s.videoSsrcRewriteMap e2 = some l2 → l1.ssrc = l2.ssrc →
        e1 = e2) := by
  have hv := reachable_videoInv (videoInv_init _ _ _ _ _ _) h
  have hm := reachable_mirrorInv (mirrorInv_init _ _ _ _ _ _ hd) (videoInv_init _ _ _ _ _ _) h
  have hrevNodup : (MpmcHashmap32.keys s.reverseVideoSsrcRewriteMap).Nodup := by
    rw [hm.1]
    have := hm.2
    rw [List.map_append] at this
    have h2 := (List.nodup_append.1 this).2.1
    simpa [MpmcHashmap32.keys, List.map_map, Function.comp_def] using h2
  have h1 : ∀ e level, MpmcHashmap32.find s.videoSsrcRewriteMap e = some level →
      MpmcHashmap32.find s.reverseVideoSsrcRewriteMap level.ssrc = some e := by
    intro e level hf
    apply MpmcHashmap32.find_of_mem _ _ _ _ hrevNodup
    rw [hm.1]
    exact List.mem_map.2 ⟨(e, level), MpmcHashmap32.mem_of_find _ _ _ hf, rfl⟩
  have h2 : ∀ x e, MpmcHashmap32.find s.reverseVideoSsrcRewriteMap x = some e →
      ∃ level, MpmcHashmap32.find s.videoSsrcRewriteMap e = some level ∧ level.ssrc = x := by
    intro x e hf
    have hmem := MpmcHashmap32.mem_of_find _ _ _ hf
    rw [hm.1] at hmem
    obtain ⟨p, hp, hpe⟩ := List.mem_map.1 hmem
    simp only [Prod.mk.injEq] at hpe
    refine ⟨p.2, ?_, hpe.1⟩
    rw [← hpe.2]
    exact MpmcHashmap32.find_of_mem _ _ _ hp hv.ownersNodup
  refine ⟨h1, h2, ?_, ?_, ?_⟩
  · intro e level hl
    refine ⟨h1 e level, ?_⟩
    intro hf
    obtain ⟨level2, hf2, hss⟩ := h2 _ _ hf
    have hin : level2 ∈ videoSsrcs := by
      have hmem : level2 ∈ s.videoSsrcs ++ s.videoSsrcRewriteMap.map Prod.snd :=
        List.mem_append_right _
          (List.mem_map.2 ⟨(e, level2), MpmcHashmap32.mem_of_find _ _ _ hf2, rfl⟩)
      exact List.mem_of_mem_tail ((hv.conserved.mem_iff).1 hmem)
    have := List.inj_on_of_nodup_map hd hin hl hss
    rw [hf2, this]
  · rw [hm.1]
    simp [MpmcHashmap32.size]
  · intro e1 e2 l1 l2 hf1 hf2 hss
    have a := h1 e1 l1 hf1
    have b := h1 e2 l2 hf2
    rw [hss, b] at a
    exact (Option.some.inj a).symm

/-- C21, witness: scenario S5; endpoint 4 owns the level with SSRC 2000 and the reverse map
leads from 2000 back to 4. -/
theorem video_rewrite_maps_inverse_witness :
    (([{ ssrc := 1000, feedbackSsrc := 1001, mediaActive := false },
        { ssrc := 2000, feedbackSsrc := 2001, mediaActive := false },
        { ssrc := 3000, feedbackSsrc := 3001, mediaActive := false },
        { ssrc := 4000, feedbackSsrc := 4001, mediaActive := false },
        { ssrc := 5000, feedbackSsrc := 5001, mediaActive := false },
        { ssrc := 6000, feedbackSsrc := 6001, mediaActive := false }] :
          List SimulcastLevel).map (fun l => l.ssrc)).Nodup ∧
      Reachable scenarioLastNInit scenarioS5 ∧
      MpmcHashmap32.find scenarioS5.videoSsrcRewriteMap 4 =
        some { ssrc := 2000, feedbackSsrc := 2001, mediaActive := false } ∧
      MpmcHashmap32.find scenarioS5.reverseVideoSsrcRewriteMap 2000 = some 4 ∧
      MpmcHashmap32.size scenarioS5.videoSsrcRewriteMap =
        MpmcHashmap32.size scenarioS5.reverseVideoSsrcRewriteMap :=
  have hr : Reachable scenarioLastNInit scenarioS5 :=
    Reachable.addVideo 1 _ none
      (Reachable.addVideo 2 _ none
        (Reachable.addVideo 3 _ none
          (Reachable.addVideo 4 _ none Reachable.start (by decide)) (by decide)) (by decide))
      (by decide)
  ⟨by decide, hr, by decide,
    (video_rewrite_maps_inverse 1024 [100, 101] _ 3 2 10 scenarioS5 (by decide) hr).1 4
      { ssrc := 2000, feedbackSsrc := 2001, mediaActive := false } (by decide),
    (video_rewrite_maps_inverse 1024 [100, 101] _ 3 2 10 scenarioS5 (by decide) hr).2.2.2.1⟩

/-! ## The video pool never runs dry (C26) -/

theorem hoistIfDominant_returns {levels : List SimulcastLevel} {s : ActiveMediaList}
    (hv : VideoInv levels s) (hb : VideoBound s) (e : Nat)
    (hc : MpmcHashmap32.contains s.videoParticipants e = true)
    (hsz : 1 ≤ s.maxActiveListSize ∧ s.maxActiveListSize + 1 ≤ levels.length) :
    (hoistIfDominant s e).2 = true := by
  unfold hoistIfDominant
  split
  · rfl
  · rename_i hd
    have hde : e = s.dominantSpeakerId := not_not.1 hd
    rw [← hde]
    exact ((updateActiveVideoList_contract hv hb e).2 hc hsz).1

theorem addVideoParticipant_returns {levels : List SimulcastLevel} {s : ActiveMediaList}
    (hv : VideoInv levels s) (hb : VideoBound s) (e : Nat) (p : SimulcastStream)
    (q : Option SimulcastStream) (he : e ≠ 0)
    (hnew : MpmcHashmap32.contains s.videoParticipants e = false)
    (hsz : 1 ≤ s.maxActiveListSize ∧ s.maxActiveListSize + 1 ≤ levels.length) :
    (addVideoParticipant s e p q).2 = true := by
  unfold addVideoParticipant
  rw [hnew]
  simp only [Bool.false_eq_true, if_false]
  have hnp : e ∉ MpmcHashmap32.keys s.videoParticipants :=
    (MpmcHashmap32.contains_eq_false_iff _ _).1 hnew
  have v2 := videoInv_registerVideoParticipant hv e p q he hnp
  have b2 : VideoBound (registerVideoParticipant s e p q) := ⟨hb.lookupPerm, hb.bound⟩
  have he2 : e ∈ MpmcHashmap32.keys (registerVideoParticipant s e p q).videoParticipants := by
    simp [registerVideoParticipant, MpmcHashmap32.emplace_of_not_mem _ e _ hnp,
      MpmcHashmap32.keys_append, MpmcHashmap32.keys]
  have hc2 : MpmcHashmap32.contains (registerVideoParticipant s e p q).videoParticipants e =
      true := (MpmcHashmap32.contains_eq_true_iff _ _).2 he2
  have hne2 : e ∉ (registerVideoParticipant s e p q).activeVideoList :=
    fun h => hnp (hv.listed e h)
  have hsz2 : 1 ≤ (registerVideoParticipant s e p q).maxActiveListSize ∧
      (registerVideoParticipant s e p q).maxActiveListSize + 1 ≤ levels.length := hsz
  split
  · exact hoistIfDominant_returns v2 b2 e hc2 hsz2
  · rename_i hfull
    have hroom : (registerVideoParticipant s e p q).activeVideoList.length <
        (registerVideoParticipant s e p q).maxActiveListSize := by
      have hsize := lookup_size_eq b2
      have := b2.bound
      have hne : (registerVideoParticipant s e p q).activeVideoList.length ≠
          (registerVideoParticipant s e p q).maxActiveListSize := by
        rw [← hsize]; exact hfull
      omega
    split
    · obtain ⟨s3, hcl⟩ := claimVideoSsrc_isSome e (pool_nonempty_of_room v2 hroom hsz2.2)
      rw [hcl]
      have hsp := claimVideoSsrc_spec hcl
      refine hoistIfDominant_returns
        (videoInv_linkVideoHead v2 e he2 hne2 hsp.1 hsp.2.1 hsp.2.2.1 hsp.2.2.2.1
          hsp.2.2.2.2.2.2)
        (videoBound_linked b2 hroom e hne2 hsp.2.2.1 hsp.2.2.2.1 hsp.2.2.2.2.1
          (Or.inr rfl)) e ?_ ?_
      · show MpmcHashmap32.contains s3.videoParticipants e = true
        rw [hsp.1]; exact hc2
      · show 1 ≤ s3.maxActiveListSize ∧ s3.maxActiveListSize + 1 ≤ levels.length
        rw [hsp.2.2.2.2.1]; exact hsz2
    · exact hoistIfDominant_returns
        (videoInv_linkVideoHead v2 e he2 hne2 rfl rfl rfl rfl (Or.inl ⟨rfl, rfl, rfl⟩))
        (videoBound_linked b2 hroom e hne2 rfl rfl rfl (Or.inr rfl)) e hc2 hsz2

/-- C26: if the constructor received at least `defaultLastN + 3` SimulcastLevels, then in
every reachable state (video participants being added under non-zero endpoint ids) the
pops of `addVideoParticipant` and `updateActiveVideoList` succeed: the pool is not empty
whenever the active-video list has room, the head pop of the eviction step succeeds,
`addVideoParticipant` returns true for every endpoint that is not registered yet and
`updateActiveVideoList` returns true for every registered endpoint. -/
theorem video_pool_never_dry (maxParticipants : Nat) (audioSsrcs : List Nat)
    (videoSsrcs : List SimulcastLevel) (defaultLastN audioLastN threshold : Nat)
    (s : ActiveMediaList) (e : Nat) (p : SimulcastStream) (q : Option SimulcastStream)
    (hlen : defaultLastN + 3 ≤ videoSsrcs.length)
    (h : Reachable (ActiveMediaList.new maxParticipants audioSsrcs videoSsrcs defaultLastN
      audioLastN threshold) s)
    (he : e ≠ 0) :
    (MpmcHashmap32.contains s.videoParticipants e = false →
        (addVideoParticipant s e p q).2 = true) ∧
      (MpmcHashmap32.contains s.videoParticipants e = true →
        (updateActiveVideoList s e).2 = true) ∧
      (s.activeVideoList.length < s.maxActiveListSize →
        (MpmcQueue.pop s.videoSsrcs).isSome = true) ∧
      (evictVideoHead s).isSome = true := by
  have hv := reachable_videoInv (videoInv_init _ _ _ _ _ _) h
  have hb := reachable_videoBound (videoInv_init _ _ _ _ _ _) (videoBound_init _ _ _ _ _ _) h
  have hcfg := reachable_config_eq h
  simp only [config, Prod.mk.injEq] at hcfg
  have hmax : s.maxActiveListSize = defaultLastN + 1 := hcfg.2.1
  have hsz : 1 ≤ s.maxActiveListSize ∧ s.maxActiveListSize + 1 ≤ videoSsrcs.tail.length := by
    rw [hmax, List.length_tail]
    omega
  refine ⟨?_, ?_, ?_, ?_⟩
  · intro hnew
    exact addVideoParticipant_returns hv hb e p q he hnew hsz
  · intro hc
    exact ((updateActiveVideoList_contract hv hb e).2 hc hsz).1
  · intro hroom
    have hne := pool_nonempty_of_room hv hroom hsz.2
    cases hp : s.videoSsrcs with
    | nil => exact absurd hp hne
    | cons x rest => rfl
  · unfold evictVideoHead
    split
    · rename_i hfull
      have hsize := lookup_size_eq hb
      cases hl : s.activeVideoList with
      | nil =>
        rw [hl] at hsize
        simp only [List.length_nil] at hsize
        omega
      | cons x rest => rfl
    · rfl

/-- C26, witness: the scenario bridge (five levels, `defaultLastN = 2`) with a full
active-video list; adding the dominant speaker 9 as video participant evicts the head,
takes the released level from the pool and returns true. -/
theorem video_pool_never_dry_witness :
    (2 + 3 ≤ 5 ∧ Reachable scenarioInit scenarioFullVideo ∧ (9 : Nat) ≠ 0 ∧
      MpmcHashmap32.contains scenarioFullVideo.videoParticipants 9 = false) ∧
    (addVideoParticipant scenarioFullVideo 9 (videoStreamOf 90) none).2 = true ∧
    (addVideoParticipant scenarioFullVideo 9 (videoStreamOf 90) none).1.activeVideoList =
      [2, 1, 9] :=
  have hr : Reachable scenarioInit scenarioFullVideo :=
    Reachable.addVideo 3 _ none
      (Reachable.addVideo 2 _ none
        (Reachable.addVideo 1 _ none (Reachable.addAudio 9 Reachable.start) (by decide))
        (by decide))
      (by decide)
  ⟨⟨by decide, hr, by decide, by decide⟩,
    (video_pool_never_dry 1024 [100, 101] _ 2 2 10 scenarioFullVideo 9 (videoStreamOf 90) none
      (by decide) hr (by decide)).1 (by decide),
    by decide⟩

/-! ## The gap enforced by the switch gate (C27) -/

theorem switchGate_open (s : ActiveMediaList) (t : Nat) (hle : s.lastChangeTimestamp ≤ t)
    (h64 : t < 2 ^ 64) (hgate : ¬ switchGateClosed s t = true) :
    s.lastChangeTimestamp + switchGateGap ≤ t := by
  unfold switchGateClosed at hgate
  rw [sub64_eq t s.lastChangeTimestamp hle h64] at hgate
  simp only [decide_eq_true_eq, not_lt, add64, maxSwitchDominantSpeakerEvery, Time.sec, Time.ms,
    requiredConsecutiveWins] at hgate
  simp only [switchGateGap, maxSwitchDominantSpeakerEvery, Time.sec, Time.ms,
    requiredConsecutiveWins]
  norm_num at hgate h64 ⊢
  omega

theorem nominate_change (s : ActiveMediaList) (t : Nat) (d : AudioParticipantScore) (c : ℚ)
    (hle : s.lastChangeTimestamp ≤ t) (h64 : t < 2 ^ 64) :
    ((nominate s t d c).2.1 = true →
        s.lastChangeTimestamp + switchGateGap ≤ t ∧
          (nominate s t d c).1.lastChangeTimestamp = t) ∧
      ((nominate s t d c).2.1 = false →
        (nominate s t d c).1.lastChangeTimestamp = s.lastChangeTimestamp) := by
  unfold nominate
  split
  · exact ⟨(fun h => by cases h), fun _ => rfl⟩
  · rename_i hgate
    have hgap := switchGate_open s t hle h64 hgate
    dsimp only
    split
    · refine ⟨fun _ => ⟨hgap, ?_⟩, fun h => by cases h⟩
      have hf := congrArg ActiveMediaList.lastChangeTimestamp
        (withoutVideo_updateActiveVideoList
          { countWin s d.participant with
            lastRunTimestamp := t
            lastChangeTimestamp := t
            dominantSpeakerId := d.participant } d.participant)
      exact hf
    · exact ⟨(fun h => by cases h), fun _ => (countWin_fields s d.participant).2.1⟩

theorem process_change (s : ActiveMediaList) (t : Nat)
    (hle : s.lastChangeTimestamp ≤ t) (h64 : t < 2 ^ 64) :
    ((process s t).2.1 = true →
        s.lastChangeTimestamp + switchGateGap ≤ t ∧ (process s t).1.lastChangeTimestamp = t) ∧
      ((process s t).2.1 = false →
        (process s t).1.lastChangeTimestamp = s.lastChangeTimestamp) := by
  have hframe := congrArg ActiveMediaList.lastChangeTimestamp
    (withoutAudioList_processTopSpeakers
      (updateLevels { s with lastRunTimestamp := t }).audioLastN
      (updateLevels { s with lastRunTimestamp := t })
      (rankSpeakers (updateLevels { s with lastRunTimestamp := t })).2 [])
  simp only [withoutAudioList] at hframe
  unfold process
  split
  · exact ⟨(fun h => by cases h), fun _ => rfl⟩
  · dsimp only
    split
    · exact ⟨(fun h => by cases h), fun _ => rfl⟩
    · rename_i d hd
      generalize processTopSpeakers
        (updateLevels { s with lastRunTimestamp := t }).audioLastN
        (updateLevels { s with lastRunTimestamp := t })
        (rankSpeakers (updateLevels { s with lastRunTimestamp := t })).2 [] = looped
        at hframe ⊢
      have e4 : (writeSnapshot looped).lastChangeTimestamp = s.lastChangeTimestamp := hframe
      have hn := nominate_change (writeSnapshot looped) t d
        (rankSpeakers (updateLevels { s with lastRunTimestamp := t })).1
        (by rw [e4]; exact hle) h64
      rw [e4] at hn
      exact hn

theorem lastChangeTimestamp_applyCall (s : ActiveMediaList) (c : Call)
    (h : (applyCall s c).2 = none) :
    (applyCall s c).1.lastChangeTimestamp = s.lastChangeTimestamp := by
  cases c with
  | addAudioParticipant e =>
    show (addAudioParticipant s e).1.lastChangeTimestamp = _
    unfold addAudioParticipant
    split
    · rfl
    · split <;> rfl
  | removeAudioParticipant e =>
    show (removeAudioParticipant s e).1.lastChangeTimestamp = _
    unfold removeAudioParticipant
    split <;> rfl
  | onNewAudioLevel e level ptt => rfl
  | process timestamp => cases h
  | addVideoParticipant e p q =>
    have hf := congrArg ActiveMediaList.lastChangeTimestamp
      (withoutVideo_addVideoParticipant s e p q)
    exact hf
  | removeVideoParticipant e =>
    have hf := congrArg ActiveMediaList.lastChangeTimestamp
      (withoutVideo_removeVideoParticipant s e)
    exact hf
  | updateActiveAudioList e =>
    have hf := congrArg ActiveMediaList.lastChangeTimestamp
      (withoutAudioList_updateActiveAudioList s e)
    exact hf
  | updateActiveVideoList e =>
    have hf := congrArg ActiveMediaList.lastChangeTimestamp
      (withoutVideo_updateActiveVideoList s e)
    exact hf

theorem execute_gap (calls : List Call) (s : ActiveMediaList)
    (hmono : (processTimestamps calls).Pairwise (fun a b => a ≤ b))
    (h64 : ∀ t ∈ processTimestamps calls, t < 2 ^ 64)
    (hlast : ∀ t ∈ processTimestamps calls, s.lastChangeTimestamp ≤ t) :
    (∀ t ∈ changeTimes (execute s calls).2, s.lastChangeTimestamp + switchGateGap ≤ t) ∧
      (changeTimes (execute s calls).2).Pairwise (fun a b => a + switchGateGap ≤ b) := by
  induction calls generalizing s with
  | nil => exact ⟨(fun t ht => by cases ht), List.Pairwise.nil⟩
  | cons c rest ih =>
    by_cases hp : ∃ timestamp, c = Call.process timestamp
    · obtain ⟨t, rfl⟩ := hp
      have hts : processTimestamps (Call.process t :: rest) = t :: processTimestamps rest := rfl
      rw [hts] at hmono h64 hlast
      have hle : s.lastChangeTimestamp ≤ t := hlast t (List.mem_cons_self _ _)
      have ht64 : t < 2 ^ 64 := h64 t (List.mem_cons_self _ _)
      have hpc := process_change s t hle ht64
      have hexec : (execute s (Call.process t :: rest)).2 =
          (t, (process s t).2.1) :: (execute (process s t).1 rest).2 := rfl
      rw [hexec]
      obtain ⟨hhead, htail⟩ := List.pairwise_cons.1 hmono
      cases hch : (process s t).2.1 with
      | true =>
        obtain ⟨hgap, hnew⟩ := hpc.1 hch
        have hih := ih (process s t).1 htail
          (fun x hx => h64 x (List.mem_cons_of_mem _ hx))
          (fun x hx => by rw [hnew]; exact hhead x hx)
        rw [hnew] at hih
        have hct : changeTimes ((t, true) :: (execute (process s t).1 rest).2) =
            t :: changeTimes (execute (process s t).1 rest).2 := rfl
        rw [hct]
        refine ⟨?_, List.pairwise_cons.2 ⟨hih.1, hih.2⟩⟩
        intro x hx
        rcases List.mem_cons.1 hx with hx | hx
        · rw [hx]; exact hgap
        · have := hih.1 x hx
          omega
      | false =>
        have hsame := hpc.2 hch
        have hih := ih (process s t).1 htail
          (fun x hx => h64 x (List.mem_cons_of_mem _ hx))
          (fun x hx => by rw [hsame]; exact hlast x (List.mem_cons_of_mem _ hx))
        rw [hsame] at hih
        exact hih
    · have hnone : (applyCall s c).2 = none := by
        cases c with
        | process timestamp => exact absurd ⟨timestamp, rfl⟩ hp
        | _ => rfl
      have hts : processTimestamps (c :: rest) = processTimestamps rest := by
        cases c with
        | process timestamp => exact absurd ⟨timestamp, rfl⟩ hp
        | _ => rfl
      rw [hts] at hmono h64 hlast
      have hsame := lastChangeTimestamp_applyCall s c hnone
      have hexec : (execute s (c :: rest)).2 = (execute (applyCall s c).1 rest).2 := by
        show (match (applyCall s c).2 with
          | some entry => entry :: (execute (applyCall s c).1 rest).2
          | none => (execute (applyCall s c).1 rest).2) = _
        rw [hnone]
      rw [hexec]
      have hih := ih (applyCall s c).1 hmono h64 (fun x hx => by rw [hsame]; exact hlast x hx)
      rw [hsame] at hih
      exact hih

/-- C27: in every execution from construction whose `process` timestamps do not decrease
(and fit into 64 bits), any two `process` calls that report `dominantSpeakerChanged` are at
least `maxSwitchDominantSpeakerEvery - 10 ms * (requiredConsecutiveWins - 1)` = 1980 ms
apart, and no `process` call with a timestamp below 1980 ms reports a change. -/
theorem switch_gate_gap (maxParticipants : Nat) (audioSsrcs : List Nat)
    (videoSsrcs : List SimulcastLevel) (defaultLastN audioLastN threshold : Nat)
    (calls : List Call)
    (hmono : (processTimestamps calls).Pairwise (fun a b => a ≤ b))
    (h64 : ∀ t ∈ processTimestamps calls, t < 2 ^ 64) :
    switchGateGap = 1980 * Time.ms ∧
      (changeTimes (execute (ActiveMediaList.new maxParticipants audioSsrcs videoSsrcs
        defaultLastN audioLastN threshold) calls).2).Pairwise
        (fun a b => a + switchGateGap ≤ b) ∧
      (∀ t ∈ changeTimes (execute (ActiveMediaList.new maxParticipants audioSsrcs videoSsrcs
        defaultLastN audioLastN threshold) calls).2, switchGateGap ≤ t) := by
  have hg := execute_gap calls (ActiveMediaList.new maxParticipants audioSsrcs videoSsrcs
    defaultLastN audioLastN threshold) hmono h64 (fun t _ => Nat.zero_le t)
  refine ⟨by decide, hg.2, ?_⟩
  intro t ht
  have := hg.1 t ht
  have h0 : (ActiveMediaList.new maxParticipants audioSsrcs videoSsrcs defaultLastN audioLastN
    threshold).lastChangeTimestamp = 0 := rfl
  rw [h0] at this
  omega

/-- C27, witness: the run with the two switches at 1980 ms and 3960 ms; the gap is met with
equality. -/
theorem switch_gate_gap_witness :
    ((processTimestamps scenarioTwoSwitches).Pairwise (fun a b => a ≤ b) ∧
      (∀ t ∈ processTimestamps scenarioTwoSwitches, t < 2 ^ 64)) ∧
    (execute scenarioInit scenarioTwoSwitches).2 =
      [(1980 * Time.ms, true), (3960 * Time.ms, true)] ∧
    (changeTimes (execute scenarioInit scenarioTwoSwitches).2).Pairwise
      (fun a b => a + switchGateGap ≤ b) :=
  ⟨⟨by decide!, by decide!⟩, by decide!,
    (switch_gate_gap 1024 [100, 101] _ 2 2 10 scenarioTwoSwitches (by decide!)
      (by decide!)).2.1⟩

/-! ## The top speakers keep an audio slot (C28) -/

theorem updateActiveAudioList_tail {s : ActiveMediaList} (hinv : AudioInv s) (e : Nat)
    (pre done : List Nat) (hl : s.activeAudioList = pre ++ done) (hed : e ∉ done)
    (hroom : done.length < s.maxSpeakers) :
    ∃ pre2, (updateActiveAudioList s e).activeAudioList = pre2 ++ (done ++ [e]) := by
  have hlen : s.activeAudioList.length = MpmcHashmap32.size s.audioSsrcRewriteMap := by
    have := hinv.listed.length_eq
    simp only [MpmcHashmap32.keys, List.length_map] at this
    exact this.symm
  unfold updateActiveAudioList
  split
  · rename_i hc
    have hmem : e ∈ s.activeAudioList :=
      (hinv.listed.mem_iff).1 ((MpmcHashmap32.contains_eq_true_iff _ _).1 hc)
    have hpre : e ∈ pre := by
      rw [hl, List.mem_append] at hmem
      exact hmem.resolve_right hed
    split
    · rename_i x hr
      have h2 := remove_snd s.activeAudioList e
      rw [hr] at h2
      simp only [hmem, decide_True] at h2
      cases h2
    · rename_i l hr
      have hl2 : l = s.activeAudioList.erase e := by
        have := remove_fst s.activeAudioList e
        rw [hr] at this; exact this
      refine ⟨pre.erase e, ?_⟩
      show l ++ [e] = _
      rw [hl2, hl, List.erase_append_left _ hpre, List.append_assoc]
  · rename_i hc
    split
    · rename_i hfull
      have hll : s.activeAudioList.length = s.maxSpeakers := by rw [hlen]; exact hfull
      split
      · rename_i hp
        have := popFromHead_eq_none hp
        rw [this] at hll
        simp only [List.length_nil] at hll
        omega
      · rename_i r l hp
        have hlist := popFromHead_eq_some hp
        have hr : r ∈ MpmcHashmap32.keys s.audioSsrcRewriteMap := by
          rw [hinv.listed.mem_iff, hlist]; exact List.mem_cons_self _ _
        have hpre : ∃ pre3, pre = r :: pre3 ∧ l = pre3 ++ done := by
          cases pre with
          | nil =>
            rw [List.nil_append] at hl
            rw [hl] at hll
            omega
          | cons a pre3 =>
            rw [hl, List.cons_append] at hlist
            simp only [List.cons.injEq] at hlist
            exact ⟨pre3, by rw [hlist.1], hlist.2.symm⟩
        obtain ⟨pre3, _, hl3⟩ := hpre
        split
        · rename_i hf
          exact absurd hr ((MpmcHashmap32.find_eq_none_iff _ _).1 hf)
        · rename_i ssrc hf
          refine ⟨pre3, ?_⟩
          unfold claimAudioSsrc
          split
          · rename_i hpop
            have := pop_eq_none hpop
            simp [MpmcQueue.push] at this
          · show l ++ [e] = _
            rw [hl3, List.append_assoc]
    · rename_i hfull
      refine ⟨pre, ?_⟩
      unfold claimAudioSsrc
      split
      · rename_i hpop
        have hpool := pop_eq_none hpop
        have hc2 := hinv.conserved
        rw [hpool] at hc2
        simp only [List.length_nil, Nat.zero_add] at hc2
        exact absurd hc2 hfull
      · show s.activeAudioList ++ [e] = _
        rw [hl, List.append_assoc]

theorem promote_all_tail (es : List Nat) (s : ActiveMediaList) (pre done : List Nat)
    (hinv : AudioInv s) (hl : s.activeAudioList = pre ++ done)
    (htracked : ∀ e ∈ es, e ∈ MpmcHashmap32.keys s.audioParticipants)
    (hnodup : es.Nodup) (hdisj : ∀ e ∈ es, e ∉ done)
    (hroom : done.length + es.length ≤ s.maxSpeakers) :
    ∃ pre2, (es.foldl updateActiveAudioList s).activeAudioList = pre2 ++ (done ++ es) ∧
      AudioInv (es.foldl updateActiveAudioList s) := by
  induction es generalizing s pre done with
  | nil => exact ⟨pre, by rw [List.append_nil]; exact hl, hinv⟩
  | cons e rest ih =>
    have he := htracked e (List.mem_cons_self _ _)
    have hed := hdisj e (List.mem_cons_self _ _)
    simp only [List.length_cons] at hroom
    obtain ⟨pre2, hl2⟩ := updateActiveAudioList_tail hinv e pre done hl hed (by omega)
    have hinv2 := audioInv_updateActiveAudioList hinv e he
    have hcfg := config_updateActiveAudioList s e
    simp only [config, Prod.mk.injEq] at hcfg
    have hmax : (updateActiveAudioList s e).maxSpeakers = s.maxSpeakers := hcfg.2.2.2.2.1
    obtain ⟨hne, hrest⟩ := List.nodup_cons.1 hnodup
    obtain ⟨pre3, hl3, hinv3⟩ := ih (updateActiveAudioList s e) pre2 (done ++ [e]) hinv2 hl2
      (fun x hx => by
        rw [audioParticipants_updateActiveAudioList]
        exact htracked x (List.mem_cons_of_mem _ hx))
      hrest
      (fun x hx hxd => by
        rcases List.mem_append.1 hxd with h | h
        · exact hdisj x (List.mem_cons_of_mem _ hx) h
        · rw [List.mem_singleton.1 h] at hx
          exact hne hx)
      (by rw [hmax, List.length_append, List.length_singleton]; omega)
    refine ⟨pre3, ?_, hinv3⟩
    rw [List.foldl_cons, hl3]
    simp

theorem processTopSpeakers_fold (n : Nat) (s : ActiveMediaList)
    (heap : List AudioParticipantScore) (snapshot : List ActiveTalker) :
    (processTopSpeakers n s heap snapshot).1 =
      (topSpeakers n heap).foldl updateActiveAudioList s := by
  induction n generalizing s heap snapshot with
  | zero => rfl
  | succ n ih =>
    unfold processTopSpeakers topSpeakers
    cases hh : heapTop heap with
    | none => rfl
    | some top =>
      dsimp only
      rw [ih, List.foldl_cons]

theorem topSpeakers_spec (n : Nat) (heap : List AudioParticipantScore)
    (hn : (heap.map (fun x => x.participant)).Nodup) :
    (topSpeakers n heap).Nodup ∧
      (∀ e ∈ topSpeakers n heap, e ∈ heap.map (fun x => x.participant)) ∧
      (topSpeakers n heap).length = min n heap.length := by
  induction n generalizing heap with
  | zero => exact ⟨List.nodup_nil, (fun e he => by cases he), by simp [topSpeakers]⟩
  | succ n ih =>
    unfold topSpeakers
    cases hh : heapTop heap with
    | none =>
      have := heapTop_eq_none hh
      subst this
      exact ⟨List.nodup_nil, (fun e he => by cases he), by simp⟩
    | some top =>
      have htop := heapTop_mem hh
      have hpop : heapPop heap = heap.erase top := by
        unfold heapPop
        rw [hh]
      have hheapNodup : heap.Nodup := List.Nodup.of_map _ hn
      have hn2 : ((heap.erase top).map (fun x => x.participant)).Nodup :=
        hn.sublist ((List.erase_sublist top heap).map _)
      obtain ⟨h1, h2, h3⟩ := ih (heap.erase top) hn2
      have hnot : top.participant ∉ (heap.erase top).map (fun x => x.participant) := by
        intro hm
        obtain ⟨x, hx, hxp⟩ := List.mem_map.1 hm
        have hx2 := (List.Nodup.mem_erase_iff hheapNodup).1 hx
        exact hx2.1 (List.inj_on_of_nodup_map hn hx2.2 htop hxp)
      dsimp only
      rw [hpop]
      refine ⟨List.nodup_cons.2 ⟨fun hm => hnot (h2 _ hm), h1⟩, ?_, ?_⟩
      · intro e he
        rcases List.mem_cons.1 he with h | h
        · rw [h]; exact List.mem_map.2 ⟨top, htop, rfl⟩
        · obtain ⟨x, hx, hxp⟩ := List.mem_map.1 (h2 e h)
          exact List.mem_map.2 ⟨x, List.mem_of_mem_erase hx, hxp⟩
      · rw [List.length_cons, h3, List.length_erase_of_mem htop]
        have := List.length_pos_of_mem htop
        omega

theorem rankLoop_sublist (d : Nat) (m : MpmcHashmap32 AudioParticipant) (cur : ℚ)
    (acc : List AudioParticipantScore) :
    ∃ L, L.Sublist (MpmcHashmap32.keys m) ∧
      (rankLoop d m cur acc).2.map (fun x => x.participant) =
        acc.map (fun x => x.participant) ++ L := by
  induction m generalizing cur acc with
  | nil => exact ⟨[], List.Sublist.refl _, by simp [rankLoop]⟩
  | cons p rest ih =>
    obtain ⟨k, v⟩ := p
    unfold rankLoop
    split
    · obtain ⟨L, hL, hr⟩ := ih cur acc
      exact ⟨L, List.Sublist.cons _ hL, hr⟩
    · obtain ⟨L, hL, hr⟩ := ih
        (if k = d then max 0 (v.maxRecentLevel - v.noiseLevel) else cur)
        (acc ++ [{ participant := k
                   score := max 0 (v.maxRecentLevel - v.noiseLevel)
                   noiseLevel := max 0 v.noiseLevel }])
      refine ⟨k :: L, List.Sublist.cons₂ _ hL, ?_⟩
      dsimp only
      rw [hr]
      simp

theorem rankSpeakers_nodup (s : ActiveMediaList)
    (hn : (MpmcHashmap32.keys s.audioParticipants).Nodup) :
    ((rankSpeakers s).2.map (fun x => x.participant)).Nodup := by
  obtain ⟨L, hL, hr⟩ := rankLoop_sublist s.dominantSpeakerId s.audioParticipants 0 []
  unfold rankSpeakers
  rw [hr]
  simpa using hn.sublist hL

theorem reachable_participantsNodup {init s : ActiveMediaList}
    (hinit : init.audioParticipants = []) (h : Reachable init s) :
    (MpmcHashmap32.keys s.audioParticipants).Nodup := by
  induction h with
  | start => rw [hinit]; exact List.nodup_nil
  | @addAudio s0 e _ ih =>
    have htrack : ¬ MpmcHashmap32.contains s0.audioParticipants e = true →
        (MpmcHashmap32.keys
          (MpmcHashmap32.emplace s0.audioParticipants e AudioParticipant.new)).Nodup := by
      intro hc
      have hne : e ∉ MpmcHashmap32.keys s0.audioParticipants := by
        rw [← MpmcHashmap32.contains_eq_true_iff]; exact hc
      rw [MpmcHashmap32.emplace_of_not_mem _ _ _ hne, MpmcHashmap32.keys_append]
      refine List.Nodup.append ih (by simp [MpmcHashmap32.keys]) ?_
      intro x hx hx2
      simp only [MpmcHashmap32.keys, List.map_cons, List.map_nil, List.mem_singleton] at hx2
      exact hne (hx2 ▸ hx)
    unfold addAudioParticipant
    split
    · exact ih
    · rename_i hc
      split
      · exact htrack hc
      · exact htrack hc
  | @removeAudio s0 e _ ih =>
    unfold removeAudioParticipant
    split
    · exact MpmcHashmap32.nodup_keys_erase _ _ ih
    · exact MpmcHashmap32.nodup_keys_erase _ _ ih
  | newLevel e level ptt _ ih => exact ih
  | tick timestamp _ ih =>
    rcases audioParticipants_process _ timestamp with h | h
    · rw [h]; exact ih
    · rw [h, keys_updateLevels]; exact ih
  | promoteAudio e _ ih => rw [audioParticipants_updateActiveAudioList]; exact ih
  | addVideo e p q _ _ ih => rw [audioParticipants_addVideoParticipant]; exact ih
  | removeVideo e _ ih => rw [audioParticipants_removeVideoParticipant]; exact ih
  | promoteVideo e _ ih => rw [audioParticipants_updateActiveVideoList]; exact ih

theorem processTopSpeakers_nil (n : Nat) (s : ActiveMediaList) (snapshot : List ActiveTalker) :
    processTopSpeakers n s [] snapshot = (s, snapshot) := by
  cases n with
  | zero => rfl
  | succ n => rfl

theorem audioSide_process_ran (s : ActiveMediaList) (t : Nat)
    (hran : Time.diffLT s.lastRunTimestamp t (INTERVAL_MS * Time.ms) = false) :
    audioSide (process s t).1 =
      audioSide (processTopSpeakers (updateLevels { s with lastRunTimestamp := t }).audioLastN
        (updateLevels { s with lastRunTimestamp := t })
        (rankSpeakers (updateLevels { s with lastRunTimestamp := t })).2 []).1 := by
  unfold process
  rw [hran]
  simp only [Bool.false_eq_true, if_false]
  split
  · rename_i hh
    rw [heapTop_eq_none hh, processTopSpeakers_nil]
  · rw [audioSide_nominate]
    rfl

/-- The property of C28 under the caller condition that `process` keeps: if `audioLastN` is
at most the number of audio SSRCs, then in every state reachable with
`updateActiveAudioList` called for tracked endpoints only, after a `process` call that
passes the rate limit, the top `min(audioLastN, speakerCount)` speakers by score
are the last entries of the active-audio list, in the order of their rank, and each of them
has an entry in the audio rewrite map: none is evicted by a speaker promoted later in the
same call. -/
theorem top_speakers_keep_slot (maxParticipants : Nat) (audioSsrcs : List Nat)
    (videoSsrcs : List SimulcastLevel) (defaultLastN audioLastN threshold : Nat)
    (s : ActiveMediaList) (t : Nat)
    (hN : audioLastN ≤ audioSsrcs.length)
    (h : ReachableTracked (ActiveMediaList.new maxParticipants audioSsrcs videoSsrcs defaultLastN
      audioLastN threshold) s)
    (hran : Time.diffLT s.lastRunTimestamp t (INTERVAL_MS * Time.ms) = false) :
    (topSpeakers audioLastN
        (rankSpeakers (updateLevels { s with lastRunTimestamp := t })).2).length =
        min audioLastN (rankSpeakers (updateLevels { s with lastRunTimestamp := t })).2.length ∧
      (∃ pre, (process s t).1.activeAudioList = pre ++ topSpeakers audioLastN
        (rankSpeakers (updateLevels { s with lastRunTimestamp := t })).2) ∧
      (∀ e ∈ topSpeakers audioLastN
          (rankSpeakers (updateLevels { s with lastRunTimestamp := t })).2,
        e ∈ (process s t).1.activeAudioList ∧
          MpmcHashmap32.contains (process s t).1.audioSsrcRewriteMap e = true) := by
  have hinv := reachable_audioInv (audioInv_init _ _ _ _ _ _) h
  have hnod := reachable_participantsNodup rfl (reachableTracked_reachable h)
  have hcfg := reachable_config_eq (reachableTracked_reachable h)
  simp only [config, Prod.mk.injEq] at hcfg
  have hlastN : (updateLevels { s with lastRunTimestamp := t }).audioLastN = audioLastN :=
    hcfg.2.2.1
  have hmax : (updateLevels { s with lastRunTimestamp := t }).maxSpeakers =
      audioSsrcs.length := hcfg.2.2.2.2.1
  have hinv1 : AudioInv (updateLevels { s with lastRunTimestamp := t }) :=
    audioInv_congr (audioSide_updateLevels _) (audioInv_congr (s := s) rfl hinv)
  have hnod1 : (MpmcHashmap32.keys
      (updateLevels { s with lastRunTimestamp := t }).audioParticipants).Nodup := by
    rw [keys_updateLevels]; exact hnod
  have hspec := topSpeakers_spec audioLastN
    (rankSpeakers (updateLevels { s with lastRunTimestamp := t })).2
    (rankSpeakers_nodup _ hnod1)
  have htracked : ∀ e ∈ topSpeakers audioLastN
      (rankSpeakers (updateLevels { s with lastRunTimestamp := t })).2,
      e ∈ MpmcHashmap32.keys (updateLevels { s with lastRunTimestamp := t }).audioParticipants := by
    intro e he
    obtain ⟨x, hx, hxp⟩ := List.mem_map.1 (hspec.2.1 e he)
    rw [← hxp]
    exact rankSpeakers_participants _ x hx
  obtain ⟨pre2, hl2, hinv2⟩ := promote_all_tail
    (topSpeakers audioLastN (rankSpeakers (updateLevels { s with lastRunTimestamp := t })).2)
    (updateLevels { s with lastRunTimestamp := t })
    (updateLevels { s with lastRunTimestamp := t }).activeAudioList [] hinv1
    (by rw [List.append_nil]) htracked hspec.1 (fun e _ hm => by cases hm)
    (by rw [hmax, hspec.2.2, List.length_nil]; omega)
  have hside := audioSide_process_ran s t hran
  rw [hlastN, processTopSpeakers_fold] at hside
  simp only [audioSide, Prod.mk.injEq] at hside
  obtain ⟨_, _, hmap, hlist, _⟩ := hside
  rw [List.nil_append] at hl2
  refine ⟨hspec.2.2, ⟨pre2, by rw [hlist, hl2]⟩, ?_⟩
  intro e he
  have hin : e ∈ (process s t).1.activeAudioList := by
    rw [hlist, hl2]
    exact List.mem_append_right _ he
  refine ⟨hin, ?_⟩
  rw [MpmcHashmap32.contains_eq_true_iff, hmap, hinv2.listed.mem_iff, ← hlist]
  exact hin

/-- Witness of `top_speakers_keep_slot`: endpoints 1 and 2 hold the two audio SSRCs and endpoint 3
none; 3 is the loudest and 2 the second. The call at 1980 ms promotes 3, which evicts the head
1, and then 2: the list is 3, 2 and both hold an SSRC. -/
theorem top_speakers_keep_slot_witness :
    (2 ≤ [100, 101].length ∧ ReachableTracked scenarioInit scenarioTopTwo ∧
      Time.diffLT scenarioTopTwo.lastRunTimestamp (1980 * Time.ms) (INTERVAL_MS * Time.ms) =
        false) ∧
    scenarioTopTwo.activeAudioList = [1, 2] ∧
    topSpeakers 2
      (rankSpeakers (updateLevels { scenarioTopTwo with lastRunTimestamp := 1980 * Time.ms })).2 =
      [3, 2] ∧
    (process scenarioTopTwo (1980 * Time.ms)).1.activeAudioList = [3, 2] ∧
    (3 ∈ (process scenarioTopTwo (1980 * Time.ms)).1.activeAudioList ∧
      MpmcHashmap32.contains (process scenarioTopTwo (1980 * Time.ms)).1.audioSsrcRewriteMap 3 =
        true) :=
  have hr : ReachableTracked scenarioInit scenarioTopTwo :=
    ReachableTracked.newLevel 2 80 false
      (ReachableTracked.newLevel 3 90 false
        (ReachableTracked.promoteAudio 2
          (ReachableTracked.promoteAudio 1
            (ReachableTracked.addAudio 3
              (ReachableTracked.addAudio 2 (ReachableTracked.addAudio 1 ReachableTracked.start)))
            (by decide))
          (by decide)))
  ⟨⟨by decide, hr, by decide!⟩, by decide!, by decide!, by decide!,
    (top_speakers_keep_slot 1024 [100, 101] _ 2 2 10 scenarioTopTwo (1980 * Time.ms)
      (by decide) hr (by decide!)).2.2 3 (by decide!)⟩

end bridge
